import Mathlib

/-!
# lepp3: temporal voxel filters, surface segmenter, obstacle detector, trackers

A shallow embedding of `FilteredVideoSource.hpp`, `SurfaceSegmenter.hpp`,
`ObstacleDetector.hpp`, `KalmanObstacleTracker.cpp`,
`GMMObstacleTrackerState.hpp` and the state bookkeeping of
`ObstacleTrackerVisualizer.hpp`, followed by theorems about it.

Conventions. A point cloud is the list of its points. Floating-point values
live in an arbitrary type `R` with the operations the source uses; library
functions (`acos`, the conversion to `int`, `pcl_isfinite`, the plane
estimator, the Kalman filter) are parameters. A 32-bit `int` is an integer
reduced to the two's-complement range by `wrapInt`; a `uint32_t` is a natural
number reduced modulo `2 ^ 32`. An unordered map is the list of its entries
in iteration order. A C++ exception is an explicit error value.

Where the rounding of `float` or `double` arithmetic decides the outcome, `R`
is instantiated with `Fp p`: rationals rounded to `p` significant binary
digits after every operation (to nearest, ties to even), with NaN. Other
theorems are over an arbitrary arithmetic, or over an exact one where they
say so.
-/

set_option linter.unusedSectionVars false

namespace lepp

/-! ## Definitions -/

/-- How a modelled call can fail: a C++ exception (`std::out_of_range` thrown
by `std::vector::at`), or the step budget of a loop model running out. -/
inductive Failure where
  | out_of_range
  | fuel
  deriving DecidableEq, Repr

/-- The four plane coefficients of a `pcl::ModelCoefficients` record:
`values[0..2]` is the plane normal, `values[3]` the Hessian offset. -/
structure ModelCoefficients (R : Type) where
  values0 : R
  values1 : R
  values2 : R
  values3 : R
  deriving DecidableEq, Repr

/-- The mutable members of `SurfaceSegmenter`; a point cloud is the list of
its points. -/
structure SurfaceSegmenter (R P : Type) where
  cloud_surfaces_ : List P
  vec_cloud_surfaces_ : List (List P)
  vec_surface : List (List P)
  vec_segments : List (List P)
  m_coefficients : List (ModelCoefficients R)
  deriving DecidableEq, Repr

section

variable {R P : Type} [Add R] [Mul R] [Div R] [NatCast R] [LT R]
  [DecidableRel (fun a b : R => a < b)]

/-- Model of `SurfaceSegmenter::getAngle`: the angle in degrees between the normal of
the stored coefficient record `index` and the normal of `coeffs`. The
arithmetic type and the library values `acos`, `M_PI` are parameters. -/
def getAngle (acos : R → R) (M_PI : R) (m_coefficients : List (ModelCoefficients R))
    (coeffs : ModelCoefficients R) (index : Nat) : Except Failure R :=
  match m_coefficients[index]? with
  | none => .error .out_of_range
  | some m =>
    let scalar_product := (m.values0 * coeffs.values0)
      + (m.values1 * coeffs.values1)
      + (m.values2 * coeffs.values2)
    let angle := acos scalar_product * ((180 : Nat) : R) / M_PI
    .ok angle

/-- The `for` loop of `SurfaceSegmenter::classify`; `remaining` is `size - i`.
When the loop runs out the plane becomes a new group. -/
def classifyLoop (acos : R → R) (M_PI : R) (cloud_planar_surface : List P)
    (coeffs : ModelCoefficients R) (s : SurfaceSegmenter R P) :
    Nat → Nat → Except Failure (SurfaceSegmenter R P)
  | 0, _ =>
    .ok { s with
      vec_surface := s.vec_surface ++ [cloud_planar_surface]
      m_coefficients := s.m_coefficients ++ [coeffs] }
  | remaining + 1, i =>
    match getAngle acos M_PI s.m_coefficients coeffs i with
    | .error e => .error e
    | .ok angle =>
      if angle < ((3 : Nat) : R) ∨ ((177 : Nat) : R) < angle then
        match s.vec_surface[i]? with
        | none => .error .out_of_range
        | some g =>
          .ok { s with vec_surface := s.vec_surface.set i (g ++ cloud_planar_surface) }
      else
        classifyLoop acos M_PI cloud_planar_surface coeffs s remaining (i + 1)

/-- Model of `SurfaceSegmenter::classify`. -/
def classify (acos : R → R) (M_PI : R) (s : SurfaceSegmenter R P)
    (cloud_planar_surface : List P) (coeffs : ModelCoefficients R) :
    Except Failure (SurfaceSegmenter R P) :=
  let size := s.m_coefficients.length
  classifyLoop acos M_PI cloud_planar_surface coeffs s size 0

/-- Model of `pcl::ExtractIndices::filter` on an unorganised cloud (library behaviour):
with `negative = false` the points at `indices`, in the order of `indices`;
with `negative = true` the points at all other positions, in cloud order. -/
def extractIndices (cloud : List P) (indices : List Nat) (negative : Bool) : List P :=
  if negative then
    ((List.range cloud.length).filter (fun i => !indices.contains i)).filterMap (fun i => cloud[i]?)
  else
    indices.filterMap (fun i => cloud[i]?)

/-- The `while` loop of `SurfaceSegmenter::findSurfaces`. `segment` is the
plane estimator `segmentation_.segment` on the working cloud (its own state
`est` is threaded through, RANSAC being randomised); the result is the
estimator state, the residual working cloud and the segmenter members. -/
def findSurfacesLoop {σ : Type} (acos : R → R) (M_PI : R)
    (segment : σ → List P → σ × List Nat × ModelCoefficients R)
    (point_threshold : Nat) :
    Nat → σ → List P → SurfaceSegmenter R P →
      Except Failure (σ × List P × SurfaceSegmenter R P)
  | 0, _, _, _ => .error .fuel
  | fuel + 1, est, cloud_filtered, s =>
    if point_threshold < cloud_filtered.length then
      match segment est cloud_filtered with
      | (est1, current_plane_indices, coefficients) =>
        if current_plane_indices.length = 0 then
          .ok (est1, cloud_filtered, s)
        else
          let cloud_planar_surface := extractIndices cloud_filtered current_plane_indices false
          let cloud_filtered1 := extractIndices cloud_filtered current_plane_indices true
          let s1 := { s with cloud_surfaces_ := s.cloud_surfaces_ ++ cloud_planar_surface }
          match classify acos M_PI s1 cloud_planar_surface coefficients with
          | .error e => .error e
          | .ok s2 =>
            findSurfacesLoop acos M_PI segment point_threshold fuel est1 cloud_filtered1 s2
    else
      .ok (est, cloud_filtered, s)

/-- Model of `SurfaceSegmenter::findSurfaces`: clear the members, then remove planes
while more than `min_filter_percentage_ = 0.1` of the original points remain
(`size_t point_threshold = 0.1 * original_cloud_size`, i.e. the quotient by
ten). -/
def findSurfaces {σ : Type} (acos : R → R) (M_PI : R)
    (segment : σ → List P → σ × List Nat × ModelCoefficients R)
    (fuel : Nat) (est : σ) (cloud_filtered : List P) (_s : SurfaceSegmenter R P) :
    Except Failure (σ × List P × SurfaceSegmenter R P) :=
  let s0 : SurfaceSegmenter R P :=
    { cloud_surfaces_ := [], vec_cloud_surfaces_ := [], vec_surface := [],
      vec_segments := [], m_coefficients := [] }
  let original_cloud_size := cloud_filtered.length
  let point_threshold := original_cloud_size / 10
  findSurfacesLoop acos M_PI segment point_threshold fuel est cloud_filtered s0

end

/-- Two plane extractions classified one after the other from an empty
group list. -/
def classifyTwo {R P : Type} [Add R] [Mul R] [Div R] [NatCast R] [LT R]
    [DecidableRel (fun a b : R => a < b)] (acos : R → R) (M_PI : R)
    (coeffs1 coeffs2 : ModelCoefficients R) (cloud1 cloud2 : List P) :
    Except Failure (SurfaceSegmenter R P) :=
  (classify acos M_PI ⟨[], [], [], [], []⟩ cloud1 coeffs1).bind fun s1 =>
    classify acos M_PI s1 cloud2 coeffs2

/-- A plane estimator for the witness of C2: while the cloud has at least
three points it reports the points at positions 0 and 2 as a horizontal
plane. -/
def firstAndThird (est : Unit) (cloud : List Nat) : Unit × List Nat × ModelCoefficients ℝ :=
  (est, if 3 ≤ cloud.length then [0, 2] else [], ⟨0, 0, 1, 0⟩)

/-- Voxel key `MapPoint`: three `int` grid coordinates. -/
structure MapPoint where
  x : Int
  y : Int
  z : Int
  deriving DecidableEq, Repr

/-- A point `PointT` with the three coordinates the filters read. -/
structure PointXYZ (R : Type) where
  x : R
  y : R
  z : R
  deriving DecidableEq, Repr

/-- Value of `std::numeric_limits<int>::max()` for a 32-bit `int`. -/
def INT_MAX : Int := 2147483647

/-- Value of `std::numeric_limits<int>::min()` for a 32-bit `int`. -/
def INT_MIN : Int := -2147483648

/-- Result of 32-bit `int` arithmetic: the mathematical value reduced to the
two's-complement range. -/
def wrapInt (v : Int) : Int := (v + 2147483648) % 4294967296 - 2147483648

/-- The statement `v &= mask` with `int const mask = 0xFFFFFFFE` on a 32-bit
two's-complement `int`. -/
def andMask (v : Int) : Int :=
  let bits : Nat := Nat.land (v % 4294967296).toNat 0xFFFFFFFE
  if bits < 2147483648 then (bits : Int) else (bits : Int) - 4294967296

/-- Number of set bits of a `uint32_t`, `__builtin_popcount`. -/
def popcount (word : Nat) : Nat :=
  ((List.range 32).filter (fun i => word.testBit i)).length

/-- Lookup in an unordered map kept as a list of entries with distinct keys
(`find`). -/
def mapFind {K V : Type} [DecidableEq K] (key : K) : List (K × V) → Option V
  | [] => none
  | (k, v) :: rest => if k = key then some v else mapFind key rest

/-- Effect of `map[key]` on the entries: a missing key is inserted with the
value-initialised `dflt`. -/
def mapIndex {K V : Type} [DecidableEq K] (key : K) (dflt : V) (m : List (K × V)) :
    List (K × V) :=
  match mapFind key m with
  | none => m ++ [(key, dflt)]
  | some _ => m

/-- Assignment through the reference returned by `map[key]`: the value stored
under `key` is replaced by `f` of it. -/
def mapModify {K V : Type} [DecidableEq K] (key : K) (f : V → V) :
    List (K × V) → List (K × V)
  | [] => []
  | (k, v) :: rest =>
    if k = key then (k, f v) :: rest else (k, v) :: mapModify key f rest

/-- Members of `ProbFilteredVideoSource`. -/
structure ProbFilteredVideoSource where
  this_frame_ : List MapPoint
  all_points_ : List (MapPoint × Nat)
  min_pt : MapPoint
  max_pt : MapPoint
  larger_voxelization_ : Bool
  deriving DecidableEq, Repr

section

variable {R : Type} [Mul R] [Div R] [NatCast R] [IntCast R]

/-- Hook `ProbFilteredVideoSource::newFrame`. -/
def ProbFilteredVideoSource.newFrame (s : ProbFilteredVideoSource) : ProbFilteredVideoSource :=
  { s with
    this_frame_ := []
    min_pt := ⟨INT_MAX, INT_MAX, INT_MAX⟩
    max_pt := ⟨INT_MIN, INT_MIN, INT_MIN⟩ }

/-- The voxel key that `newPoint` computes for a point; `toInt` is the
conversion of a floating value to `int`. -/
def mapPointOf (toInt : R → Int) (larger_voxelization : Bool) (p : PointXYZ R) : MapPoint :=
  let map_point : MapPoint :=
    ⟨toInt (p.x * ((100 : Nat) : R)), toInt (p.y * ((100 : Nat) : R)),
      toInt (p.z * ((100 : Nat) : R))⟩
  if larger_voxelization then
    ⟨andMask map_point.x, andMask map_point.y, andMask map_point.z⟩
  else
    map_point

/-- Hook `ProbFilteredVideoSource::newPoint`. The filtered cloud is not
touched. -/
def ProbFilteredVideoSource.newPoint (toInt : R → Int) (s : ProbFilteredVideoSource)
    (p : PointXYZ R) : ProbFilteredVideoSource :=
  let map_point := mapPointOf toInt s.larger_voxelization_ p
  let all_points := mapIndex map_point 0 s.all_points_
  let all_points := mapModify map_point (fun ref => Nat.lor ((ref <<< 1) % 4294967296) 1) all_points
  let this_frame := if map_point ∈ s.this_frame_ then s.this_frame_ else s.this_frame_ ++ [map_point]
  { s with
    all_points_ := all_points
    this_frame_ := this_frame
    min_pt := ⟨min s.min_pt.x map_point.x, min s.min_pt.y map_point.y, min s.min_pt.z map_point.z⟩
    max_pt := ⟨max s.max_pt.x map_point.x, max s.max_pt.y map_point.y, max s.max_pt.z map_point.z⟩ }

/-- The `while` loop of `ProbFilteredVideoSource::getFiltered` over the
entries of `all_points_` in iteration order. Returns the entries that stay,
the bounding box as left by the loop and the points pushed to the filtered
cloud. -/
def getFilteredLoop (this_frame : List MapPoint) :
    List (MapPoint × Nat) → MapPoint → MapPoint →
      List (MapPoint × Nat) × MapPoint × MapPoint × List (PointXYZ R)
  | [], min_pt, max_pt => ([], min_pt, max_pt, [])
  | (key, word) :: rest, min_pt, max_pt =>
    let word1 := if key ∈ this_frame then word else (word <<< 1) % 4294967296
    let count := popcount word1
    let pushed : List (PointXYZ R) :=
      if 10 ≤ count then
        [⟨(key.x : R) / ((100 : Nat) : R), (key.y : R) / ((100 : Nat) : R),
          (key.z : R) / ((100 : Nat) : R)⟩]
      else []
    let min_pt1 : MapPoint := ⟨wrapInt (min_pt.x - 10), wrapInt (min_pt.y - 10), wrapInt (min_pt.z - 10)⟩
    let max_pt1 : MapPoint := ⟨wrapInt (max_pt.x + 10), wrapInt (max_pt.y + 10), wrapInt (max_pt.z + 10)⟩
    let r := getFilteredLoop this_frame rest min_pt1 max_pt1
    if key.x < min_pt1.x ∨ key.x > max_pt1.x ∨
        key.y < min_pt1.y ∨ key.y > max_pt1.y ∨
        key.z < min_pt1.z ∨ key.z > max_pt1.z then
      (r.1, r.2.1, r.2.2.1, pushed ++ r.2.2.2)
    else
      ((key, word1) :: r.1, r.2.1, r.2.2.1, pushed ++ r.2.2.2)

/-- Hook `ProbFilteredVideoSource::getFiltered`. -/
def ProbFilteredVideoSource.getFiltered (s : ProbFilteredVideoSource)
    (filtered : List (PointXYZ R)) : ProbFilteredVideoSource × List (PointXYZ R) :=
  let r := getFilteredLoop (R := R) s.this_frame_ s.all_points_ s.min_pt s.max_pt
  ({ s with all_points_ := r.1, min_pt := r.2.1, max_pt := r.2.2.1 }, filtered ++ r.2.2.2)

end

/-- Modelled from the spec: `lepp3/filter/PointFilter.hpp` is not among the
sources. A point-wise filter is an object with its own state, a
`prepareNext` reset called once per frame, and an `apply` that may modify the
point in place and returns whether the point is kept. -/
structure PointFilter (φ R : Type) where
  state : φ
  prepareNext : φ → φ
  apply : φ → PointXYZ R → φ × PointXYZ R × Bool

/-- The three hooks a concrete `FilteredVideoSource` implements, over its
member state `τ`. -/
structure FilterHooks (τ R : Type) where
  newFrame : τ → τ
  newPoint : τ → PointXYZ R → List (PointXYZ R) → τ × List (PointXYZ R)
  getFiltered : τ → List (PointXYZ R) → τ × List (PointXYZ R)

/-- Calls made by `notifyNewFrame` while it walks the cloud, in order. -/
inductive FilterCall (R : Type) where
  | apply (filter : Nat) (p : PointXYZ R)
  | newPoint (p : PointXYZ R)
  deriving DecidableEq, Repr

section

variable {φ τ R : Type}

/-- The inner `for` loop of `notifyNewFrame` from filter index `i` on: the
filters are applied in order to the point as left by the previous one, and
the loop breaks at the first rejection. Returns the filters, the point, the
flag `valid` and the `apply` calls made. -/
def applyFilters : List (PointFilter φ R) → Nat → PointXYZ R →
    List (PointFilter φ R) × PointXYZ R × Bool × List (FilterCall R)
  | [], _, p => ([], p, true, [])
  | f :: rest, i, p =>
    match f.apply f.state p with
    | (st, p1, accepted) =>
      if accepted then
        let r := applyFilters rest (i + 1) p1
        ({ f with state := st } :: r.1, r.2.1, r.2.2.1, FilterCall.apply i p :: r.2.2.2)
      else
        ({ f with state := st } :: rest, p1, false, [FilterCall.apply i p])

/-- The loop of `notifyNewFrame` over the points of the input cloud. -/
def pointLoop (isfinite : R → Bool) (hooks : FilterHooks τ R) :
    List (PointXYZ R) → List (PointFilter φ R) → τ → List (PointXYZ R) →
      List (PointFilter φ R) × τ × List (PointXYZ R) × List (FilterCall R)
  | [], fs, t, filtered => (fs, t, filtered, [])
  | p :: rest, fs, t, filtered =>
    if !isfinite p.x || !isfinite p.y || !isfinite p.z then
      pointLoop isfinite hooks rest fs t filtered
    else
      let a := applyFilters fs 0 p
      if a.2.2.1 then
        let n := hooks.newPoint t a.2.1 filtered
        let r := pointLoop isfinite hooks rest a.1 n.1 n.2
        (r.1, r.2.1, r.2.2.1, a.2.2.2 ++ FilterCall.newPoint a.2.1 :: r.2.2.2)
      else
        let r := pointLoop isfinite hooks rest a.1 t filtered
        (r.1, r.2.1, r.2.2.1, a.2.2.2 ++ r.2.2.2)

/-- Model of `FilteredVideoSource::notifyNewFrame`: the filters, the members of the
concrete source, the emitted filtered cloud and the calls made on the way. -/
def notifyNewFrame (isfinite : R → Bool) (hooks : FilterHooks τ R)
    (point_filters_ : List (PointFilter φ R)) (t : τ) (cloud : List (PointXYZ R)) :
    List (PointFilter φ R) × τ × List (PointXYZ R) × List (FilterCall R) :=
  let fs := point_filters_.map (fun f => { f with state := f.prepareNext f.state })
  let t1 := hooks.newFrame t
  let r := pointLoop isfinite hooks cloud fs t1 []
  let g := hooks.getFiltered r.2.1 r.2.2.1
  (r.1, g.1, g.2, r.2.2.2)

/-- Hooks of `SimpleFilteredVideoSource`, which has no members. -/
def SimpleFilteredVideoSource : FilterHooks Unit R where
  newFrame := fun t => t
  newPoint := fun t p filtered => (t, filtered ++ [p])
  getFiltered := fun t filtered => (t, filtered)

end

/-- Hooks of `ProbFilteredVideoSource`. -/
def ProbFilteredVideoSource.hooks {R : Type} [Mul R] [Div R] [NatCast R] [IntCast R]
    (toInt : R → Int) : FilterHooks ProbFilteredVideoSource R where
  newFrame := ProbFilteredVideoSource.newFrame
  newPoint := fun s p filtered => (ProbFilteredVideoSource.newPoint toInt s p, filtered)
  getFiltered := ProbFilteredVideoSource.getFiltered

/-- Conversion of a rational to `int`, truncating toward zero: the `toInt`
of exact arithmetic. -/
def truncRat (q : ℚ) : Int := Int.tdiv q.num q.den

/-- No point-wise filters. -/
def noFilters : List (PointFilter Unit ℚ) := []

/-- The point that `getFiltered` rebuilds from a voxel key: the key divided
by 100, coordinate by coordinate. -/
def voxelCentre {R : Type} [Div R] [NatCast R] [IntCast R] (key : MapPoint) : PointXYZ R :=
  ⟨(key.x : R) / ((100 : Nat) : R), (key.y : R) / ((100 : Nat) : R),
    (key.z : R) / ((100 : Nat) : R)⟩

/-- The dictionary with the history words as they stand after the frame's
update: a voxel observed in the frame has been shifted by `newPoint`, every
other voxel is shifted once (without setting the low bit) by the scan. -/
def wordsAfterFrame (s : ProbFilteredVideoSource) : List (MapPoint × Nat) :=
  s.all_points_.map fun e => (e.1, if e.1 ∈ s.this_frame_ then e.2 else (e.2 <<< 1) % 4294967296)

/-- The arguments of the `newPoint` calls among the calls of a frame. -/
def acceptedPoints {R : Type} : List (FilterCall R) → List (PointXYZ R)
  | [] => []
  | FilterCall.newPoint p :: rest => p :: acceptedPoints rest
  | FilterCall.apply _ _ :: rest => acceptedPoints rest

/-- Validity of a point: all three coordinates finite. -/
def finitePoint {R : Type} (isfinite : R → Bool) (p : PointXYZ R) : Bool :=
  isfinite p.x && isfinite p.y && isfinite p.z

/-- Successive frames through `notifyNewFrame` of a `ProbFilteredVideoSource`:
the filters and the members after the last frame, and the filtered cloud
emitted for it. -/
def probFrames {φ R : Type} [Mul R] [Div R] [NatCast R] [IntCast R] (isfinite : R → Bool)
    (toInt : R → Int) :
    List (List (PointXYZ R)) → List (PointFilter φ R) → ProbFilteredVideoSource →
      List (PointXYZ R) → List (PointFilter φ R) × ProbFilteredVideoSource × List (PointXYZ R)
  | [], fs, s, out => (fs, s, out)
  | cloud :: rest, fs, s, _ =>
    let r := notifyNewFrame isfinite (ProbFilteredVideoSource.hooks toInt) fs s cloud
    probFrames isfinite toInt rest r.1 r.2.1 r.2.2.1

/-- Hypothesis of a run of frames on voxel `v`: in every frame some accepted
point falls into `v`, and the bounding-box arithmetic cannot overflow: the
keys of the accepted points have coordinates within `bound` of zero, and
`bound` plus ten times the number of voxels that the scan can meet (those
in the dictionary before the frame and one per accepted point) does not
exceed `INT_MAX`. -/
def observedInEveryFrame {φ R : Type} [Mul R] [Div R] [NatCast R] [IntCast R]
    (isfinite : R → Bool) (toInt : R → Int) (v : MapPoint) (bound : Int) :
    List (List (PointXYZ R)) → List (PointFilter φ R) → ProbFilteredVideoSource → Prop
  | [], _, _ => True
  | cloud :: rest, fs, s =>
    (∃ p ∈ acceptedPoints
        (notifyNewFrame isfinite (ProbFilteredVideoSource.hooks toInt) fs s cloud).2.2.2,
      mapPointOf toInt s.larger_voxelization_ p = v) ∧
    (∀ p ∈ acceptedPoints
        (notifyNewFrame isfinite (ProbFilteredVideoSource.hooks toInt) fs s cloud).2.2.2,
      -bound ≤ (mapPointOf toInt s.larger_voxelization_ p).x ∧
      (mapPointOf toInt s.larger_voxelization_ p).x ≤ bound ∧
      -bound ≤ (mapPointOf toInt s.larger_voxelization_ p).y ∧
      (mapPointOf toInt s.larger_voxelization_ p).y ≤ bound ∧
      -bound ≤ (mapPointOf toInt s.larger_voxelization_ p).z ∧
      (mapPointOf toInt s.larger_voxelization_ p).z ≤ bound) ∧
    bound + 10 * ((s.all_points_.length : Int) + (acceptedPoints
        (notifyNewFrame isfinite (ProbFilteredVideoSource.hooks toInt) fs s cloud).2.2.2).length)
      ≤ INT_MAX ∧
    observedInEveryFrame isfinite toInt v bound rest
      (notifyNewFrame isfinite (ProbFilteredVideoSource.hooks toInt) fs s cloud).1
      (notifyNewFrame isfinite (ProbFilteredVideoSource.hooks toInt) fs s cloud).2.1

/-- The voxel `v` has a run of `n` low set bits in its history word (nothing
is asked for `n = 0`, when the voxel may be missing). -/
def lowBitsSet (v : MapPoint) (n : Nat) (s : ProbFilteredVideoSource) : Prop :=
  n = 0 ∨ ∃ w, mapFind v s.all_points_ = some w ∧ ∀ i < n, w.testBit i = true

/-- The hypothesis of a run of frames can be checked by evaluation. -/
instance observedInEveryFrame.decidable {φ R : Type} [Mul R] [Div R] [NatCast R] [IntCast R]
    (isfinite : R → Bool) (toInt : R → Int) (v : MapPoint) (bound : Int) :
    ∀ (clouds : List (List (PointXYZ R))) (fs : List (PointFilter φ R))
      (s : ProbFilteredVideoSource),
      Decidable (observedInEveryFrame isfinite toInt v bound clouds fs s)
  | [], _, _ => isTrue trivial
  | cloud :: rest, fs, s =>
    haveI := observedInEveryFrame.decidable isfinite toInt v bound rest
      (notifyNewFrame isfinite (ProbFilteredVideoSource.hooks toInt) fs s cloud).1
      (notifyNewFrame isfinite (ProbFilteredVideoSource.hooks toInt) fs s cloud).2.1
    by
      show Decidable (_ ∧ _ ∧ _ ∧ _)
      infer_instance

/-- Ten frames, each the single point `(0.5, 0, 0)`. -/
def tenFrames : List (List (PointXYZ ℚ)) := List.replicate 10 [⟨1 / 2, 0, 0⟩]

/-- Modelled from the spec: `lepp3/ObstacleAggregator.hpp` is not among the
sources. An aggregator is an object whose `updateObstacles` takes the list of
models of a frame and may raise; `received` records the lists it was given,
oldest first. -/
structure ObstacleAggregator (α M E : Type) where
  state : α
  received : List (List M)
  updateObstacles : α → List M → α × Option E

/-- Members of `ObstacleDetector` (with the `aggregators_` of its base
`IObstacleDetector`), the states of the segmenter and of the approximator
objects it points to, and the number of lines written to the error log. -/
structure ObstacleDetector (C γ δ α M E : Type) where
  cloud_ : C
  segmenter_ : γ
  approximator_ : δ
  aggregators_ : List (ObstacleAggregator α M E)
  error_log : Nat

section

variable {C γ δ α M E : Type}

/-- Model of `IObstacleDetector::attachObstacleAggregator`. -/
def attachObstacleAggregator (d : ObstacleDetector C γ δ α M E)
    (aggregator : ObstacleAggregator α M E) : ObstacleDetector C γ δ α M E :=
  { d with aggregators_ := d.aggregators_ ++ [aggregator] }

/-- Model of `IObstacleDetector::notifyObstacles`: the aggregators are called in
order; an exception raised by one of them leaves the later ones uncalled
and is returned. -/
def notifyObstacles (models : List M) :
    List (ObstacleAggregator α M E) → List (ObstacleAggregator α M E) × Option E
  | [] => ([], none)
  | a :: rest =>
    match a.updateObstacles a.state models with
    | (st, some e) => ({ a with state := st, received := a.received ++ [models] } :: rest, some e)
    | (st, none) =>
      let r := notifyObstacles models rest
      ({ a with state := st, received := a.received ++ [models] } :: r.1, r.2)

/-- The approximation loop of `ObstacleDetector::update`: one model per
segment, in order, until an approximation raises. -/
def approximateAll (approximate : δ → C → δ × Except E M) :
    List C → δ → List M → δ × Except E (List M)
  | [], ap, models => (ap, .ok models)
  | seg :: rest, ap, models =>
    match approximate ap seg with
    | (ap1, .error e) => (ap1, .error e)
    | (ap1, .ok m) => approximateAll approximate rest ap1 (models ++ [m])

/-- Model of `ObstacleDetector::update`. `segment` is the segmenter's `segment` call
(it returns the segments and the cloud it writes back through `cloud_`),
`approximate` the approximator's `approximate`; either may raise. The
second component is the exception that leaves `update`, if any. -/
def ObstacleDetector.update (segment : γ → C → γ × Except E (List C × C))
    (approximate : δ → C → δ × Except E M)
    (d : ObstacleDetector C γ δ α M E) : ObstacleDetector C γ δ α M E × Option E :=
  match segment d.segmenter_ d.cloud_ with
  | (sg, .error e) => ({ d with segmenter_ := sg }, some e)
  | (sg, .ok (segments, cloud)) =>
    match approximateAll approximate segments d.approximator_ [] with
    | (ap, .error e) => ({ d with segmenter_ := sg, cloud_ := cloud, approximator_ := ap }, some e)
    | (ap, .ok models) =>
      let r := notifyObstacles models d.aggregators_
      ({ d with segmenter_ := sg, cloud_ := cloud, approximator_ := ap, aggregators_ := r.1 }, r.2)

/-- Model of `ObstacleDetector::updateFrame`: `cloudMinusSurfaces` is the cloud of the
frame data; an exception leaving `update` is caught and logged. The second
component is the exception that leaves `updateFrame`, if any. -/
def ObstacleDetector.updateFrame (segment : γ → C → γ × Except E (List C × C))
    (approximate : δ → C → δ × Except E M)
    (d : ObstacleDetector C γ δ α M E) (cloudMinusSurfaces : C) :
    ObstacleDetector C γ δ α M E × Option E :=
  let d1 := { d with cloud_ := cloudMinusSurfaces }
  match ObstacleDetector.update segment approximate d1 with
  | (d2, some _) => ({ d2 with error_log := d2.error_log + 1 }, none)
  | (d2, none) => (d2, none)

end

/-- Three-component vector (`Eigen::Vector3f`, `Coordinate`). -/
structure Vec3 (R : Type) where
  x : R
  y : R
  z : R
  deriving DecidableEq, Repr

/-- The fields of `ObjectModelParams` that the tracker reads and writes. -/
structure ObjectModelParams (R : Type) where
  id : Int
  center : Vec3 R
  velocity : Vec3 R
  deriving DecidableEq, Repr

/-- State vector `ObstacleFilter::State`: position and velocity. -/
structure FilterState (R : Type) where
  position : Vec3 R
  velocity : Vec3 R
  deriving DecidableEq, Repr

/-- Kalman filter object `ObstacleKalmanFilter` of the filter library: state
estimate `x` and covariance `P`. -/
structure ObstacleKalmanFilter (R Cov : Type) where
  x : FilterState R
  P : Cov
  deriving DecidableEq, Repr

/-- The operations of the Kalman filter library used by the tracker: the
default-constructed filter, `predict` with the system model
`(noise_position, noise_velocity, dt)` and `update` with the measurement
model `noise_measurement` and a measured position. -/
structure KalmanOps (R Cov : Type) where
  fresh : ObstacleKalmanFilter R Cov
  predict : R → R → R → ObstacleKalmanFilter R Cov → ObstacleKalmanFilter R Cov
  update : R → Vec3 R → ObstacleKalmanFilter R Cov → ObstacleKalmanFilter R Cov

/-- Library call `kf.init(initialState)`: the state estimate is replaced. -/
def ObstacleKalmanFilter.init {R Cov : Type} (kf : ObstacleKalmanFilter R Cov)
    (initialState : FilterState R) : ObstacleKalmanFilter R Cov :=
  { kf with x := initialState }

/-- Members of `KalmanObstacleTracker` as the method bodies use them (the
header is not among the sources), with the function-local `static dt` of
`update` and the running flag of `frameTimer_`. -/
structure KalmanObstacleTracker (R Cov : Type) where
  states_ : List (Int × ObstacleKalmanFilter R Cov)
  timer_running : Bool
  dt : R
  noise_position : R
  noise_velocity : R
  noise_measurement : R

/-- Assignment `map[key] = value`: the value under `key` is replaced, or the
entry is added. -/
def mapSet {K V : Type} [DecidableEq K] (key : K) (value : V) : List (K × V) → List (K × V)
  | [] => [(key, value)]
  | (k, v) :: rest => if k = key then (k, value) :: rest else (k, v) :: mapSet key value rest

/-- Removal `map.erase(key)`. -/
def mapErase {K V : Type} [DecidableEq K] (key : K) : List (K × V) → List (K × V)
  | [] => []
  | (k, v) :: rest => if k = key then rest else (k, v) :: mapErase key rest

section

variable {R Cov : Type} [Zero R] [Div R] [NatCast R]

/-- A tracker as constructed: no filters, timer stopped, `dt = 1.0/30.0`. -/
def KalmanObstacleTracker.create (noise_position noise_velocity noise_measurement : R) :
    KalmanObstacleTracker R Cov :=
  { states_ := [], timer_running := false, dt := ((1 : Nat) : R) / ((30 : Nat) : R),
    noise_position := noise_position, noise_velocity := noise_velocity,
    noise_measurement := noise_measurement }

/-- Body of the `for` loop of `KalmanObstacleTracker::update` for one
obstacle: the filters after it and the obstacle as left in the vector. -/
def updateObstacle (ops : KalmanOps R Cov) (t : KalmanObstacleTracker R Cov)
    (states : List (Int × ObstacleKalmanFilter R Cov)) (obstacle : ObjectModelParams R) :
    List (Int × ObstacleKalmanFilter R Cov) × ObjectModelParams R :=
  match mapFind obstacle.id states with
  | none =>
    let pos : Vec3 R := ⟨obstacle.center.x, obstacle.center.y, obstacle.center.z⟩
    let initialState : FilterState R := ⟨pos, ⟨0, 0, 0⟩⟩
    let kf := ops.fresh.init initialState
    (mapSet obstacle.id kf states, obstacle)
  | some state =>
    let pos : Vec3 R := ⟨obstacle.center.x, obstacle.center.y, obstacle.center.z⟩
    let predicted := ops.predict t.noise_position t.noise_velocity t.dt state
    let updated := ops.update t.noise_measurement pos predicted
    let newState := updated.x
    (mapSet obstacle.id updated states,
      { obstacle with velocity := newState.velocity, center := newState.position })

/-- The `for` loop of `KalmanObstacleTracker::update` over the obstacles. -/
def updateLoop (ops : KalmanOps R Cov) (t : KalmanObstacleTracker R Cov) :
    List (ObjectModelParams R) → List (Int × ObstacleKalmanFilter R Cov) →
      List (Int × ObstacleKalmanFilter R Cov) × List (ObjectModelParams R)
  | [], states => (states, [])
  | obstacle :: rest, states =>
    let r := updateObstacle ops t states obstacle
    let rs := updateLoop ops t rest r.1
    (rs.1, r.2 :: rs.2)

/-- Model of `KalmanObstacleTracker::update`. `duration` is what
`frameTimer_.duration()` reports, in milliseconds, when the running timer is
stopped. Returns the tracker and the obstacle vector as modified in place. -/
def KalmanObstacleTracker.update (ops : KalmanOps R Cov) (duration : R)
    (t : KalmanObstacleTracker R Cov) (obstacles : List (ObjectModelParams R)) :
    KalmanObstacleTracker R Cov × List (ObjectModelParams R) :=
  let dt := if t.timer_running then duration / ((1000 : Nat) : R) else t.dt
  let t1 := { t with dt := dt, timer_running := true }
  let r := updateLoop ops t1 obstacles t1.states_
  ({ t1 with states_ := r.1 }, r.2)

/-- Model of `KalmanObstacleTracker::reset`. -/
def KalmanObstacleTracker.reset (t : KalmanObstacleTracker R Cov) (id : Int) :
    KalmanObstacleTracker R Cov :=
  match mapFind id t.states_ with
  | some _ => { t with states_ := mapErase id t.states_ }
  | none => t

end

/-- A detector with one attached aggregator that has received nothing yet;
the aggregator itself never raises. -/
def oneAggregatorDetector : ObstacleDetector (List Nat) Unit Unit Unit Nat String :=
  { cloud_ := [], segmenter_ := (), approximator_ := (),
    aggregators_ := [{ state := (), received := [], updateObstacles := fun st _ => (st, none) }],
    error_log := 0 }

/-- A detector with two attached aggregators that have received nothing
yet; the first one raises on every call. -/
def raisingFirstDetector : ObstacleDetector (List Nat) Unit Unit Unit Nat String :=
  { cloud_ := [], segmenter_ := (), approximator_ := (),
    aggregators_ :=
      [{ state := (), received := [], updateObstacles := fun st _ => (st, some "aggregator failed") },
        { state := (), received := [], updateObstacles := fun st _ => (st, none) }],
    error_log := 0 }

section

variable {R P : Type} [Add R] [Mul R] [Div R] [NatCast R] [LT R]
  [DecidableRel (fun a b : R => a < b)]

/-- Plane extractions classified one after the other, each given by its
inlier cloud and its coefficients. -/
def classifyAll (acos : R → R) (M_PI : R) :
    List (List P × ModelCoefficients R) → SurfaceSegmenter R P →
      Except Failure (SurfaceSegmenter R P)
  | [], s => .ok s
  | plane :: rest, s =>
    match classify acos M_PI s plane.1 plane.2 with
    | .error e => .error e
    | .ok s1 => classifyAll acos M_PI rest s1

/-- The plane `b` is within tolerance of the representative `a`: the angle
that `getAngle` computes between them is below 3 or above 177 degrees. -/
def withinTolerance (acos : R → R) (M_PI : R) (a b : ModelCoefficients R) : Prop :=
  ∃ θ, getAngle acos M_PI [a] b 0 = .ok θ ∧ (θ < ((3 : Nat) : R) ∨ ((177 : Nat) : R) < θ)

end

/-- A plane estimator that works as `segment` and keeps a record of its calls:
for each fit the working cloud it was given and the indices it returned,
oldest first. -/
def loggedEstimator {R P σ : Type}
    (segment : σ → List P → σ × List Nat × ModelCoefficients R) :
    σ × List (List P × List Nat) → List P →
      (σ × List (List P × List Nat)) × List Nat × ModelCoefficients R :=
  fun est cloud =>
    ((( segment est.1 cloud).1, est.2 ++ [(cloud, (segment est.1 cloud).2.1)]),
      (segment est.1 cloud).2.1, (segment est.1 cloud).2.2)

section

variable {R P : Type} [Add R] [Mul R] [Div R] [NatCast R] [LT R]
  [DecidableRel (fun a b : R => a < b)]

/-- Model of `SurfaceSegmenter::preprocessCloud`: `pcl::removeNaNFromPointCloud`
keeps the points whose coordinates are all finite (`valid`), in order. -/
def preprocessCloud (valid : P → Bool) (cloud : List P) : List P :=
  cloud.filter valid

/-- Model of `SurfaceSegmenter::getSurfaceClusters`. `extract` is the Euclidean
cluster extraction of the library, called with the cluster tolerance `0.03`
and the size bounds `1800 + 500` and `max_size`; it returns the point
indices of each cluster. -/
def getSurfaceClusters (extract : R → Nat → Nat → List P → List (List Nat))
    (cloud : List P) : List (List Nat) :=
  let max_size := cloud.length
  extract (((3 : Nat) : R) / ((100 : Nat) : R)) (1800 + 500) max_size cloud

/-- The inner loop of `clustersToPointClouds`: the points of surface group
`cloudIndex` at the indices of one cluster, in order; both accesses are
`at` and throw outside the range. -/
def copyCluster (vec_surface : List (List P)) (cloudIndex : Nat) :
    List Nat → Except Failure (List P)
  | [] => .ok []
  | j :: rest =>
    match vec_surface[cloudIndex]? with
    | none => .error .out_of_range
    | some surface =>
      match surface[j]? with
      | none => .error .out_of_range
      | some p =>
        match copyCluster vec_surface cloudIndex rest with
        | .error e => .error e
        | .ok current => .ok (p :: current)

/-- Model of `SurfaceSegmenter::clustersToPointClouds`: one cloud per cluster is
appended to `vec_cloud_surfaces_`. -/
def clustersToPointClouds (cloudIndex : Nat) :
    List (List Nat) → SurfaceSegmenter R P → Except Failure (SurfaceSegmenter R P)
  | [], s => .ok s
  | curr_indices :: rest, s =>
    match copyCluster s.vec_surface cloudIndex curr_indices with
    | .error e => .error e
    | .ok current =>
      clustersToPointClouds cloudIndex rest
        { s with vec_cloud_surfaces_ := s.vec_cloud_surfaces_ ++ [current] }

/-- The `for` loop of `SurfaceSegmenter::cluster` from group `i` on;
`remaining` is `vec_surface.size() - i`. -/
def clusterLoop (extract : R → Nat → Nat → List P → List (List Nat)) :
    Nat → Nat → SurfaceSegmenter R P → Except Failure (SurfaceSegmenter R P)
  | 0, _, s => .ok s
  | remaining + 1, i, s =>
    match s.vec_surface[i]? with
    | none => .error .out_of_range
    | some surface =>
      let cluster_indices := getSurfaceClusters extract surface
      match clustersToPointClouds i cluster_indices s with
      | .error e => .error e
      | .ok s1 => clusterLoop extract remaining (i + 1) s1

/-- Model of `SurfaceSegmenter::cluster`. -/
def cluster (extract : R → Nat → Nat → List P → List (List Nat))
    (s : SurfaceSegmenter R P) : Except Failure (SurfaceSegmenter R P) :=
  clusterLoop extract s.vec_surface.length 0 s

/-- Model of `SurfaceSegmenter::segment`: the estimator state and the members
after the call, and the three outputs `surfaces`, `cloudMinusSurfaces` and
the coefficient list that `surfCoeff` points to. -/
def SurfaceSegmenter.segment {σ : Type} (acos : R → R) (M_PI : R) (valid : P → Bool)
    (segmentPlane : σ → List P → σ × List Nat × ModelCoefficients R)
    (extract : R → Nat → Nat → List P → List (List Nat))
    (fuel : Nat) (est : σ) (s : SurfaceSegmenter R P) (cloud : List P) :
    Except Failure
      (σ × SurfaceSegmenter R P × List (List P) × List P × List (ModelCoefficients R)) :=
  let cloudMinusSurfaces := preprocessCloud valid cloud
  match findSurfaces acos M_PI segmentPlane fuel est cloudMinusSurfaces s with
  | .error e => .error e
  | .ok (est1, residual, s1) =>
    match cluster extract s1 with
    | .error e => .error e
    | .ok s2 => .ok (est1, s2, s2.vec_cloud_surfaces_, residual, s2.m_coefficients)

end

/-- The groups of `s` are index-aligned with the history of classified planes:
`assigned` gives for each plane of `planes`, in order, the group it was
classified into; the coefficient list and the group list have the same
length, group `i` holds the points of the planes assigned to `i`, in order,
and coefficient record `i` is that of the first plane assigned to `i`. -/
def groupsAligned {R P : Type} (planes : List (List P × ModelCoefficients R))
    (assigned : List Nat) (s : SurfaceSegmenter R P) : Prop :=
  assigned.length = planes.length ∧
  s.vec_surface.length = s.m_coefficients.length ∧
  (∀ g ∈ assigned, g < s.m_coefficients.length) ∧
  ∀ i : Nat, i < s.m_coefficients.length →
    s.vec_surface[i]? = some
      (((planes.zip assigned).filter (fun e => decide (e.2 = i))).map (fun e => e.1.1)).flatten ∧
    ∃ (k : Nat) (cloud : List P) (coeffs : ModelCoefficients R),
      planes[k]? = some (cloud, coeffs) ∧ assigned[k]? = some i ∧
      (∀ j : Nat, j < k → assigned[j]? ≠ some i) ∧ s.m_coefficients[i]? = some coeffs

/-- A 3x3 matrix (`Eigen::Matrix3f`, `Eigen::Matrix3d`), entry `m i j` in row
`i` and column `j`. -/
abbrev Matrix3 (R : Type) := Matrix (Fin 3) (Fin 3) R

/-- Fields of `GMM::ObstacleSSVData`. -/
structure ObstacleSSVData (R : Type) where
  ssvRadiusSphere : R
  ssvRadiusCapsule : R
  ssvCapsuleMin : R
  ssvCapsuleMax : R
  initialized : Bool

/-- Fields of `GMM::State`, the state of a tracked obstacle (the visualisation
handles `visData` are left out). -/
structure GMM.State (R Cov : Type) where
  pos : Vec3 R
  obsCovar : Matrix3 R
  obsCovarInv : Matrix3 R
  logpdfConstantSummand : R
  validObsCovar : Bool
  pi : R
  lifeTime : Int
  splitCounter : Int
  resetNonSplitCounter : Int
  debugValue : R
  hystSplitVal : R
  kalmanFilter : ObstacleKalmanFilter R Cov
  ssvData : ObstacleSSVData R

section

variable {R : Type} [Sub R] [Mul R]

/-- Library function `cofactor_3x3<i, j>` of Eigen: with `i1 = (i+1) % 3`,
`i2 = (i+2) % 3` and likewise for `j`, the 2x2 minor on rows `i1, i2` and
columns `j1, j2`. -/
def cofactor_3x3 (m : Matrix3 R) (i j : Fin 3) : R :=
  let i1 := i + 1
  let i2 := i + 2
  let j1 := j + 1
  let j2 := j + 2
  m i1 j1 * m i2 j2 - m i1 j2 * m i2 j1

/-- Library function `compute_inverse_size3_helper` of Eigen: entry `(r, c)`
of the result is `cofactor_3x3<c, r>` times `invdet`. -/
def compute_inverse_size3_helper (matrix : Matrix3 R) (invdet : R) : Matrix3 R :=
  fun r c => cofactor_3x3 matrix c r * invdet

end

section

variable {R Cov : Type} [Add R] [Sub R] [Mul R] [Div R] [Neg R] [NatCast R] [LT R]
  [DecidableRel (fun a b : R => a < b)]

/-- Library function `computeInverseAndDetWithCheck` of Eigen on a 3x3 matrix:
the determinant by the cofactors of column 0; the matrix counts as
invertible when the absolute value of the determinant exceeds
`absDeterminantThreshold`, and only then is the inverse (cofactors transposed
times `1 / determinant`) written. Returns the inverse if written, the
determinant and the flag. -/
def computeInverseAndDetWithCheck (absDeterminantThreshold : R) (matrix : Matrix3 R) :
    Option (Matrix3 R) × R × Bool :=
  let determinant := cofactor_3x3 matrix 0 0 * matrix 0 0 + cofactor_3x3 matrix 1 0 * matrix 1 0
    + cofactor_3x3 matrix 2 0 * matrix 2 0
  let abs_determinant := if determinant < ((0 : Nat) : R) then -determinant else determinant
  let invertible := decide (absDeterminantThreshold < abs_determinant)
  if invertible then
    let invdet := ((1 : Nat) : R) / determinant
    (some (compute_inverse_size3_helper matrix invdet), determinant, true)
  else
    (none, determinant, false)

/-- Model of `GMM::State::setObsCovar`. `log` and `sqrt` are the library
functions; `absDeterminantThreshold` is the default threshold of the
invertibility check of Eigen. The conversions between `float` and `double`
are not modelled. -/
def GMM.State.setObsCovar (log sqrt : R → R) (absDeterminantThreshold : R)
    (s : GMM.State R Cov) (cov : Matrix3 R) : GMM.State R Cov :=
  let s1 := { s with obsCovar := cov }
  match computeInverseAndDetWithCheck absDeterminantThreshold cov with
  | (some inverse, det, true) =>
    { s1 with
      validObsCovar := true
      obsCovarInv := inverse
      logpdfConstantSummand :=
        -(log (((15749760995 : Nat) : R) / ((1000000000 : Nat) : R) * sqrt det)) }
  | (_, _, validObsCovar) => { s1 with validObsCovar := validObsCovar }

end

/-- Covariance of the position-velocity state: a 6x6 matrix in blocks of
position and velocity components. -/
abbrev StateCov (R : Type) := Matrix (Fin 3 ⊕ Fin 3) (Fin 3 ⊕ Fin 3) R

section

variable {R : Type} [Field R]

/-- The state as a vector: position components, then velocity components. -/
def FilterState.toVec (x : FilterState R) : Fin 3 ⊕ Fin 3 → R :=
  Sum.elim ![x.position.x, x.position.y, x.position.z]
    ![x.velocity.x, x.velocity.y, x.velocity.z]

/-- The state read back from a vector. -/
def FilterState.ofVec (v : Fin 3 ⊕ Fin 3 → R) : FilterState R :=
  ⟨⟨v (Sum.inl 0), v (Sum.inl 1), v (Sum.inl 2)⟩, ⟨v (Sum.inr 0), v (Sum.inr 1), v (Sum.inr 2)⟩⟩

/-- Modelled from the spec: the prediction step of a linear constant-velocity
Kalman filter over the elapsed time `dt`. The transition is
`position + dt * velocity`, velocity kept; the covariance becomes
`F P Fᵀ + Q` with independent process noise for position and for velocity. -/
def linearPredict (noise_position noise_velocity dt : R)
    (kf : ObstacleKalmanFilter R (StateCov R)) : ObstacleKalmanFilter R (StateCov R) :=
  let F : StateCov R := Matrix.fromBlocks 1 (dt • 1) 0 1
  let Q : StateCov R :=
    Matrix.diagonal (Sum.elim (fun _ => noise_position) (fun _ => noise_velocity))
  ⟨FilterState.ofVec (F.mulVec kf.x.toVec), F * kf.P * F.transpose + Q⟩

/-- Modelled from the spec: the update step of a linear Kalman filter with
the position as measurement. With `H` the projection on the position,
`S = H P Hᵀ + noise_measurement * I` and gain `K = P Hᵀ S⁻¹`, the state
becomes `x + K (z - H x)` and the covariance `P - K H P`. -/
def linearUpdate (noise_measurement : R) (z : Vec3 R)
    (kf : ObstacleKalmanFilter R (StateCov R)) : ObstacleKalmanFilter R (StateCov R) :=
  let H : Matrix (Fin 3) (Fin 3 ⊕ Fin 3) R := Matrix.fromColumns 1 0
  let S : Matrix3 R := H * kf.P * H.transpose + noise_measurement • 1
  let det := cofactor_3x3 S 0 0 * S 0 0 + cofactor_3x3 S 1 0 * S 1 0 + cofactor_3x3 S 2 0 * S 2 0
  let K : Matrix (Fin 3 ⊕ Fin 3) (Fin 3) R :=
    kf.P * H.transpose * compute_inverse_size3_helper S (1 / det)
  let innovation : Fin 3 → R := ![z.x, z.y, z.z] - H.mulVec kf.x.toVec
  ⟨FilterState.ofVec (kf.x.toVec + K.mulVec innovation), kf.P - K * H * kf.P⟩

/-- Modelled from the spec: the filter operations of a linear
constant-velocity Kalman filter; a default-constructed filter has the zero
state and the identity covariance. -/
def linearKalmanOps : KalmanOps R (StateCov R) :=
  { fresh := ⟨⟨⟨0, 0, 0⟩, ⟨0, 0, 0⟩⟩, 1⟩
    predict := linearPredict
    update := linearUpdate }

end

section

variable {R Cov : Type} [Zero R] [Div R] [NatCast R]

/-- Successive calls of `KalmanObstacleTracker::update`, one per frame; each
frame gives the duration the frame timer reports and the obstacle vector.
Returns the tracker after the last call and the obstacle vectors as each call
left them. -/
def updateFrames (ops : KalmanOps R Cov) :
    List (R × List (ObjectModelParams R)) → KalmanObstacleTracker R Cov →
      KalmanObstacleTracker R Cov × List (List (ObjectModelParams R))
  | [], t => (t, [])
  | (duration, obstacles) :: rest, t =>
    let r := KalmanObstacleTracker.update ops duration t obstacles
    let rs := updateFrames ops rest r.1
    (rs.1, r.2 :: rs.2)

end

section

variable {R Cov : Type} [Add R] [Sub R] [Mul R] [Div R] [Neg R] [NatCast R] [LT R]
  [DecidableRel (fun a b : R => a < b)]

/-- Model of `GMM::State::initKalmanFilter`: the embedded filter is
initialised at the state's position with zero velocity. -/
def GMM.State.initKalmanFilter (s : GMM.State R Cov) : GMM.State R Cov :=
  let initialState : FilterState R := ⟨s.pos, ⟨((0 : Nat) : R), ((0 : Nat) : R), ((0 : Nat) : R)⟩⟩
  { s with kalmanFilter := s.kalmanFilter.init initialState }

/-- Model of the constructor `GMM::State::State(_pos, _obsCovar)`. The member
initialisers run first (`pos(_pos)`, the defaults `pi = 0`, `lifeTime = 0`,
`splitCounter = 0`, `resetNonSplitCounter = 0`, `debugValue = 0`,
`ssvData.initialized = false`, the default-constructed filter `fresh`); the
members without an initialiser start with the indeterminate values given by
`uninit`. Then the body: `setObsCovar`, `hystSplitVal = 0.25f`,
`initKalmanFilter`. -/
def GMM.State.create (log sqrt : R → R) (absDeterminantThreshold : R)
    (fresh : ObstacleKalmanFilter R Cov) (uninit : GMM.State R Cov)
    (_pos : Vec3 R) (_obsCovar : Matrix3 R) : GMM.State R Cov :=
  let s0 : GMM.State R Cov :=
    { uninit with
      pos := _pos
      pi := ((0 : Nat) : R)
      lifeTime := 0
      splitCounter := 0
      resetNonSplitCounter := 0
      debugValue := ((0 : Nat) : R)
      kalmanFilter := fresh
      ssvData := { uninit.ssvData with initialized := false } }
  let s1 := s0.setObsCovar log sqrt absDeterminantThreshold _obsCovar
  let s2 := { s1 with hystSplitVal := ((25 : Nat) : R) / ((100 : Nat) : R) }
  s2.initKalmanFilter

end

/-- The trackers of one process. The function-local `static double dt` of
`KalmanObstacleTracker::update` exists once in the process and is shared by
all tracker instances; `frameTimer_`, `states_` and the noise parameters
exist once per instance. -/
structure TrackerProcess (R Cov : Type) where
  static_dt : R
  trackers : List (KalmanObstacleTracker R Cov)

section

variable {R Cov : Type} [Zero R] [Div R] [NatCast R]

/-- A process at start: the static `dt` holds its initialiser `1.0/30.0` and
the given trackers have been constructed (no filters, timers stopped). -/
def TrackerProcess.start (noise : List (R × R × R)) : TrackerProcess R Cov :=
  { static_dt := ((1 : Nat) : R) / ((30 : Nat) : R)
    trackers := noise.map fun n => KalmanObstacleTracker.create n.1 n.2.1 n.2.2 }

/-- A call `trackers[i].update(obstacles)` in the process: the body of
`update` reads and writes the one static `dt`. An index without a tracker
is no call. -/
def TrackerProcess.update (ops : KalmanOps R Cov) (i : Nat) (duration : R)
    (pr : TrackerProcess R Cov) (obstacles : List (ObjectModelParams R)) :
    TrackerProcess R Cov × List (ObjectModelParams R) :=
  match pr.trackers[i]? with
  | none => (pr, obstacles)
  | some t =>
    let r := KalmanObstacleTracker.update ops duration { t with dt := pr.static_dt } obstacles
    ({ static_dt := r.1.dt, trackers := pr.trackers.set i r.1 }, r.2)

end

/-- A stand-in for the filter library that shows which `dt` a prediction was
made with: `predict` stores `dt` in the covariance slot, `update` takes the
measured position. -/
def dtRecordingOps : KalmanOps ℚ ℚ :=
  { fresh := ⟨⟨⟨0, 0, 0⟩, ⟨0, 0, 0⟩⟩, 0⟩
    predict := fun _ _ dt kf => { kf with P := dt }
    update := fun _ pos kf => { kf with x := ⟨pos, kf.x.velocity⟩ } }

section

variable {R P : Type} [Add R] [Mul R] [Div R] [NatCast R] [LT R]
  [DecidableRel (fun a b : R => a < b)]

/-- The stored representatives are pairwise outside the tolerance, as
`classify` tests it: for a representative `a` stored before `b`, the angle
that `getAngle` computes between them is neither below 3 nor above 177. -/
def representativesDistinct (acos : R → R) (M_PI : R) (ms : List (ModelCoefficients R)) : Prop :=
  ms.Pairwise (fun a b => ¬ withinTolerance acos M_PI a b)

end

/-- A drawable handed to the AR visualizer: the ellipsoid that
`generateEllipsoid` builds from a mean, a covariance and a colour, a buffered
line path, a line segment, a sphere or a capsule. -/
inductive ArObject (R B Col : Type) where
  | ellipsoid (mean : Vec3 R) (covar : Matrix3 R) (color : Col)
  | linePath (path : B)
  | lineSegment (a b : Vec3 R)
  | sphere (center : Vec3 R) (radius : R) (color : Col)
  | capsule (a b : Vec3 R) (radius : R) (color : Col)

/-- A call issued to the AR visualizer `arvis_`; an `Add` is recorded with
the handle it returned. -/
inductive ArCall (R B Col : Type) where
  | Add (obj : ArObject R B Col) (handle : Nat)
  | Update (handle : Nat) (obj : ArObject R B Col)
  | Remove (handle : Nat)

/-- Fields of `ObstacleTrackerVisualizer::VisData`; `bufferedLinePath` is the
line-path object the pointer refers to. -/
structure VisData (R B : Type) where
  isCapsule : Bool
  ssvHandle : Nat
  ellipsoidHandle : Nat
  linePathHandle : Nat
  velocityLineHandle : Nat
  bufferedLinePath : B
  ssvRadius : R
  ssvPointA : Vec3 R
  ssvPointB : Vec3 R

/-- The members of `ObstacleTrackerVisualizer` that `updateState` and
`deleteState` use: the map from state id to visualization data (its key type
is `int`; the `size_t` argument of the methods is converted to it), and the
calls issued to `arvis_` so far. -/
structure ObstacleTrackerVisualizer (R B Col : Type) where
  gmm_visualizations : List (Int × VisData R B)
  arvis_ : List (ArCall R B Col)

/-- What the methods read from outside the class: the UI values
(`getUiOption` for the Gaussian colour, the SSV colour and the trajectory
length), the line-path library (`new ar::BufferedLinePath(length, ...)`,
`addPoint`) and the handle that `arvis_->Add` returns after the calls made so
far. -/
structure VisualizerEnv (R B Col : Type) where
  gaussianColor : Col
  ssvColor : Col
  trajectoryLength : Int
  newLinePath : Int → B
  addPoint : B → Vec3 R → B
  nextHandle : List (ArCall R B Col) → Nat

section

variable {R B Col Cov : Type} [Div R] [NatCast R] [LT R] [DecidableRel (fun a b : R => a < b)]

/-- Model of `ObstacleTrackerVisualizer::initVisData`. The fields of the local
`VisData` that the method does not assign keep the indeterminate values of
`uninit`. -/
def ObstacleTrackerVisualizer.initVisData (env : VisualizerEnv R B Col) (uninit : VisData R B)
    (v : ObstacleTrackerVisualizer R B Col) (state : GMM.State R Cov) (id : Int) :
    ObstacleTrackerVisualizer R B Col :=
  let pos := state.pos
  let cov := state.obsCovar
  let color := env.gaussianColor
  let ellipsoidHandle := env.nextHandle v.arvis_
  let arvis1 := v.arvis_ ++ [ArCall.Add (ArObject.ellipsoid pos cov color) ellipsoidHandle]
  let bufferedLinePath := env.newLinePath env.trajectoryLength
  let linePathHandle := env.nextHandle arvis1
  let arvis2 := arvis1 ++ [ArCall.Add (ArObject.linePath bufferedLinePath) linePathHandle]
  let velocityLineHandle := env.nextHandle arvis2
  let arvis3 := arvis2 ++ [ArCall.Add (ArObject.lineSegment pos pos) velocityLineHandle]
  let visData : VisData R B :=
    { uninit with
      ellipsoidHandle := ellipsoidHandle
      bufferedLinePath := bufferedLinePath
      linePathHandle := linePathHandle
      velocityLineHandle := velocityLineHandle
      ssvHandle := 0 }
  { gmm_visualizations := mapSet id visData v.gmm_visualizations, arvis_ := arvis3 }

/-- Model of `ObstacleTrackerVisualizer::updateVisData`, which `updateState`
calls when the id has an entry; `visData` is that entry, which
`gmm_visualizations[id]` refers to. -/
def ObstacleTrackerVisualizer.updateVisData (env : VisualizerEnv R B Col)
    (v : ObstacleTrackerVisualizer R B Col) (state : GMM.State R Cov) (id : Int)
    (visData : VisData R B) : ObstacleTrackerVisualizer R B Col :=
  let pos := state.pos
  let color := env.gaussianColor
  let arvis1 := v.arvis_ ++
    [ArCall.Update visData.ellipsoidHandle (ArObject.ellipsoid state.pos state.obsCovar color)]
  let path := env.addPoint visData.bufferedLinePath pos
  let visData1 := { visData with bufferedLinePath := path }
  let arvis2 := arvis1 ++ [ArCall.Update visData1.linePathHandle (ArObject.linePath path)]
  let ssv : ArObject R B Col :=
    if !visData1.isCapsule then
      ArObject.sphere visData1.ssvPointA visData1.ssvRadius env.ssvColor
    else
      ArObject.capsule visData1.ssvPointA visData1.ssvPointB visData1.ssvRadius env.ssvColor
  if visData1.ssvHandle = 0 ∧ ((1 : Nat) : R) / ((100 : Nat) : R) < visData1.ssvRadius then
    let ssvHandle := env.nextHandle arvis2
    { gmm_visualizations :=
        mapSet id { visData1 with ssvHandle := ssvHandle } v.gmm_visualizations
      arvis_ := arvis2 ++ [ArCall.Add ssv ssvHandle] }
  else if ((1 : Nat) : R) / ((100 : Nat) : R) < visData1.ssvRadius then
    { gmm_visualizations := mapSet id visData1 v.gmm_visualizations
      arvis_ := arvis2 ++ [ArCall.Update visData1.ssvHandle ssv] }
  else
    { gmm_visualizations := mapSet id visData1 v.gmm_visualizations, arvis_ := arvis2 }

/-- Model of `ObstacleTrackerVisualizer::updateState`. -/
def ObstacleTrackerVisualizer.updateState (env : VisualizerEnv R B Col) (uninit : VisData R B)
    (v : ObstacleTrackerVisualizer R B Col) (state : GMM.State R Cov) (idx : Int) :
    ObstacleTrackerVisualizer R B Col :=
  match mapFind idx v.gmm_visualizations with
  | none => v.initVisData env uninit state idx
  | some visData => v.updateVisData env state idx visData

/-- Model of `ObstacleTrackerVisualizer::deleteState`. -/
def ObstacleTrackerVisualizer.deleteState (v : ObstacleTrackerVisualizer R B Col)
    (_state : GMM.State R Cov) (id : Int) : ObstacleTrackerVisualizer R B Col :=
  match mapFind id v.gmm_visualizations with
  | some visData =>
    { gmm_visualizations := mapErase id v.gmm_visualizations
      arvis_ := v.arvis_ ++
        [ArCall.Remove visData.ellipsoidHandle, ArCall.Remove visData.linePathHandle,
          ArCall.Remove visData.velocityLineHandle, ArCall.Remove visData.ssvHandle] }
  | none => v

end

/-- Hypothesis of a run of frames on voxel `v`: in no frame does an accepted
point fall into `v`, and while further frames follow `v` is still in the
dictionary after the frame. -/
def unobservedAndKept {φ R : Type} [Mul R] [Div R] [NatCast R] [IntCast R]
    (isfinite : R → Bool) (toInt : R → Int) (v : MapPoint) :
    List (List (PointXYZ R)) → List (PointFilter φ R) → ProbFilteredVideoSource → Prop
  | [], _, _ => True
  | cloud :: rest, fs, s =>
    (∀ p ∈ acceptedPoints
        (notifyNewFrame isfinite (ProbFilteredVideoSource.hooks toInt) fs s cloud).2.2.2,
      mapPointOf toInt s.larger_voxelization_ p ≠ v) ∧
    (0 < rest.length → mapFind v
      (notifyNewFrame isfinite (ProbFilteredVideoSource.hooks toInt) fs s cloud).2.1.all_points_
        ≠ none) ∧
    unobservedAndKept isfinite toInt v rest
      (notifyNewFrame isfinite (ProbFilteredVideoSource.hooks toInt) fs s cloud).1
      (notifyNewFrame isfinite (ProbFilteredVideoSource.hooks toInt) fs s cloud).2.1

/-- The hypothesis of an unobserved run can be checked by evaluation. -/
instance unobservedAndKept.decidable {φ R : Type} [Mul R] [Div R] [NatCast R] [IntCast R]
    (isfinite : R → Bool) (toInt : R → Int) (v : MapPoint) :
    ∀ (clouds : List (List (PointXYZ R))) (fs : List (PointFilter φ R))
      (s : ProbFilteredVideoSource),
      Decidable (unobservedAndKept isfinite toInt v clouds fs s)
  | [], _, _ => isTrue trivial
  | cloud :: rest, fs, s =>
    haveI := unobservedAndKept.decidable isfinite toInt v rest
      (notifyNewFrame isfinite (ProbFilteredVideoSource.hooks toInt) fs s cloud).1
      (notifyNewFrame isfinite (ProbFilteredVideoSource.hooks toInt) fs s cloud).2.1
    by
      show Decidable (_ ∧ _ ∧ _)
      infer_instance

/-- Members of `Pt1FilteredVideoSource`: the voxels hit in the current frame
and the dictionary from voxel key to the filter scalar. -/
structure Pt1FilteredVideoSource (R : Type) where
  this_frame_ : List MapPoint
  all_points_ : List (MapPoint × R)

section

variable {R : Type} [Add R] [Mul R] [Div R] [NatCast R] [IntCast R] [LE R]
  [DecidableRel (fun a b : R => a ≤ b)]

/-- Hook `Pt1FilteredVideoSource::newFrame`. -/
def Pt1FilteredVideoSource.newFrame (s : Pt1FilteredVideoSource R) : Pt1FilteredVideoSource R :=
  { s with this_frame_ := [] }

/-- The voxel key that `Pt1FilteredVideoSource::newPoint` computes:
`MapPoint(p.x * 100, p.y * 100, p.z * 100)`; `toInt` is the conversion of a
floating value to `int`. -/
def pt1KeyOf (toInt : R → Int) (p : PointXYZ R) : MapPoint :=
  ⟨toInt (p.x * ((100 : Nat) : R)), toInt (p.y * ((100 : Nat) : R)),
    toInt (p.z * ((100 : Nat) : R))⟩

/-- The assignment `ref = 0.9*ref + 0.1*10` of `newPoint`. -/
def pt1Observed (ref : R) : R :=
  ((9 : Nat) : R) / ((10 : Nat) : R) * ref + ((1 : Nat) : R) / ((10 : Nat) : R) * ((10 : Nat) : R)

/-- The assignment `it->second = 0.9*it->second + 0.1*0.` of `getFiltered`. -/
def pt1Unobserved (second : R) : R :=
  ((9 : Nat) : R) / ((10 : Nat) : R) * second
    + ((1 : Nat) : R) / ((10 : Nat) : R) * ((0 : Nat) : R)

/-- Hook `Pt1FilteredVideoSource::newPoint`. A key new to the dictionary is
inserted by `all_points_[map_point]` with the value `0`. The filtered cloud
is not touched. -/
def Pt1FilteredVideoSource.newPoint (toInt : R → Int) (s : Pt1FilteredVideoSource R)
    (p : PointXYZ R) : Pt1FilteredVideoSource R :=
  let map_point := pt1KeyOf toInt p
  let all_points := mapIndex map_point ((0 : Nat) : R) s.all_points_
  let all_points := mapModify map_point pt1Observed all_points
  let this_frame :=
    if map_point ∈ s.this_frame_ then s.this_frame_ else s.this_frame_ ++ [map_point]
  { all_points_ := all_points, this_frame_ := this_frame }

/-- The `while` loop of `Pt1FilteredVideoSource::getFiltered` over the entries
of `all_points_` in iteration order: the entries after the scan and the
points pushed to the filtered cloud. -/
def pt1GetFilteredLoop (this_frame : List MapPoint) :
    List (MapPoint × R) → List (MapPoint × R) × List (PointXYZ R)
  | [] => ([], [])
  | (key, second) :: rest =>
    let second1 := if key ∈ this_frame then second else pt1Unobserved second
    let pushed : List (PointXYZ R) :=
      if ((4 : Nat) : R) ≤ second1 then
        [⟨(key.x : R) / ((100 : Nat) : R), (key.y : R) / ((100 : Nat) : R),
          (key.z : R) / ((100 : Nat) : R)⟩]
      else []
    let r := pt1GetFilteredLoop this_frame rest
    ((key, second1) :: r.1, pushed ++ r.2)

/-- Hook `Pt1FilteredVideoSource::getFiltered`. -/
def Pt1FilteredVideoSource.getFiltered (s : Pt1FilteredVideoSource R)
    (filtered : List (PointXYZ R)) : Pt1FilteredVideoSource R × List (PointXYZ R) :=
  let r := pt1GetFilteredLoop s.this_frame_ s.all_points_
  ({ s with all_points_ := r.1 }, filtered ++ r.2)

/-- Hooks of `Pt1FilteredVideoSource`. -/
def Pt1FilteredVideoSource.hooks (toInt : R → Int) :
    FilterHooks (Pt1FilteredVideoSource R) R where
  newFrame := Pt1FilteredVideoSource.newFrame
  newPoint := fun s p filtered => (Pt1FilteredVideoSource.newPoint toInt s p, filtered)
  getFiltered := Pt1FilteredVideoSource.getFiltered

/-- Successive frames through `notifyNewFrame` of a `Pt1FilteredVideoSource`:
the filters and the members after the last frame, and the filtered cloud
emitted for it. -/
def pt1Frames {φ : Type} (isfinite : R → Bool) (toInt : R → Int) :
    List (List (PointXYZ R)) → List (PointFilter φ R) → Pt1FilteredVideoSource R →
      List (PointXYZ R) → List (PointFilter φ R) × Pt1FilteredVideoSource R × List (PointXYZ R)
  | [], fs, s, out => (fs, s, out)
  | cloud :: rest, fs, s, _ =>
    let r := notifyNewFrame isfinite (Pt1FilteredVideoSource.hooks toInt) fs s cloud
    pt1Frames isfinite toInt rest r.1 r.2.1 r.2.2.1

/-- For each frame of a run, the number of accepted points that fall into
the voxel `v`. -/
def pt1Hits {φ : Type} (isfinite : R → Bool) (toInt : R → Int) (v : MapPoint) :
    List (List (PointXYZ R)) → List (PointFilter φ R) → Pt1FilteredVideoSource R → List Nat
  | [], _, _ => []
  | cloud :: rest, fs, s =>
    let r := notifyNewFrame isfinite (Pt1FilteredVideoSource.hooks toInt) fs s cloud
    ((acceptedPoints r.2.2.2).filter (fun p => decide (pt1KeyOf toInt p = v))).length ::
      pt1Hits isfinite toInt v rest r.1 r.2.1

end

/-- The loop of `floorLog2`: halve until below 2, counting the steps. -/
def floorLog2Loop : Nat → Nat → Nat
  | 0, _ => 0
  | fuel + 1, n => if n < 2 then 0 else floorLog2Loop fuel (n / 2) + 1

/-- The position of the leading binary digit of a natural number. -/
def floorLog2 (n : Nat) : Nat := floorLog2Loop n n

/-- The exponent of a non-zero rational: the `e` with `2^e ≤ |q| < 2^(e+1)`. -/
def binaryExponent (q : ℚ) : Int :=
  let n := q.num.natAbs
  let d := q.den
  let a := floorLog2 n
  let b := floorLog2 d
  if 2 ^ a * d ≤ n * 2 ^ b then (a : Int) - b else (a : Int) - b - 1

/-- The quotient `N / D` rounded to the nearest natural number, a tie to
the even one. -/
def nearestEven (N D : Nat) : Nat :=
  let f := N / D
  let r := N % D
  if 2 * r < D then f else if D < 2 * r then f + 1 else if f % 2 = 0 then f else f + 1

/-- A rational rounded to the nearest number with `p` significant binary
digits, ties to the even significand: the rounding of IEEE 754 arithmetic in
its default mode. With `s` the exponent of the last significant digit, the
result is the magnitude divided by `2^s`, rounded to a natural number, times
`2^s`, with the sign restored. The exponent range is not modelled: no
overflow to infinity and no gradual underflow. -/
def roundTo (p : Nat) (q : ℚ) : ℚ :=
  if q = 0 then 0 else
    let n := q.num.natAbs
    let d := q.den
    let s : Int := binaryExponent q - ((p : Int) - 1)
    let mag : ℚ :=
      if 0 ≤ s then ((nearestEven n (d * 2 ^ s.toNat) * 2 ^ s.toNat : Nat) : ℚ)
      else ((nearestEven (n * 2 ^ (-s).toNat) d : Nat) : ℚ) / ((2 ^ (-s).toNat : Nat) : ℚ)
    if q < 0 then -mag else mag

/-- A value of a binary floating-point format with `p` significant digits
(`float` is `p = 24`, `double` is `p = 53`): a finite number or, for `none`,
NaN. Infinities and the sign of zero are not modelled. -/
structure Fp (p : Nat) where
  val : Option ℚ
  deriving DecidableEq

/-- The type `float` (IEEE binary32). -/
abbrev Binary32 := Fp 24

/-- The type `double` (IEEE binary64). -/
abbrev Binary64 := Fp 53

/-- The floating-point value nearest to a rational. -/
def Fp.ofRat (p : Nat) (q : ℚ) : Fp p := ⟨some (roundTo p q)⟩

/-- The value NaN. -/
def Fp.nan (p : Nat) : Fp p := ⟨none⟩

/-- A binary operation on floating-point values: NaN if an operand is NaN,
otherwise the exact result rounded. -/
def Fp.lift2 {p : Nat} (f : ℚ → ℚ → ℚ) (a b : Fp p) : Fp p :=
  match a.val, b.val with
  | some x, some y => ⟨some (roundTo p (f x y))⟩
  | _, _ => ⟨none⟩

instance Fp.instAdd {p : Nat} : Add (Fp p) := ⟨Fp.lift2 (fun x y => x + y)⟩

instance Fp.instSub {p : Nat} : Sub (Fp p) := ⟨Fp.lift2 (fun x y => x - y)⟩

instance Fp.instMul {p : Nat} : Mul (Fp p) := ⟨Fp.lift2 (fun x y => x * y)⟩

/-- Division; a division by zero, which gives an infinity or NaN, is NaN
here. -/
instance Fp.instDiv {p : Nat} : Div (Fp p) :=
  ⟨fun a b =>
    match a.val, b.val with
    | some x, some y => if y = 0 then ⟨none⟩ else ⟨some (roundTo p (x / y))⟩
    | _, _ => ⟨none⟩⟩

instance Fp.instNeg {p : Nat} : Neg (Fp p) := ⟨fun a => ⟨a.val.map (fun x => -x)⟩⟩

instance Fp.instNatCast {p : Nat} : NatCast (Fp p) := ⟨fun n => Fp.ofRat p n⟩

instance Fp.instIntCast {p : Nat} : IntCast (Fp p) := ⟨fun z => Fp.ofRat p z⟩

/-- The comparison `a < b` as the hardware decides it: false if an operand is
NaN. -/
def Fp.ltb {p : Nat} (a b : Fp p) : Bool :=
  match a.val, b.val with
  | some x, some y => decide (x < y)
  | _, _ => false

instance Fp.instLT {p : Nat} : LT (Fp p) := ⟨fun a b => Fp.ltb a b = true⟩

instance Fp.instDecidableLT {p : Nat} : DecidableRel (fun a b : Fp p => a < b) :=
  fun a b => inferInstanceAs (Decidable (Fp.ltb a b = true))

/-- The conversion of a floating-point value to `int`: truncation toward
zero. The conversion of NaN is undefined in C; it is `INT_MIN` here, as on
x86. -/
def Fp.toInt {p : Nat} (a : Fp p) : Int :=
  match a.val with
  | some x => truncRat x
  | none => INT_MIN

/-- The library function `acos` on floating-point values: NaN for NaN and for
an argument outside `[-1, 1]` (a domain error); inside the domain the value
is `inDomain` of the argument, rounded. -/
def Fp.acosWith {p : Nat} (inDomain : ℚ → ℚ) (x : Fp p) : Fp p :=
  match x.val with
  | none => ⟨none⟩
  | some q => if q < -1 ∨ 1 < q then ⟨none⟩ else ⟨some (roundTo p (inDomain q))⟩


/-- The point with the finite `float` coordinates `x`, `y`, `z`. -/
def floatPoint (x y z : ℚ) : PointXYZ Binary32 := ⟨⟨some x⟩, ⟨some y⟩, ⟨some z⟩⟩

/-- Plane coefficients in `float`: the normal is the unit vector along
`(1, 16, 7)` with each component rounded to `float`, the offset is
`values3`. -/
def tiltedPlane (values3 : ℚ) : ModelCoefficients Binary32 :=
  ⟨⟨some (7672717 / 134217728)⟩, ⟨some (7672717 / 8388608)⟩, ⟨some (13427255 / 33554432)⟩,
    ⟨some values3⟩⟩

/-- A plane estimator that finds two parallel planes: while the cloud has at
least three points it reports the points at positions 0 and 2 as a plane
with the normal of `tiltedPlane`; the offset is 0 on a cloud of five points
and -1 otherwise. -/
def parallelPlanes (est : Unit) (cloud : List Nat) :
    Unit × List Nat × ModelCoefficients Binary32 :=
  (est, if 3 ≤ cloud.length then [0, 2] else [],
    tiltedPlane (if cloud.length = 5 then 0 else -1))

/-- The vectors `u = (859, -725, -473)` and `v = (-63, 273, 547)`. -/
def rankTwoU : Fin 3 → Int := ![859, -725, -473]

/-- See `rankTwoU`. -/
def rankTwoV : Fin 3 → Int := ![-63, 273, 547]

/-- The matrix `u uᵀ + v vᵀ`: symmetric, positive semi-definite and of rank
two, so singular. Its entries are integers below `2^24`, exact in `float`
and in `double`. -/
def rankTwoCovariance : Matrix (Fin 3) (Fin 3) Int :=
  fun i j => rankTwoU i * rankTwoU j + rankTwoV i * rankTwoV j

/-- The matrix `rankTwoCovariance` as a matrix of `double`. -/
def rankTwoCovariance64 : Matrix3 Binary64 := fun i j => ((rankTwoCovariance i j : Int) : Binary64)

/-- The default threshold of the invertibility check of Eigen,
`NumTraits<double>::dummy_precision()`: the `double` literal `1e-12`. -/
def dummy_precision : Binary64 := Fp.ofRat 53 (1 / 10 ^ 12)

/-- The matrix of `double` with the finite values `S`. -/
def doubleMatrix (S : Matrix3 ℚ) : Matrix3 Binary64 := fun i j => ⟨some (S i j)⟩

/-- A track state in `double` before the first call of `setObsCovar`: every
number 0, the covariance not valid. -/
def freshState64 : GMM.State Binary64 Unit :=
  { pos := ⟨⟨some 0⟩, ⟨some 0⟩, ⟨some 0⟩⟩
    obsCovar := fun _ _ => ⟨some 0⟩
    obsCovarInv := fun _ _ => ⟨some 0⟩
    logpdfConstantSummand := ⟨some 0⟩
    validObsCovar := false
    pi := ⟨some 0⟩
    lifeTime := 0
    splitCounter := 0
    resetNonSplitCounter := 0
    debugValue := ⟨some 0⟩
    hystSplitVal := ⟨some 0⟩
    kalmanFilter := ⟨⟨⟨⟨some 0⟩, ⟨some 0⟩, ⟨some 0⟩⟩, ⟨⟨some 0⟩, ⟨some 0⟩, ⟨some 0⟩⟩⟩, ()⟩
    ssvData := ⟨⟨some 0⟩, ⟨some 0⟩, ⟨some 0⟩, ⟨some 0⟩, false⟩ }

/-! ## Theorems -/

section

variable {R P : Type} [Add R] [Mul R] [Div R] [NatCast R] [LT R]
  [DecidableRel (fun a b : R => a < b)]

/-- Inside the coefficient list `getAngle` returns a value. -/
lemma getAngle_isOk (acos : R → R) (M_PI : R) (ms : List (ModelCoefficients R))
    (coeffs : ModelCoefficients R) (i : Nat) (hi : i < ms.length) :
    ∃ θ, getAngle acos M_PI ms coeffs i = .ok θ := by
  unfold getAngle
  rw [List.getElem?_eq_getElem hi]
  exact ⟨_, rfl⟩

/-- The loop of `classify` falls through to the `push_back` branch when no
remaining index is within tolerance. -/
lemma classifyLoop_no_match (acos : R → R) (M_PI : R) (cloud : List P)
    (coeffs : ModelCoefficients R) (s : SurfaceSegmenter R P) :
    ∀ (r i : Nat), i + r ≤ s.m_coefficients.length →
      (∀ j θ, i ≤ j → getAngle acos M_PI s.m_coefficients coeffs j = .ok θ →
        ¬ (θ < ((3 : Nat) : R) ∨ ((177 : Nat) : R) < θ)) →
      classifyLoop acos M_PI cloud coeffs s r i
        = .ok { s with
            vec_surface := s.vec_surface ++ [cloud]
            m_coefficients := s.m_coefficients ++ [coeffs] } := by
  intro r
  induction r with
  | zero => intro i _ _; rfl
  | succ r ih =>
    intro i hir hno
    obtain ⟨θ, hθ⟩ := getAngle_isOk acos M_PI s.m_coefficients coeffs i (by omega)
    have hn := hno i θ (le_refl i) hθ
    rw [classifyLoop, hθ]
    simp only [if_neg hn]
    exact ih (i + 1) (by omega) (fun j θ' hj h => hno j θ' (by omega) h)

/-- The loop of `classify` merges into the first index within tolerance. -/
lemma classifyLoop_first_match (acos : R → R) (M_PI : R) (cloud : List P)
    (coeffs : ModelCoefficients R) (s : SurfaceSegmenter R P) (k : Nat) (θ : R) (g : List P)
    (hk : getAngle acos M_PI s.m_coefficients coeffs k = .ok θ)
    (hθ : θ < ((3 : Nat) : R) ∨ ((177 : Nat) : R) < θ)
    (hg : s.vec_surface[k]? = some g) :
    ∀ (r i : Nat), i + r ≤ s.m_coefficients.length → i ≤ k → k < i + r →
      (∀ j θ', i ≤ j → j < k → getAngle acos M_PI s.m_coefficients coeffs j = .ok θ' →
        ¬ (θ' < ((3 : Nat) : R) ∨ ((177 : Nat) : R) < θ')) →
      classifyLoop acos M_PI cloud coeffs s r i
        = .ok { s with vec_surface := s.vec_surface.set k (g ++ cloud) } := by
  intro r
  induction r with
  | zero => intro i _ h1 h2 _; omega
  | succ r ih =>
    intro i hir hik hki hno
    rcases Nat.eq_or_lt_of_le hik with heq | hlt
    · subst heq
      rw [classifyLoop, hk]
      simp only [if_pos hθ, hg]
    · obtain ⟨θ', hθ'⟩ := getAngle_isOk acos M_PI s.m_coefficients coeffs i (by omega)
      have hn := hno i θ' (le_refl i) hlt hθ'
      rw [classifyLoop, hθ']
      simp only [if_neg hn]
      exact ih (i + 1) (by omega) (by omega) (by omega)
        (fun j θ'' hj hjk h => hno j θ'' (by omega) hjk h)

/-- General form of the first-match rule of `classify`. -/
lemma classify_rule (acos : R → R) (M_PI : R) (s : SurfaceSegmenter R P)
    (cloud : List P) (coeffs : ModelCoefficients R)
    (hlen : s.vec_surface.length = s.m_coefficients.length) :
    (∀ k θ, getAngle acos M_PI s.m_coefficients coeffs k = .ok θ →
        (θ < ((3 : Nat) : R) ∨ ((177 : Nat) : R) < θ) →
        (∀ j θ', j < k → getAngle acos M_PI s.m_coefficients coeffs j = .ok θ' →
          ¬ (θ' < ((3 : Nat) : R) ∨ ((177 : Nat) : R) < θ')) →
        ∃ g, s.vec_surface[k]? = some g ∧
          classify acos M_PI s cloud coeffs
            = .ok { s with vec_surface := s.vec_surface.set k (g ++ cloud) }) ∧
    ((∀ j θ', getAngle acos M_PI s.m_coefficients coeffs j = .ok θ' →
          ¬ (θ' < ((3 : Nat) : R) ∨ ((177 : Nat) : R) < θ')) →
        classify acos M_PI s cloud coeffs
          = .ok { s with
              vec_surface := s.vec_surface ++ [cloud]
              m_coefficients := s.m_coefficients ++ [coeffs] }) := by
  refine ⟨?_, ?_⟩
  · intro k θ hk hθ hfirst
    have hklt : k < s.m_coefficients.length := by
      by_contra hge
      have hnone : s.m_coefficients[k]? = none := List.getElem?_eq_none (by omega)
      simp [getAngle, hnone] at hk
    have hkv : k < s.vec_surface.length := by omega
    refine ⟨s.vec_surface[k], List.getElem?_eq_getElem hkv, ?_⟩
    exact classifyLoop_first_match acos M_PI cloud coeffs s k θ _ hk hθ
      (List.getElem?_eq_getElem hkv) s.m_coefficients.length 0 (by omega) (by omega) (by omega)
      (fun j θ' _ hjk h => hfirst j θ' hjk h)
  · intro hno
    exact classifyLoop_no_match acos M_PI cloud coeffs s s.m_coefficients.length 0 (by omega)
      (fun j θ' _ h => hno j θ' h)

end

/-- Over the reals, the angle that `getAngle` reports between the normal
`(0, 0, 1)` and the unit normal at `d` degrees from it in the x-z plane is
`d`, for `0 ≤ d ≤ 180`. -/
lemma getAngle_real_degrees (d : ℝ) (h0 : 0 ≤ d) (h180 : d ≤ 180) (o1 o2 : ℝ) :
    getAngle Real.arccos Real.pi [⟨0, 0, 1, o1⟩]
      ⟨Real.sin (d * Real.pi / 180), 0, Real.cos (d * Real.pi / 180), o2⟩ 0 = .ok d := by
  have hpi : (0 : ℝ) < Real.pi := Real.pi_pos
  have hx0 : 0 ≤ d * Real.pi / 180 := by positivity
  have hx1 : d * Real.pi / 180 ≤ Real.pi := by
    rw [div_le_iff₀ (by norm_num)]
    nlinarith
  simp only [getAngle, List.getElem?_cons_zero, zero_mul, zero_add, one_mul, add_zero,
    Real.arccos_cos hx0 hx1, Nat.cast_ofNat]
  congr 1
  field_simp

/-- Outside tolerance the second extraction starts a second group. -/
lemma classifyTwo_new_group (d : ℝ) (h0 : 0 ≤ d) (h180 : d ≤ 180) (htol : ¬ (d < 3 ∨ 177 < d))
    (cloud1 cloud2 : List Nat) :
    classifyTwo Real.arccos Real.pi ⟨0, 0, 1, 0⟩
      ⟨Real.sin (d * Real.pi / 180), 0, Real.cos (d * Real.pi / 180), 0⟩ cloud1 cloud2 = .ok ⟨[], [], [cloud1, cloud2], [],
      [⟨0, 0, 1, 0⟩, ⟨Real.sin (d * Real.pi / 180), 0, Real.cos (d * Real.pi / 180), 0⟩]⟩ := by
  have hang := getAngle_real_degrees d h0 h180 0 0
  refine (classify_rule Real.arccos Real.pi
    (⟨[], [], [cloud1], [], [⟨0, 0, 1, 0⟩]⟩ : SurfaceSegmenter ℝ Nat) cloud2
    ⟨Real.sin (d * Real.pi / 180), 0, Real.cos (d * Real.pi / 180), 0⟩ rfl).2 ?_
  intro j θ' hj
  rcases Nat.eq_zero_or_pos j with h | h
  · subst h
    rw [hang] at hj
    cases hj
    simpa using htol
  · have hnone : ([⟨0, 0, 1, 0⟩] : List (ModelCoefficients ℝ))[j]? = none :=
      List.getElem?_eq_none (by simpa using h)
    simp [getAngle, hnone] at hj

section

variable {R P : Type} [Add R] [Mul R] [Div R] [NatCast R] [LT R]
  [DecidableRel (fun a b : R => a < b)]

/-- A cloud is the list of its points read off position by position. -/
lemma filterMap_range_getElem? (cloud : List P) :
    (List.range cloud.length).filterMap (fun i => cloud[i]?) = cloud := by
  induction cloud using List.reverseRecOn with
  | nil => rfl
  | append_singleton l a ih =>
    rw [List.length_append, List.length_singleton, List.range_succ, List.filterMap_append]
    have h1 : (List.range l.length).filterMap (fun i => (l ++ [a])[i]?)
        = (List.range l.length).filterMap (fun i => l[i]?) := by
      apply List.filterMap_congr
      intro i hi
      rw [List.mem_range] at hi
      exact List.getElem?_append_left hi
    rw [h1, ih]
    simp

/-- Extracting a set of distinct valid indices and its complement splits
the cloud: nothing is lost and nothing is duplicated. -/
lemma extractIndices_perm (cloud : List P) (indices : List Nat) (hnd : indices.Nodup)
    (hval : ∀ i ∈ indices, i < cloud.length) :
    (extractIndices cloud indices false ++ extractIndices cloud indices true).Perm cloud := by
  have hsel : ((List.range cloud.length).filter (fun i => indices.contains i)).Perm indices := by
    rw [List.perm_ext_iff_of_nodup ((List.nodup_range _).filter _) hnd]
    intro a
    simp only [List.mem_filter, List.mem_range, List.contains_eq_any_beq, List.any_eq_true,
      beq_iff_eq]
    constructor
    · rintro ⟨_, x, hx, rfl⟩; exact hx
    · intro h; exact ⟨hval a h, a, h, rfl⟩
  have hsplit := List.filter_append_perm (fun i => indices.contains i) (List.range cloud.length)
  have h1 : (indices ++ (List.range cloud.length).filter (fun i => !indices.contains i)).Perm
      (List.range cloud.length) := (hsel.symm.append_right _).trans hsplit
  have h2 := h1.filterMap (fun i => cloud[i]?)
  rw [List.filterMap_append, filterMap_range_getElem?] at h2
  simpa [extractIndices] using h2

/-- With valid indices the extracted plane has one point per index. -/
lemma extractIndices_length (cloud : List P) (indices : List Nat)
    (hval : ∀ i ∈ indices, i < cloud.length) :
    (extractIndices cloud indices false).length = indices.length := by
  simp only [extractIndices, Bool.false_eq_true, if_false]
  induction indices with
  | nil => rfl
  | cons i is ih =>
    have hi : i < cloud.length := hval i (List.mem_cons_self _ _)
    rw [List.filterMap_cons, List.getElem?_eq_getElem hi]
    simp only [List.length_cons]
    rw [ih (fun j hj => hval j (List.mem_cons_of_mem _ hj))]

/-- Replacing group `k` by itself followed by `c` adds exactly `c` to the
points of all groups. -/
lemma flatten_set_append (l : List (List P)) (k : Nat) (g c : List P) (hg : l[k]? = some g) :
    ((l.set k (g ++ c)).flatten).Perm (l.flatten ++ c) := by
  induction l generalizing k with
  | nil => simp at hg
  | cons a t ih =>
    cases k with
    | zero =>
      simp only [List.getElem?_cons_zero, Option.some.injEq] at hg
      subst hg
      simp only [List.set_cons_zero, List.flatten_cons, List.append_assoc]
      exact List.Perm.append_left _ List.perm_append_comm
    | succ k =>
      simp only [List.getElem?_cons_succ] at hg
      simp only [List.set_cons_succ, List.flatten_cons, List.append_assoc]
      exact List.Perm.append_left _ (ih k hg)

/-- The two outcomes of the `classify` loop on index-aligned lists. -/
lemma classifyLoop_cases (acos : R → R) (M_PI : R) (cloud : List P)
    (coeffs : ModelCoefficients R) (s : SurfaceSegmenter R P)
    (hlen : s.vec_surface.length = s.m_coefficients.length) :
    ∀ (r i : Nat), i + r ≤ s.m_coefficients.length →
      (∃ k g, s.vec_surface[k]? = some g ∧
        classifyLoop acos M_PI cloud coeffs s r i
          = .ok { s with vec_surface := s.vec_surface.set k (g ++ cloud) }) ∨
      classifyLoop acos M_PI cloud coeffs s r i
        = .ok { s with
            vec_surface := s.vec_surface ++ [cloud]
            m_coefficients := s.m_coefficients ++ [coeffs] } := by
  intro r
  induction r with
  | zero => intro i _; right; rfl
  | succ r ih =>
    intro i hir
    obtain ⟨θ, hθ⟩ := getAngle_isOk acos M_PI s.m_coefficients coeffs i (by omega)
    rw [classifyLoop, hθ]
    by_cases hc : θ < ((3 : Nat) : R) ∨ ((177 : Nat) : R) < θ
    · left
      have hiv : i < s.vec_surface.length := by omega
      refine ⟨i, s.vec_surface[i], List.getElem?_eq_getElem hiv, ?_⟩
      simp only [if_pos hc, List.getElem?_eq_getElem hiv]
    · simp only [if_neg hc]
      exact ih (i + 1) (by omega)

/-- What `classify` preserves: on index-aligned lists it returns, keeps the
lists aligned, leaves the accumulated surface cloud alone and adds exactly
the new plane's points to the groups. -/
lemma classify_effect (acos : R → R) (M_PI : R) (s : SurfaceSegmenter R P)
    (cloud : List P) (coeffs : ModelCoefficients R)
    (hlen : s.vec_surface.length = s.m_coefficients.length) :
    ∃ s1, classify acos M_PI s cloud coeffs = .ok s1 ∧
      s1.vec_surface.length = s1.m_coefficients.length ∧
      s1.cloud_surfaces_ = s.cloud_surfaces_ ∧
      (s1.vec_surface.flatten).Perm (s.vec_surface.flatten ++ cloud) := by
  rcases classifyLoop_cases acos M_PI cloud coeffs s hlen s.m_coefficients.length 0 (by omega)
    with ⟨k, g, hg, h⟩ | h
  · refine ⟨_, h, ?_, rfl, flatten_set_append _ k g cloud hg⟩
    simpa using hlen
  · refine ⟨_, h, ?_, rfl, ?_⟩
    · simp [hlen]
    · simp

/-- Invariant of the plane-removal loop: for an estimator returning distinct
valid indices and a step budget above the cloud size, the loop returns, and
the residual together with the groups is a rearrangement of the working
cloud and the groups it started from; the accumulated surface cloud keeps
holding the points of the groups. -/
lemma findSurfacesLoop_conserves {σ : Type} (acos : R → R) (M_PI : R)
    (segment : σ → List P → σ × List Nat × ModelCoefficients R)
    (hseg : ∀ e c, (segment e c).2.1.Nodup ∧ ∀ i ∈ (segment e c).2.1, i < c.length)
    (point_threshold : Nat) :
    ∀ (fuel : Nat) (est : σ) (c : List P) (s : SurfaceSegmenter R P),
      c.length < fuel → s.vec_surface.length = s.m_coefficients.length →
      s.cloud_surfaces_.Perm s.vec_surface.flatten →
      ∃ est1 residual s1,
        findSurfacesLoop acos M_PI segment point_threshold fuel est c s
          = .ok (est1, residual, s1) ∧
        (residual ++ s1.vec_surface.flatten).Perm (c ++ s.vec_surface.flatten) ∧
        s1.cloud_surfaces_.Perm s1.vec_surface.flatten := by
  intro fuel
  induction fuel with
  | zero => intro est c s h; omega
  | succ fuel ih =>
    intro est c s hfuel hlen hacc
    rw [findSurfacesLoop]
    by_cases hthr : point_threshold < c.length
    · rw [if_pos hthr]
      rcases hs : segment est c with ⟨est1, idx, coef⟩
      have hsegc := hseg est c
      rw [hs] at hsegc
      obtain ⟨hnd, hval⟩ := hsegc
      simp only
      by_cases hidx : idx.length = 0
      · rw [if_pos hidx]
        exact ⟨est1, c, s, rfl, List.Perm.refl _, hacc⟩
      · rw [if_neg hidx]
        have hperm := extractIndices_perm c idx hnd hval
        have hl := extractIndices_length c idx hval
        have hshrink : (extractIndices c idx true).length < fuel := by
          have := hperm.length_eq
          rw [List.length_append, hl] at this
          omega
        obtain ⟨s2, hcl, hlen2, hcs2, hfl2⟩ := classify_effect acos M_PI
          { s with cloud_surfaces_ := s.cloud_surfaces_ ++ extractIndices c idx false }
          (extractIndices c idx false) coef hlen
        rw [hcl]
        simp only
        have hacc2 : s2.cloud_surfaces_.Perm s2.vec_surface.flatten := by
          rw [hcs2]
          exact (hacc.append_right _).trans hfl2.symm
        obtain ⟨est3, res, s3, hrun, hp3, ha3⟩ :=
          ih est1 (extractIndices c idx true) s2 hshrink hlen2 hacc2
        refine ⟨est3, res, s3, hrun, ?_, ha3⟩
        refine hp3.trans ?_
        refine (List.Perm.append_left _ hfl2).trans ?_
        have h3 : (extractIndices c idx true ++ (s.vec_surface.flatten ++ extractIndices c idx false)).Perm
            ((extractIndices c idx false ++ extractIndices c idx true) ++ s.vec_surface.flatten) := by
          refine (List.perm_append_comm).trans ?_
          rw [List.append_assoc, List.append_assoc]
          refine List.perm_append_comm.trans ?_
          rw [List.append_assoc]
        exact h3.trans (hperm.append_right _)
    · rw [if_neg hthr]
      exact ⟨est, c, s, rfl, List.Perm.refl _, hacc⟩

end

/-- C2. `SurfaceSegmenter::findSurfaces` conserves points: for every input
cloud and every plane estimator returning distinct valid indices, the loop
ends (a step budget above the cloud size suffices), the residual cloud
together with the points of all surface groups is a permutation of the
input, the accumulated surface cloud holds exactly the points of the
groups, and, the input points being distinct individuals, no point of the
residual is among the extracted inliers. -/
theorem findSurfaces_conserves_points {R P σ : Type} [Add R] [Mul R] [Div R] [NatCast R]
    [LT R] [DecidableRel (fun a b : R => a < b)]
    (acos : R → R) (M_PI : R)
    (segment : σ → List P → σ × List Nat × ModelCoefficients R)
    (fuel : Nat) (est : σ) (cloud : List P) (s : SurfaceSegmenter R P)
    (hseg : ∀ e c, (segment e c).2.1.Nodup ∧ ∀ i ∈ (segment e c).2.1, i < c.length)
    (hfuel : cloud.length < fuel) :
    ∃ est1 residual s1,
      findSurfaces acos M_PI segment fuel est cloud s = .ok (est1, residual, s1) ∧
      (residual ++ s1.vec_surface.flatten).Perm cloud ∧
      s1.cloud_surfaces_.Perm s1.vec_surface.flatten ∧
      (cloud.Nodup → ∀ p ∈ residual, p ∉ s1.cloud_surfaces_) := by
  obtain ⟨est1, residual, s1, hrun, hperm, hacc⟩ :=
    findSurfacesLoop_conserves acos M_PI segment hseg (cloud.length / 10) fuel est cloud
      (⟨[], [], [], [], []⟩ : SurfaceSegmenter R P) hfuel rfl (List.Perm.refl _)
  refine ⟨est1, residual, s1, hrun, by simpa using hperm, hacc, ?_⟩
  intro hnd p hp hps
  have hperm1 : (residual ++ s1.vec_surface.flatten).Perm cloud := by simpa using hperm
  have hnd1 : (residual ++ s1.vec_surface.flatten).Nodup := hperm1.nodup_iff.mpr hnd
  have hdis := (List.nodup_append.mp hnd1).2.2
  exact hdis hp (hacc.subset hps)

/-- Witness for C2 over the reals, with the estimator `firstAndThird` on a
cloud of five distinct points. -/
theorem findSurfaces_conserves_points_witness :
    ∃ est1 residual s1,
      findSurfaces Real.arccos Real.pi firstAndThird 6 () [10, 20, 30, 40, 50]
        (⟨[], [], [], [], []⟩ : SurfaceSegmenter ℝ Nat) = .ok (est1, residual, s1) ∧
      (residual ++ s1.vec_surface.flatten).Perm [10, 20, 30, 40, 50] ∧
      s1.cloud_surfaces_.Perm s1.vec_surface.flatten ∧
      (([10, 20, 30, 40, 50] : List Nat).Nodup → ∀ p ∈ residual, p ∉ s1.cloud_surfaces_) :=
  findSurfaces_conserves_points Real.arccos Real.pi firstAndThird 6 () [10, 20, 30, 40, 50]
    ⟨[], [], [], [], []⟩
    (by
      intro e c
      simp only [firstAndThird]
      split_ifs with h
      · refine ⟨by decide, ?_⟩
        intro i hi
        simp only [List.mem_cons, List.mem_singleton, List.not_mem_nil, or_false] at hi
        omega
      · exact ⟨List.nodup_nil, fun i hi => absurd hi (List.not_mem_nil i)⟩)
    (by decide)

section

variable {K V : Type} [DecidableEq K]

/-- A key is missing from the map exactly when no entry carries it. -/
lemma mapFind_eq_none_iff (key : K) (m : List (K × V)) :
    mapFind key m = none ↔ key ∉ m.map Prod.fst := by
  induction m with
  | nil => simp [mapFind]
  | cons e rest ih =>
    obtain ⟨k, v⟩ := e
    by_cases h : k = key
    · simp [mapFind, h]
    · simp only [mapFind, h, if_false, ih, List.map_cons, List.mem_cons, not_or]
      constructor
      · intro h1; exact ⟨fun h2 => h h2.symm, h1⟩
      · intro h1; exact h1.2

/-- With distinct keys, lookup returns the value of the entry of the key. -/
lemma mapFind_eq_some_iff (key : K) (v : V) (m : List (K × V)) (hnd : (m.map Prod.fst).Nodup) :
    mapFind key m = some v ↔ (key, v) ∈ m := by
  induction m with
  | nil => simp [mapFind]
  | cons e rest ih =>
    obtain ⟨k, w⟩ := e
    simp only [List.map_cons, List.nodup_cons] at hnd
    by_cases h : k = key
    · subst h
      simp only [mapFind, if_true, Option.some.injEq, List.mem_cons, Prod.mk.injEq, true_and]
      constructor
      · intro h1; exact Or.inl h1.symm
      · rintro (h1 | h1)
        · exact h1.symm
        · exact absurd (List.mem_map_of_mem Prod.fst h1) hnd.1
    · simp only [mapFind, h, if_false, ih hnd.2, List.mem_cons, Prod.mk.injEq]
      constructor
      · intro h1; exact Or.inr h1
      · rintro (h1 | h1)
        · exact absurd h1.1.symm h
        · exact h1

/-- Assignment through `map[key]` changes no key. -/
lemma mapModify_keys (key : K) (f : V → V) (m : List (K × V)) :
    (mapModify key f m).map Prod.fst = m.map Prod.fst := by
  induction m with
  | nil => rfl
  | cons e rest ih =>
    obtain ⟨k, v⟩ := e
    by_cases h : k = key
    · simp [mapModify, h]
    · simp [mapModify, h, ih]

/-- Indexing `map[key]` keeps the keys distinct. -/
lemma mapIndex_keys_nodup (key : K) (dflt : V) (m : List (K × V))
    (hnd : (m.map Prod.fst).Nodup) : ((mapIndex key dflt m).map Prod.fst).Nodup := by
  unfold mapIndex
  cases h : mapFind key m with
  | none =>
    simp only [List.map_append, List.map_cons, List.map_nil]
    rw [List.nodup_append]
    refine ⟨hnd, List.nodup_singleton _, ?_⟩
    intro a ha hb
    rw [List.mem_singleton] at hb
    subst hb
    exact (mapFind_eq_none_iff _ m).mp h ha
  | some v => exact hnd

end

section

variable {φ τ R : Type}

/-- Accepted points of two call sequences in a row. -/
lemma acceptedPoints_append (a b : List (FilterCall R)) :
    acceptedPoints (a ++ b) = acceptedPoints a ++ acceptedPoints b := by
  induction a with
  | nil => rfl
  | cons c rest ih =>
    cases c with
    | apply i p => simpa [acceptedPoints] using ih
    | newPoint p => simpa [acceptedPoints] using ih

/-- The filter chain itself makes no `newPoint` call. -/
lemma acceptedPoints_applyFilters (fs : List (PointFilter φ R)) :
    ∀ (i : Nat) (p : PointXYZ R), acceptedPoints (applyFilters fs i p).2.2.2 = [] := by
  induction fs with
  | nil => intro i p; rfl
  | cons f rest ih =>
    intro i p
    unfold applyFilters
    rcases hf : f.apply f.state p with ⟨st, p1, accepted⟩
    cases accepted with
    | true => simpa [acceptedPoints] using ih (i + 1) p1
    | false => simp [acceptedPoints]

/-- What the point loop does to the members of the concrete source and to
the filtered cloud is the `newPoint` hook run over the accepted points in
order. -/
lemma pointLoop_state_eq_foldl (isfinite : R → Bool) (hooks : FilterHooks τ R) :
    ∀ (cloud : List (PointXYZ R)) (fs : List (PointFilter φ R)) (t : τ)
      (filtered : List (PointXYZ R)),
      ((pointLoop isfinite hooks cloud fs t filtered).2.1,
        (pointLoop isfinite hooks cloud fs t filtered).2.2.1)
        = (acceptedPoints (pointLoop isfinite hooks cloud fs t filtered).2.2.2).foldl
            (fun st p => hooks.newPoint st.1 p st.2) (t, filtered) := by
  intro cloud
  induction cloud with
  | nil => intro fs t filtered; rfl
  | cons p rest ih =>
    intro fs t filtered
    rw [pointLoop]
    by_cases hfin : (!isfinite p.x || !isfinite p.y || !isfinite p.z) = true
    · rw [if_pos hfin]
      exact ih fs t filtered
    · rw [if_neg hfin]
      simp only
      by_cases hv : (applyFilters fs 0 p).2.2.1 = true
      · rw [if_pos hv]
        simp only [acceptedPoints_append, acceptedPoints_applyFilters, List.nil_append,
          acceptedPoints, List.foldl_cons]
        exact ih _ _ _
      · rw [if_neg hv]
        simp only [acceptedPoints_append, acceptedPoints_applyFilters, List.nil_append]
        exact ih _ _ _

end

section

variable {R : Type} [Mul R] [Div R] [NatCast R] [IntCast R]

/-- Running the `newPoint` hook of `ProbFilteredVideoSource` over a list of
points updates the members point by point and leaves the filtered cloud
alone. -/
lemma prob_foldl_newPoint (toInt : R → Int) :
    ∀ (pts : List (PointXYZ R)) (s : ProbFilteredVideoSource) (filtered : List (PointXYZ R)),
      pts.foldl (fun st p => (ProbFilteredVideoSource.hooks toInt).newPoint st.1 p st.2)
          (s, filtered)
        = (pts.foldl (ProbFilteredVideoSource.newPoint toInt) s, filtered) := by
  intro pts
  induction pts with
  | nil => intro s filtered; rfl
  | cons p rest ih =>
    intro s filtered
    simp only [List.foldl_cons]
    exact ih _ _

/-- The members of `ProbFilteredVideoSource` when `getFiltered` is called in
a frame: `newFrame`, then `newPoint` for each accepted point. -/
lemma prob_state_before_getFiltered {φ : Type} (isfinite : R → Bool) (toInt : R → Int)
    (fs : List (PointFilter φ R)) (s : ProbFilteredVideoSource) (cloud : List (PointXYZ R)) :
    (pointLoop isfinite (ProbFilteredVideoSource.hooks toInt) cloud fs s []).2.1
        = (acceptedPoints
            (pointLoop isfinite (ProbFilteredVideoSource.hooks toInt) cloud fs s []).2.2.2).foldl
            (ProbFilteredVideoSource.newPoint toInt) s ∧
    (pointLoop isfinite (ProbFilteredVideoSource.hooks toInt) cloud fs s []).2.2.1 = [] := by
  have h := pointLoop_state_eq_foldl isfinite (ProbFilteredVideoSource.hooks toInt) cloud fs s []
  rw [prob_foldl_newPoint] at h
  exact ⟨congrArg Prod.fst h, congrArg Prod.snd h⟩

/-- The points pushed by the scan of `getFiltered`: one rebuilt point per
entry whose updated word has at least ten set bits, in scan order. -/
lemma getFilteredLoop_pushed (this_frame : List MapPoint) :
    ∀ (entries : List (MapPoint × Nat)) (min_pt max_pt : MapPoint),
      (getFilteredLoop (R := R) this_frame entries min_pt max_pt).2.2.2
        = ((entries.map fun e =>
              (e.1, if e.1 ∈ this_frame then e.2 else (e.2 <<< 1) % 4294967296)).filter
            (fun e => decide (10 ≤ popcount e.2))).map (fun e => voxelCentre e.1) := by
  intro entries
  induction entries with
  | nil => intro _ _; rfl
  | cons e rest ih =>
    intro min_pt max_pt
    obtain ⟨key, word⟩ := e
    rw [getFilteredLoop]
    simp only [List.map_cons, List.filter_cons, decide_eq_true_eq]
    split_ifs <;> simp [voxelCentre, ih]

/-- Running `newPoint` keeps the keys of the dictionary distinct. -/
lemma newPoint_keys_nodup (toInt : R → Int) (s : ProbFilteredVideoSource) (p : PointXYZ R)
    (hnd : (s.all_points_.map Prod.fst).Nodup) :
    ((ProbFilteredVideoSource.newPoint toInt s p).all_points_.map Prod.fst).Nodup := by
  simp only [ProbFilteredVideoSource.newPoint, mapModify_keys]
  exact mapIndex_keys_nodup _ _ _ hnd

/-- Running `newPoint` over a list of points keeps the keys distinct. -/
lemma foldl_newPoint_keys_nodup (toInt : R → Int) :
    ∀ (pts : List (PointXYZ R)) (s : ProbFilteredVideoSource),
      (s.all_points_.map Prod.fst).Nodup →
      ((pts.foldl (ProbFilteredVideoSource.newPoint toInt) s).all_points_.map Prod.fst).Nodup := by
  intro pts
  induction pts with
  | nil => intro s h; exact h
  | cons p rest ih =>
    intro s h
    exact ih _ (newPoint_keys_nodup toInt s p h)

end

/-- C5. Bit-history filter, emission: the filtered cloud of a frame is one
rebuilt point (voxel key divided by 100) for each voxel of the dictionary
scanned by `getFiltered` whose history word after the frame's update has at
least 10 set bits, each such voxel once, and nothing else; a voxel with
fewer than 10 set bits is not among them. -/
theorem probFiltered_emits_voxels_with_ten_bits {φ R : Type} [Mul R] [Div R] [NatCast R]
    [IntCast R] (isfinite : R → Bool) (toInt : R → Int)
    (point_filters_ : List (PointFilter φ R)) (s : ProbFilteredVideoSource)
    (cloud : List (PointXYZ R)) (hkeys : (s.all_points_.map Prod.fst).Nodup) :
    ∃ keys : List MapPoint, keys.Nodup ∧
      (∀ k, k ∈ keys ↔ ∃ w,
        mapFind k (wordsAfterFrame
          (pointLoop isfinite (ProbFilteredVideoSource.hooks toInt) cloud
            (point_filters_.map fun f => { f with state := f.prepareNext f.state })
            s.newFrame []).2.1) = some w ∧ 10 ≤ popcount w) ∧
      (notifyNewFrame isfinite (ProbFilteredVideoSource.hooks toInt) point_filters_ s
        cloud).2.2.1 = keys.map voxelCentre := by
  obtain ⟨hst, hfl⟩ := prob_state_before_getFiltered isfinite toInt
    (point_filters_.map fun f => { f with state := f.prepareNext f.state }) s.newFrame cloud
  set scanned := (pointLoop isfinite (ProbFilteredVideoSource.hooks toInt) cloud
    (point_filters_.map fun f => { f with state := f.prepareNext f.state }) s.newFrame []).2.1
    with hscanned
  have hnd : (scanned.all_points_.map Prod.fst).Nodup := by
    rw [hst]
    exact foldl_newPoint_keys_nodup toInt _ _ hkeys
  have hnd2 : ((wordsAfterFrame scanned).map Prod.fst).Nodup := by
    simpa [wordsAfterFrame, Function.comp_def] using hnd
  refine ⟨((wordsAfterFrame scanned).filter (fun e => decide (10 ≤ popcount e.2))).map Prod.fst,
    ?_, ?_, ?_⟩
  · exact (List.Nodup.sublist (List.Sublist.map _ (List.filter_sublist _)) hnd2)
  · intro k
    simp only [List.mem_map, List.mem_filter, decide_eq_true_eq, Prod.exists, exists_and_right,
      exists_eq_right]
    constructor
    · rintro ⟨w, hmem, hpop⟩
      exact ⟨w, (mapFind_eq_some_iff k w _ hnd2).mpr hmem, hpop⟩
    · rintro ⟨w, hfind, hpop⟩
      exact ⟨w, (mapFind_eq_some_iff k w _ hnd2).mp hfind, hpop⟩
  · have hout : (notifyNewFrame isfinite (ProbFilteredVideoSource.hooks toInt) point_filters_ s
        cloud).2.2.1 = (pointLoop isfinite (ProbFilteredVideoSource.hooks toInt) cloud
          (point_filters_.map fun f => { f with state := f.prepareNext f.state })
          s.newFrame []).2.2.1 ++ (getFilteredLoop (R := R) scanned.this_frame_
            scanned.all_points_ scanned.min_pt scanned.max_pt).2.2.2 := rfl
    rw [hfl, List.nil_append] at hout
    rw [hout, getFilteredLoop_pushed]
    simp [wordsAfterFrame, List.map_map, Function.comp_def]

section

variable {φ τ R : Type}

/-- The point loop never looks at a point with a non-finite coordinate: the
filters, the hooks and the calls are those of the cloud without such
points. -/
lemma pointLoop_skips_nonfinite (isfinite : R → Bool) (hooks : FilterHooks τ R) :
    ∀ (cloud : List (PointXYZ R)) (fs : List (PointFilter φ R)) (t : τ)
      (filtered : List (PointXYZ R)),
      pointLoop isfinite hooks cloud fs t filtered
        = pointLoop isfinite hooks (cloud.filter (finitePoint isfinite)) fs t filtered := by
  intro cloud
  induction cloud with
  | nil => intro fs t filtered; rfl
  | cons p rest ih =>
    intro fs t filtered
    by_cases hfin : finitePoint isfinite p = true
    · have hcond : ¬ ((!isfinite p.x || !isfinite p.y || !isfinite p.z) = true) := by
        simp only [finitePoint, Bool.and_eq_true] at hfin
        simp [hfin.1.1, hfin.1.2, hfin.2]
      rw [List.filter_cons_of_pos hfin, pointLoop, pointLoop, if_neg hcond, if_neg hcond]
      simp only [ih]
    · have hcond : (!isfinite p.x || !isfinite p.y || !isfinite p.z) = true := by
        simp only [finitePoint, Bool.and_eq_true, not_and_or, Bool.not_eq_true] at hfin
        rcases hfin with (h | h) | h <;> simp [h]
      rw [List.filter_cons_of_neg hfin, pointLoop, if_pos hcond]
      exact ih fs t filtered

/-- The point loop over two clouds in a row: the second is processed from
where the first left the filters, the source and the filtered cloud, and the
calls follow each other in input order. -/
lemma pointLoop_append (isfinite : R → Bool) (hooks : FilterHooks τ R) :
    ∀ (c1 c2 : List (PointXYZ R)) (fs : List (PointFilter φ R)) (t : τ)
      (filtered : List (PointXYZ R)),
      pointLoop isfinite hooks (c1 ++ c2) fs t filtered
        = ((pointLoop isfinite hooks c2 (pointLoop isfinite hooks c1 fs t filtered).1
              (pointLoop isfinite hooks c1 fs t filtered).2.1
              (pointLoop isfinite hooks c1 fs t filtered).2.2.1).1,
            (pointLoop isfinite hooks c2 (pointLoop isfinite hooks c1 fs t filtered).1
              (pointLoop isfinite hooks c1 fs t filtered).2.1
              (pointLoop isfinite hooks c1 fs t filtered).2.2.1).2.1,
            (pointLoop isfinite hooks c2 (pointLoop isfinite hooks c1 fs t filtered).1
              (pointLoop isfinite hooks c1 fs t filtered).2.1
              (pointLoop isfinite hooks c1 fs t filtered).2.2.1).2.2.1,
            (pointLoop isfinite hooks c1 fs t filtered).2.2.2 ++
              (pointLoop isfinite hooks c2 (pointLoop isfinite hooks c1 fs t filtered).1
                (pointLoop isfinite hooks c1 fs t filtered).2.1
                (pointLoop isfinite hooks c1 fs t filtered).2.2.1).2.2.2) := by
  intro c1
  induction c1 with
  | nil => intro c2 fs t filtered; rfl
  | cons p rest ih =>
    intro c2 fs t filtered
    show pointLoop isfinite hooks (p :: (rest ++ c2)) fs t filtered = _
    rw [pointLoop, pointLoop]
    by_cases hfin : (!isfinite p.x || !isfinite p.y || !isfinite p.z) = true
    · rw [if_pos hfin, if_pos hfin]
      exact ih c2 fs t filtered
    · rw [if_neg hfin, if_neg hfin]
      simp only
      by_cases hv : (applyFilters fs 0 p).2.2.1 = true
      · rw [if_pos hv, if_pos hv, ih]
        simp only [List.append_assoc, List.cons_append]
      · rw [if_neg hv, if_neg hv, ih]
        simp only [List.append_assoc]

/-- The filter chain on one point: `n` filters are applied, the first `n` in
registration order, filter `j` to the point `q j` left by the one before it
(`q 0` is the input); all but possibly the last accept; the chain is valid
exactly when every filter was applied and accepted, and otherwise the last
one applied is the one that rejected. -/
lemma applyFilters_chain (fs : List (PointFilter φ R)) :
    ∀ (i : Nat) (p : PointXYZ R), ∃ (n : Nat) (q : Nat → PointXYZ R),
      n ≤ fs.length ∧ q 0 = p ∧ (applyFilters fs i p).2.1 = q n ∧
      (applyFilters fs i p).2.2.2 = (List.range n).map (fun j => FilterCall.apply (i + j) (q j)) ∧
      (∀ j f, j < n → fs[j]? = some f → (f.apply f.state (q j)).2.1 = q (j + 1)) ∧
      (∀ j f, j + 1 < n → fs[j]? = some f → (f.apply f.state (q j)).2.2 = true) ∧
      ((applyFilters fs i p).2.2.1 = true →
        n = fs.length ∧ ∀ j f, j < n → fs[j]? = some f → (f.apply f.state (q j)).2.2 = true) ∧
      ((applyFilters fs i p).2.2.1 = false →
        ∃ f, 0 < n ∧ fs[n - 1]? = some f ∧ (f.apply f.state (q (n - 1))).2.2 = false) := by
  induction fs with
  | nil =>
    intro i p
    refine ⟨0, fun _ => p, le_refl _, rfl, rfl, rfl, ?_, ?_, ?_, ?_⟩
    · intro j f hj; omega
    · intro j f hj; omega
    · intro _; exact ⟨rfl, fun j f hj => by omega⟩
    · intro h; simp [applyFilters] at h
  | cons f rest ih =>
    intro i p
    rcases hf : f.apply f.state p with ⟨st, p1, accepted⟩
    cases accepted with
    | false =>
      refine ⟨1, fun j => if j = 0 then p else p1, by simp, rfl, ?_, ?_, ?_, ?_, ?_, ?_⟩
      · simp [applyFilters, hf]
      · simp [applyFilters, hf, List.range_succ]
      · intro j g hj hg
        have hj0 : j = 0 := by omega
        subst hj0
        simp only [List.getElem?_cons_zero, Option.some.injEq] at hg
        subst hg
        simp [hf]
      · intro j g hj; omega
      · intro h; simp [applyFilters, hf] at h
      · intro _
        exact ⟨f, by omega, by simp, by simp [hf]⟩
    | true =>
      obtain ⟨n, q, hn, hq0, hqn, hcalls, hstep, hacc, hvalid, hinvalid⟩ := ih (i + 1) p1
      have hunf : applyFilters (f :: rest) i p
          = ({ f with state := st } :: (applyFilters rest (i + 1) p1).1,
              (applyFilters rest (i + 1) p1).2.1, (applyFilters rest (i + 1) p1).2.2.1,
              FilterCall.apply i p :: (applyFilters rest (i + 1) p1).2.2.2) := by
        rw [applyFilters, hf]
        simp
      refine ⟨n + 1, fun j => match j with | 0 => p | j + 1 => q j, by simpa using hn, rfl,
        ?_, ?_, ?_, ?_, ?_, ?_⟩
      · rw [hunf]; exact hqn
      · rw [hunf]
        simp only [hcalls, List.range_succ_eq_map, List.map_cons, List.map_map, add_zero]
        congr 1
        apply List.map_congr_left
        intro j _
        simp only [Function.comp_apply, Nat.succ_eq_add_one]
        congr 1
        omega
      · intro j g hj hg
        cases j with
        | zero =>
          simp only [List.getElem?_cons_zero, Option.some.injEq] at hg
          subst hg
          simp [hf, hq0]
        | succ j =>
          simp only [List.getElem?_cons_succ] at hg
          exact hstep j g (by omega) hg
      · intro j g hj hg
        cases j with
        | zero =>
          simp only [List.getElem?_cons_zero, Option.some.injEq] at hg
          subst hg
          simp [hf]
        | succ j =>
          simp only [List.getElem?_cons_succ] at hg
          exact hacc j g (by omega) hg
      · intro h
        rw [hunf] at h
        obtain ⟨h1, h2⟩ := hvalid h
        refine ⟨by simp [h1], ?_⟩
        intro j g hj hg
        cases j with
        | zero =>
          simp only [List.getElem?_cons_zero, Option.some.injEq] at hg
          subst hg
          simp [hf]
        | succ j =>
          simp only [List.getElem?_cons_succ] at hg
          exact h2 j g (by omega) hg
      · intro h
        rw [hunf] at h
        obtain ⟨g, hpos, hg, hrej⟩ := hinvalid h
        refine ⟨g, by omega, ?_, ?_⟩
        · obtain ⟨m, rfl⟩ : ∃ m, n = m + 1 := ⟨n - 1, by omega⟩
          simpa using hg
        · obtain ⟨m, rfl⟩ : ∃ m, n = m + 1 := ⟨n - 1, by omega⟩
          simpa using hrej

/-- Filters whose `apply` leaves their own state alone come back from the
chain unchanged. -/
lemma applyFilters_stateless (fs : List (PointFilter φ R))
    (h : ∀ f ∈ fs, ∀ st p, (f.apply st p).1 = st) :
    ∀ (i : Nat) (p : PointXYZ R), (applyFilters fs i p).1 = fs := by
  induction fs with
  | nil => intro i p; rfl
  | cons f rest ih =>
    intro i p
    have hst := h f (List.mem_cons_self _ _) f.state p
    rcases hf : f.apply f.state p with ⟨st, p1, accepted⟩
    rw [hf] at hst
    simp only at hst
    subst hst
    rw [applyFilters, hf]
    cases accepted with
    | true => simp [ih (fun g hg => h g (List.mem_cons_of_mem _ hg)) (i + 1) p1]
    | false => simp

/-- With such filters the `newPoint` calls of the point loop are the finite
points that pass the chain, as the chain leaves them, in input order. -/
lemma pointLoop_accepted_stateless (isfinite : R → Bool) (hooks : FilterHooks τ R)
    (fs : List (PointFilter φ R)) (h : ∀ f ∈ fs, ∀ st p, (f.apply st p).1 = st) :
    ∀ (cloud : List (PointXYZ R)) (t : τ) (filtered : List (PointXYZ R)),
      acceptedPoints (pointLoop isfinite hooks cloud fs t filtered).2.2.2
        = (cloud.filter (finitePoint isfinite)).filterMap (fun p =>
            if (applyFilters fs 0 p).2.2.1 then some (applyFilters fs 0 p).2.1 else none) := by
  intro cloud
  induction cloud with
  | nil => intro t filtered; rfl
  | cons p rest ih =>
    intro t filtered
    rw [pointLoop_skips_nonfinite]
    by_cases hfin : finitePoint isfinite p = true
    · have hcond : ¬ ((!isfinite p.x || !isfinite p.y || !isfinite p.z) = true) := by
        simp only [finitePoint, Bool.and_eq_true] at hfin
        simp [hfin.1.1, hfin.1.2, hfin.2]
      rw [List.filter_cons_of_pos hfin, pointLoop, if_neg hcond, List.filterMap_cons]
      simp only [applyFilters_stateless fs h 0 p]
      by_cases hv : (applyFilters fs 0 p).2.2.1 = true
      · rw [if_pos hv]
        simp only [hv, if_true, acceptedPoints_append, acceptedPoints_applyFilters,
          List.nil_append, acceptedPoints]
        rw [← pointLoop_skips_nonfinite, ih]
      · rw [if_neg hv]
        simp only [hv, acceptedPoints_append, acceptedPoints_applyFilters, List.nil_append]
        rw [← pointLoop_skips_nonfinite, ih]
        simp
    · rw [List.filter_cons_of_neg hfin, ← pointLoop_skips_nonfinite]
      exact ih t filtered

end

/-- C7. `FilteredVideoSource::notifyNewFrame`, point-wise chain. A point with
a non-finite coordinate is passed to no filter and to no `newPoint` call
(the whole frame is that of the cloud without such points). For a finite
point the filters are applied in registration order, each to the point as
left by the previous one, and none after the first that rejects. The calls
of a frame are those of its points in input order, a `newPoint` call
following the chain of each point that passed, and the source is driven by
exactly these `newPoint` calls; `SimpleFilteredVideoSource` emits them as
its cloud. For filters whose `apply` keeps no state the `newPoint` calls are
the finite points accepted by all filters, in input order. -/
theorem notifyNewFrame_pointwise_chain {φ τ R : Type} (isfinite : R → Bool)
    (hooks : FilterHooks τ R) (point_filters_ : List (PointFilter φ R)) (t : τ)
    (cloud : List (PointXYZ R)) :
    notifyNewFrame isfinite hooks point_filters_ t cloud
      = notifyNewFrame isfinite hooks point_filters_ t (cloud.filter (finitePoint isfinite)) ∧
    (∀ (fs : List (PointFilter φ R)) (t1 : τ) (filtered : List (PointXYZ R)) (p : PointXYZ R),
      finitePoint isfinite p = false →
        pointLoop isfinite hooks [p] fs t1 filtered = (fs, t1, filtered, [])) ∧
    (∀ (fs : List (PointFilter φ R)) (i : Nat) (p : PointXYZ R),
      ∃ (n : Nat) (q : Nat → PointXYZ R),
        n ≤ fs.length ∧ q 0 = p ∧ (applyFilters fs i p).2.1 = q n ∧
        (applyFilters fs i p).2.2.2
          = (List.range n).map (fun j => FilterCall.apply (i + j) (q j)) ∧
        (∀ j f, j < n → fs[j]? = some f → (f.apply f.state (q j)).2.1 = q (j + 1)) ∧
        (∀ j f, j + 1 < n → fs[j]? = some f → (f.apply f.state (q j)).2.2 = true) ∧
        ((applyFilters fs i p).2.2.1 = true →
          n = fs.length ∧
            ∀ j f, j < n → fs[j]? = some f → (f.apply f.state (q j)).2.2 = true) ∧
        ((applyFilters fs i p).2.2.1 = false →
          ∃ f, 0 < n ∧ fs[n - 1]? = some f ∧ (f.apply f.state (q (n - 1))).2.2 = false)) ∧
    (∀ (fs : List (PointFilter φ R)) (t1 : τ) (filtered : List (PointXYZ R)) (p : PointXYZ R),
      finitePoint isfinite p = true →
        (pointLoop isfinite hooks [p] fs t1 filtered).2.2.2
          = (applyFilters fs 0 p).2.2.2 ++
              (if (applyFilters fs 0 p).2.2.1 then [FilterCall.newPoint (applyFilters fs 0 p).2.1]
                else [])) ∧
    (∀ (c1 c2 : List (PointXYZ R)) (fs : List (PointFilter φ R)) (t1 : τ)
      (filtered : List (PointXYZ R)),
      (pointLoop isfinite hooks (c1 ++ c2) fs t1 filtered).2.2.2
        = (pointLoop isfinite hooks c1 fs t1 filtered).2.2.2 ++
            (pointLoop isfinite hooks c2 (pointLoop isfinite hooks c1 fs t1 filtered).1
              (pointLoop isfinite hooks c1 fs t1 filtered).2.1
              (pointLoop isfinite hooks c1 fs t1 filtered).2.2.1).2.2.2) ∧
    (∀ (fs : List (PointFilter φ R)) (t1 : τ) (filtered : List (PointXYZ R)),
      ((pointLoop isfinite hooks cloud fs t1 filtered).2.1,
        (pointLoop isfinite hooks cloud fs t1 filtered).2.2.1)
        = (acceptedPoints (pointLoop isfinite hooks cloud fs t1 filtered).2.2.2).foldl
            (fun st p => hooks.newPoint st.1 p st.2) (t1, filtered)) ∧
    (∀ fs : List (PointFilter φ R),
      (notifyNewFrame isfinite SimpleFilteredVideoSource fs () cloud).2.2.1
        = acceptedPoints
            (notifyNewFrame isfinite SimpleFilteredVideoSource fs () cloud).2.2.2) ∧
    ((∀ f ∈ point_filters_, ∀ st p, (f.apply st p).1 = st) →
      acceptedPoints (notifyNewFrame isfinite hooks point_filters_ t cloud).2.2.2
        = (cloud.filter (finitePoint isfinite)).filterMap (fun p =>
            if (applyFilters
                (point_filters_.map fun f => { f with state := f.prepareNext f.state })
                0 p).2.2.1
            then some (applyFilters
                (point_filters_.map fun f => { f with state := f.prepareNext f.state })
                0 p).2.1
            else none)) := by
  refine ⟨?_, ?_, ?_, ?_, ?_, ?_, ?_, ?_⟩
  · simp only [notifyNewFrame]
    rw [← pointLoop_skips_nonfinite]
  · intro fs t1 filtered p hp
    have hcond : (!isfinite p.x || !isfinite p.y || !isfinite p.z) = true := by
      simp only [finitePoint, Bool.and_eq_false_iff] at hp
      rcases hp with (h | h) | h <;> simp [h]
    rw [pointLoop, if_pos hcond]
    rfl
  · intro fs i p
    exact applyFilters_chain fs i p
  · intro fs t1 filtered p hp
    have hcond : ¬ ((!isfinite p.x || !isfinite p.y || !isfinite p.z) = true) := by
      simp only [finitePoint, Bool.and_eq_true] at hp
      simp [hp.1.1, hp.1.2, hp.2]
    rw [pointLoop, if_neg hcond]
    simp only
    split <;> simp [pointLoop]
  · intro c1 c2 fs t1 filtered
    rw [pointLoop_append]
  · intro fs t1 filtered
    exact pointLoop_state_eq_foldl isfinite hooks cloud fs t1 filtered
  · intro fs
    have h := pointLoop_state_eq_foldl isfinite (SimpleFilteredVideoSource (R := R)) cloud
      (fs.map fun f => { f with state := f.prepareNext f.state }) () []
    have hfold : ∀ (pts acc : List (PointXYZ R)),
        pts.foldl (fun st p => (SimpleFilteredVideoSource (R := R)).newPoint st.1 p st.2) ((), acc)
          = ((), acc ++ pts) := by
      intro pts
      induction pts with
      | nil => intro acc; simp
      | cons p rest ih =>
        intro acc
        simp only [List.foldl_cons]
        rw [show (SimpleFilteredVideoSource (R := R)).newPoint () p acc = ((), acc ++ [p])
          from rfl, ih]
        simp
    rw [hfold] at h
    have h2 := congrArg Prod.snd h
    simp only [List.nil_append] at h2
    exact h2
  · intro hst
    have hst2 : ∀ f ∈ point_filters_.map (fun f => { f with state := f.prepareNext f.state }),
        ∀ st p, (f.apply st p).1 = st := by
      intro f hf st p
      rw [List.mem_map] at hf
      obtain ⟨g, hg, rfl⟩ := hf
      exact hst g hg st p
    exact pointLoop_accepted_stateless isfinite hooks _ hst2 cloud _ _

/-- Witness for C7: a filter adding one to `x` followed by a filter rejecting
`x = 3`, neither keeping state, on a cloud whose second point has a
non-finite `x` (`none`): only the first point reaches `newPoint`, as left
by the first filter. -/
theorem notifyNewFrame_pointwise_chain_witness :
    acceptedPoints (notifyNewFrame (fun v : Option Int => v.isSome)
        (SimpleFilteredVideoSource (R := Option Int))
        [⟨(), id, fun st p => (st, ⟨p.x.map (· + 1), p.y, p.z⟩, true)⟩,
          ⟨(), id, fun st p => (st, p, decide (p.x ≠ some 3))⟩] ()
        [⟨some 1, some 0, some 0⟩, ⟨none, some 0, some 0⟩, ⟨some 2, some 0, some 0⟩]).2.2.2
      = [⟨some 2, some 0, some 0⟩] :=
  ((notifyNewFrame_pointwise_chain (fun v : Option Int => v.isSome)
      (SimpleFilteredVideoSource (R := Option Int))
      [⟨(), id, fun st p => (st, ⟨p.x.map (· + 1), p.y, p.z⟩, true)⟩,
        ⟨(), id, fun st p => (st, p, decide (p.x ≠ some 3))⟩] ()
      [⟨some 1, some 0, some 0⟩, ⟨none, some 0, some 0⟩, ⟨some 2, some 0, some 0⟩]).2.2.2.2.2.2.2
    (by
      intro f hf st p
      simp only [List.mem_cons, List.mem_singleton, List.not_mem_nil, or_false] at hf
      rcases hf with rfl | rfl <;> rfl)).trans (by decide)

/-- C3 fails on the code: the box is enlarged by 10 again at every entry of
the scan. In a frame whose only point falls into voxel `(0, 0, 0)`, with
voxels `(15, 0, 0)` and `(0, 15, 0)` in the dictionary from before, the
second stale voxel is tested against the box enlarged twice and stays; and
in whatever order the three voxels are scanned, a voxel outside the box
enlarged once (beyond 10 in `x` or `y`) is still in the dictionary after
`getFiltered`. -/
theorem getFiltered_enlarges_box_at_every_entry :
    (notifyNewFrame (fun _ => true) (ProbFilteredVideoSource.hooks truncRat) noFilters
        ⟨[], [(⟨15, 0, 0⟩, 1), (⟨0, 15, 0⟩, 1)], ⟨0, 0, 0⟩, ⟨0, 0, 0⟩, false⟩
        [⟨0, 0, 0⟩]).2.1.all_points_
      = [(⟨0, 15, 0⟩, 2), (⟨0, 0, 0⟩, 1)] ∧
    ∀ d : List (MapPoint × Nat),
      d.Perm [(⟨0, 0, 0⟩, 1), (⟨15, 0, 0⟩, 1), (⟨0, 15, 0⟩, 1)] →
      ∃ e ∈ (ProbFilteredVideoSource.getFiltered (R := ℚ)
          ⟨[⟨0, 0, 0⟩], d, ⟨0, 0, 0⟩, ⟨0, 0, 0⟩, false⟩ []).1.all_points_,
        10 < e.1.x ∨ 10 < e.1.y := by
  constructor
  · decide!
  · intro d hd
    have hall : ∀ d ∈ List.permutations
        [((⟨0, 0, 0⟩ : MapPoint), 1), (⟨15, 0, 0⟩, 1), (⟨0, 15, 0⟩, 1)],
        ∃ e ∈ (ProbFilteredVideoSource.getFiltered (R := ℚ)
            ⟨[⟨0, 0, 0⟩], d, ⟨0, 0, 0⟩, ⟨0, 0, 0⟩, false⟩ []).1.all_points_,
          10 < e.1.x ∨ 10 < e.1.y := by
      decide!
    exact hall d (List.mem_permutations.mpr hd)

/-- C4 fails on the code: `newPoint` shifts the word once per point. A frame
with two points in the voxel `(0, 0, 0)`, new to the dictionary, leaves the
word `3`, not `((0 << 1) | 1) = 1`; with one point in the voxel the word is
`1`. -/
theorem newPoint_shifts_once_per_point :
    (notifyNewFrame (fun _ => true) (ProbFilteredVideoSource.hooks truncRat) noFilters
        ⟨[], [], ⟨0, 0, 0⟩, ⟨0, 0, 0⟩, false⟩
        [⟨1 / 1000, 0, 0⟩, ⟨2 / 1000, 0, 0⟩]).2.1.all_points_ = [(⟨0, 0, 0⟩, 3)] ∧
    (notifyNewFrame (fun _ => true) (ProbFilteredVideoSource.hooks truncRat) noFilters
        ⟨[], [], ⟨0, 0, 0⟩, ⟨0, 0, 0⟩, false⟩
        [⟨1 / 1000, 0, 0⟩]).2.1.all_points_ = [(⟨0, 0, 0⟩, 1)] := by
  constructor <;> decide!

/-- One `ref <<= 1; ref |= 1` extends a run of low set bits by one. -/
lemma shiftSet_ones_succ (w n : Nat) (hn : n < 32) (h : ∀ i < n, w.testBit i = true) :
    ∀ i < n + 1, (Nat.lor ((w <<< 1) % 4294967296) 1).testBit i = true := by
  intro i hi
  show ((w <<< 1) % 4294967296 ||| 1).testBit i = true
  rw [Nat.testBit_or, show (4294967296 : Nat) = 2 ^ 32 from by norm_num,
    Nat.testBit_mod_two_pow, Nat.testBit_shiftLeft]
  cases i with
  | zero => simp
  | succ j =>
    have hj : j < n := by omega
    simp [h j hj]
    omega

/-- One `ref <<= 1; ref |= 1` keeps a run of low set bits. -/
lemma shiftSet_ones_keep (w n : Nat) (hn : n ≤ 32) (h : ∀ i < n, w.testBit i = true) :
    ∀ i < n, (Nat.lor ((w <<< 1) % 4294967296) 1).testBit i = true := by
  cases n with
  | zero => intro i hi; omega
  | succ m =>
    exact shiftSet_ones_succ w m (by omega) (fun i hi => h i (by omega))

/-- A word whose `n` low bits are set has at least `n` set bits. -/
lemma popcount_ge_of_ones (w n : Nat) (hn : n ≤ 32) (h : ∀ i < n, w.testBit i = true) :
    n ≤ popcount w := by
  unfold popcount
  have hsub : ((List.range n).filter (fun i => w.testBit i)).Sublist
      ((List.range 32).filter (fun i => w.testBit i)) :=
    List.Sublist.filter _ (List.range_sublist.mpr hn)
  have hall : (List.range n).filter (fun i => w.testBit i) = List.range n := by
    rw [List.filter_eq_self]
    intro i hi
    exact h i (List.mem_range.mp hi)
  rw [hall] at hsub
  simpa using hsub.length_le

/-- In the `int` range the wrapped value is the value. -/
lemma wrapInt_of_inRange (x : Int) (h1 : INT_MIN ≤ x) (h2 : x ≤ INT_MAX) : wrapInt x = x := by
  unfold INT_MIN at h1
  unfold INT_MAX at h2
  unfold wrapInt
  omega

section

variable {K V : Type} [DecidableEq K]

/-- Lookup in two entry lists in a row. -/
lemma mapFind_append (key : K) (a b : List (K × V)) :
    mapFind key (a ++ b) = (mapFind key a).orElse (fun _ => mapFind key b) := by
  induction a with
  | nil => simp [mapFind]
  | cons e rest ih =>
    obtain ⟨k, v⟩ := e
    by_cases hk : k = key
    · simp [mapFind, hk]
    · simp [mapFind, hk, ih]

/-- Lookup after `map[key]`: the key is present, with its old value or the
default. -/
lemma mapFind_mapIndex_self (key : K) (dflt : V) (m : List (K × V)) :
    mapFind key (mapIndex key dflt m) = some ((mapFind key m).getD dflt) := by
  unfold mapIndex
  cases h : mapFind key m with
  | some v => simp [h]
  | none => simp [mapFind_append, h, mapFind]

/-- Indexing `map[key]` leaves every other key alone. -/
lemma mapFind_mapIndex_ne (key other : K) (dflt : V) (m : List (K × V)) (h : key ≠ other) :
    mapFind other (mapIndex key dflt m) = mapFind other m := by
  unfold mapIndex
  cases hf : mapFind key m with
  | some v => rfl
  | none =>
    simp only [mapFind_append, mapFind, h, if_false]
    cases mapFind other m <;> rfl

/-- Lookup after an assignment through `map[key]`. -/
lemma mapFind_mapModify_self (key : K) (f : V → V) (m : List (K × V)) :
    mapFind key (mapModify key f m) = (mapFind key m).map f := by
  induction m with
  | nil => rfl
  | cons e rest ih =>
    obtain ⟨k, v⟩ := e
    by_cases hk : k = key
    · simp [mapModify, mapFind, hk]
    · simp [mapModify, mapFind, hk, ih]

/-- An assignment through `map[key]` leaves every other key alone. -/
lemma mapFind_mapModify_ne (key other : K) (f : V → V) (m : List (K × V)) (h : key ≠ other) :
    mapFind other (mapModify key f m) = mapFind other m := by
  induction m with
  | nil => rfl
  | cons e rest ih =>
    obtain ⟨k, v⟩ := e
    by_cases hk : k = key
    · subst hk
      simp [mapModify, mapFind, h]
    · by_cases ho : k = other
      · subst ho
        simp [mapModify, mapFind, hk]
      · simp [mapModify, mapFind, hk, ho, ih]

/-- An assignment through `map[key]` changes no entry count. -/
lemma length_mapModify (key : K) (f : V → V) (m : List (K × V)) :
    (mapModify key f m).length = m.length := by
  have h := congrArg List.length (mapModify_keys key f m)
  simpa using h

/-- Indexing `map[key]` adds at most one entry. -/
lemma length_mapIndex_le (key : K) (dflt : V) (m : List (K × V)) :
    (mapIndex key dflt m).length ≤ m.length + 1 := by
  unfold mapIndex
  cases mapFind key m <;> simp

/-- A value found under a key belongs to an entry of the list. -/
lemma mem_of_mapFind_eq_some (key : K) (v : V) (m : List (K × V))
    (h : mapFind key m = some v) : (key, v) ∈ m := by
  induction m with
  | nil => simp [mapFind] at h
  | cons e rest ih =>
    obtain ⟨k, w⟩ := e
    by_cases hk : k = key
    · subst hk
      simp only [mapFind, if_true, Option.some.injEq] at h
      subst h
      exact List.mem_cons_self _ _
    · simp only [mapFind, hk, if_false] at h
      exact List.mem_cons_of_mem _ (ih h)

end

section

variable {R : Type} [Mul R] [Div R] [NatCast R] [IntCast R]

/-- Any `newPoint` keeps a run of low set bits of `v`. -/
lemma newPoint_lowBitsSet_keep (toInt : R → Int) (v : MapPoint) (n : Nat) (hn : n ≤ 32)
    (s : ProbFilteredVideoSource) (p : PointXYZ R) (h : lowBitsSet v n s) :
    lowBitsSet v n (ProbFilteredVideoSource.newPoint toInt s p) := by
  rcases h with h0 | ⟨w, hw, hbits⟩
  · exact Or.inl h0
  · right
    by_cases hk : mapPointOf toInt s.larger_voxelization_ p = v
    · refine ⟨Nat.lor ((w <<< 1) % 4294967296) 1, ?_, shiftSet_ones_keep w n hn hbits⟩
      simp only [ProbFilteredVideoSource.newPoint, hk, mapFind_mapModify_self,
        mapFind_mapIndex_self, hw, Option.getD_some, Option.map_some']
    · refine ⟨w, ?_, hbits⟩
      simp only [ProbFilteredVideoSource.newPoint]
      rw [mapFind_mapModify_ne _ _ _ _ hk, mapFind_mapIndex_ne _ _ _ _ hk, hw]

/-- A `newPoint` falling into `v` extends the run of low set bits of `v`. -/
lemma newPoint_lowBitsSet_succ (toInt : R → Int) (v : MapPoint) (n : Nat) (hn : n < 32)
    (s : ProbFilteredVideoSource) (p : PointXYZ R)
    (hk : mapPointOf toInt s.larger_voxelization_ p = v) (h : lowBitsSet v n s) :
    lowBitsSet v (n + 1) (ProbFilteredVideoSource.newPoint toInt s p) := by
  right
  have hfind : mapFind v (ProbFilteredVideoSource.newPoint toInt s p).all_points_
      = some (Nat.lor ((((mapFind v s.all_points_).getD 0) <<< 1) % 4294967296) 1) := by
    simp only [ProbFilteredVideoSource.newPoint, hk, mapFind_mapModify_self,
      mapFind_mapIndex_self, Option.map_some']
  refine ⟨_, hfind, ?_⟩
  rcases h with h0 | ⟨w, hw, hbits⟩
  · subst h0
    exact shiftSet_ones_succ _ 0 (by omega) (fun i hi => by omega)
  · rw [hw]
    exact shiftSet_ones_succ w n hn hbits

/-- What a run of `newPoint` calls does to the bounding box and to the size
of the dictionary, for keys within `bound` of zero. -/
lemma foldl_newPoint_box (toInt : R → Int) (lv : Bool) (bound : Int) :
    ∀ (pts : List (PointXYZ R)) (s : ProbFilteredVideoSource),
      s.larger_voxelization_ = lv →
      (∀ p ∈ pts, -bound ≤ (mapPointOf toInt lv p).x ∧ (mapPointOf toInt lv p).x ≤ bound ∧
        -bound ≤ (mapPointOf toInt lv p).y ∧ (mapPointOf toInt lv p).y ≤ bound ∧
        -bound ≤ (mapPointOf toInt lv p).z ∧ (mapPointOf toInt lv p).z ≤ bound) →
      (-bound ≤ s.min_pt.x ∧ -bound ≤ s.min_pt.y ∧ -bound ≤ s.min_pt.z ∧
        s.max_pt.x ≤ bound ∧ s.max_pt.y ≤ bound ∧ s.max_pt.z ≤ bound) →
      (pts.foldl (ProbFilteredVideoSource.newPoint toInt) s).larger_voxelization_ = lv ∧
      (pts.foldl (ProbFilteredVideoSource.newPoint toInt) s).all_points_.length
        ≤ s.all_points_.length + pts.length ∧
      -bound ≤ (pts.foldl (ProbFilteredVideoSource.newPoint toInt) s).min_pt.x ∧
      -bound ≤ (pts.foldl (ProbFilteredVideoSource.newPoint toInt) s).min_pt.y ∧
      -bound ≤ (pts.foldl (ProbFilteredVideoSource.newPoint toInt) s).min_pt.z ∧
      (pts.foldl (ProbFilteredVideoSource.newPoint toInt) s).max_pt.x ≤ bound ∧
      (pts.foldl (ProbFilteredVideoSource.newPoint toInt) s).max_pt.y ≤ bound ∧
      (pts.foldl (ProbFilteredVideoSource.newPoint toInt) s).max_pt.z ≤ bound := by
  intro pts
  induction pts with
  | nil =>
    intro s hlv _ hbox
    simpa using ⟨hlv, hbox⟩
  | cons p rest ih =>
    intro s hlv hkeys hbox
    have hp := hkeys p (List.mem_cons_self _ _)
    have hlen : (ProbFilteredVideoSource.newPoint toInt s p).all_points_.length
        ≤ s.all_points_.length + 1 := by
      simp only [ProbFilteredVideoSource.newPoint, length_mapModify]
      exact length_mapIndex_le _ _ _
    have hstep := ih (ProbFilteredVideoSource.newPoint toInt s p) hlv
      (fun q hq => hkeys q (List.mem_cons_of_mem _ hq))
      (by
        simp only [ProbFilteredVideoSource.newPoint, hlv]
        omega)
    simp only [List.foldl_cons, List.length_cons]
    refine ⟨hstep.1, ?_, hstep.2.2⟩
    have := hstep.2.1
    omega

/-- Once a point of the frame has fallen into `v`, the voxel stays marked
as observed, stays inside the bounding box and keeps its run of low set
bits through every later `newPoint` of the frame. -/
lemma foldl_newPoint_observed_keep (toInt : R → Int) (v : MapPoint) (n : Nat) (hn : n ≤ 32) :
    ∀ (pts : List (PointXYZ R)) (s : ProbFilteredVideoSource),
      v ∈ s.this_frame_ →
      (s.min_pt.x ≤ v.x ∧ v.x ≤ s.max_pt.x ∧ s.min_pt.y ≤ v.y ∧ v.y ≤ s.max_pt.y ∧
        s.min_pt.z ≤ v.z ∧ v.z ≤ s.max_pt.z) →
      lowBitsSet v n s →
      v ∈ (pts.foldl (ProbFilteredVideoSource.newPoint toInt) s).this_frame_ ∧
      ((pts.foldl (ProbFilteredVideoSource.newPoint toInt) s).min_pt.x ≤ v.x ∧
        v.x ≤ (pts.foldl (ProbFilteredVideoSource.newPoint toInt) s).max_pt.x ∧
        (pts.foldl (ProbFilteredVideoSource.newPoint toInt) s).min_pt.y ≤ v.y ∧
        v.y ≤ (pts.foldl (ProbFilteredVideoSource.newPoint toInt) s).max_pt.y ∧
        (pts.foldl (ProbFilteredVideoSource.newPoint toInt) s).min_pt.z ≤ v.z ∧
        v.z ≤ (pts.foldl (ProbFilteredVideoSource.newPoint toInt) s).max_pt.z) ∧
      lowBitsSet v n (pts.foldl (ProbFilteredVideoSource.newPoint toInt) s) := by
  intro pts
  induction pts with
  | nil => intro s h1 h2 h3; exact ⟨h1, h2, h3⟩
  | cons p rest ih =>
    intro s h1 h2 h3
    simp only [List.foldl_cons]
    refine ih _ ?_ ?_ (newPoint_lowBitsSet_keep toInt v n hn s p h3)
    · simp only [ProbFilteredVideoSource.newPoint]
      split
      · exact h1
      · exact List.mem_append_left _ h1
    · simp only [ProbFilteredVideoSource.newPoint]
      omega

/-- A frame with a point falling into `v` marks `v` as observed, has `v`
inside its bounding box and extends the run of low set bits of `v` by at
least one. -/
lemma foldl_newPoint_observed (toInt : R → Int) (v : MapPoint) (n : Nat) (hn : n < 32)
    (lv : Bool) :
    ∀ (pts : List (PointXYZ R)) (s : ProbFilteredVideoSource),
      s.larger_voxelization_ = lv →
      (∃ p ∈ pts, mapPointOf toInt lv p = v) →
      lowBitsSet v n s →
      v ∈ (pts.foldl (ProbFilteredVideoSource.newPoint toInt) s).this_frame_ ∧
      ((pts.foldl (ProbFilteredVideoSource.newPoint toInt) s).min_pt.x ≤ v.x ∧
        v.x ≤ (pts.foldl (ProbFilteredVideoSource.newPoint toInt) s).max_pt.x ∧
        (pts.foldl (ProbFilteredVideoSource.newPoint toInt) s).min_pt.y ≤ v.y ∧
        v.y ≤ (pts.foldl (ProbFilteredVideoSource.newPoint toInt) s).max_pt.y ∧
        (pts.foldl (ProbFilteredVideoSource.newPoint toInt) s).min_pt.z ≤ v.z ∧
        v.z ≤ (pts.foldl (ProbFilteredVideoSource.newPoint toInt) s).max_pt.z) ∧
      lowBitsSet v (n + 1) (pts.foldl (ProbFilteredVideoSource.newPoint toInt) s) := by
  intro pts
  induction pts with
  | nil => intro s _ h _; simp at h
  | cons p rest ih =>
    intro s hlv hex hbits
    simp only [List.foldl_cons]
    by_cases hk : mapPointOf toInt lv p = v
    · have hk2 : mapPointOf toInt s.larger_voxelization_ p = v := by rw [hlv]; exact hk
      refine foldl_newPoint_observed_keep toInt v (n + 1) (by omega) rest _ ?_ ?_
        (newPoint_lowBitsSet_succ toInt v n hn s p hk2 hbits)
      · simp only [ProbFilteredVideoSource.newPoint, hk2]
        split
        · assumption
        · exact List.mem_append_right _ (List.mem_singleton_self _)
      · simp only [ProbFilteredVideoSource.newPoint, hk2]
        omega
    · obtain ⟨q, hq, hqv⟩ := hex
      have hq2 : q ∈ rest := by
        rcases List.mem_cons.mp hq with rfl | h
        · exact absurd hqv hk
        · exact h
      exact ih _ (by simpa [ProbFilteredVideoSource.newPoint] using hlv) ⟨q, hq2, hqv⟩
        (newPoint_lowBitsSet_keep toInt v n (by omega) s p hbits)

/-- The scan of `getFiltered` does not touch the entry of a voxel `v`
observed in the frame, as long as the box arithmetic stays in the `int`
range: `v` lies in the box, so it is neither shifted nor erased. -/
lemma getFilteredLoop_keeps_observed (this_frame : List MapPoint) (v : MapPoint)
    (hv : v ∈ this_frame) :
    ∀ (entries : List (MapPoint × Nat)) (min_pt max_pt : MapPoint),
      (min_pt.x ≤ v.x ∧ v.x ≤ max_pt.x ∧ min_pt.y ≤ v.y ∧ v.y ≤ max_pt.y ∧
        min_pt.z ≤ v.z ∧ v.z ≤ max_pt.z) →
      (INT_MIN + 10 * (entries.length : Int) ≤ min_pt.x ∧
        INT_MIN + 10 * (entries.length : Int) ≤ min_pt.y ∧
        INT_MIN + 10 * (entries.length : Int) ≤ min_pt.z ∧
        max_pt.x + 10 * (entries.length : Int) ≤ INT_MAX ∧
        max_pt.y + 10 * (entries.length : Int) ≤ INT_MAX ∧
        max_pt.z + 10 * (entries.length : Int) ≤ INT_MAX) →
      mapFind v (getFilteredLoop (R := R) this_frame entries min_pt max_pt).1
        = mapFind v entries := by
  intro entries
  induction entries with
  | nil => intro _ _ _ _; rfl
  | cons e rest ih =>
    intro min_pt max_pt hbox hrange
    obtain ⟨key, word⟩ := e
    simp only [List.length_cons, Nat.cast_add, Nat.cast_one] at hrange
    have hI : INT_MIN = -2147483648 := rfl
    have hA : INT_MAX = 2147483647 := rfl
    have w1 : wrapInt (min_pt.x - 10) = min_pt.x - 10 :=
      wrapInt_of_inRange _ (by omega) (by omega)
    have w2 : wrapInt (min_pt.y - 10) = min_pt.y - 10 :=
      wrapInt_of_inRange _ (by omega) (by omega)
    have w3 : wrapInt (min_pt.z - 10) = min_pt.z - 10 :=
      wrapInt_of_inRange _ (by omega) (by omega)
    have w4 : wrapInt (max_pt.x + 10) = max_pt.x + 10 :=
      wrapInt_of_inRange _ (by omega) (by omega)
    have w5 : wrapInt (max_pt.y + 10) = max_pt.y + 10 :=
      wrapInt_of_inRange _ (by omega) (by omega)
    have w6 : wrapInt (max_pt.z + 10) = max_pt.z + 10 :=
      wrapInt_of_inRange _ (by omega) (by omega)
    have hrec := ih ⟨min_pt.x - 10, min_pt.y - 10, min_pt.z - 10⟩
      ⟨max_pt.x + 10, max_pt.y + 10, max_pt.z + 10⟩ (by simp only; omega) (by simp only; omega)
    rw [getFilteredLoop]
    simp only [w1, w2, w3, w4, w5, w6]
    by_cases hk : key = v
    · subst hk
      have hin : ¬ (key.x < min_pt.x - 10 ∨ key.x > max_pt.x + 10 ∨
          key.y < min_pt.y - 10 ∨ key.y > max_pt.y + 10 ∨
          key.z < min_pt.z - 10 ∨ key.z > max_pt.z + 10) := by omega
      rw [if_neg hin]
      simp [mapFind, hv]
    · split
      · simp only [mapFind, hk, if_false]
        exact hrec
      · simp only [mapFind, hk, if_false]
        exact hrec

/-- One frame in which a point falls into `v`, without overflow: the run of
low set bits of `v` grows by one, `v` stays in the dictionary, and with ten
low bits set its rebuilt point is in the emitted cloud. -/
lemma notifyNewFrame_observed_voxel {φ : Type} (isfinite : R → Bool) (toInt : R → Int)
    (v : MapPoint) (bound : Int) (n : Nat) (hn : n < 32)
    (fs : List (PointFilter φ R)) (s : ProbFilteredVideoSource) (cloud : List (PointXYZ R))
    (hobs : ∃ p ∈ acceptedPoints
        (notifyNewFrame isfinite (ProbFilteredVideoSource.hooks toInt) fs s cloud).2.2.2,
      mapPointOf toInt s.larger_voxelization_ p = v)
    (hkeys : ∀ p ∈ acceptedPoints
        (notifyNewFrame isfinite (ProbFilteredVideoSource.hooks toInt) fs s cloud).2.2.2,
      -bound ≤ (mapPointOf toInt s.larger_voxelization_ p).x ∧
      (mapPointOf toInt s.larger_voxelization_ p).x ≤ bound ∧
      -bound ≤ (mapPointOf toInt s.larger_voxelization_ p).y ∧
      (mapPointOf toInt s.larger_voxelization_ p).y ≤ bound ∧
      -bound ≤ (mapPointOf toInt s.larger_voxelization_ p).z ∧
      (mapPointOf toInt s.larger_voxelization_ p).z ≤ bound)
    (hsize : bound + 10 * ((s.all_points_.length : Int) + (acceptedPoints
        (notifyNewFrame isfinite (ProbFilteredVideoSource.hooks toInt) fs s cloud).2.2.2).length)
      ≤ INT_MAX)
    (hbits : lowBitsSet v n s) :
    lowBitsSet v (n + 1)
      (notifyNewFrame isfinite (ProbFilteredVideoSource.hooks toInt) fs s cloud).2.1 ∧
    (10 ≤ n + 1 → voxelCentre v ∈
      (notifyNewFrame isfinite (ProbFilteredVideoSource.hooks toInt) fs s cloud).2.2.1) := by
  obtain ⟨hst, hfl⟩ := prob_state_before_getFiltered isfinite toInt
    (fs.map fun f => { f with state := f.prepareNext f.state }) s.newFrame cloud
  have hacc : acceptedPoints
      (notifyNewFrame isfinite (ProbFilteredVideoSource.hooks toInt) fs s cloud).2.2.2
      = acceptedPoints (pointLoop isfinite (ProbFilteredVideoSource.hooks toInt) cloud
          (fs.map fun f => { f with state := f.prepareNext f.state }) s.newFrame []).2.2.2 := rfl
  rw [hacc] at hobs hkeys hsize
  generalize hpts : acceptedPoints (pointLoop isfinite (ProbFilteredVideoSource.hooks toInt)
    cloud (fs.map fun f => { f with state := f.prepareNext f.state }) s.newFrame []).2.2.2
    = pts at hobs hkeys hsize hst
  generalize hsc : (pointLoop isfinite (ProbFilteredVideoSource.hooks toInt) cloud
    (fs.map fun f => { f with state := f.prepareNext f.state }) s.newFrame []).2.1
    = scanned at hst
  have hout : (notifyNewFrame isfinite (ProbFilteredVideoSource.hooks toInt) fs s cloud).2.2.1
      = (pointLoop isfinite (ProbFilteredVideoSource.hooks toInt) cloud
          (fs.map fun f => { f with state := f.prepareNext f.state }) s.newFrame []).2.2.1 ++
        (getFilteredLoop (R := R) scanned.this_frame_ scanned.all_points_
          scanned.min_pt scanned.max_pt).2.2.2 := by
    rw [← hsc]; rfl
  rw [hfl, List.nil_append] at hout
  have hdict : (notifyNewFrame isfinite (ProbFilteredVideoSource.hooks toInt) fs s
      cloud).2.1.all_points_
      = (getFilteredLoop (R := R) scanned.this_frame_ scanned.all_points_
          scanned.min_pt scanned.max_pt).1 := by
    rw [← hsc]; rfl
  obtain ⟨p0, hp0, hp0v⟩ := hobs
  have hb0 := hkeys p0 hp0
  rw [hp0v] at hb0
  have hI : INT_MIN = -2147483648 := rfl
  have hA : INT_MAX = 2147483647 := rfl
  have hlen0 : (0 : Int) ≤ (s.all_points_.length : Int) + (pts.length : Int) := by positivity
  have hbits0 : lowBitsSet v n s.newFrame := hbits
  obtain ⟨hframe, hbox, hbits1⟩ := foldl_newPoint_observed toInt v n hn s.larger_voxelization_
    pts s.newFrame rfl ⟨p0, hp0, hp0v⟩ hbits0
  obtain ⟨_, hlen, hm1, hm2, hm3, hM1, hM2, hM3⟩ := foldl_newPoint_box toInt
    s.larger_voxelization_ bound pts s.newFrame rfl hkeys
    (by
      simp only [ProbFilteredVideoSource.newFrame]
      omega)
  rw [← hst] at hframe hbox hbits1 hlen hm1 hm2 hm3 hM1 hM2 hM3
  have hlen1 : (scanned.all_points_.length : Int)
      ≤ (s.all_points_.length : Int) + (pts.length : Int) := by
    have : s.newFrame.all_points_.length = s.all_points_.length := rfl
    rw [this] at hlen
    exact_mod_cast hlen
  have hkeep := getFilteredLoop_keeps_observed (R := R) scanned.this_frame_ v hframe
    scanned.all_points_ scanned.min_pt scanned.max_pt hbox (by omega)
  constructor
  · rcases hbits1 with h0 | ⟨w, hw, hones⟩
    · omega
    · right
      exact ⟨w, by rw [hdict, hkeep, hw], hones⟩
  · intro h10
    rcases hbits1 with h0 | ⟨w, hw, hones⟩
    · omega
    · have hpop : 10 ≤ popcount w :=
        le_trans h10 (popcount_ge_of_ones w (n + 1) (by omega) hones)
      rw [hout, getFilteredLoop_pushed, List.mem_map]
      refine ⟨(v, w), ?_, rfl⟩
      rw [List.mem_filter]
      refine ⟨?_, by simpa using hpop⟩
      rw [List.mem_map]
      exact ⟨(v, w), mem_of_mapFind_eq_some v w _ hw, by simp [hframe]⟩

/-- A run of frames each with a point falling into `v`, without overflow:
the run of low set bits of `v` grows by one per frame, and once it reaches
ten the rebuilt point of `v` is in the cloud emitted for the last frame. -/
lemma probFrames_observed_voxel {φ : Type} (isfinite : R → Bool) (toInt : R → Int)
    (v : MapPoint) (bound : Int) :
    ∀ (clouds : List (List (PointXYZ R))) (fs : List (PointFilter φ R))
      (s : ProbFilteredVideoSource) (out : List (PointXYZ R)) (n : Nat),
      clouds ≠ [] → n + clouds.length ≤ 32 →
      observedInEveryFrame isfinite toInt v bound clouds fs s →
      lowBitsSet v n s →
      lowBitsSet v (n + clouds.length) (probFrames isfinite toInt clouds fs s out).2.1 ∧
      (10 ≤ n + clouds.length →
        voxelCentre v ∈ (probFrames isfinite toInt clouds fs s out).2.2) := by
  intro clouds
  induction clouds with
  | nil => intro fs s out n h; exact absurd rfl h
  | cons cloud rest ih =>
    intro fs s out n _ hlen hobs hbits
    simp only [List.length_cons] at hlen
    obtain ⟨h1, h2, h3, h4⟩ := hobs
    obtain ⟨hb, hemit⟩ := notifyNewFrame_observed_voxel isfinite toInt v bound n (by omega)
      fs s cloud h1 h2 h3 hbits
    rw [probFrames]
    cases rest with
    | nil =>
      simp only [probFrames, List.length_cons, List.length_nil]
      exact ⟨hb, hemit⟩
    | cons c2 rest2 =>
      have hrec := ih
        (notifyNewFrame isfinite (ProbFilteredVideoSource.hooks toInt) fs s cloud).1
        (notifyNewFrame isfinite (ProbFilteredVideoSource.hooks toInt) fs s cloud).2.1
        (notifyNewFrame isfinite (ProbFilteredVideoSource.hooks toInt) fs s cloud).2.2.1
        (n + 1) (by simp) (by simp only [List.length_cons] at hlen ⊢; omega) h4 hb
      have heq : n + 1 + (c2 :: rest2).length = n + (cloud :: c2 :: rest2).length := by
        simp only [List.length_cons]; omega
      rw [heq] at hrec
      exact hrec

end

/-- C6. Bit-history filter, persistence: from every prior state of the
filter, after 10 consecutive frames each containing an accepted point that
falls into voxel `v`, bounding-box arithmetic staying in the `int` range,
`v` is in the dictionary with a history word of at least 10 set bits and
its rebuilt point is in the filtered cloud of the 10th frame. -/
theorem voxel_observed_ten_frames_is_emitted {φ R : Type} [Mul R] [Div R] [NatCast R]
    [IntCast R] (isfinite : R → Bool) (toInt : R → Int) (v : MapPoint) (bound : Int)
    (clouds : List (List (PointXYZ R))) (point_filters_ : List (PointFilter φ R))
    (s : ProbFilteredVideoSource) (hten : clouds.length = 10)
    (hobs : observedInEveryFrame isfinite toInt v bound clouds point_filters_ s) :
    (∃ w, mapFind v (probFrames isfinite toInt clouds point_filters_ s []).2.1.all_points_
        = some w ∧ 10 ≤ popcount w) ∧
    voxelCentre v ∈ (probFrames isfinite toInt clouds point_filters_ s []).2.2 := by
  have hne : clouds ≠ [] := by
    intro h
    rw [h] at hten
    simp at hten
  obtain ⟨hbits, hemit⟩ := probFrames_observed_voxel isfinite toInt v bound clouds
    point_filters_ s [] 0 hne (by omega) hobs (Or.inl rfl)
  rw [hten] at hbits hemit
  refine ⟨?_, hemit (by omega)⟩
  rcases hbits with h0 | ⟨w, hw, hones⟩
  · omega
  · exact ⟨w, hw, popcount_ge_of_ones w 10 (by omega) (by simpa using hones)⟩

/-- Witness for C6: ten frames, each with one point in voxel `(50, 0, 0)`,
from an empty dictionary without point-wise filters. -/
theorem voxel_observed_ten_frames_is_emitted_witness :
    (∃ w, mapFind (⟨50, 0, 0⟩ : MapPoint)
        (probFrames (fun _ => true) truncRat tenFrames noFilters
          ⟨[], [], ⟨0, 0, 0⟩, ⟨0, 0, 0⟩, false⟩ []).2.1.all_points_ = some w ∧
      10 ≤ popcount w) ∧
    (voxelCentre ⟨50, 0, 0⟩ : PointXYZ ℚ) ∈
      (probFrames (fun _ => true) truncRat tenFrames noFilters
        ⟨[], [], ⟨0, 0, 0⟩, ⟨0, 0, 0⟩, false⟩ []).2.2 :=
  voxel_observed_ten_frames_is_emitted (fun _ => true) truncRat ⟨50, 0, 0⟩ 1000 tenFrames
    noFilters ⟨[], [], ⟨0, 0, 0⟩, ⟨0, 0, 0⟩, false⟩ (by decide)
    (by decide!)

/-- Witness for C5: the dictionary holds a voxel with ten set bits, one with
nine and one with one, all distinct, and the frame has a point in each; the
emitted cloud is the rebuilt points of the voxels that reach ten set bits. -/
theorem probFiltered_emits_voxels_with_ten_bits_witness :
    ∃ keys : List MapPoint, keys.Nodup ∧
      (∀ k, k ∈ keys ↔ ∃ w,
        mapFind k (wordsAfterFrame
          (pointLoop (fun _ => true) (ProbFilteredVideoSource.hooks truncRat)
            [⟨1 / 2, 0, 0⟩, ⟨0, 0, 0⟩, ⟨7 / 100, 0, 0⟩]
            (noFilters.map fun f => { f with state := f.prepareNext f.state })
            (ProbFilteredVideoSource.newFrame
              ⟨[], [(⟨50, 0, 0⟩, 1023), (⟨0, 0, 0⟩, 511), (⟨7, 0, 0⟩, 1)],
                ⟨0, 0, 0⟩, ⟨0, 0, 0⟩, false⟩) []).2.1) = some w ∧ 10 ≤ popcount w) ∧
      (notifyNewFrame (fun _ => true) (ProbFilteredVideoSource.hooks truncRat) noFilters
        ⟨[], [(⟨50, 0, 0⟩, 1023), (⟨0, 0, 0⟩, 511), (⟨7, 0, 0⟩, 1)],
          ⟨0, 0, 0⟩, ⟨0, 0, 0⟩, false⟩
        [⟨1 / 2, 0, 0⟩, ⟨0, 0, 0⟩, ⟨7 / 100, 0, 0⟩]).2.2.1 = keys.map voxelCentre :=
  probFiltered_emits_voxels_with_ten_bits (fun _ => true) truncRat noFilters
    ⟨[], [(⟨50, 0, 0⟩, 1023), (⟨0, 0, 0⟩, 511), (⟨7, 0, 0⟩, 1)], ⟨0, 0, 0⟩, ⟨0, 0, 0⟩, false⟩
    [⟨1 / 2, 0, 0⟩, ⟨0, 0, 0⟩, ⟨7 / 100, 0, 0⟩] (by decide)

/-- The frame of the witness of C5, evaluated: the voxels `(50, 0, 0)` (eleven
set bits after the frame) and `(0, 0, 0)` (ten) are emitted, `(7, 0, 0)`
(two) is not. -/
lemma probFiltered_emits_example :
    (notifyNewFrame (fun _ => true) (ProbFilteredVideoSource.hooks truncRat) noFilters
        ⟨[], [(⟨50, 0, 0⟩, 1023), (⟨0, 0, 0⟩, 511), (⟨7, 0, 0⟩, 1)],
          ⟨0, 0, 0⟩, ⟨0, 0, 0⟩, false⟩
        [⟨1 / 2, 0, 0⟩, ⟨0, 0, 0⟩, ⟨7 / 100, 0, 0⟩]).2.2.1
      = [⟨1 / 2, 0, 0⟩, ⟨0, 0, 0⟩] := by
  decide!

section

variable {C γ δ α M E : Type}

/-- An exception raised by the segmenter or by an approximation leaves
`update` before `notifyObstacles` is reached: the aggregators are untouched
and the exception is passed on. -/
lemma update_raise_skips_notify (segment : γ → C → γ × Except E (List C × C))
    (approximate : δ → C → δ × Except E M) (d : ObstacleDetector C γ δ α M E)
    (h : (∃ e, (segment d.segmenter_ d.cloud_).2 = .error e) ∨
      (∃ segments cloud e, (segment d.segmenter_ d.cloud_).2 = .ok (segments, cloud) ∧
        (approximateAll approximate segments d.approximator_ []).2 = .error e)) :
    (ObstacleDetector.update segment approximate d).1.aggregators_ = d.aggregators_ ∧
    (ObstacleDetector.update segment approximate d).2 ≠ none := by
  unfold ObstacleDetector.update
  rcases hs : segment d.segmenter_ d.cloud_ with ⟨sg, _ | ⟨segments, cloud⟩⟩
  · simp
  · rw [hs] at h
    rcases h with ⟨e, he⟩ | ⟨segments1, cloud1, e, hok, herr⟩
    · simp at he
    · simp only [Except.ok.injEq, Prod.mk.injEq] at hok
      obtain ⟨h1, h2⟩ := hok
      subst h1 h2
      rcases ha : approximateAll approximate segments d.approximator_ [] with ⟨ap, _ | models⟩
      · simp [ha]
      · rw [ha] at herr
        simp at herr

end

/-- C8. `ObstacleDetector::updateFrame` never propagates a failure: whatever
the segmenter, the approximator or an aggregator raises during `update`, no
exception leaves `updateFrame`. -/
theorem updateFrame_never_propagates {C γ δ α M E : Type}
    (segment : γ → C → γ × Except E (List C × C)) (approximate : δ → C → δ × Except E M)
    (d : ObstacleDetector C γ δ α M E) (cloudMinusSurfaces : C) :
    (ObstacleDetector.updateFrame segment approximate d cloudMinusSurfaces).2 = none := by
  unfold ObstacleDetector.updateFrame
  simp only
  split <;> rfl

/-- C9, as stated, fails: when the segmenter raises, the attached aggregator
is not given an empty list for the frame, it is given nothing at all. -/
theorem updateFrame_failure_publishes_nothing :
    ((ObstacleDetector.updateFrame (fun sg _ => (sg, Except.error "segmentation failed"))
        (fun ap seg => (ap, Except.ok seg.length)) oneAggregatorDetector [1, 2, 3]).1.aggregators_.map
      (fun a => a.received)) = [[]] ∧
    ¬ ((ObstacleDetector.updateFrame (fun sg _ => (sg, Except.error "segmentation failed"))
        (fun ap seg => (ap, Except.ok seg.length)) oneAggregatorDetector [1, 2, 3]).1.aggregators_.map
      (fun a => a.received)) = [[[]]] := by
  constructor
  · rfl
  · intro h
    have h2 : ([[]] : List (List (List Nat))) = [[[]]] := h
    simp at h2

/-- C9, amended. On a frame on which the segmenter or an approximation
raises, nothing is published: `notifyObstacles` is not reached, every
registered aggregator is left exactly as it was (no `updateObstacles` call,
not even with an empty list), the failure is logged and no exception leaves
`updateFrame`. -/
theorem updateFrame_failure_skips_aggregators {C γ δ α M E : Type}
    (segment : γ → C → γ × Except E (List C × C)) (approximate : δ → C → δ × Except E M)
    (d : ObstacleDetector C γ δ α M E) (cloudMinusSurfaces : C)
    (h : (∃ e, (segment d.segmenter_ cloudMinusSurfaces).2 = .error e) ∨
      (∃ segments cloud e,
        (segment d.segmenter_ cloudMinusSurfaces).2 = .ok (segments, cloud) ∧
        (approximateAll approximate segments d.approximator_ []).2 = .error e)) :
    (ObstacleDetector.updateFrame segment approximate d cloudMinusSurfaces).1.aggregators_
      = d.aggregators_ ∧
    (ObstacleDetector.updateFrame segment approximate d cloudMinusSurfaces).1.error_log
      = d.error_log + 1 ∧
    (ObstacleDetector.updateFrame segment approximate d cloudMinusSurfaces).2 = none := by
  obtain ⟨hagg, hraise⟩ := update_raise_skips_notify segment approximate
    { d with cloud_ := cloudMinusSurfaces } h
  have hlog : (ObstacleDetector.update segment approximate
      { d with cloud_ := cloudMinusSurfaces }).1.error_log = d.error_log := by
    unfold ObstacleDetector.update
    simp only
    split
    · rfl
    · split <;> rfl
  unfold ObstacleDetector.updateFrame
  simp only
  rcases hu : ObstacleDetector.update segment approximate { d with cloud_ := cloudMinusSurfaces }
    with ⟨d2, _ | e⟩
  · rw [hu] at hraise
    exact absurd rfl hraise
  · rw [hu] at hagg hlog
    exact ⟨hagg, by simpa using hlog, rfl⟩

/-- Witness for C9 amended: the second of two approximations raises; the
aggregator of `oneAggregatorDetector` is left as it was. -/
theorem updateFrame_failure_skips_aggregators_witness :
    (ObstacleDetector.updateFrame (fun sg (c : List Nat) => (sg, Except.ok ([[1], []], c)))
        (fun ap (seg : List Nat) =>
          (ap, if seg = [] then Except.error "empty segment" else Except.ok seg.length))
        oneAggregatorDetector [1, 2, 3]).1.aggregators_ = oneAggregatorDetector.aggregators_ ∧
    (ObstacleDetector.updateFrame (fun sg (c : List Nat) => (sg, Except.ok ([[1], []], c)))
        (fun ap (seg : List Nat) =>
          (ap, if seg = [] then Except.error "empty segment" else Except.ok seg.length))
        oneAggregatorDetector [1, 2, 3]).1.error_log = oneAggregatorDetector.error_log + 1 ∧
    (ObstacleDetector.updateFrame (fun sg (c : List Nat) => (sg, Except.ok ([[1], []], c)))
        (fun ap (seg : List Nat) =>
          (ap, if seg = [] then Except.error "empty segment" else Except.ok seg.length))
        oneAggregatorDetector [1, 2, 3]).2 = none :=
  updateFrame_failure_skips_aggregators _ _ oneAggregatorDetector [1, 2, 3]
    (Or.inr ⟨[[1], []], [1, 2, 3], "empty segment", rfl, rfl⟩)

section

variable {K V : Type} [DecidableEq K]

/-- After `map[key] = value` the key holds the value. -/
lemma mapFind_mapSet_self (key : K) (value : V) (m : List (K × V)) :
    mapFind key (mapSet key value m) = some value := by
  induction m with
  | nil => simp [mapSet, mapFind]
  | cons e rest ih =>
    obtain ⟨k, v⟩ := e
    by_cases h : k = key
    · simp [mapSet, mapFind, h]
    · simp [mapSet, mapFind, h, ih]

/-- The assignment `map[key] = value` leaves every other key alone. -/
lemma mapFind_mapSet_ne (key other : K) (value : V) (m : List (K × V)) (h : key ≠ other) :
    mapFind other (mapSet key value m) = mapFind other m := by
  induction m with
  | nil => simp [mapSet, mapFind, h]
  | cons e rest ih =>
    obtain ⟨k, v⟩ := e
    by_cases hk : k = key
    · subst hk
      simp [mapSet, mapFind, h]
    · by_cases ho : k = other
      · subst ho
        simp [mapSet, mapFind, hk]
      · simp [mapSet, mapFind, hk, ho, ih]

end

section

variable {R Cov : Type} [Zero R] [Div R] [NatCast R]

/-- Processing an obstacle leaves the filters of all other ids alone. -/
lemma updateObstacle_find_other (ops : KalmanOps R Cov) (t : KalmanObstacleTracker R Cov)
    (states : List (Int × ObstacleKalmanFilter R Cov)) (o : ObjectModelParams R) (id : Int)
    (h : o.id ≠ id) :
    mapFind id (updateObstacle ops t states o).1 = mapFind id states := by
  unfold updateObstacle
  split <;> exact mapFind_mapSet_ne _ _ _ _ h

/-- Processing obstacles with other ids leaves the filter of `id` alone. -/
lemma updateLoop_find_other (ops : KalmanOps R Cov) (t : KalmanObstacleTracker R Cov) (id : Int) :
    ∀ (l : List (ObjectModelParams R)) (states : List (Int × ObstacleKalmanFilter R Cov)),
      (∀ o ∈ l, o.id ≠ id) → mapFind id (updateLoop ops t l states).1 = mapFind id states := by
  intro l
  induction l with
  | nil => intro states _; rfl
  | cons o rest ih =>
    intro states h
    rw [updateLoop]
    simp only
    rw [ih _ (fun o1 ho1 => h o1 (List.mem_cons_of_mem _ ho1))]
    exact updateObstacle_find_other ops t states o id (h o (List.mem_cons_self _ _))

/-- Processing an obstacle removes no filter. -/
lemma updateObstacle_keeps (ops : KalmanOps R Cov) (t : KalmanObstacleTracker R Cov)
    (states : List (Int × ObstacleKalmanFilter R Cov)) (o : ObjectModelParams R) (id : Int)
    (h : (mapFind id states).isSome) :
    (mapFind id (updateObstacle ops t states o).1).isSome := by
  by_cases hid : o.id = id
  · subst hid
    unfold updateObstacle
    split <;> simp [mapFind_mapSet_self]
  · rw [updateObstacle_find_other ops t states o id hid]
    exact h

/-- The loop of `update` removes no filter. -/
lemma updateLoop_keeps (ops : KalmanOps R Cov) (t : KalmanObstacleTracker R Cov) (id : Int) :
    ∀ (l : List (ObjectModelParams R)) (states : List (Int × ObstacleKalmanFilter R Cov)),
      (mapFind id states).isSome → (mapFind id (updateLoop ops t l states).1).isSome := by
  intro l
  induction l with
  | nil => intro states h; exact h
  | cons o rest ih =>
    intro states h
    rw [updateLoop]
    exact ih _ (updateObstacle_keeps ops t states o id h)

/-- The loop of `update` over a concatenation runs over the parts in turn. -/
lemma updateLoop_append (ops : KalmanOps R Cov) (t : KalmanObstacleTracker R Cov) :
    ∀ (a b : List (ObjectModelParams R)) (states : List (Int × ObstacleKalmanFilter R Cov)),
      updateLoop ops t (a ++ b) states
        = ((updateLoop ops t b (updateLoop ops t a states).1).1,
            (updateLoop ops t a states).2 ++ (updateLoop ops t b (updateLoop ops t a states).1).2) := by
  intro a
  induction a with
  | nil => intro b states; rfl
  | cons o rest ih =>
    intro b states
    show updateLoop ops t (o :: (rest ++ b)) states = _
    rw [updateLoop, ih, updateLoop]
    rfl

/-- The loop of `update` returns one obstacle per obstacle given. -/
lemma updateLoop_length (ops : KalmanOps R Cov) (t : KalmanObstacleTracker R Cov) :
    ∀ (l : List (ObjectModelParams R)) (states : List (Int × ObstacleKalmanFilter R Cov)),
      (updateLoop ops t l states).2.length = l.length := by
  intro l
  induction l with
  | nil => intro states; rfl
  | cons o rest ih => intro states; simp [updateLoop, ih]

end

/-- C10. `KalmanObstacleTracker::update`, unseen id. Loop body: an
observation whose id has no filter yet gets a filter initialised at its
centre with zero velocity, is itself left as given, and the filter of every
other id is left as it was. Whole call: for an observation whose id has no
filter before the call and occurs once in the batch, after `update` the
tracker holds that initial filter for the id, the observation is unchanged
in the vector, and no filter of any id is removed. -/
theorem update_unseen_id_initialises_filter {R Cov : Type} [Zero R] [Div R] [NatCast R]
    (ops : KalmanOps R Cov) (duration : R) (t : KalmanObstacleTracker R Cov)
    (before after : List (ObjectModelParams R)) (o : ObjectModelParams R)
    (hnew : mapFind o.id t.states_ = none)
    (hbefore : ∀ o1 ∈ before, o1.id ≠ o.id) (hafter : ∀ o1 ∈ after, o1.id ≠ o.id) :
    (∀ (t1 : KalmanObstacleTracker R Cov) (states : List (Int × ObstacleKalmanFilter R Cov)),
      mapFind o.id states = none →
        mapFind o.id (updateObstacle ops t1 states o).1
          = some { ops.fresh with x := ⟨o.center, ⟨0, 0, 0⟩⟩ } ∧
        (updateObstacle ops t1 states o).2 = o ∧
        ∀ id, id ≠ o.id →
          mapFind id (updateObstacle ops t1 states o).1 = mapFind id states) ∧
    mapFind o.id (KalmanObstacleTracker.update ops duration t (before ++ o :: after)).1.states_
      = some { ops.fresh with x := ⟨o.center, ⟨0, 0, 0⟩⟩ } ∧
    (KalmanObstacleTracker.update ops duration t (before ++ o :: after)).2[before.length]?
      = some o ∧
    (∀ id, (mapFind id t.states_).isSome →
      (mapFind id
        (KalmanObstacleTracker.update ops duration t (before ++ o :: after)).1.states_).isSome) := by
  have hstep : ∀ (t1 : KalmanObstacleTracker R Cov)
      (states : List (Int × ObstacleKalmanFilter R Cov)), mapFind o.id states = none →
      updateObstacle ops t1 states o
        = (mapSet o.id { ops.fresh with x := ⟨o.center, ⟨0, 0, 0⟩⟩ } states, o) := by
    intro t1 states h
    unfold updateObstacle
    rw [h]
    rfl
  refine ⟨?_, ?_, ?_, ?_⟩
  · intro t1 states h
    rw [hstep t1 states h]
    exact ⟨mapFind_mapSet_self _ _ _, rfl,
      fun id hid => mapFind_mapSet_ne _ _ _ _ (fun h1 => hid h1.symm)⟩
  · simp only [KalmanObstacleTracker.update, updateLoop_append]
    rw [updateLoop, updateLoop_find_other _ _ _ after _ hafter]
    rw [hstep _ _ (by rw [updateLoop_find_other _ _ _ before _ hbefore]; exact hnew)]
    exact mapFind_mapSet_self _ _ _
  · simp only [KalmanObstacleTracker.update, updateLoop_append]
    rw [List.getElem?_append_right (by rw [updateLoop_length])]
    rw [updateLoop_length, Nat.sub_self, updateLoop]
    rw [hstep _ _ (by rw [updateLoop_find_other _ _ _ before _ hbefore]; exact hnew)]
    simp
  · intro id h
    simp only [KalmanObstacleTracker.update]
    exact updateLoop_keeps ops _ id _ _ h

/-- Witness for C10 on rationals, with library operations that shift the
estimate: ids 1 and 2 are tracked, the batch carries ids 1, 7, 2, and id 7
is new. -/
theorem update_unseen_id_initialises_filter_witness :
    mapFind 7 (KalmanObstacleTracker.update
        (⟨⟨⟨⟨0, 0, 0⟩, ⟨0, 0, 0⟩⟩, (1 : ℚ)⟩,
          fun _ _ dt kf => { kf with P := kf.P + dt },
          fun _ pos kf => { kf with x := ⟨pos, kf.x.velocity⟩ }⟩ : KalmanOps ℚ ℚ) 40
        ⟨[(1, ⟨⟨⟨0, 0, 0⟩, ⟨0, 0, 0⟩⟩, 1⟩), (2, ⟨⟨⟨5, 5, 5⟩, ⟨0, 0, 0⟩⟩, 1⟩)], true, 1 / 30, 1, 1, 1⟩
        ([⟨1, ⟨1, 0, 0⟩, ⟨0, 0, 0⟩⟩] ++ ⟨7, ⟨3, 4, 5⟩, ⟨9, 9, 9⟩⟩ :: [⟨2, ⟨5, 5, 6⟩, ⟨0, 0, 0⟩⟩])).1.states_
      = some ⟨⟨⟨3, 4, 5⟩, ⟨0, 0, 0⟩⟩, 1⟩ :=
  (update_unseen_id_initialises_filter
    (⟨⟨⟨⟨0, 0, 0⟩, ⟨0, 0, 0⟩⟩, (1 : ℚ)⟩,
      fun _ _ dt kf => { kf with P := kf.P + dt },
      fun _ pos kf => { kf with x := ⟨pos, kf.x.velocity⟩ }⟩ : KalmanOps ℚ ℚ) 40
    ⟨[(1, ⟨⟨⟨0, 0, 0⟩, ⟨0, 0, 0⟩⟩, 1⟩), (2, ⟨⟨⟨5, 5, 5⟩, ⟨0, 0, 0⟩⟩, 1⟩)], true, 1 / 30, 1, 1, 1⟩
    [⟨1, ⟨1, 0, 0⟩, ⟨0, 0, 0⟩⟩] [⟨2, ⟨5, 5, 6⟩, ⟨0, 0, 0⟩⟩] ⟨7, ⟨3, 4, 5⟩, ⟨9, 9, 9⟩⟩
    (by decide) (by decide) (by decide)).2.1

section

variable {K V : Type} [DecidableEq K]

/-- Removal leaves every other key alone. -/
lemma mapFind_mapErase_ne (key other : K) (m : List (K × V)) (h : key ≠ other) :
    mapFind other (mapErase key m) = mapFind other m := by
  induction m with
  | nil => rfl
  | cons e rest ih =>
    obtain ⟨k, v⟩ := e
    by_cases hk : k = key
    · subst hk
      simp [mapErase, mapFind, h]
    · by_cases ho : k = other
      · subst ho
        simp [mapErase, mapFind, hk]
      · simp [mapErase, mapFind, hk, ho, ih]

/-- With distinct keys, removal keeps exactly the entries of the other keys,
in their order. -/
lemma mapErase_eq_filter (key : K) (m : List (K × V)) (hnd : (m.map Prod.fst).Nodup) :
    mapErase key m = m.filter (fun e => decide (e.1 ≠ key)) := by
  induction m with
  | nil => rfl
  | cons e rest ih =>
    obtain ⟨k, v⟩ := e
    simp only [List.map_cons, List.nodup_cons] at hnd
    by_cases hk : k = key
    · subst hk
      simp only [mapErase, if_true, ne_eq, not_true_eq_false, decide_False, Bool.false_eq_true,
        not_false_eq_true, List.filter_cons_of_neg]
      symm
      rw [List.filter_eq_self]
      intro a ha
      have : a.1 ≠ k := fun h => hnd.1 (h ▸ List.mem_map_of_mem Prod.fst ha)
      simpa using this
    · simp [mapErase, hk, ih hnd.2]

/-- With distinct keys, a removed key is no longer found. -/
lemma mapFind_mapErase_self (key : K) (m : List (K × V)) (hnd : (m.map Prod.fst).Nodup) :
    mapFind key (mapErase key m) = none := by
  rw [mapFind_eq_none_iff, mapErase_eq_filter key m hnd]
  intro h
  rw [List.mem_map] at h
  obtain ⟨e, he, hk⟩ := h
  rw [List.mem_filter] at he
  simp at he
  exact he.2 hk

end

section

variable {R Cov : Type} [Zero R] [Div R] [NatCast R]

/-- An observation whose id has no filter before `update` and occurs once in
the batch leaves `update` with a filter initialised at its centre with zero
velocity, and is itself unchanged. -/
lemma update_initialises_unseen (ops : KalmanOps R Cov) (duration : R)
    (t : KalmanObstacleTracker R Cov) (before after : List (ObjectModelParams R))
    (o : ObjectModelParams R) (hnew : mapFind o.id t.states_ = none)
    (hbefore : ∀ o1 ∈ before, o1.id ≠ o.id) (hafter : ∀ o1 ∈ after, o1.id ≠ o.id) :
    mapFind o.id (KalmanObstacleTracker.update ops duration t (before ++ o :: after)).1.states_
      = some { ops.fresh with x := ⟨o.center, ⟨0, 0, 0⟩⟩ } ∧
    (KalmanObstacleTracker.update ops duration t (before ++ o :: after)).2[before.length]?
      = some o := by
  have hstep : ∀ (t1 : KalmanObstacleTracker R Cov)
      (states : List (Int × ObstacleKalmanFilter R Cov)), mapFind o.id states = none →
      updateObstacle ops t1 states o
        = (mapSet o.id { ops.fresh with x := ⟨o.center, ⟨0, 0, 0⟩⟩ } states, o) := by
    intro t1 states h
    unfold updateObstacle
    rw [h]
    rfl
  constructor
  · simp only [KalmanObstacleTracker.update, updateLoop_append]
    rw [updateLoop, updateLoop_find_other _ _ _ after _ hafter]
    rw [hstep _ _ (by rw [updateLoop_find_other _ _ _ before _ hbefore]; exact hnew)]
    exact mapFind_mapSet_self _ _ _
  · simp only [KalmanObstacleTracker.update, updateLoop_append]
    rw [List.getElem?_append_right (by rw [updateLoop_length])]
    rw [updateLoop_length, Nat.sub_self, updateLoop]
    rw [hstep _ _ (by rw [updateLoop_find_other _ _ _ before _ hbefore]; exact hnew)]
    simp

end

/-- C11. `KalmanObstacleTracker::reset(id)` on a tracker whose map has
distinct keys: the entries that stay are exactly those of the other ids,
unchanged and in order, so a filter of `id` is removed and no other filter
is touched; every other member is unchanged; for an unknown id the tracker
is unchanged. After `reset(id)` the next `update` carrying `id` (once in the
batch) re-initialises its filter at the observation's centre with zero
velocity and leaves the observation as given. -/
theorem reset_removes_only_that_filter {R Cov : Type} [Zero R] [Div R] [NatCast R]
    (ops : KalmanOps R Cov) (duration : R) (t : KalmanObstacleTracker R Cov) (id : Int)
    (before after : List (ObjectModelParams R)) (o : ObjectModelParams R)
    (hkeys : (t.states_.map Prod.fst).Nodup) (hid : o.id = id)
    (hbefore : ∀ o1 ∈ before, o1.id ≠ id) (hafter : ∀ o1 ∈ after, o1.id ≠ id) :
    (t.reset id).states_ = t.states_.filter (fun e => decide (e.1 ≠ id)) ∧
    mapFind id (t.reset id).states_ = none ∧
    (∀ other, other ≠ id → mapFind other (t.reset id).states_ = mapFind other t.states_) ∧
    ((t.reset id).timer_running = t.timer_running ∧ (t.reset id).dt = t.dt ∧
      (t.reset id).noise_position = t.noise_position ∧
      (t.reset id).noise_velocity = t.noise_velocity ∧
      (t.reset id).noise_measurement = t.noise_measurement) ∧
    (mapFind id t.states_ = none → t.reset id = t) ∧
    mapFind id (KalmanObstacleTracker.update ops duration (t.reset id)
        (before ++ o :: after)).1.states_
      = some { ops.fresh with x := ⟨o.center, ⟨0, 0, 0⟩⟩ } ∧
    (KalmanObstacleTracker.update ops duration (t.reset id)
        (before ++ o :: after)).2[before.length]? = some o := by
  have hstates : (t.reset id).states_ = mapErase id t.states_ := by
    unfold KalmanObstacleTracker.reset
    cases h : mapFind id t.states_ with
    | some kf => rfl
    | none =>
      simp only
      rw [mapErase_eq_filter id _ hkeys]
      symm
      rw [List.filter_eq_self]
      intro a ha
      have hne : a.1 ≠ id := by
        intro h1
        have := (mapFind_eq_none_iff id t.states_).mp h
        exact this (h1 ▸ List.mem_map_of_mem Prod.fst ha)
      simpa using hne
  have hnone : mapFind id (t.reset id).states_ = none := by
    rw [hstates]
    exact mapFind_mapErase_self id _ hkeys
  have hfields : (t.reset id).timer_running = t.timer_running ∧ (t.reset id).dt = t.dt ∧
      (t.reset id).noise_position = t.noise_position ∧
      (t.reset id).noise_velocity = t.noise_velocity ∧
      (t.reset id).noise_measurement = t.noise_measurement := by
    unfold KalmanObstacleTracker.reset
    cases mapFind id t.states_ <;> exact ⟨rfl, rfl, rfl, rfl, rfl⟩
  subst hid
  obtain ⟨hupd, hobs⟩ := update_initialises_unseen ops duration (t.reset o.id) before after o
    hnone hbefore hafter
  refine ⟨by rw [hstates, mapErase_eq_filter _ _ hkeys], hnone, ?_, hfields, ?_, hupd, hobs⟩
  · intro other hother
    rw [hstates]
    exact mapFind_mapErase_ne _ _ _ (fun h => hother h.symm)
  · intro h
    unfold KalmanObstacleTracker.reset
    rw [h]

/-- Witness for C11 on rationals: ids 1 and 2 are tracked, id 2 is reset,
and the next batch carries ids 1 and 2. -/
theorem reset_removes_only_that_filter_witness :
    (KalmanObstacleTracker.reset
        (⟨[(1, ⟨⟨⟨0, 0, 0⟩, ⟨0, 0, 0⟩⟩, (1 : ℚ)⟩), (2, ⟨⟨⟨5, 5, 5⟩, ⟨1, 0, 0⟩⟩, 1⟩)],
          true, 1 / 30, 1, 1, 1⟩ : KalmanObstacleTracker ℚ ℚ) 2).states_
      = [(1, ⟨⟨⟨0, 0, 0⟩, ⟨0, 0, 0⟩⟩, 1⟩)] :=
  ((reset_removes_only_that_filter
    (⟨⟨⟨⟨0, 0, 0⟩, ⟨0, 0, 0⟩⟩, (1 : ℚ)⟩,
      fun _ _ dt kf => { kf with P := kf.P + dt },
      fun _ pos kf => { kf with x := ⟨pos, kf.x.velocity⟩ }⟩ : KalmanOps ℚ ℚ) 40
    ⟨[(1, ⟨⟨⟨0, 0, 0⟩, ⟨0, 0, 0⟩⟩, 1⟩), (2, ⟨⟨⟨5, 5, 5⟩, ⟨1, 0, 0⟩⟩, 1⟩)], true, 1 / 30, 1, 1, 1⟩
    2 [⟨1, ⟨1, 0, 0⟩, ⟨0, 0, 0⟩⟩] [] ⟨2, ⟨6, 5, 5⟩, ⟨0, 0, 0⟩⟩
    (by decide) rfl (by decide) (by decide)).1).trans (by decide)

section

variable {C γ δ α M E : Type}

/-- The approximator state left by the approximation loop does not depend on
the models collected so far. -/
lemma approximateAll_state (approximate : δ → C → δ × Except E M) :
    ∀ (segments : List C) (ap : δ) (acc1 acc2 : List M),
      (approximateAll approximate segments ap acc1).1
        = (approximateAll approximate segments ap acc2).1 := by
  intro segments
  induction segments with
  | nil => intro ap acc1 acc2; rfl
  | cons seg rest ih =>
    intro ap acc1 acc2
    rw [approximateAll, approximateAll]
    rcases approximate ap seg with ⟨ap1, e | m⟩
    · rfl
    · exact ih ap1 _ _

/-- When the approximation loop succeeds it has appended one model per
segment, in segment order: model `i` is what the approximator, in the state
left by the first `i` segments, returned for segment `i`. -/
lemma approximateAll_ok (approximate : δ → C → δ × Except E M) :
    ∀ (segments : List C) (ap ap1 : δ) (acc models : List M),
      approximateAll approximate segments ap acc = (ap1, .ok models) →
      ∃ ms, models = acc ++ ms ∧ ms.length = segments.length ∧
        ∀ i, i < segments.length → ∃ seg m, segments[i]? = some seg ∧ ms[i]? = some m ∧
          (approximate (approximateAll approximate (segments.take i) ap []).1 seg).2 = .ok m := by
  intro segments
  induction segments with
  | nil =>
    intro ap ap1 acc models h
    simp only [approximateAll, Prod.mk.injEq, Except.ok.injEq] at h
    exact ⟨[], by simp [h.2], rfl, fun i hi => absurd hi (Nat.not_lt_zero i)⟩
  | cons seg rest ih =>
    intro ap ap1 acc models h
    rw [approximateAll] at h
    rcases hs : approximate ap seg with ⟨ap2, e | m⟩
    · rw [hs] at h
      simp at h
    · rw [hs] at h
      simp only at h
      obtain ⟨ms, hms, hlen, hall⟩ := ih ap2 ap1 (acc ++ [m]) models h
      refine ⟨m :: ms, by simp [hms], by simp [hlen], ?_⟩
      intro i hi
      cases i with
      | zero =>
        refine ⟨seg, m, by simp, by simp, ?_⟩
        simp [approximateAll, hs]
      | succ i =>
        obtain ⟨seg1, m1, h1, h2, h3⟩ := hall i (by simpa using hi)
        refine ⟨seg1, m1, by simpa using h1, by simpa using h2, ?_⟩
        have hst : (approximateAll approximate ((seg :: rest).take (i + 1)) ap []).1
            = (approximateAll approximate (rest.take i) ap2 []).1 := by
          rw [List.take_succ_cons, approximateAll, hs]
          exact approximateAll_state approximate _ _ _ _
        rw [hst]
        exact h3

/-- When no aggregator raises, `notifyObstacles` gives the list to every
aggregator once, in order, and raises nothing. -/
lemma notifyObstacles_all (models : List M) :
    ∀ (aggregators : List (ObstacleAggregator α M E)),
      (∀ a ∈ aggregators, (a.updateObstacles a.state models).2 = none) →
      (notifyObstacles models aggregators).1.map (fun a => a.received)
        = aggregators.map (fun a => a.received ++ [models]) ∧
      (notifyObstacles models aggregators).2 = none := by
  intro aggregators
  induction aggregators with
  | nil => intro _; exact ⟨rfl, rfl⟩
  | cons a rest ih =>
    intro h
    have ha := h a (List.mem_cons_self _ _)
    obtain ⟨h1, h2⟩ := ih (fun b hb => h b (List.mem_cons_of_mem _ hb))
    rw [notifyObstacles]
    rcases hu : a.updateObstacles a.state models with ⟨st, e⟩
    rw [hu] at ha
    simp only at ha
    subst ha
    simp [h1, h2]

/-- When an aggregator raises, `notifyObstacles` has given the list once to
it and to every aggregator attached before it, and to none attached after
it. -/
lemma notifyObstacles_until_raise (models : List M) :
    ∀ (before : List (ObstacleAggregator α M E)) (a : ObstacleAggregator α M E)
      (after : List (ObstacleAggregator α M E)) (e : E),
      (∀ b ∈ before, (b.updateObstacles b.state models).2 = none) →
      (a.updateObstacles a.state models).2 = some e →
      (notifyObstacles models (before ++ a :: after)).1.map (fun b => b.received)
        = (before ++ [a]).map (fun b => b.received ++ [models]) ++
            after.map (fun b => b.received) ∧
      (notifyObstacles models (before ++ a :: after)).2 = some e := by
  intro before
  induction before with
  | nil =>
    intro a after e _ ha
    simp only [List.nil_append]
    rw [notifyObstacles]
    rcases hu : a.updateObstacles a.state models with ⟨st, e1⟩
    rw [hu] at ha
    simp only at ha
    subst ha
    simp
  | cons b rest ih =>
    intro a after e h ha
    have hb := h b (List.mem_cons_self _ _)
    obtain ⟨h1, h2⟩ := ih a after e (fun c hc => h c (List.mem_cons_of_mem _ hc)) ha
    simp only [List.cons_append]
    rw [notifyObstacles]
    rcases hu : b.updateObstacles b.state models with ⟨st, e1⟩
    rw [hu] at hb
    simp only at hb
    subst hb
    simp only [List.map_cons, h2, and_true]
    rw [h1]
    simp

end

/-- C19, as stated, fails: segmentation and approximation succeed, the first
of two attached aggregators raises, and the second one receives nothing. -/
theorem update_raising_aggregator_stops_publication :
    ((ObstacleDetector.update (fun sg (c : List Nat) => (sg, Except.ok ([[1], [2, 3]], c)))
        (fun ap (seg : List Nat) => (ap, Except.ok seg.length))
        raisingFirstDetector).1.aggregators_.map (fun a => a.received)) = [[[1, 2]], []] := by
  rfl

/-- C19, amended. On a frame on which segmentation and approximation
succeed, the published list has exactly one model per segment, in segment
order (model `i` is the approximation of segment `i`, by the approximator as
the earlier segments left it). The aggregators are notified in the order in
which they were attached (`attachObstacleAggregator` appends): if none
raises, every one receives that list exactly once; if one raises, it and
those attached before it have received the list once and those attached
after it receive nothing. -/
theorem update_publishes_models_in_order {C γ δ α M E : Type}
    (segment : γ → C → γ × Except E (List C × C)) (approximate : δ → C → δ × Except E M)
    (d : ObstacleDetector C γ δ α M E) (sg : γ) (segments : List C) (cloud : C) (ap : δ)
    (models : List M)
    (hseg : segment d.segmenter_ d.cloud_ = (sg, .ok (segments, cloud)))
    (happrox : approximateAll approximate segments d.approximator_ [] = (ap, .ok models)) :
    models.length = segments.length ∧
    (∀ i, i < segments.length → ∃ seg m, segments[i]? = some seg ∧ models[i]? = some m ∧
      (approximate (approximateAll approximate (segments.take i) d.approximator_ []).1 seg).2
        = .ok m) ∧
    (∀ a : ObstacleAggregator α M E,
      (attachObstacleAggregator d a).aggregators_ = d.aggregators_ ++ [a]) ∧
    ((∀ a ∈ d.aggregators_, (a.updateObstacles a.state models).2 = none) →
      (ObstacleDetector.update segment approximate d).1.aggregators_.map (fun a => a.received)
        = d.aggregators_.map (fun a => a.received ++ [models]) ∧
      (ObstacleDetector.update segment approximate d).2 = none) ∧
    (∀ (before : List (ObstacleAggregator α M E)) (a : ObstacleAggregator α M E)
      (after : List (ObstacleAggregator α M E)) (e : E),
      d.aggregators_ = before ++ a :: after →
      (∀ b ∈ before, (b.updateObstacles b.state models).2 = none) →
      (a.updateObstacles a.state models).2 = some e →
      (ObstacleDetector.update segment approximate d).1.aggregators_.map (fun b => b.received)
        = (before ++ [a]).map (fun b => b.received ++ [models]) ++
            after.map (fun b => b.received) ∧
      (ObstacleDetector.update segment approximate d).2 = some e) := by
  obtain ⟨ms, hms, hlen, hall⟩ := approximateAll_ok approximate segments d.approximator_ ap []
    models happrox
  simp only [List.nil_append] at hms
  subst hms
  have hagg : (ObstacleDetector.update segment approximate d).1.aggregators_
      = (notifyObstacles models d.aggregators_).1 := by
    unfold ObstacleDetector.update
    rw [hseg]
    simp only
    rw [happrox]
  have hexc : (ObstacleDetector.update segment approximate d).2
      = (notifyObstacles models d.aggregators_).2 := by
    unfold ObstacleDetector.update
    rw [hseg]
    simp only
    rw [happrox]
  refine ⟨hlen, hall, fun a => rfl, ?_, ?_⟩
  · intro hno
    rw [hagg, hexc]
    exact notifyObstacles_all models d.aggregators_ hno
  · intro before a after e hd hno ha
    rw [hagg, hexc, hd]
    exact notifyObstacles_until_raise models before a after e hno ha

/-- Witness for C19 amended: two segments, approximated by their sizes, and
the detector `raisingFirstDetector`, whose first aggregator raises. -/
theorem update_publishes_models_in_order_witness :
    ([1, 2] : List Nat).length = ([[1], [2, 3]] : List (List Nat)).length ∧
    (ObstacleDetector.update (fun sg (c : List Nat) => (sg, Except.ok ([[1], [2, 3]], c)))
        (fun ap (seg : List Nat) => (ap, Except.ok seg.length))
        raisingFirstDetector).2 = some "aggregator failed" :=
  ⟨(update_publishes_models_in_order
      (fun sg (c : List Nat) => (sg, Except.ok ([[1], [2, 3]], c)))
      (fun ap (seg : List Nat) => (ap, (Except.ok seg.length : Except String Nat)))
      raisingFirstDetector () [[1], [2, 3]] [] () [1, 2] rfl rfl).1,
    ((update_publishes_models_in_order
      (fun sg (c : List Nat) => (sg, Except.ok ([[1], [2, 3]], c)))
      (fun ap (seg : List Nat) => (ap, (Except.ok seg.length : Except String Nat)))
      raisingFirstDetector () [[1], [2, 3]] [] () [1, 2] rfl rfl).2.2.2.2
      [] _ _ "aggregator failed" rfl (fun b hb => absurd hb (List.not_mem_nil b)) rfl).2⟩

section

variable {R P : Type} [Add R] [Mul R] [Div R] [NatCast R] [LT R]
  [DecidableRel (fun a b : R => a < b)]

/-- Planes within tolerance of the representative of the only group are all
merged into that group. -/
lemma classifyAll_single_group (acos : R → R) (M_PI : R) (k0 : ModelCoefficients R) :
    ∀ (planes : List (List P × ModelCoefficients R)) (cs : List P) (vcs vs : List (List P))
      (g : List P),
      (∀ b ∈ planes, withinTolerance acos M_PI k0 b.2) →
      classifyAll acos M_PI planes ⟨cs, vcs, [g], vs, [k0]⟩
        = .ok ⟨cs, vcs, [g ++ (planes.map Prod.fst).flatten], vs, [k0]⟩ := by
  intro planes
  induction planes with
  | nil => intro cs vcs vs g _; simp [classifyAll]
  | cons plane rest ih =>
    intro cs vcs vs g h
    obtain ⟨θ, hθ, htol⟩ := h plane (List.mem_cons_self _ _)
    obtain ⟨g1, hg1, hres⟩ := (classify_rule acos M_PI
      (⟨cs, vcs, [g], vs, [k0]⟩ : SurfaceSegmenter R P) plane.1 plane.2 rfl).1 0 θ hθ htol
      (fun j _ hj => absurd hj (Nat.not_lt_zero j))
    simp only [List.getElem?_cons_zero, Option.some.injEq] at hg1
    subst hg1
    rw [classifyAll, hres]
    simp only [List.set_cons_zero]
    rw [ih cs vcs vs _ (fun b hb => h b (List.mem_cons_of_mem _ hb))]
    simp

end

/-- Classification by computed angles, in any arithmetic: for planes that are
pairwise within tolerance by the angle that `getAngle` computes (each of the
other), classified one after another from an empty group list in any order,
the result is exactly one surface group; it holds the points of all the
planes and its representative is the plane classified first. The hypothesis
is on the computed angle, which in `float` can be NaN for normals that are
0 degrees apart. -/
theorem classify_within_tolerance_gives_one_group {R P : Type} [Add R] [Mul R] [Div R]
    [NatCast R] [LT R] [DecidableRel (fun a b : R => a < b)]
    (acos : R → R) (M_PI : R) (planes order : List (List P × ModelCoefficients R))
    (hne : planes ≠ [])
    (htol : planes.Pairwise (fun a b =>
      withinTolerance acos M_PI a.2 b.2 ∧ withinTolerance acos M_PI b.2 a.2))
    (horder : order.Perm planes) :
    ∃ first, order.head? = some first ∧
      classifyAll acos M_PI order ⟨[], [], [], [], []⟩
        = .ok ⟨[], [], [(order.map Prod.fst).flatten], [], [first.2]⟩ := by
  have hsymm : Symmetric (fun a b : List P × ModelCoefficients R =>
      withinTolerance acos M_PI a.2 b.2 ∧ withinTolerance acos M_PI b.2 a.2) :=
    fun a b h => ⟨h.2, h.1⟩
  have hpw := (horder.pairwise_iff (fun {a b} h => hsymm h)).mpr htol
  cases order with
  | nil => exact absurd horder.symm.eq_nil hne
  | cons first rest =>
    refine ⟨first, rfl, ?_⟩
    rw [List.pairwise_cons] at hpw
    have hfirst : classify acos M_PI (⟨[], [], [], [], []⟩ : SurfaceSegmenter R P)
        first.1 first.2 = .ok ⟨[], [], [first.1], [], [first.2]⟩ := rfl
    rw [classifyAll, hfirst]
    simp only
    rw [classifyAll_single_group acos M_PI first.2 rest [] [] [] first.1
      (fun b hb => (hpw.1 b hb).1)]
    simp

/-- Over the reals, the angle that `getAngle` reports between the unit normal
at `d` degrees from `(0, 0, 1)` in the x-z plane, as representative, and the
normal `(0, 0, 1)` is `d`, for `0 ≤ d ≤ 180`. -/
lemma getAngle_real_degrees_rev (d : ℝ) (h0 : 0 ≤ d) (h180 : d ≤ 180) (o1 o2 : ℝ) :
    getAngle Real.arccos Real.pi
      [⟨Real.sin (d * Real.pi / 180), 0, Real.cos (d * Real.pi / 180), o1⟩]
      ⟨0, 0, 1, o2⟩ 0 = .ok d := by
  have hpi : (0 : ℝ) < Real.pi := Real.pi_pos
  have hx0 : 0 ≤ d * Real.pi / 180 := by positivity
  have hx1 : d * Real.pi / 180 ≤ Real.pi := by
    rw [div_le_iff₀ (by norm_num)]
    nlinarith
  simp only [getAngle, List.getElem?_cons_zero, mul_zero, zero_add, mul_one, add_zero,
    Real.arccos_cos hx0 hx1, Nat.cast_ofNat]
  congr 1
  field_simp

/-- Instance over the reals of `classify_within_tolerance_gives_one_group`: a
plane with normal `(0, 0, 1)` and a plane at 179 degrees from it
(antiparallel within tolerance), classified in the reverse order. -/
theorem classify_within_tolerance_gives_one_group_witness :
    ∃ first, ([(([3] : List Nat),
          (⟨Real.sin (179 * Real.pi / 180), 0, Real.cos (179 * Real.pi / 180), 0⟩ :
            ModelCoefficients ℝ)), ([1, 2], ⟨0, 0, 1, 0⟩)]).head? = some first ∧
      classifyAll Real.arccos Real.pi
        [(([3] : List Nat),
          (⟨Real.sin (179 * Real.pi / 180), 0, Real.cos (179 * Real.pi / 180), 0⟩ :
            ModelCoefficients ℝ)), ([1, 2], ⟨0, 0, 1, 0⟩)] ⟨[], [], [], [], []⟩
        = .ok ⟨[], [], [(List.map Prod.fst [(([3] : List Nat),
          (⟨Real.sin (179 * Real.pi / 180), 0, Real.cos (179 * Real.pi / 180), 0⟩ :
            ModelCoefficients ℝ)), ([1, 2], ⟨0, 0, 1, 0⟩)]).flatten], [], [first.2]⟩ :=
  classify_within_tolerance_gives_one_group Real.arccos Real.pi
    [([1, 2], ⟨0, 0, 1, 0⟩),
      ([3], ⟨Real.sin (179 * Real.pi / 180), 0, Real.cos (179 * Real.pi / 180), 0⟩)]
    [([3], ⟨Real.sin (179 * Real.pi / 180), 0, Real.cos (179 * Real.pi / 180), 0⟩),
      ([1, 2], ⟨0, 0, 1, 0⟩)]
    (by simp)
    (by
      rw [List.pairwise_cons]
      refine ⟨?_, by simp⟩
      intro b hb
      rw [List.mem_singleton] at hb
      subst hb
      exact ⟨⟨179, getAngle_real_degrees 179 (by norm_num) (by norm_num) 0 0,
          Or.inr (by norm_num)⟩,
        ⟨179, getAngle_real_degrees_rev 179 (by norm_num) (by norm_num) 0 0,
          Or.inr (by norm_num)⟩⟩)
    (List.Perm.swap _ _ _)

section

variable {R P σ : Type} [Add R] [Mul R] [Div R] [NatCast R] [LT R]
  [DecidableRel (fun a b : R => a < b)]

/-- Recording the fits changes nothing: the loop with the recording
estimator returns what the loop with the estimator itself returns. -/
lemma findSurfacesLoop_logged (acos : R → R) (M_PI : R)
    (segment : σ → List P → σ × List Nat × ModelCoefficients R) (point_threshold : Nat) :
    ∀ (fuel : Nat) (est : σ) (log : List (List P × List Nat)) (c : List P)
      (s : SurfaceSegmenter R P),
      findSurfacesLoop acos M_PI segment point_threshold fuel est c s
        = (findSurfacesLoop acos M_PI (loggedEstimator segment) point_threshold fuel
            (est, log) c s).map (fun r => (r.1.1, r.2)) := by
  intro fuel
  induction fuel with
  | zero => intro est log c s; rfl
  | succ fuel ih =>
    intro est log c s
    rw [findSurfacesLoop, findSurfacesLoop]
    by_cases hthr : point_threshold < c.length
    · rw [if_pos hthr, if_pos hthr]
      simp only [loggedEstimator]
      rcases hs : segment est c with ⟨est1, idx, coef⟩
      simp only
      by_cases hidx : idx.length = 0
      · rw [if_pos hidx, if_pos hidx]
        rfl
      · rw [if_neg hidx, if_neg hidx]
        rcases classify acos M_PI
          { s with cloud_surfaces_ := s.cloud_surfaces_ ++ extractIndices c idx false }
          (extractIndices c idx false) coef with e | s2
        · rfl
        · exact ih est1 _ _ s2
    · rw [if_neg hthr, if_neg hthr]
      rfl

/-- What the record of fits shows when the loop returns: every fit was made
on a working cloud above the threshold, and either the residual is at or
below the threshold or the last fit, made on the residual, returned no
index. -/
lemma findSurfacesLoop_stop (acos : R → R) (M_PI : R)
    (segment : σ → List P → σ × List Nat × ModelCoefficients R) (point_threshold : Nat) :
    ∀ (fuel : Nat) (est est1 : σ) (log log1 : List (List P × List Nat)) (c residual : List P)
      (s s1 : SurfaceSegmenter R P),
      findSurfacesLoop acos M_PI (loggedEstimator segment) point_threshold fuel (est, log) c s
        = .ok ((est1, log1), residual, s1) →
      ∃ fits, log1 = log ++ fits ∧ (∀ fit ∈ fits, point_threshold < fit.1.length) ∧
        (residual.length ≤ point_threshold ∨ ∃ earlier, fits = earlier ++ [(residual, [])]) := by
  intro fuel
  induction fuel with
  | zero =>
    intro est est1 log log1 c residual s s1 h
    simp [findSurfacesLoop] at h
  | succ fuel ih =>
    intro est est1 log log1 c residual s s1 h
    rw [findSurfacesLoop] at h
    by_cases hthr : point_threshold < c.length
    · rw [if_pos hthr] at h
      simp only [loggedEstimator] at h
      rcases hs : segment est c with ⟨est2, idx, coef⟩
      rw [hs] at h
      simp only at h
      by_cases hidx : idx.length = 0
      · rw [if_pos hidx] at h
        simp only [Except.ok.injEq, Prod.mk.injEq] at h
        obtain ⟨⟨_, hlog⟩, hres, _⟩ := h
        have hnil : idx = [] := List.length_eq_zero.mp hidx
        subst hnil hres
        refine ⟨[(c, [])], hlog.symm, ?_, Or.inr ⟨[], rfl⟩⟩
        intro fit hfit
        rw [List.mem_singleton] at hfit
        subst hfit
        exact hthr
      · rw [if_neg hidx] at h
        rcases hc : classify acos M_PI
          { s with cloud_surfaces_ := s.cloud_surfaces_ ++ extractIndices c idx false }
          (extractIndices c idx false) coef with e | s2
        · rw [hc] at h
          simp at h
        · rw [hc] at h
          simp only at h
          obtain ⟨fits, hlog, hall, hlast⟩ := ih est2 est1 _ log1 _ residual s2 s1 h
          refine ⟨(c, idx) :: fits, by simp [hlog], ?_, ?_⟩
          · intro fit hfit
            rcases List.mem_cons.mp hfit with rfl | hf
            · exact hthr
            · exact hall fit hf
          · rcases hlast with hle | ⟨earlier, he⟩
            · exact Or.inl hle
            · exact Or.inr ⟨(c, idx) :: earlier, by simp [he]⟩
    · rw [if_neg hthr] at h
      simp only [Except.ok.injEq, Prod.mk.injEq] at h
      obtain ⟨⟨_, hlog⟩, hres, _⟩ := h
      subst hres
      exact ⟨[], by simp [hlog], by simp, Or.inl (by omega)⟩

end

/-- C16. `SurfaceSegmenter::findSurfaces` stop condition, with a record of the
plane fits (which does not change what `findSurfaces` returns): with `n` the
number of points of the input, every fit is made on a working cloud of more
than `n / 10` points, and when `findSurfaces` returns, either the residual
has at most `n / 10` points or the last fit was made on the residual and
returned zero inliers. For an estimator returning distinct valid indices
and a step budget above `n` it does return. -/
theorem findSurfaces_stop_condition {R P σ : Type} [Add R] [Mul R] [Div R] [NatCast R]
    [LT R] [DecidableRel (fun a b : R => a < b)]
    (acos : R → R) (M_PI : R)
    (segment : σ → List P → σ × List Nat × ModelCoefficients R)
    (fuel : Nat) (est : σ) (cloud : List P) (s : SurfaceSegmenter R P) :
    findSurfaces acos M_PI segment fuel est cloud s
      = (findSurfaces acos M_PI (loggedEstimator segment) fuel (est, []) cloud s).map
          (fun r => (r.1.1, r.2)) ∧
    (∀ est1 fits residual s1,
      findSurfaces acos M_PI (loggedEstimator segment) fuel (est, []) cloud s
        = .ok ((est1, fits), residual, s1) →
      (∀ fit ∈ fits, cloud.length / 10 < fit.1.length) ∧
      (residual.length ≤ cloud.length / 10 ∨ ∃ earlier, fits = earlier ++ [(residual, [])])) ∧
    ((∀ e c, (segment e c).2.1.Nodup ∧ ∀ i ∈ (segment e c).2.1, i < c.length) →
      cloud.length < fuel →
      ∃ r, findSurfaces acos M_PI (loggedEstimator segment) fuel (est, []) cloud s = .ok r) := by
  refine ⟨?_, ?_, ?_⟩
  · exact findSurfacesLoop_logged acos M_PI segment _ fuel est [] cloud _
  · intro est1 fits residual s1 h
    obtain ⟨fits1, hlog, hall, hlast⟩ := findSurfacesLoop_stop acos M_PI segment
      (cloud.length / 10) fuel est est1 [] fits cloud residual _ s1 h
    simp only [List.nil_append] at hlog
    subst hlog
    exact ⟨hall, hlast⟩
  · intro hseg hfuel
    obtain ⟨est1, residual, s1, hrun, _, _⟩ := findSurfacesLoop_conserves acos M_PI
      (loggedEstimator segment) (fun e c => hseg e.1 c) (cloud.length / 10) fuel (est, [])
      cloud (⟨[], [], [], [], []⟩ : SurfaceSegmenter R P) hfuel rfl (List.Perm.refl _)
    exact ⟨_, hrun⟩

/-- Witness for C16 with the estimator `firstAndThird` on five points: two
fits are made, on five and on three points; the residual is one point. -/
theorem findSurfaces_stop_condition_witness :
    ∃ r, findSurfaces Real.arccos Real.pi (loggedEstimator firstAndThird) 6 ((), [])
      [10, 20, 30, 40, 50] (⟨[], [], [], [], []⟩ : SurfaceSegmenter ℝ Nat) = .ok r :=
  (findSurfaces_stop_condition Real.arccos Real.pi firstAndThird 6 () [10, 20, 30, 40, 50]
    ⟨[], [], [], [], []⟩).2.2
    (by
      intro e c
      simp only [firstAndThird]
      split_ifs with h
      · refine ⟨by decide, ?_⟩
        intro i hi
        simp only [List.mem_cons, List.mem_singleton, List.not_mem_nil, or_false] at hi
        omega
      · exact ⟨List.nodup_nil, fun i hi => absurd hi (List.not_mem_nil i)⟩)
    (by decide)

/-- C17. `SurfaceSegmenter::segment` on a scene with no planes: when the
NaN-free input is empty or the first plane fit on it returns zero inliers,
`segment` returns, the residual cloud is the NaN-free input unchanged, the
surface list is empty and the coefficient list is empty, whatever the
members held from a previous call. -/
theorem segment_without_planes {R P σ : Type} [Add R] [Mul R] [Div R] [NatCast R]
    [LT R] [DecidableRel (fun a b : R => a < b)]
    (acos : R → R) (M_PI : R) (valid : P → Bool)
    (segmentPlane : σ → List P → σ × List Nat × ModelCoefficients R)
    (extract : R → Nat → Nat → List P → List (List Nat))
    (fuel : Nat) (est : σ) (s : SurfaceSegmenter R P) (cloud : List P)
    (hfuel : 0 < fuel)
    (hnone : cloud.filter valid = [] ∨
      (segmentPlane est (cloud.filter valid)).2.1 = []) :
    ∃ est1, SurfaceSegmenter.segment acos M_PI valid segmentPlane extract fuel est s cloud
      = .ok (est1, ⟨[], [], [], [], []⟩, [], cloud.filter valid, []) := by
  obtain ⟨f, rfl⟩ : ∃ f, fuel = f + 1 := ⟨fuel - 1, by omega⟩
  have hfind : ∃ est1, findSurfaces acos M_PI segmentPlane (f + 1) est (cloud.filter valid) s
      = .ok (est1, cloud.filter valid, ⟨[], [], [], [], []⟩) := by
    unfold findSurfaces
    simp only
    rw [findSurfacesLoop]
    by_cases hthr : (cloud.filter valid).length / 10 < (cloud.filter valid).length
    · rw [if_pos hthr]
      rcases hnone with hempty | hfit
      · rw [hempty] at hthr
        simp at hthr
      · rcases hs : segmentPlane est (cloud.filter valid) with ⟨est1, idx, coef⟩
        rw [hs] at hfit
        simp only at hfit
        subst hfit
        exact ⟨est1, by simp⟩
    · rw [if_neg hthr]
      exact ⟨est, rfl⟩
  obtain ⟨est1, hf⟩ := hfind
  refine ⟨est1, ?_⟩
  unfold SurfaceSegmenter.segment preprocessCloud
  simp only
  rw [hf]
  rfl

/-- Witness for C17 over the reals: the segmenter holds a group from a
previous call, the cloud has one point with a non-finite coordinate
(`none`) and two valid points, and the estimator finds no plane. -/
theorem segment_without_planes_witness :
    ∃ est1, SurfaceSegmenter.segment Real.arccos Real.pi (fun p : Option Nat => p.isSome)
        (fun (e : Unit) (_ : List (Option Nat)) => (e, [], (⟨0, 0, 1, 0⟩ : ModelCoefficients ℝ)))
        (fun _ _ _ _ => []) 3 ()
        (⟨[some 7], [[some 7]], [[some 7]], [], [⟨0, 0, 1, 0⟩]⟩ :
          SurfaceSegmenter ℝ (Option Nat))
        [some 1, none, some 2]
      = .ok (est1, ⟨[], [], [], [], []⟩, [], [some 1, none, some 2].filter (fun p => p.isSome),
          []) :=
  segment_without_planes Real.arccos Real.pi (fun p : Option Nat => p.isSome)
    (fun (e : Unit) (_ : List (Option Nat)) => (e, [], (⟨0, 0, 1, 0⟩ : ModelCoefficients ℝ)))
    (fun _ _ _ _ => []) 3 () _ [some 1, none, some 2] (by decide) (Or.inr rfl)

section

variable {R P : Type} [Add R] [Mul R] [Div R] [NatCast R] [LT R]
  [DecidableRel (fun a b : R => a < b)]

/-- Merging a plane into group `k` keeps the groups aligned with the
history extended by that plane, assigned to `k`. -/
lemma groupsAligned_merge (planes : List (List P × ModelCoefficients R)) (assigned : List Nat)
    (s : SurfaceSegmenter R P) (cloud : List P) (coeffs : ModelCoefficients R) (k : Nat)
    (g : List P) (hg : s.vec_surface[k]? = some g) (h : groupsAligned planes assigned s) :
    groupsAligned (planes ++ [(cloud, coeffs)]) (assigned ++ [k])
      { s with vec_surface := s.vec_surface.set k (g ++ cloud) } := by
  obtain ⟨hlen, halign, hlt, hall⟩ := h
  have hk : k < s.vec_surface.length := by
    by_contra hge
    rw [List.getElem?_eq_none (by omega)] at hg
    simp at hg
  refine ⟨by simp [hlen], by simpa using halign, ?_, ?_⟩
  · intro a ha
    rcases List.mem_append.mp ha with h1 | h1
    · exact hlt a h1
    · rw [List.mem_singleton] at h1
      subst h1
      simpa [halign] using hk
  · intro i hi
    obtain ⟨hpts, k1, c1, co1, hp1, ha1, hfirst, hco⟩ := hall i hi
    have hk1 : k1 < assigned.length := by
      by_contra hge
      rw [List.getElem?_eq_none (by omega)] at ha1
      simp at ha1
    constructor
    · rw [List.zip_append hlen.symm, List.filter_append, List.map_append, List.flatten_append]
      by_cases hik : i = k
      · subst hik
        simp only [List.getElem?_set_self hk]
        rw [hpts] at hg
        simp only [Option.some.injEq] at hg
        simp [hg]
      · simp only [List.getElem?_set_ne (fun h1 => hik h1.symm), hpts]
        have : ¬ k = i := fun h1 => hik h1.symm
        simp [this]
    · refine ⟨k1, c1, co1, ?_, ?_, ?_, hco⟩
      · rw [List.getElem?_append_left (by omega)]
        exact hp1
      · rw [List.getElem?_append_left hk1]
        exact ha1
      · intro j hj
        rw [List.getElem?_append_left (by omega)]
        exact hfirst j hj

/-- Starting a new group with a plane keeps the groups aligned with the
history extended by that plane, assigned to the new last group. -/
lemma groupsAligned_new (planes : List (List P × ModelCoefficients R)) (assigned : List Nat)
    (s : SurfaceSegmenter R P) (cloud : List P) (coeffs : ModelCoefficients R)
    (h : groupsAligned planes assigned s) :
    groupsAligned (planes ++ [(cloud, coeffs)]) (assigned ++ [s.m_coefficients.length])
      { s with
        vec_surface := s.vec_surface ++ [cloud]
        m_coefficients := s.m_coefficients ++ [coeffs] } := by
  obtain ⟨hlen, halign, hlt, hall⟩ := h
  refine ⟨by simp [hlen], by simp [halign], ?_, ?_⟩
  · intro a ha
    simp only [List.length_append, List.length_singleton]
    rcases List.mem_append.mp ha with h1 | h1
    · exact Nat.lt_succ_of_lt (hlt a h1)
    · rw [List.mem_singleton] at h1
      omega
  · intro i hi
    simp only [List.length_append, List.length_singleton] at hi
    rw [List.zip_append hlen.symm, List.filter_append, List.map_append, List.flatten_append]
    by_cases hil : i < s.m_coefficients.length
    · obtain ⟨hpts, k1, c1, co1, hp1, ha1, hfirst, hco⟩ := hall i hil
      have hk1 : k1 < assigned.length := by
        by_contra hge
        rw [List.getElem?_eq_none (by omega)] at ha1
        simp at ha1
      constructor
      · simp only
        rw [List.getElem?_append_left (by omega), hpts]
        have : ¬ s.m_coefficients.length = i := by omega
        simp [this]
      · refine ⟨k1, c1, co1, ?_, ?_, ?_, ?_⟩
        · rw [List.getElem?_append_left (by omega)]
          exact hp1
        · rw [List.getElem?_append_left hk1]
          exact ha1
        · intro j hj
          rw [List.getElem?_append_left (by omega)]
          exact hfirst j hj
        · simp only
          rw [List.getElem?_append_left hil]
          exact hco
    · have hi2 : i = s.m_coefficients.length := by omega
      subst hi2
      have hold : (planes.zip assigned).filter (fun e => decide (e.2 = s.m_coefficients.length))
          = [] := by
        rw [List.filter_eq_nil_iff]
        intro e he
        have := hlt e.2 (List.of_mem_zip he).2
        simp only [decide_eq_true_eq]
        omega
      constructor
      · simp only
        rw [List.getElem?_append_right (by omega), hold]
        simp [halign]
      · refine ⟨planes.length, cloud, coeffs, by simp, by simp [hlen], ?_, by simp⟩
        intro j hj hje
        rw [List.getElem?_append_left (by omega)] at hje
        have := hlt _ (List.getElem?_mem hje)
        omega

/-- One call of `classify` on aligned groups returns, and keeps the groups
aligned with the history extended by the new plane. -/
lemma classify_keeps_aligned (acos : R → R) (M_PI : R)
    (planes : List (List P × ModelCoefficients R)) (assigned : List Nat)
    (s : SurfaceSegmenter R P) (cloud : List P) (coeffs : ModelCoefficients R)
    (h : groupsAligned planes assigned s) :
    ∃ s1 g, classify acos M_PI s cloud coeffs = .ok s1 ∧
      groupsAligned (planes ++ [(cloud, coeffs)]) (assigned ++ [g]) s1 ∧
      (s1.m_coefficients = s.m_coefficients ∨
        (g = s.m_coefficients.length ∧ s1.m_coefficients = s.m_coefficients ++ [coeffs])) := by
  rcases classifyLoop_cases acos M_PI cloud coeffs s h.2.1 s.m_coefficients.length 0 (by omega)
    with ⟨k, g, hg, hres⟩ | hres
  · exact ⟨_, k, hres, groupsAligned_merge planes assigned s cloud coeffs k g hg h, Or.inl rfl⟩
  · exact ⟨_, _, hres, groupsAligned_new planes assigned s cloud coeffs h, Or.inr ⟨rfl, rfl⟩⟩

/-- A run of `classify` calls on aligned groups returns, and keeps the
groups aligned with the history extended by the new planes. -/
lemma classifyAll_keeps_aligned (acos : R → R) (M_PI : R) :
    ∀ (more planes : List (List P × ModelCoefficients R)) (assigned : List Nat)
      (s : SurfaceSegmenter R P), groupsAligned planes assigned s →
      ∃ s1 assigned1, classifyAll acos M_PI more s = .ok s1 ∧
        groupsAligned (planes ++ more) assigned1 s1 := by
  intro more
  induction more with
  | nil =>
    intro planes assigned s h
    exact ⟨s, assigned, rfl, by simpa using h⟩
  | cons plane rest ih =>
    intro planes assigned s h
    obtain ⟨s1, g, hc, hal, _⟩ := classify_keeps_aligned acos M_PI planes assigned s
      plane.1 plane.2 h
    obtain ⟨s2, assigned2, hrun, hal2⟩ := ih (planes ++ [(plane.1, plane.2)]) _ s1 hal
    refine ⟨s2, assigned2, ?_, by simpa using hal2⟩
    rw [classifyAll, hc]
    exact hrun

end

/-- C18. Surface groups and coefficients stay index-aligned. The state as
cleared by `findSurfaces` is aligned with the empty history. Every call of
`classify` on aligned groups returns and leaves them aligned with the
history extended by the classified plane: the two lists have the same
length, each group holds the points of the planes classified into it, and
its coefficient record is that of the first of them; a merge leaves the
coefficient list as it was, a new group appends the plane's coefficients.
So after any run of `classify` calls from the cleared state the groups are
aligned with the planes classified. -/
theorem classify_keeps_groups_aligned {R P : Type} [Add R] [Mul R] [Div R] [NatCast R]
    [LT R] [DecidableRel (fun a b : R => a < b)]
    (acos : R → R) (M_PI : R) (planes : List (List P × ModelCoefficients R))
    (assigned : List Nat) (s : SurfaceSegmenter R P) (cloud : List P)
    (coeffs : ModelCoefficients R) (h : groupsAligned planes assigned s) :
    groupsAligned ([] : List (List P × ModelCoefficients R)) []
      (⟨[], [], [], [], []⟩ : SurfaceSegmenter R P) ∧
    (∃ s1 g, classify acos M_PI s cloud coeffs = .ok s1 ∧
      groupsAligned (planes ++ [(cloud, coeffs)]) (assigned ++ [g]) s1 ∧
      (s1.m_coefficients = s.m_coefficients ∨
        (g = s.m_coefficients.length ∧ s1.m_coefficients = s.m_coefficients ++ [coeffs]))) ∧
    (∀ run : List (List P × ModelCoefficients R), ∃ s1 assigned1,
      classifyAll acos M_PI run ⟨[], [], [], [], []⟩ = .ok s1 ∧
        groupsAligned run assigned1 s1) := by
  have hempty : groupsAligned ([] : List (List P × ModelCoefficients R)) []
      (⟨[], [], [], [], []⟩ : SurfaceSegmenter R P) :=
    ⟨rfl, rfl, fun g hg => absurd hg (List.not_mem_nil g),
      fun i hi => absurd hi (Nat.not_lt_zero i)⟩
  refine ⟨hempty, classify_keeps_aligned acos M_PI planes assigned s cloud coeffs h, ?_⟩
  intro run
  obtain ⟨s1, assigned1, hrun, hal⟩ := classifyAll_keeps_aligned acos M_PI run [] [] _ hempty
  exact ⟨s1, assigned1, hrun, by simpa using hal⟩

/-- Witness for C18 over the reals: one group with representative
`(0, 0, 1)` holding the plane `[1, 2]`, and a further plane classified. -/
theorem classify_keeps_groups_aligned_witness :
    ∃ s1 g, classify Real.arccos Real.pi
        (⟨[], [], [[1, 2]], [], [⟨0, 0, 1, 0⟩]⟩ : SurfaceSegmenter ℝ Nat) [3] ⟨1, 0, 0, 5⟩
        = .ok s1 ∧
      groupsAligned ([([1, 2], ⟨0, 0, 1, 0⟩)] ++ [([3], ⟨1, 0, 0, 5⟩)]) ([0] ++ [g]) s1 ∧
      (s1.m_coefficients = [⟨0, 0, 1, 0⟩] ∨
        (g = 1 ∧ s1.m_coefficients = [⟨0, 0, 1, 0⟩] ++ [⟨1, 0, 0, 5⟩])) :=
  (classify_keeps_groups_aligned Real.arccos Real.pi [([1, 2], ⟨0, 0, 1, 0⟩)] [0]
    (⟨[], [], [[1, 2]], [], [⟨0, 0, 1, 0⟩]⟩ : SurfaceSegmenter ℝ Nat) [3] ⟨1, 0, 0, 5⟩
    (by
      refine ⟨rfl, rfl, by simp, ?_⟩
      intro i hi
      have hi0 : i = 0 := by simpa using hi
      subst hi0
      exact ⟨by simp, 0, [1, 2], ⟨0, 0, 1, 0⟩, rfl, rfl,
        fun j hj => absurd hj (Nat.not_lt_zero j), rfl⟩)).2.1

section

variable {R Cov : Type} [LinearOrderedField R]

/-- The six index sums of `cofactor_3x3`. -/
theorem cofactor_3x3_apply (m : Matrix3 R) :
    cofactor_3x3 m 0 0 = m 1 1 * m 2 2 - m 1 2 * m 2 1 ∧
    cofactor_3x3 m 0 1 = m 1 2 * m 2 0 - m 1 0 * m 2 2 ∧
    cofactor_3x3 m 0 2 = m 1 0 * m 2 1 - m 1 1 * m 2 0 ∧
    cofactor_3x3 m 1 0 = m 2 1 * m 0 2 - m 2 2 * m 0 1 ∧
    cofactor_3x3 m 1 1 = m 2 2 * m 0 0 - m 2 0 * m 0 2 ∧
    cofactor_3x3 m 1 2 = m 2 0 * m 0 1 - m 2 1 * m 0 0 ∧
    cofactor_3x3 m 2 0 = m 0 1 * m 1 2 - m 0 2 * m 1 1 ∧
    cofactor_3x3 m 2 1 = m 0 2 * m 1 0 - m 0 0 * m 1 2 ∧
    cofactor_3x3 m 2 2 = m 0 0 * m 1 1 - m 0 1 * m 1 0 :=
  ⟨rfl, rfl, rfl, rfl, rfl, rfl, rfl, rfl, rfl⟩

/-- The determinant computed by the inversion routine (cofactors of column 0)
is the determinant of the matrix. -/
theorem cofactor_expansion_eq_det (m : Matrix3 R) :
    cofactor_3x3 m 0 0 * m 0 0 + cofactor_3x3 m 1 0 * m 1 0 + cofactor_3x3 m 2 0 * m 2 0
      = m.det := by
  obtain ⟨h00, -, -, h10, -, -, h20, -, -⟩ := cofactor_3x3_apply m
  rw [Matrix.det_fin_three, h00, h10, h20]
  ring

/-- What the inversion routine returns, in terms of the determinant. -/
theorem computeInverseAndDetWithCheck_eq (thr : R) (m : Matrix3 R) :
    computeInverseAndDetWithCheck thr m =
      if thr < |m.det| then
        (some (compute_inverse_size3_helper m (1 / m.det)), m.det, true)
      else (none, m.det, false) := by
  unfold computeInverseAndDetWithCheck
  simp only [cofactor_expansion_eq_det, Nat.cast_zero, Nat.cast_one]
  have habs : (if m.det < 0 then -m.det else m.det) = |m.det| := by
    split
    · rw [abs_of_neg (by assumption)]
    · rw [abs_of_nonneg (not_lt.mp (by assumption))]
  rw [habs]
  by_cases h : thr < |m.det| <;> simp [h]

/-- The matrix written by the inversion routine is the inverse. -/
theorem cofactor_inverse_mul (m : Matrix3 R) (h : m.det ≠ 0) :
    m * compute_inverse_size3_helper m (1 / m.det) = 1 ∧
    compute_inverse_size3_helper m (1 / m.det) * m = 1 ∧
    compute_inverse_size3_helper m (1 / m.det) = m⁻¹ := by
  obtain ⟨h00, h01, h02, h10, h11, h12, h20, h21, h22⟩ := cofactor_3x3_apply m
  have hd := Matrix.det_fin_three m
  have hmul : m * compute_inverse_size3_helper m (1 / m.det) = 1 := by
    ext i j
    fin_cases i <;> fin_cases j <;>
      simp only [Matrix.mul_apply, Fin.sum_univ_three, compute_inverse_size3_helper, Fin.zero_eta, Fin.mk_one, Fin.reduceFinMk,
        h00, h01, h02, h10, h11, h12, h20, h21, h22, Matrix.one_apply_eq, Matrix.one_apply_ne,
        ne_eq, Fin.reduceEq, not_false_eq_true] <;>
      field_simp <;> (try rw [hd]) <;> ring
  have hinv := Matrix.inv_eq_right_inv hmul
  refine ⟨hmul, ?_, hinv.symm⟩
  rw [← hinv]
  exact Matrix.nonsing_inv_mul m (by simpa [isUnit_iff_ne_zero] using h)

/-- Effect of `setObsCovar` on a matrix that passes the check. -/
theorem setObsCovar_of_lt (log sqrt : R → R) (thr : R) (s : GMM.State R Cov) (cov : Matrix3 R)
    (h : thr < |cov.det|) :
    GMM.State.setObsCovar log sqrt thr s cov =
      { s with
        obsCovar := cov
        validObsCovar := true
        obsCovarInv := compute_inverse_size3_helper cov (1 / cov.det)
        logpdfConstantSummand := -(log (15749760995 / 1000000000 * sqrt cov.det)) } := by
  unfold GMM.State.setObsCovar
  rw [computeInverseAndDetWithCheck_eq, if_pos h]
  simp

/-- Effect of `setObsCovar` on a matrix that fails the check. -/
theorem setObsCovar_of_not_lt (log sqrt : R → R) (thr : R) (s : GMM.State R Cov)
    (cov : Matrix3 R) (h : ¬ thr < |cov.det|) :
    GMM.State.setObsCovar log sqrt thr s cov =
      { s with obsCovar := cov, validObsCovar := false } := by
  unfold GMM.State.setObsCovar
  rw [computeInverseAndDetWithCheck_eq, if_neg h]

/-- The power `(2 * pi) ^ (3 / 2)` lies below `15.74962`. -/
theorem two_pi_rpow_lt :
    0 < (2 * Real.pi) ^ ((3 : ℝ) / 2) ∧ (2 * Real.pi) ^ ((3 : ℝ) / 2) < 1574962 / 100000 := by
  have hpi := Real.pi_lt_d6
  have hpos : 0 < 2 * Real.pi := by positivity
  have htp : 0 < (2 * Real.pi) ^ ((3 : ℝ) / 2) := Real.rpow_pos_of_pos hpos _
  refine ⟨htp, ?_⟩
  have hsq : ((2 * Real.pi) ^ ((3 : ℝ) / 2)) ^ 2 = (2 * Real.pi) ^ 3 := by
    rw [← Real.rpow_natCast, ← Real.rpow_mul hpos.le]
    norm_num
    exact_mod_cast Real.rpow_natCast (2 * Real.pi) 3
  have hlt : 2 * Real.pi < 6283186 / 1000000 := by linarith
  have hcube : (2 * Real.pi) ^ 3 < (6283186 / 1000000 : ℝ) ^ 3 :=
    pow_lt_pow_left₀ hlt hpos.le (by norm_num)
  have hnum : (6283186 / 1000000 : ℝ) ^ 3 < (1574962 / 100000 : ℝ) ^ 2 := by norm_num
  exact lt_of_pow_lt_pow_left₀ 2 (by norm_num) (by rw [hsq]; exact hcube.trans hnum)

/-- C12 (the code departs from the specification): for the identity
covariance (invertible, determinant 1) `setObsCovar` marks the state valid and
caches the inverse of the matrix, but the cached `logpdfConstantSummand` is
`-log(15.749760995 * sqrt(det S))`, which lies more than `8e-6` below
`-log((2*pi)^(3/2) * sqrt(det S))`: the literal in the code is not
`(2*pi)^(3/2) = 15.7496099...`. -/
theorem setObsCovar_constant_is_not_two_pi_power (s : GMM.State ℝ Cov) :
    (GMM.State.setObsCovar Real.log Real.sqrt (1 / 10 ^ 12) s 1).validObsCovar = true ∧
    (GMM.State.setObsCovar Real.log Real.sqrt (1 / 10 ^ 12) s 1).obsCovarInv
      = (1 : Matrix3 ℝ)⁻¹ ∧
    (GMM.State.setObsCovar Real.log Real.sqrt (1 / 10 ^ 12) s 1).logpdfConstantSummand
      = -Real.log (15749760995 / 1000000000 * Real.sqrt (Matrix.det (1 : Matrix3 ℝ))) ∧
    (GMM.State.setObsCovar Real.log Real.sqrt (1 / 10 ^ 12) s 1).logpdfConstantSummand
        + 8 / 10 ^ 6
      < -Real.log ((2 * Real.pi) ^ ((3 : ℝ) / 2) * Real.sqrt (Matrix.det (1 : Matrix3 ℝ))) := by
  have hdet : Matrix.det (1 : Matrix3 ℝ) = 1 := Matrix.det_one
  have hthr : (1 / 10 ^ 12 : ℝ) < |Matrix.det (1 : Matrix3 ℝ)| := by
    rw [hdet, abs_one]; norm_num
  rw [setObsCovar_of_lt Real.log Real.sqrt _ s 1 hthr]
  refine ⟨rfl, ?_, rfl, ?_⟩
  · exact (cofactor_inverse_mul (1 : Matrix3 ℝ) (by rw [hdet]; exact one_ne_zero)).2.2
  · show -Real.log (15749760995 / 1000000000 * Real.sqrt (Matrix.det (1 : Matrix3 ℝ)))
        + 8 / 10 ^ 6
      < -Real.log ((2 * Real.pi) ^ ((3 : ℝ) / 2) * Real.sqrt (Matrix.det (1 : Matrix3 ℝ)))
    rw [hdet, Real.sqrt_one, mul_one, mul_one]
    obtain ⟨htp, hlt⟩ := two_pi_rpow_lt
    have h1 : Real.log ((2 * Real.pi) ^ ((3 : ℝ) / 2)) ≤ Real.log (1574962 / 100000) :=
      Real.log_le_log htp hlt.le
    have h2 : Real.log ((1574962 / 100000) / (15749760995 / 1000000000))
        ≤ (1574962 / 100000) / (15749760995 / 1000000000) - 1 :=
      Real.log_le_sub_one_of_pos (by norm_num)
    rw [Real.log_div (by norm_num) (by norm_num)] at h2
    have h3 : ((1574962 / 100000) / (15749760995 / 1000000000) - 1 : ℝ) < -(8 / 10 ^ 6) := by
      norm_num
    linarith

/-- The validity flag set by `setObsCovar` is the outcome of the determinant
check. -/
theorem setObsCovar_valid_iff {R Cov : Type} [LinearOrderedField R] (log sqrt : R → R) (thr : R)
    (s : GMM.State R Cov) (cov : Matrix3 R) :
    (GMM.State.setObsCovar log sqrt thr s cov).validObsCovar = true ↔ thr < |cov.det| := by
  by_cases h : thr < |cov.det|
  · rw [setObsCovar_of_lt log sqrt thr s cov h]; simp [h]
  · rw [setObsCovar_of_not_lt log sqrt thr s cov h]; simp [h]

/-- C13 (counterexample): the symmetric matrix `diag(-1, 1, 1)` has
determinant `-1`; `setObsCovar`, called on a state that was invalid before,
marks it valid although it is not positive definite. -/
theorem setObsCovar_valid_not_positive_definite :
    (GMM.State.setObsCovar Real.log Real.sqrt (1 / 10 ^ 12)
      (⟨⟨0, 0, 0⟩, 0, 0, 0, false, 0, 0, 0, 0, 0, 0, ⟨⟨⟨0, 0, 0⟩, ⟨0, 0, 0⟩⟩, ()⟩,
        ⟨0, 0, 0, 0, false⟩⟩ : GMM.State ℝ Unit)
      !![-1, 0, 0; 0, 1, 0; 0, 0, 1]).validObsCovar = true ∧
    (!![-1, 0, 0; 0, 1, 0; 0, 0, 1] : Matrix3 ℝ).IsSymm ∧
    ¬ (!![-1, 0, 0; 0, 1, 0; 0, 0, 1] : Matrix3 ℝ).PosDef := by
  have hdet : Matrix.det (!![-1, 0, 0; 0, 1, 0; 0, 0, 1] : Matrix3 ℝ) = -1 := by
    rw [Matrix.det_fin_three]; simp
  refine ⟨?_, ?_, ?_⟩
  · rw [setObsCovar_valid_iff, hdet]; norm_num
  · ext i j
    fin_cases i <;> fin_cases j <;> rfl
  · intro hpd
    have := hpd.det_pos
    rw [hdet] at this
    norm_num at this

/-- In exact arithmetic (over the reals, the determinant not rounded): if
`setObsCovar(S)` sets `validObsCovar` to true then the absolute value of the
determinant of `S` exceeds the threshold of the check, so (the threshold
being non-negative) `S` is invertible and the cached `obsCovarInv` is its
inverse; `S` is positive definite if in addition it is symmetric positive
semi-definite. In `double` the computed determinant of a singular matrix can
exceed the threshold. -/
theorem setObsCovar_valid_means_invertible (thr : ℝ) (s : GMM.State ℝ Cov) (S : Matrix3 ℝ)
    (hthr : 0 ≤ thr)
    (hvalid : (GMM.State.setObsCovar Real.log Real.sqrt thr s S).validObsCovar = true) :
    thr < |S.det| ∧ S.det ≠ 0 ∧
    S * (GMM.State.setObsCovar Real.log Real.sqrt thr s S).obsCovarInv = 1 ∧
    (GMM.State.setObsCovar Real.log Real.sqrt thr s S).obsCovarInv * S = 1 ∧
    (S.PosSemidef → S.PosDef) := by
  have hlt : thr < |S.det| := (setObsCovar_valid_iff Real.log Real.sqrt thr s S).mp hvalid
  have hdet : S.det ≠ 0 := by
    intro h0
    rw [h0, abs_zero] at hlt
    exact absurd hlt (not_lt.mpr hthr)
  have hinv := cofactor_inverse_mul S hdet
  refine ⟨hlt, hdet, ?_, ?_, ?_⟩
  · rw [setObsCovar_of_lt Real.log Real.sqrt thr s S hlt]; exact hinv.1
  · rw [setObsCovar_of_lt Real.log Real.sqrt thr s S hlt]; exact hinv.2.1
  · intro hpsd
    refine ⟨hpsd.1, fun x hx => ?_⟩
    have hnonneg := hpsd.2 x
    rcases hnonneg.lt_or_eq with hpos | hzero
    · exact hpos
    · exfalso
      have hmv : S.mulVec x = 0 := (hpsd.dotProduct_mulVec_zero_iff x).mp hzero.symm
      exact hx (Matrix.eq_zero_of_mulVec_eq_zero hdet hmv)

/-- Instance of `setObsCovar_valid_means_invertible`: the identity
covariance. -/
theorem setObsCovar_valid_means_invertible_witness :
    (0 : ℝ) ≤ 1 / 10 ^ 12 ∧
    (1 / 10 ^ 12 : ℝ) < |Matrix.det (1 : Matrix3 ℝ)| ∧
    Matrix.det (1 : Matrix3 ℝ) ≠ 0 ∧
    ((1 : Matrix3 ℝ).PosSemidef → (1 : Matrix3 ℝ).PosDef) := by
  have hthr : (0 : ℝ) ≤ 1 / 10 ^ 12 := by norm_num
  have hvalid : (GMM.State.setObsCovar Real.log Real.sqrt (1 / 10 ^ 12)
      (⟨⟨0, 0, 0⟩, 0, 0, 0, false, 0, 0, 0, 0, 0, 0, ⟨⟨⟨0, 0, 0⟩, ⟨0, 0, 0⟩⟩, ()⟩,
        ⟨0, 0, 0, 0, false⟩⟩ : GMM.State ℝ Unit) 1).validObsCovar = true := by
    rw [setObsCovar_valid_iff, Matrix.det_one, abs_one]; norm_num
  have h := setObsCovar_valid_means_invertible (1 / 10 ^ 12) _ 1 hthr hvalid
  exact ⟨hthr, h.1, h.2.1, h.2.2.2.2⟩

/-- In exact arithmetic (over an ordered field, the determinant not rounded):
`setObsCovar` with a matrix of determinant 0 (the threshold of the check
being non-negative), and in particular with the zero matrix, returns the
state with that matrix stored as `obsCovar` and `validObsCovar` false. In
`double` the computed determinant of a singular matrix can exceed the
threshold. -/
theorem setObsCovar_singular_is_invalid {R Cov : Type} [LinearOrderedField R]
    (log sqrt : R → R) (thr : R) (s : GMM.State R Cov) (cov : Matrix3 R)
    (hthr : 0 ≤ thr) (hdet : cov.det = 0) :
    GMM.State.setObsCovar log sqrt thr s cov = { s with obsCovar := cov, validObsCovar := false } ∧
    (GMM.State.setObsCovar log sqrt thr s cov).obsCovar = cov ∧
    (GMM.State.setObsCovar log sqrt thr s cov).validObsCovar = false ∧
    GMM.State.setObsCovar log sqrt thr s 0 = { s with obsCovar := 0, validObsCovar := false } := by
  have h : ¬ thr < |cov.det| := by rw [hdet, abs_zero]; exact not_lt.mpr hthr
  have h0 : ¬ thr < |Matrix.det (0 : Matrix3 R)| := by
    rw [Matrix.det_zero ⟨0⟩, abs_zero]; exact not_lt.mpr hthr
  rw [setObsCovar_of_not_lt log sqrt thr s cov h, setObsCovar_of_not_lt log sqrt thr s 0 h0]
  exact ⟨rfl, rfl, rfl, rfl⟩

/-- Instance of `setObsCovar_singular_is_invalid`: the rank-one matrix with
rows `(1, 2, 3)`, `(2, 4, 6)`, `(0, 0, 0)` on a state that was valid
before. -/
theorem setObsCovar_singular_is_invalid_witness :
    (GMM.State.setObsCovar (fun x : ℚ => x) (fun x : ℚ => x) (1 / 10 ^ 12)
      (⟨⟨0, 0, 0⟩, 1, 1, 0, true, 0, 0, 0, 0, 0, 0, ⟨⟨⟨0, 0, 0⟩, ⟨0, 0, 0⟩⟩, ()⟩,
        ⟨0, 0, 0, 0, false⟩⟩ : GMM.State ℚ Unit)
      !![1, 2, 3; 2, 4, 6; 0, 0, 0]).validObsCovar = false :=
  (setObsCovar_singular_is_invalid (fun x : ℚ => x) (fun x : ℚ => x) (1 / 10 ^ 12) _
    !![1, 2, 3; 2, 4, 6; 0, 0, 0] (by norm_num)
    (by rw [Matrix.det_fin_three]; simp)).2.2.1

end

section

variable {R : Type} [Field R]

/-- Reading back the vector of a state gives the state. -/
theorem FilterState.ofVec_toVec (x : FilterState R) : FilterState.ofVec x.toVec = x := by
  obtain ⟨⟨a, b, c⟩, ⟨d, e, f⟩⟩ := x
  simp [FilterState.ofVec, FilterState.toVec]

/-- Prediction keeps a state at rest: position `p`, velocity zero. -/
theorem linearPredict_rest (noise_position noise_velocity dt : R)
    (kf : ObstacleKalmanFilter R (StateCov R)) (p : Vec3 R) (h : kf.x = ⟨p, ⟨0, 0, 0⟩⟩) :
    (linearPredict noise_position noise_velocity dt kf).x = ⟨p, ⟨0, 0, 0⟩⟩ := by
  have hz : (![0, 0, 0] : Fin 3 → R) = 0 := by
    ext i; fin_cases i <;> rfl
  obtain ⟨px, py, pz⟩ := p
  simp only [linearPredict, h, FilterState.toVec, Matrix.fromBlocks_mulVec, hz]
  simp [FilterState.ofVec]

/-- An update that measures the predicted position leaves the state as it is. -/
theorem linearUpdate_same_position (noise_measurement : R)
    (kf : ObstacleKalmanFilter R (StateCov R)) :
    (linearUpdate noise_measurement kf.x.position kf).x = kf.x := by
  have hH : (Matrix.fromColumns (1 : Matrix3 R) (0 : Matrix3 R)).mulVec kf.x.toVec
      = ![kf.x.position.x, kf.x.position.y, kf.x.position.z] := by
    unfold FilterState.toVec
    rw [Matrix.fromColumns_mulVec_sum_elim]
    simp
  simp only [linearUpdate, hH, sub_self, Matrix.mulVec_zero, add_zero]
  exact FilterState.ofVec_toVec _

/-- One predict and update of the linear filter on a state at rest at `p`,
measuring `p`, leaves the state at rest at `p`. -/
theorem linear_predict_update_rest (noise_position noise_velocity noise_measurement dt : R)
    (kf : ObstacleKalmanFilter R (StateCov R)) (p : Vec3 R) (h : kf.x = ⟨p, ⟨0, 0, 0⟩⟩) :
    (linearUpdate noise_measurement p
      (linearPredict noise_position noise_velocity dt kf)).x = ⟨p, ⟨0, 0, 0⟩⟩ := by
  have hp := linearPredict_rest noise_position noise_velocity dt kf p h
  have hu := linearUpdate_same_position noise_measurement
    (linearPredict noise_position noise_velocity dt kf)
  rw [hp] at hu
  exact hu

/-- One call of `update` on a tracked object at rest at `p`, observed at `p`:
the reported centre is `p`, the reported velocity is zero, and the filter of
the object stays at rest at `p`. -/
theorem update_rest_step (duration : R) (t : KalmanObstacleTracker R (StateCov R))
    (p : Vec3 R) (o : ObjectModelParams R) (kf : ObstacleKalmanFilter R (StateCov R))
    (hfind : mapFind o.id t.states_ = some kf) (hx : kf.x = ⟨p, ⟨0, 0, 0⟩⟩)
    (hc : o.center = p) :
    (KalmanObstacleTracker.update linearKalmanOps duration t [o]).2
      = [{ o with velocity := ⟨0, 0, 0⟩, center := p }] ∧
    ∃ kf1, mapFind o.id (KalmanObstacleTracker.update linearKalmanOps duration t [o]).1.states_
      = some kf1 ∧ kf1.x = ⟨p, ⟨0, 0, 0⟩⟩ := by
  have hpos : (⟨o.center.x, o.center.y, o.center.z⟩ : Vec3 R) = p := by rw [← hc]
  have hstep : ∀ t1 : KalmanObstacleTracker R (StateCov R), updateObstacle linearKalmanOps t1
      t.states_ o
      = (mapSet o.id (linearUpdate t1.noise_measurement p
            (linearPredict t1.noise_position t1.noise_velocity t1.dt kf)) t.states_,
          { o with velocity := ⟨0, 0, 0⟩, center := p }) := by
    intro t1
    unfold updateObstacle
    rw [hfind]
    simp only [hpos, linearKalmanOps]
    rw [linear_predict_update_rest _ _ _ _ kf p hx]
  simp only [KalmanObstacleTracker.update, updateLoop, hstep]
  exact ⟨trivial, _, mapFind_mapSet_self _ _ _, linear_predict_update_rest _ _ _ _ kf p hx⟩

/-- Calls of `update` on a tracked object at rest at `p`, observed at `p` in
every frame: every call reports centre `p` and velocity zero. -/
theorem updateFrames_rest (id : Int) (p : Vec3 R) :
    ∀ (frames : List (R × ObjectModelParams R)) (t : KalmanObstacleTracker R (StateCov R))
      (kf : ObstacleKalmanFilter R (StateCov R)),
      mapFind id t.states_ = some kf → kf.x = ⟨p, ⟨0, 0, 0⟩⟩ →
      (∀ f ∈ frames, f.2.id = id ∧ f.2.center = p) →
      (updateFrames linearKalmanOps (frames.map (fun f => (f.1, [f.2]))) t).2
        = frames.map (fun f => [{ f.2 with velocity := ⟨0, 0, 0⟩, center := p }]) ∧
      ∃ kf1, mapFind id
          (updateFrames linearKalmanOps (frames.map (fun f => (f.1, [f.2]))) t).1.states_
        = some kf1 ∧ kf1.x = ⟨p, ⟨0, 0, 0⟩⟩
  | [], t, kf, hfind, hx, _ => ⟨rfl, kf, hfind, hx⟩
  | f :: rest, t, kf, hfind, hx, hobs => by
    obtain ⟨hid, hc⟩ := hobs f (List.mem_cons_self _ _)
    obtain ⟨hout, kf1, hfind1, hx1⟩ :=
      update_rest_step f.1 t p f.2 kf (by rw [hid]; exact hfind) hx hc
    rw [hid] at hfind1
    obtain ⟨hrest, kf2, hfind2, hx2⟩ := updateFrames_rest id p rest _ kf1 hfind1 hx1
      (fun g hg => hobs g (List.mem_cons_of_mem _ hg))
    simp only [List.map_cons, updateFrames]
    exact ⟨by rw [hout, hrest], kf2, hfind2, hx2⟩

/-- C20: one id, not yet tracked, is observed at the same position `p` in
each of a sequence of updates (in particular 50 of them), with any elapsed
times and any noise parameters, under the linear constant-velocity predict
and update in exact arithmetic. The first update starts the filter at `p`
with zero velocity and leaves the observation as it came; every later update
reports position `p` and the zero velocity, and the filter stays at `p` with
zero velocity. -/
theorem stationary_object_has_zero_velocity (t : KalmanObstacleTracker R (StateCov R))
    (id : Int) (p : Vec3 R) (frames : List (R × ObjectModelParams R))
    (hunseen : mapFind id t.states_ = none)
    (hobs : ∀ f ∈ frames, f.2.id = id ∧ f.2.center = p) :
    (updateFrames linearKalmanOps (frames.map (fun f => (f.1, [f.2]))) t).2.length
      = frames.length ∧
    (∀ f, frames[0]? = some f →
      (updateFrames linearKalmanOps (frames.map (fun f => (f.1, [f.2]))) t).2[0]?
        = some [f.2]) ∧
    (∀ k f, 0 < k → frames[k]? = some f →
      (updateFrames linearKalmanOps (frames.map (fun f => (f.1, [f.2]))) t).2[k]?
        = some [{ f.2 with velocity := ⟨0, 0, 0⟩, center := p }]) ∧
    (frames ≠ [] → ∃ kf,
      mapFind id (updateFrames linearKalmanOps (frames.map (fun f => (f.1, [f.2]))) t).1.states_
        = some kf ∧ kf.x = ⟨p, ⟨0, 0, 0⟩⟩) := by
  cases frames with
  | nil => exact ⟨rfl, by simp, by simp, fun h => absurd rfl h⟩
  | cons f rest =>
    obtain ⟨hid, hc⟩ := hobs f (List.mem_cons_self _ _)
    have hfirst : KalmanObstacleTracker.update linearKalmanOps f.1 t [f.2]
        = ({ t with
              dt := if t.timer_running then f.1 / ((1000 : Nat) : R) else t.dt
              timer_running := true
              states_ := mapSet id (linearKalmanOps.fresh.init ⟨p, ⟨0, 0, 0⟩⟩) t.states_ },
            [f.2]) := by
      have hpos : (⟨f.2.center.x, f.2.center.y, f.2.center.z⟩ : Vec3 R) = p := by rw [← hc]
      have hstep : ∀ t1 : KalmanObstacleTracker R (StateCov R),
          updateObstacle linearKalmanOps t1 t.states_ f.2
            = (mapSet id (linearKalmanOps.fresh.init ⟨p, ⟨0, 0, 0⟩⟩) t.states_, f.2) := by
        intro t1
        unfold updateObstacle
        rw [hid, hunseen]
        simp only [hpos]
      simp only [KalmanObstacleTracker.update, updateLoop, hstep]
    obtain ⟨hrest, kf2, hfind2, hx2⟩ := updateFrames_rest id p rest
      { t with
        dt := if t.timer_running then f.1 / ((1000 : Nat) : R) else t.dt
        timer_running := true
        states_ := mapSet id (linearKalmanOps.fresh.init ⟨p, ⟨0, 0, 0⟩⟩) t.states_ }
      (linearKalmanOps.fresh.init ⟨p, ⟨0, 0, 0⟩⟩) (mapFind_mapSet_self _ _ _) rfl
      (fun g hg => hobs g (List.mem_cons_of_mem _ hg))
    simp only [List.map_cons, updateFrames, hfirst]
    refine ⟨by rw [hrest]; simp, ?_, ?_, fun _ => ⟨kf2, hfind2, hx2⟩⟩
    · intro g hg
      simp only [List.getElem?_cons_zero, Option.some.injEq] at hg ⊢
      rw [hg]
    · intro k g hk hg
      obtain ⟨j, rfl⟩ : ∃ j, k = j + 1 := ⟨k - 1, by omega⟩
      simp only [List.getElem?_cons_succ] at hg ⊢
      rw [hrest, List.getElem?_map, hg]
      rfl

/-- C20, instance on rationals: 50 frames, 40 ms apart, each observing id 7
at `(1, 2, 3)` with some velocity entry; from the second frame on the tracker
reports the position `(1, 2, 3)` and the zero velocity. -/
theorem stationary_object_has_zero_velocity_witness :
    (List.replicate 50 ((40 : ℚ), (⟨7, ⟨1, 2, 3⟩, ⟨9, 9, 9⟩⟩ : ObjectModelParams ℚ))).length
      = 50 ∧
    ∀ k, 0 < k → k < 50 →
      (updateFrames linearKalmanOps
        ((List.replicate 50 ((40 : ℚ), (⟨7, ⟨1, 2, 3⟩, ⟨9, 9, 9⟩⟩ : ObjectModelParams ℚ))).map
          (fun f => (f.1, [f.2])))
        (KalmanObstacleTracker.create 1 2 3)).2[k]?
        = some [⟨7, ⟨1, 2, 3⟩, ⟨0, 0, 0⟩⟩] := by
  have h := stationary_object_has_zero_velocity
    (KalmanObstacleTracker.create (1 : ℚ) 2 3) 7 ⟨1, 2, 3⟩
    (List.replicate 50 ((40 : ℚ), (⟨7, ⟨1, 2, 3⟩, ⟨9, 9, 9⟩⟩ : ObjectModelParams ℚ))) rfl
    (by intro f hf; rw [List.eq_of_mem_replicate hf]; exact ⟨rfl, rfl⟩)
  refine ⟨List.length_replicate _ _, fun k hk hk50 => ?_⟩
  exact h.2.2.1 k (40, ⟨7, ⟨1, 2, 3⟩, ⟨9, 9, 9⟩⟩) hk
    (by rw [List.getElem?_replicate]; simp [hk50])

end

section

variable {R Cov : Type} [LinearOrderedField R]

/-- C26: `State(p, S)` has `pos = p` and `obsCovar = S`; the validity flag
and the cached inverse and constant are the ones `setObsCovar(S)` leaves
(valid exactly when the determinant passes the check, and then the inverse of
`S` and `-log(15.749760995 * sqrt(det S))`; otherwise the two cached members
keep their indeterminate start values); the embedded filter is the
default-constructed one initialised at `p` with zero velocity; `lifeTime`,
`splitCounter`, `resetNonSplitCounter` are 0, the mixture weight `pi` is 0,
`hystSplitVal` is 0.25 and the SSV record is not initialised. -/
theorem state_create_fields (log sqrt : R → R) (thr : R) (fresh : ObstacleKalmanFilter R Cov)
    (uninit : GMM.State R Cov) (p : Vec3 R) (S : Matrix3 R) :
    (GMM.State.create log sqrt thr fresh uninit p S).pos = p ∧
    (GMM.State.create log sqrt thr fresh uninit p S).obsCovar = S ∧
    ((GMM.State.create log sqrt thr fresh uninit p S).validObsCovar = true ↔ thr < |S.det|) ∧
    (GMM.State.create log sqrt thr fresh uninit p S).validObsCovar
      = (GMM.State.setObsCovar log sqrt thr uninit S).validObsCovar ∧
    (GMM.State.create log sqrt thr fresh uninit p S).obsCovarInv
      = (GMM.State.setObsCovar log sqrt thr uninit S).obsCovarInv ∧
    (GMM.State.create log sqrt thr fresh uninit p S).logpdfConstantSummand
      = (GMM.State.setObsCovar log sqrt thr uninit S).logpdfConstantSummand ∧
    (thr < |S.det| → 0 ≤ thr →
      (GMM.State.create log sqrt thr fresh uninit p S).obsCovarInv = S⁻¹ ∧
      (GMM.State.create log sqrt thr fresh uninit p S).logpdfConstantSummand
        = -(log (15749760995 / 1000000000 * sqrt S.det))) ∧
    (¬ thr < |S.det| →
      (GMM.State.create log sqrt thr fresh uninit p S).obsCovarInv = uninit.obsCovarInv ∧
      (GMM.State.create log sqrt thr fresh uninit p S).logpdfConstantSummand
        = uninit.logpdfConstantSummand) ∧
    (GMM.State.create log sqrt thr fresh uninit p S).kalmanFilter
      = { fresh with x := ⟨p, ⟨0, 0, 0⟩⟩ } ∧
    (GMM.State.create log sqrt thr fresh uninit p S).lifeTime = 0 ∧
    (GMM.State.create log sqrt thr fresh uninit p S).splitCounter = 0 ∧
    (GMM.State.create log sqrt thr fresh uninit p S).resetNonSplitCounter = 0 ∧
    (GMM.State.create log sqrt thr fresh uninit p S).pi = 0 ∧
    (GMM.State.create log sqrt thr fresh uninit p S).hystSplitVal = 1 / 4 ∧
    (GMM.State.create log sqrt thr fresh uninit p S).ssvData.initialized = false := by
  by_cases h : thr < |S.det|
  · have hc : GMM.State.create log sqrt thr fresh uninit p S =
        { uninit with
          pos := p, obsCovar := S, validObsCovar := true
          obsCovarInv := compute_inverse_size3_helper S (1 / S.det)
          logpdfConstantSummand := -(log (15749760995 / 1000000000 * sqrt S.det))
          pi := 0, lifeTime := 0, splitCounter := 0, resetNonSplitCounter := 0
          debugValue := 0, hystSplitVal := 25 / 100
          kalmanFilter := { fresh with x := ⟨p, ⟨0, 0, 0⟩⟩ }
          ssvData := { uninit.ssvData with initialized := false } } := by
      unfold GMM.State.create GMM.State.initKalmanFilter
      simp only [setObsCovar_of_lt log sqrt thr _ S h, ObstacleKalmanFilter.init, Nat.cast_zero,
        Nat.cast_ofNat]
    rw [hc, setObsCovar_of_lt log sqrt thr uninit S h]
    refine ⟨rfl, rfl, by simp [h], rfl, rfl, rfl, ?_, fun hn => absurd h hn, rfl, rfl, rfl, rfl,
      rfl, by norm_num, rfl⟩
    intro _ hthr
    have hdet : S.det ≠ 0 := by
      intro h0
      rw [h0, abs_zero] at h
      exact absurd h (not_lt.mpr hthr)
    exact ⟨(cofactor_inverse_mul S hdet).2.2, rfl⟩
  · have hc : GMM.State.create log sqrt thr fresh uninit p S =
        { uninit with
          pos := p, obsCovar := S, validObsCovar := false
          pi := 0, lifeTime := 0, splitCounter := 0, resetNonSplitCounter := 0
          debugValue := 0, hystSplitVal := 25 / 100
          kalmanFilter := { fresh with x := ⟨p, ⟨0, 0, 0⟩⟩ }
          ssvData := { uninit.ssvData with initialized := false } } := by
      unfold GMM.State.create GMM.State.initKalmanFilter
      simp only [setObsCovar_of_not_lt log sqrt thr _ S h, ObstacleKalmanFilter.init,
        Nat.cast_zero, Nat.cast_ofNat]
    rw [hc, setObsCovar_of_not_lt log sqrt thr uninit S h]
    exact ⟨rfl, rfl, by simp [h], rfl, rfl, rfl, fun hp => absurd hp h, fun _ => ⟨rfl, rfl⟩,
      rfl, rfl, rfl, rfl, rfl, by norm_num, rfl⟩

end

section

variable {R Cov : Type} [LinearOrderedField R]

end

section

variable {R Cov : Type} [Zero R] [Div R] [NatCast R]

/-- The `dt` that a call of `update` uses: the measured duration over 1000
when the frame timer is running, otherwise the value `dt` holds on entry;
the timer is running afterwards. -/
theorem update_dt (ops : KalmanOps R Cov) (duration : R) (t : KalmanObstacleTracker R Cov)
    (obstacles : List (ObjectModelParams R)) :
    (KalmanObstacleTracker.update ops duration t obstacles).1.dt
      = (if t.timer_running then duration / ((1000 : Nat) : R) else t.dt) ∧
    (KalmanObstacleTracker.update ops duration t obstacles).1.timer_running = true :=
  ⟨rfl, rfl⟩

end

/-- C21 (the code departs from the specification): `dt` is a function-local
`static`, one for all tracker instances. In a process with two trackers the
first call of the first tracker predicts with `1/30` and its second call,
40 ms later, with `40/1000`; the first call of the second tracker, whose own
frame timer is not running, then predicts with that `40/1000`, not with
`1/30`. Each call carries the same id twice, so that the second entry is
predicted within the call. -/
theorem update_static_dt_shared_by_trackers :
    (((TrackerProcess.update dtRecordingOps 0 40
        (TrackerProcess.start [(1, 1, 1), (1, 1, 1)])
        [⟨7, ⟨0, 0, 0⟩, ⟨0, 0, 0⟩⟩, ⟨7, ⟨0, 0, 0⟩, ⟨0, 0, 0⟩⟩]).1.trackers.map
          (fun t => (t.timer_running, t.states_.map (fun e => e.2.P))))
      = [(true, [1 / 30]), (false, [])]) ∧
    (((TrackerProcess.update dtRecordingOps 0 40
        (TrackerProcess.update dtRecordingOps 0 40
          (TrackerProcess.start [(1, 1, 1), (1, 1, 1)])
          [⟨7, ⟨0, 0, 0⟩, ⟨0, 0, 0⟩⟩, ⟨7, ⟨0, 0, 0⟩, ⟨0, 0, 0⟩⟩]).1
        [⟨7, ⟨0, 0, 0⟩, ⟨0, 0, 0⟩⟩]).1.trackers.map
          (fun t => (t.timer_running, t.states_.map (fun e => e.2.P))))
      = [(true, [40 / 1000]), (false, [])]) ∧
    (((TrackerProcess.update dtRecordingOps 1 40
        (TrackerProcess.update dtRecordingOps 0 40
          (TrackerProcess.update dtRecordingOps 0 40
            (TrackerProcess.start [(1, 1, 1), (1, 1, 1)])
            [⟨7, ⟨0, 0, 0⟩, ⟨0, 0, 0⟩⟩, ⟨7, ⟨0, 0, 0⟩, ⟨0, 0, 0⟩⟩]).1
          [⟨7, ⟨0, 0, 0⟩, ⟨0, 0, 0⟩⟩]).1
        [⟨8, ⟨0, 0, 0⟩, ⟨0, 0, 0⟩⟩, ⟨8, ⟨0, 0, 0⟩, ⟨0, 0, 0⟩⟩]).1.trackers.map
          (fun t => (t.timer_running, t.states_.map (fun e => e.2.P))))
      = [(true, [40 / 1000]), (true, [40 / 1000])]) ∧
    (40 / 1000 : ℚ) ≠ 1 / 30 := by
  refine ⟨by decide!, by decide!, by decide!, by norm_num⟩

section

variable {R P σ : Type} [Add R] [Mul R] [Div R] [NatCast R] [LT R]
  [DecidableRel (fun a b : R => a < b)]

/-- A result of the loop does not depend on the step budget once the budget
suffices. -/
lemma findSurfacesLoop_fuel_mono (acos : R → R) (M_PI : R)
    (segment : σ → List P → σ × List Nat × ModelCoefficients R) (point_threshold : Nat) :
    ∀ (fuel fuel1 : Nat) (est : σ) (c : List P) (s : SurfaceSegmenter R P)
      (r : σ × List P × SurfaceSegmenter R P), fuel ≤ fuel1 →
      findSurfacesLoop acos M_PI segment point_threshold fuel est c s = .ok r →
      findSurfacesLoop acos M_PI segment point_threshold fuel1 est c s = .ok r := by
  intro fuel
  induction fuel with
  | zero =>
    intro fuel1 est c s r _ h
    simp [findSurfacesLoop] at h
  | succ fuel ih =>
    intro fuel1 est c s r hle h
    obtain ⟨f1, rfl⟩ : ∃ f1, fuel1 = f1 + 1 := ⟨fuel1 - 1, by omega⟩
    rw [findSurfacesLoop] at h ⊢
    by_cases hthr : point_threshold < c.length
    · rw [if_pos hthr] at h ⊢
      rcases hs : segment est c with ⟨est1, idx, coef⟩
      rw [hs] at h
      simp only at h ⊢
      by_cases hidx : idx.length = 0
      · rw [if_pos hidx] at h ⊢
        exact h
      · rw [if_neg hidx] at h ⊢
        cases hcl : classify acos M_PI
            { s with cloud_surfaces_ := s.cloud_surfaces_ ++ extractIndices c idx false }
            (extractIndices c idx false) coef with
        | error e => rw [hcl] at h; simp at h
        | ok s2 =>
          rw [hcl] at h
          simp only at h ⊢
          exact ih f1 est1 _ s2 r (by omega) h
    · rw [if_neg hthr] at h ⊢
      exact h

/-- The loop on a working cloud `c` with a valid estimator: it returns, the
fits it makes are at most as many as the points of `c`, the first fit is
made on `c`, and each fit that is followed by another removed its inliers, at
least one point, from the working cloud. -/
lemma findSurfacesLoop_iterations (acos : R → R) (M_PI : R)
    (segment : σ → List P → σ × List Nat × ModelCoefficients R)
    (hseg : ∀ e c, (segment e c).2.1.Nodup ∧ ∀ i ∈ (segment e c).2.1, i < c.length)
    (point_threshold : Nat) :
    ∀ (fuel : Nat) (est : σ) (log : List (List P × List Nat)) (c : List P)
      (s : SurfaceSegmenter R P),
      c.length < fuel → s.vec_surface.length = s.m_coefficients.length →
      ∃ est1 fits residual s1,
        findSurfacesLoop acos M_PI (loggedEstimator segment) point_threshold fuel (est, log) c s
          = .ok ((est1, log ++ fits), residual, s1) ∧
        fits.length ≤ c.length ∧
        (∀ first ∈ fits.head?, first.1 = c) ∧
        fits.Chain' (fun a b => 0 < a.2.length ∧ b.1.length + a.2.length = a.1.length) ∧
        residual.length ≤ c.length := by
  intro fuel
  induction fuel with
  | zero => intro est log c s h; omega
  | succ fuel ih =>
    intro est log c s hfuel hlen
    rw [findSurfacesLoop]
    by_cases hthr : point_threshold < c.length
    · rw [if_pos hthr]
      have hsegc := hseg est c
      obtain ⟨hnd, hval⟩ := hsegc
      simp only [loggedEstimator]
      by_cases hidx : (segment est c).2.1.length = 0
      · rw [if_pos hidx]
        refine ⟨(segment est c).1, [(c, (segment est c).2.1)], c, s, rfl, ?_, ?_, ?_, le_refl _⟩
        · simp only [List.length_singleton]; omega
        · intro first hf
          simp only [List.head?_cons, Option.mem_def, Option.some.injEq] at hf
          rw [← hf]
        · exact List.chain'_singleton _
      · rw [if_neg hidx]
        have hperm := extractIndices_perm c (segment est c).2.1 hnd hval
        have hl := extractIndices_length c (segment est c).2.1 hval
        have hsum : (segment est c).2.1.length
            + (extractIndices c (segment est c).2.1 true).length = c.length := by
          have := hperm.length_eq
          rw [List.length_append, hl] at this
          exact this
        obtain ⟨s2, hcl, hlen2, -, -⟩ := classify_effect acos M_PI
          { s with cloud_surfaces_ := s.cloud_surfaces_
              ++ extractIndices c (segment est c).2.1 false }
          (extractIndices c (segment est c).2.1 false) (segment est c).2.2 hlen
        rw [hcl]
        simp only
        obtain ⟨est3, fits, res, s3, hrun, hcount, hhead, hchain, hres⟩ :=
          ih (segment est c).1 (log ++ [(c, (segment est c).2.1)])
            (extractIndices c (segment est c).2.1 true) s2 (by omega) hlen2
        refine ⟨est3, (c, (segment est c).2.1) :: fits, res, s3, ?_, ?_, ?_, ?_, by omega⟩
        · rw [hrun, List.append_assoc]
          rfl
        · simp only [List.length_cons]; omega
        · intro first hf
          simp only [List.head?_cons, Option.mem_def, Option.some.injEq] at hf
          rw [← hf]
        · rw [List.chain'_cons']
          refine ⟨?_, hchain⟩
          intro b hb
          rw [hhead b hb]
          show 0 < (segment est c).2.1.length ∧
            (extractIndices c (segment est c).2.1 true).length + (segment est c).2.1.length
              = c.length
          exact ⟨by omega, by omega⟩
    · rw [if_neg hthr]
      exact ⟨est, [], c, s, by simp, by simp, by simp, List.chain'_nil, le_refl _⟩

end

/-- C28. `SurfaceSegmenter::findSurfaces` terminates: for every cloud of `n`
points and every plane estimator returning distinct valid indices,
`findSurfaces` returns, with the same result for every step budget above `n`.
The loop makes at most `n` fits; the first is made on the input cloud, and
each fit followed by another (a completed iteration) removed its inliers, at
least one point, from the working cloud. -/
theorem findSurfaces_terminates {R P σ : Type} [Add R] [Mul R] [Div R] [NatCast R]
    [LT R] [DecidableRel (fun a b : R => a < b)]
    (acos : R → R) (M_PI : R)
    (segment : σ → List P → σ × List Nat × ModelCoefficients R)
    (est : σ) (cloud : List P) (s : SurfaceSegmenter R P)
    (hseg : ∀ e c, (segment e c).2.1.Nodup ∧ ∀ i ∈ (segment e c).2.1, i < c.length) :
    ∃ est1 fits residual s1,
      (∀ fuel, cloud.length < fuel →
        findSurfaces acos M_PI (loggedEstimator segment) fuel (est, []) cloud s
          = .ok ((est1, fits), residual, s1) ∧
        findSurfaces acos M_PI segment fuel est cloud s = .ok (est1, residual, s1)) ∧
      fits.length ≤ cloud.length ∧
      (∀ first ∈ fits.head?, first.1 = cloud) ∧
      fits.Chain' (fun a b => 0 < a.2.length ∧ b.1.length + a.2.length = a.1.length) ∧
      residual.length ≤ cloud.length := by
  obtain ⟨est1, fits, residual, s1, hrun, hcount, hhead, hchain, hres⟩ :=
    findSurfacesLoop_iterations acos M_PI segment hseg (cloud.length / 10) (cloud.length + 1)
      est [] cloud (⟨[], [], [], [], []⟩ : SurfaceSegmenter R P) (by omega) rfl
  rw [List.nil_append] at hrun
  refine ⟨est1, fits, residual, s1, ?_, hcount, hhead, hchain, hres⟩
  intro fuel hfuel
  have hlogged : findSurfaces acos M_PI (loggedEstimator segment) fuel (est, []) cloud s
      = .ok ((est1, fits), residual, s1) :=
    findSurfacesLoop_fuel_mono acos M_PI (loggedEstimator segment) (cloud.length / 10)
      (cloud.length + 1) fuel (est, []) cloud _ _ (by omega) hrun
  refine ⟨hlogged, ?_⟩
  have h := findSurfacesLoop_logged acos M_PI segment (cloud.length / 10) fuel est [] cloud
    (⟨[], [], [], [], []⟩ : SurfaceSegmenter R P)
  unfold findSurfaces at hlogged ⊢
  rw [h, hlogged]
  rfl

/-- C28, instance: the estimator `firstAndThird` on five points. -/
theorem findSurfaces_terminates_witness :
    ∃ est1 fits residual s1,
      (∀ fuel, [10, 20, 30, 40, 50].length < fuel →
        findSurfaces Real.arccos Real.pi (loggedEstimator firstAndThird) fuel ((), [])
            [10, 20, 30, 40, 50] (⟨[], [], [], [], []⟩ : SurfaceSegmenter ℝ Nat)
          = .ok ((est1, fits), residual, s1) ∧
        findSurfaces Real.arccos Real.pi firstAndThird fuel () [10, 20, 30, 40, 50]
            (⟨[], [], [], [], []⟩ : SurfaceSegmenter ℝ Nat)
          = .ok (est1, residual, s1)) ∧
      fits.length ≤ [10, 20, 30, 40, 50].length ∧
      (∀ first ∈ fits.head?, first.1 = [10, 20, 30, 40, 50]) ∧
      fits.Chain' (fun a b => 0 < a.2.length ∧ b.1.length + a.2.length = a.1.length) ∧
      residual.length ≤ [10, 20, 30, 40, 50].length :=
  findSurfaces_terminates Real.arccos Real.pi firstAndThird () [10, 20, 30, 40, 50]
    ⟨[], [], [], [], []⟩
    (by
      intro e c
      simp only [firstAndThird]
      split_ifs with h
      · refine ⟨by decide, ?_⟩
        intro i hi
        simp only [List.mem_cons, List.mem_singleton, List.not_mem_nil, or_false] at hi
        omega
      · exact ⟨List.nodup_nil, fun i hi => absurd hi (List.not_mem_nil i)⟩)

section

variable {R P σ : Type} [Add R] [Mul R] [Div R] [NatCast R] [LT R]
  [DecidableRel (fun a b : R => a < b)]

/-- The angle against the stored record `j` is the angle against that record
alone. -/
lemma getAngle_eq_single (acos : R → R) (M_PI : R) (ms : List (ModelCoefficients R))
    (coeffs a : ModelCoefficients R) (j : Nat) (h : ms[j]? = some a) :
    getAngle acos M_PI ms coeffs j = getAngle acos M_PI [a] coeffs 0 := by
  simp [getAngle, h]

/-- An outcome of the loop of `classify` either leaves the coefficient list
as it is, or appends the new record, and then no stored record from the start
index on was within tolerance of it. -/
lemma classifyLoop_new_group_unmatched (acos : R → R) (M_PI : R) (cloud : List P)
    (coeffs : ModelCoefficients R) (s : SurfaceSegmenter R P) :
    ∀ (r i : Nat), i + r = s.m_coefficients.length →
      ∀ s1, classifyLoop acos M_PI cloud coeffs s r i = .ok s1 →
        s1.m_coefficients = s.m_coefficients ∨
        (s1.m_coefficients = s.m_coefficients ++ [coeffs] ∧
          ∀ j θ, i ≤ j → getAngle acos M_PI s.m_coefficients coeffs j = .ok θ →
            ¬ (θ < ((3 : Nat) : R) ∨ ((177 : Nat) : R) < θ)) := by
  intro r
  induction r with
  | zero =>
    intro i hi s1 h
    right
    simp only [classifyLoop, Except.ok.injEq] at h
    subst h
    refine ⟨rfl, ?_⟩
    intro j θ hij hj
    have hnone : s.m_coefficients[j]? = none := List.getElem?_eq_none (by omega)
    simp [getAngle, hnone] at hj
  | succ r ih =>
    intro i hi s1 h
    obtain ⟨θ, hθ⟩ := getAngle_isOk acos M_PI s.m_coefficients coeffs i (by omega)
    rw [classifyLoop, hθ] at h
    simp only at h
    by_cases hc : θ < ((3 : Nat) : R) ∨ ((177 : Nat) : R) < θ
    · rw [if_pos hc] at h
      left
      cases hg : s.vec_surface[i]? with
      | none => rw [hg] at h; simp at h
      | some g =>
        rw [hg] at h
        simp only [Except.ok.injEq] at h
        subst h
        rfl
    · rw [if_neg hc] at h
      rcases ih (i + 1) (by omega) s1 h with hsame | ⟨happ, hno⟩
      · exact Or.inl hsame
      · refine Or.inr ⟨happ, ?_⟩
        intro j θ' hij hj
        by_cases hji : j = i
        · subst hji
          rw [hθ] at hj
          simp only [Except.ok.injEq] at hj
          subst hj
          exact hc
        · exact hno j θ' (by omega) hj

/-- One call of `classify` keeps the representatives pairwise outside the
tolerance. -/
lemma classify_keeps_distinct (acos : R → R) (M_PI : R) (s s1 : SurfaceSegmenter R P)
    (cloud : List P) (coeffs : ModelCoefficients R)
    (h : representativesDistinct acos M_PI s.m_coefficients)
    (hcl : classify acos M_PI s cloud coeffs = .ok s1) :
    representativesDistinct acos M_PI s1.m_coefficients := by
  rcases classifyLoop_new_group_unmatched acos M_PI cloud coeffs s s.m_coefficients.length 0
    (by omega) s1 hcl with hsame | ⟨happ, hno⟩
  · rw [hsame]; exact h
  · rw [happ]
    unfold representativesDistinct at h ⊢
    rw [List.pairwise_append]
    refine ⟨h, List.pairwise_singleton _ _, ?_⟩
    intro a ha b hb
    rw [List.mem_singleton] at hb
    subst hb
    obtain ⟨j, hj, hja⟩ := List.getElem_of_mem ha
    have hj? : s.m_coefficients[j]? = some a := by
      rw [List.getElem?_eq_getElem hj, hja]
    rintro ⟨θ, hθ, htol⟩
    rw [← getAngle_eq_single acos M_PI s.m_coefficients b a j hj?] at hθ
    exact hno j θ (Nat.zero_le _) hθ htol

/-- A run of `classify` calls keeps the representatives pairwise outside the
tolerance. -/
lemma classifyAll_keeps_distinct (acos : R → R) (M_PI : R) :
    ∀ (planes : List (List P × ModelCoefficients R)) (s s1 : SurfaceSegmenter R P),
      representativesDistinct acos M_PI s.m_coefficients →
      classifyAll acos M_PI planes s = .ok s1 →
      representativesDistinct acos M_PI s1.m_coefficients := by
  intro planes
  induction planes with
  | nil =>
    intro s s1 h hrun
    simp only [classifyAll, Except.ok.injEq] at hrun
    subst hrun
    exact h
  | cons plane rest ih =>
    intro s s1 h hrun
    rw [classifyAll] at hrun
    cases hcl : classify acos M_PI s plane.1 plane.2 with
    | error e => rw [hcl] at hrun; simp at hrun
    | ok s2 =>
      rw [hcl] at hrun
      exact ih s2 s1 (classify_keeps_distinct acos M_PI s s2 _ _ h hcl) hrun

/-- The loop of `findSurfaces` keeps the representatives pairwise outside the
tolerance. -/
lemma findSurfacesLoop_keeps_distinct (acos : R → R) (M_PI : R)
    (segment : σ → List P → σ × List Nat × ModelCoefficients R) (point_threshold : Nat) :
    ∀ (fuel : Nat) (est : σ) (c : List P) (s : SurfaceSegmenter R P)
      (r : σ × List P × SurfaceSegmenter R P),
      representativesDistinct acos M_PI s.m_coefficients →
      findSurfacesLoop acos M_PI segment point_threshold fuel est c s = .ok r →
      representativesDistinct acos M_PI r.2.2.m_coefficients := by
  intro fuel
  induction fuel with
  | zero =>
    intro est c s r _ h
    simp [findSurfacesLoop] at h
  | succ fuel ih =>
    intro est c s r hd h
    rw [findSurfacesLoop] at h
    by_cases hthr : point_threshold < c.length
    · rw [if_pos hthr] at h
      rcases hs : segment est c with ⟨est1, idx, coef⟩
      rw [hs] at h
      simp only at h
      by_cases hidx : idx.length = 0
      · rw [if_pos hidx] at h
        simp only [Except.ok.injEq] at h
        subst h
        exact hd
      · rw [if_neg hidx] at h
        cases hcl : classify acos M_PI
            { s with cloud_surfaces_ := s.cloud_surfaces_ ++ extractIndices c idx false }
            (extractIndices c idx false) coef with
        | error e => rw [hcl] at h; simp at h
        | ok s2 =>
          rw [hcl] at h
          simp only at h
          have hd1 : representativesDistinct acos M_PI
              ({ s with cloud_surfaces_ := s.cloud_surfaces_ ++ extractIndices c idx false } :
                SurfaceSegmenter R P).m_coefficients := hd
          exact ih est1 _ s2 r (classify_keeps_distinct acos M_PI _ s2 _ _ hd1 hcl) h
    · rw [if_neg hthr] at h
      simp only [Except.ok.injEq] at h
      subst h
      exact hd

end

/-- Over the reals, representatives pairwise outside the tolerance have, for
any two different positions, a computed angle between 3 and 177 degrees. -/
lemma representativesDistinct_real (ms : List (ModelCoefficients ℝ))
    (h : representativesDistinct Real.arccos Real.pi ms) (i j : Nat)
    (a b : ModelCoefficients ℝ) (hij : i ≠ j) (ha : ms[i]? = some a) (hb : ms[j]? = some b) :
    3 ≤ Real.arccos (a.values0 * b.values0 + a.values1 * b.values1 + a.values2 * b.values2)
        * 180 / Real.pi ∧
    Real.arccos (a.values0 * b.values0 + a.values1 * b.values1 + a.values2 * b.values2)
        * 180 / Real.pi ≤ 177 := by
  have key : ∀ (i j : Nat) (a b : ModelCoefficients ℝ), i < j → ms[i]? = some a →
      ms[j]? = some b →
      3 ≤ Real.arccos (a.values0 * b.values0 + a.values1 * b.values1 + a.values2 * b.values2)
          * 180 / Real.pi ∧
      Real.arccos (a.values0 * b.values0 + a.values1 * b.values1 + a.values2 * b.values2)
          * 180 / Real.pi ≤ 177 := by
    intro i j a b hlt ha hb
    obtain ⟨hi, hia⟩ := List.getElem?_eq_some_iff.mp ha
    obtain ⟨hj, hjb⟩ := List.getElem?_eq_some_iff.mp hb
    have hp := (List.pairwise_iff_getElem.mp h) i j hi hj hlt
    rw [hia, hjb] at hp
    have hno : ¬ (Real.arccos (a.values0 * b.values0 + a.values1 * b.values1
          + a.values2 * b.values2) * 180 / Real.pi < 3 ∨
        177 < Real.arccos (a.values0 * b.values0 + a.values1 * b.values1
          + a.values2 * b.values2) * 180 / Real.pi) := by
      intro htol
      apply hp
      refine ⟨_, rfl, ?_⟩
      simpa using htol
    rw [not_or, not_lt, not_lt] at hno
    exact hno
  rcases Nat.lt_or_gt_of_ne hij with hlt | hgt
  · exact key i j a b hlt ha hb
  · have := key j i b a hgt hb ha
    have hcomm : b.values0 * a.values0 + b.values1 * a.values1 + b.values2 * a.values2
        = a.values0 * b.values0 + a.values1 * b.values1 + a.values2 * b.values2 := by ring
    rw [hcomm] at this
    exact this

/-- For unit normals the value whose arc cosine `getAngle` takes gives the
angle between the two normals. -/
lemma angle_of_unit_normals (a b : ModelCoefficients ℝ)
    (ha : a.values0 ^ 2 + a.values1 ^ 2 + a.values2 ^ 2 = 1)
    (hb : b.values0 ^ 2 + b.values1 ^ 2 + b.values2 ^ 2 = 1) :
    InnerProductGeometry.angle
        ((WithLp.equiv 2 (Fin 3 → ℝ)).symm ![a.values0, a.values1, a.values2] :
          EuclideanSpace ℝ (Fin 3))
        ((WithLp.equiv 2 (Fin 3 → ℝ)).symm ![b.values0, b.values1, b.values2])
      = Real.arccos (a.values0 * b.values0 + a.values1 * b.values1 + a.values2 * b.values2) := by
  have hna : ‖((WithLp.equiv 2 (Fin 3 → ℝ)).symm ![a.values0, a.values1, a.values2] :
      EuclideanSpace ℝ (Fin 3))‖ = 1 := by
    rw [EuclideanSpace.norm_eq]
    simp [Fin.sum_univ_three, ha]
  have hnb : ‖((WithLp.equiv 2 (Fin 3 → ℝ)).symm ![b.values0, b.values1, b.values2] :
      EuclideanSpace ℝ (Fin 3))‖ = 1 := by
    rw [EuclideanSpace.norm_eq]
    simp [Fin.sum_univ_three, hb]
  unfold InnerProductGeometry.angle
  rw [hna, hnb]
  simp [Fin.sum_univ_three, inner, mul_comm]

/-- In exact arithmetic (over the reals, with `Real.arccos`): in the state
that `findSurfaces` returns, and in the state after any number of `classify`
calls from the cleared state (the states the loop of `findSurfaces` passes
through), there is one representative per group, and for two different
groups `i` and `j` the angle in degrees that `getAngle` computes between the
representatives lies between 3 and 177; for unit normals this is the angle
between the normals. In `float` the scalar product of a unit normal with
itself can exceed 1, and then two groups get the same representative. -/
theorem representatives_pairwise_distinct {P σ : Type}
    (segment : σ → List P → σ × List Nat × ModelCoefficients ℝ)
    (fuel : Nat) (est est1 : σ) (cloud residual : List P) (s s1 : SurfaceSegmenter ℝ P)
    (hrun : findSurfaces Real.arccos Real.pi segment fuel est cloud s
      = .ok (est1, residual, s1)) :
    (∀ (i j : Nat) (a b : ModelCoefficients ℝ), i ≠ j →
      s1.m_coefficients[i]? = some a → s1.m_coefficients[j]? = some b →
      (3 ≤ Real.arccos (a.values0 * b.values0 + a.values1 * b.values1 + a.values2 * b.values2)
          * 180 / Real.pi ∧
        Real.arccos (a.values0 * b.values0 + a.values1 * b.values1 + a.values2 * b.values2)
          * 180 / Real.pi ≤ 177) ∧
      (a.values0 ^ 2 + a.values1 ^ 2 + a.values2 ^ 2 = 1 →
        b.values0 ^ 2 + b.values1 ^ 2 + b.values2 ^ 2 = 1 →
        3 ≤ InnerProductGeometry.angle
            ((WithLp.equiv 2 (Fin 3 → ℝ)).symm ![a.values0, a.values1, a.values2] :
              EuclideanSpace ℝ (Fin 3))
            ((WithLp.equiv 2 (Fin 3 → ℝ)).symm ![b.values0, b.values1, b.values2])
            * 180 / Real.pi ∧
        InnerProductGeometry.angle
            ((WithLp.equiv 2 (Fin 3 → ℝ)).symm ![a.values0, a.values1, a.values2] :
              EuclideanSpace ℝ (Fin 3))
            ((WithLp.equiv 2 (Fin 3 → ℝ)).symm ![b.values0, b.values1, b.values2])
            * 180 / Real.pi ≤ 177)) ∧
    (∀ (planes : List (List P × ModelCoefficients ℝ)) (s2 : SurfaceSegmenter ℝ P),
      classifyAll Real.arccos Real.pi planes ⟨[], [], [], [], []⟩ = .ok s2 →
      s2.vec_surface.length = s2.m_coefficients.length ∧
      ∀ (i j : Nat) (a b : ModelCoefficients ℝ), i ≠ j →
        s2.m_coefficients[i]? = some a → s2.m_coefficients[j]? = some b →
        3 ≤ Real.arccos (a.values0 * b.values0 + a.values1 * b.values1
            + a.values2 * b.values2) * 180 / Real.pi ∧
        Real.arccos (a.values0 * b.values0 + a.values1 * b.values1
            + a.values2 * b.values2) * 180 / Real.pi ≤ 177) := by
  have hnil : representativesDistinct Real.arccos Real.pi
      (⟨[], [], [], [], []⟩ : SurfaceSegmenter ℝ P).m_coefficients := List.Pairwise.nil
  refine ⟨?_, ?_⟩
  · have hd := findSurfacesLoop_keeps_distinct Real.arccos Real.pi segment (cloud.length / 10)
      fuel est cloud ⟨[], [], [], [], []⟩ (est1, residual, s1) hnil hrun
    intro i j a b hij ha hb
    have hreal := representativesDistinct_real s1.m_coefficients hd i j a b hij ha hb
    refine ⟨hreal, ?_⟩
    intro hua hub
    rw [angle_of_unit_normals a b hua hub]
    exact hreal
  · intro planes s2 hcl
    have hd := classifyAll_keeps_distinct Real.arccos Real.pi planes ⟨[], [], [], [], []⟩ s2
      hnil hcl
    obtain ⟨s3, assigned, hcl3, hal⟩ := classifyAll_keeps_aligned Real.arccos Real.pi planes
      [] [] (⟨[], [], [], [], []⟩ : SurfaceSegmenter ℝ P) ⟨rfl, rfl, by simp, by simp⟩
    rw [hcl] at hcl3
    simp only [Except.ok.injEq] at hcl3
    subst hcl3
    exact ⟨hal.2.1, fun i j a b hij ha hb =>
      representativesDistinct_real s2.m_coefficients hd i j a b hij ha hb⟩

/-- Instance of `representatives_pairwise_distinct`: a run of `findSurfaces`
with the estimator `firstAndThird`, and two planes with normals 90 degrees
apart classified from the cleared state; the two representatives are between
3 and 177 degrees apart. -/
theorem representatives_pairwise_distinct_witness :
    3 ≤ Real.arccos (0 * Real.sin (90 * Real.pi / 180) + 0 * 0
        + 1 * Real.cos (90 * Real.pi / 180)) * 180 / Real.pi ∧
    Real.arccos (0 * Real.sin (90 * Real.pi / 180) + 0 * 0
        + 1 * Real.cos (90 * Real.pi / 180)) * 180 / Real.pi ≤ 177 := by
  obtain ⟨est1, residual, s1, hrun, -, -⟩ := findSurfacesLoop_conserves Real.arccos Real.pi
    firstAndThird
    (by
      intro e c
      simp only [firstAndThird]
      split_ifs with h
      · refine ⟨by decide, ?_⟩
        intro i hi
        simp only [List.mem_cons, List.mem_singleton, List.not_mem_nil, or_false] at hi
        omega
      · exact ⟨List.nodup_nil, fun i hi => absurd hi (List.not_mem_nil i)⟩)
    (([10, 20, 30, 40, 50] : List Nat).length / 10) 6 () [10, 20, 30, 40, 50]
    (⟨[], [], [], [], []⟩ : SurfaceSegmenter ℝ Nat) (by decide) rfl (List.Perm.refl _)
  have hcl : classifyAll Real.arccos Real.pi
      [([1], (⟨0, 0, 1, 0⟩ : ModelCoefficients ℝ)),
        ([2], ⟨Real.sin (90 * Real.pi / 180), 0, Real.cos (90 * Real.pi / 180), 0⟩)]
      (⟨[], [], [], [], []⟩ : SurfaceSegmenter ℝ Nat)
      = .ok ⟨[], [], [[1], [2]], [],
          [⟨0, 0, 1, 0⟩,
            ⟨Real.sin (90 * Real.pi / 180), 0, Real.cos (90 * Real.pi / 180), 0⟩]⟩ := by
    have h2 := classifyTwo_new_group 90 (by norm_num) (by norm_num) (by norm_num) [1] [2]
    have h1 : classify Real.arccos Real.pi (⟨[], [], [], [], []⟩ : SurfaceSegmenter ℝ Nat) [1]
        ⟨0, 0, 1, 0⟩ = .ok ⟨[], [], [[1]], [], [⟨0, 0, 1, 0⟩]⟩ := by
      simp [classify, classifyLoop]
    unfold classifyTwo at h2
    rw [h1] at h2
    simp only [classifyAll, h1]
    cases hc : classify Real.arccos Real.pi
        (⟨[], [], [[1]], [], [⟨0, 0, 1, 0⟩]⟩ : SurfaceSegmenter ℝ Nat) [2]
        ⟨Real.sin (90 * Real.pi / 180), 0, Real.cos (90 * Real.pi / 180), 0⟩ with
    | error e =>
      have h3 : (Except.ok (⟨[], [], [[1]], [], [⟨0, 0, 1, 0⟩]⟩ : SurfaceSegmenter ℝ Nat)
          : Except Failure _).bind (fun s1 => classify Real.arccos Real.pi s1 [2]
            ⟨Real.sin (90 * Real.pi / 180), 0, Real.cos (90 * Real.pi / 180), 0⟩)
          = .error e := hc
      rw [h3] at h2
      simp at h2
    | ok s2 =>
      have h3 : (Except.ok (⟨[], [], [[1]], [], [⟨0, 0, 1, 0⟩]⟩ : SurfaceSegmenter ℝ Nat)
          : Except Failure _).bind (fun s1 => classify Real.arccos Real.pi s1 [2]
            ⟨Real.sin (90 * Real.pi / 180), 0, Real.cos (90 * Real.pi / 180), 0⟩)
          = .ok s2 := hc
      rw [h3] at h2
      simp only [Except.ok.injEq] at h2
      subst h2
      rfl
  have hall := ((representatives_pairwise_distinct firstAndThird 6 () est1 [10, 20, 30, 40, 50]
    residual ⟨[], [], [], [], []⟩ s1 hrun).2 _ _ hcl).2
  have h01 := hall 0 1 ⟨0, 0, 1, 0⟩
    ⟨Real.sin (90 * Real.pi / 180), 0, Real.cos (90 * Real.pi / 180), 0⟩ (by decide)
    (by simp) (by simp)
  exact h01

section

variable {R B Col Cov : Type} [Div R] [NatCast R] [LT R] [DecidableRel (fun a b : R => a < b)]

/-- After `updateState` the id has an entry. -/
lemma updateState_registers (env : VisualizerEnv R B Col) (uninit : VisData R B)
    (v : ObstacleTrackerVisualizer R B Col) (state : GMM.State R Cov) (id : Int) :
    ∃ visData, mapFind id (v.updateState env uninit state id).gmm_visualizations
      = some visData := by
  unfold ObstacleTrackerVisualizer.updateState
  cases h : mapFind id v.gmm_visualizations with
  | none =>
    simp only [ObstacleTrackerVisualizer.initVisData]
    exact ⟨_, mapFind_mapSet_self _ _ _⟩
  | some visData =>
    simp only [ObstacleTrackerVisualizer.updateVisData]
    split_ifs <;> exact ⟨_, mapFind_mapSet_self _ _ _⟩

/-- The method `updateState` leaves the entries of other ids alone and keeps
the keys distinct. -/
lemma updateState_other (env : VisualizerEnv R B Col) (uninit : VisData R B)
    (v : ObstacleTrackerVisualizer R B Col) (state : GMM.State R Cov) (id other : Int)
    (h : id ≠ other) :
    mapFind other (v.updateState env uninit state id).gmm_visualizations
      = mapFind other v.gmm_visualizations := by
  unfold ObstacleTrackerVisualizer.updateState
  cases hf : mapFind id v.gmm_visualizations with
  | none =>
    simp only [ObstacleTrackerVisualizer.initVisData]
    exact mapFind_mapSet_ne _ _ _ _ h
  | some visData =>
    simp only [ObstacleTrackerVisualizer.updateVisData]
    split_ifs <;> exact mapFind_mapSet_ne _ _ _ _ h

/-- C27. `ObstacleTrackerVisualizer::deleteState(id)`, the map holding one
entry per id: if `id` has an entry, a `Remove` is issued for its ellipsoid,
trajectory line, velocity line and SSV handle (in this order, after the calls
made before), the entry is erased and the entries of all other ids stay; if
`id` has no entry the visualizer is unchanged. After `updateState(state, id)`
the id has an entry, the entries of other ids being as before, so that a
following `deleteState(id)` removes its handles. -/
theorem deleteState_removes_handles (v : ObstacleTrackerVisualizer R B Col)
    (state : GMM.State R Cov) (id : Int)
    (hkeys : (v.gmm_visualizations.map Prod.fst).Nodup) :
    (∀ visData, mapFind id v.gmm_visualizations = some visData →
      (v.deleteState state id).arvis_ = v.arvis_ ++
        [ArCall.Remove visData.ellipsoidHandle, ArCall.Remove visData.linePathHandle,
          ArCall.Remove visData.velocityLineHandle, ArCall.Remove visData.ssvHandle] ∧
      (v.deleteState state id).gmm_visualizations
        = v.gmm_visualizations.filter (fun e => decide (e.1 ≠ id)) ∧
      mapFind id (v.deleteState state id).gmm_visualizations = none ∧
      ∀ other, other ≠ id →
        mapFind other (v.deleteState state id).gmm_visualizations
          = mapFind other v.gmm_visualizations) ∧
    (mapFind id v.gmm_visualizations = none → v.deleteState state id = v) ∧
    (∀ (env : VisualizerEnv R B Col) (uninit : VisData R B),
      (∃ visData, mapFind id (v.updateState env uninit state id).gmm_visualizations
          = some visData ∧
        ((v.updateState env uninit state id).deleteState state id).arvis_
          = (v.updateState env uninit state id).arvis_ ++
            [ArCall.Remove visData.ellipsoidHandle, ArCall.Remove visData.linePathHandle,
              ArCall.Remove visData.velocityLineHandle, ArCall.Remove visData.ssvHandle]) ∧
      ∀ other, other ≠ id →
        mapFind other (v.updateState env uninit state id).gmm_visualizations
          = mapFind other v.gmm_visualizations) := by
  refine ⟨?_, ?_, ?_⟩
  · intro visData hfind
    have hdel : v.deleteState state id =
        { gmm_visualizations := mapErase id v.gmm_visualizations
          arvis_ := v.arvis_ ++
            [ArCall.Remove visData.ellipsoidHandle, ArCall.Remove visData.linePathHandle,
              ArCall.Remove visData.velocityLineHandle, ArCall.Remove visData.ssvHandle] } := by
      unfold ObstacleTrackerVisualizer.deleteState
      rw [hfind]
    rw [hdel]
    refine ⟨rfl, mapErase_eq_filter id _ hkeys, mapFind_mapErase_self id _ hkeys, ?_⟩
    intro other hother
    exact mapFind_mapErase_ne id other _ (fun h => hother h.symm)
  · intro hnone
    unfold ObstacleTrackerVisualizer.deleteState
    rw [hnone]
  · intro env uninit
    refine ⟨?_, fun other hother => updateState_other env uninit v state id other
      (fun h => hother h.symm)⟩
    obtain ⟨visData, hvis⟩ := updateState_registers env uninit v state id
    refine ⟨visData, hvis, ?_⟩
    unfold ObstacleTrackerVisualizer.deleteState
    rw [hvis]

end

/-- C27, instance on rationals: ids 1 and 2 have entries, id 2 is deleted:
its four handles are removed and the entry of id 1 stays. -/
theorem deleteState_removes_handles_witness :
    ((⟨[(1, ⟨false, 0, 10, 11, 12, (), 0, ⟨0, 0, 0⟩, ⟨0, 0, 0⟩⟩),
          (2, ⟨true, 23, 20, 21, 22, (), 1, ⟨0, 0, 0⟩, ⟨1, 0, 0⟩⟩)],
        [ArCall.Remove 5]⟩ : ObstacleTrackerVisualizer ℚ Unit Unit).deleteState
      (⟨⟨0, 0, 0⟩, 0, 0, 0, false, 0, 0, 0, 0, 0, 0, ⟨⟨⟨0, 0, 0⟩, ⟨0, 0, 0⟩⟩, ()⟩,
        ⟨0, 0, 0, 0, false⟩⟩ : GMM.State ℚ Unit) 2).arvis_
      = [ArCall.Remove 5, ArCall.Remove 20, ArCall.Remove 21, ArCall.Remove 22,
          ArCall.Remove 23] :=
  ((deleteState_removes_handles
    (⟨[(1, ⟨false, 0, 10, 11, 12, (), 0, ⟨0, 0, 0⟩, ⟨0, 0, 0⟩⟩),
        (2, ⟨true, 23, 20, 21, 22, (), 1, ⟨0, 0, 0⟩, ⟨1, 0, 0⟩⟩)],
      [ArCall.Remove 5]⟩ : ObstacleTrackerVisualizer ℚ Unit Unit)
    (⟨⟨0, 0, 0⟩, 0, 0, 0, false, 0, 0, 0, 0, 0, 0, ⟨⟨⟨0, 0, 0⟩, ⟨0, 0, 0⟩⟩, ()⟩,
      ⟨0, 0, 0, 0, false⟩⟩ : GMM.State ℚ Unit) 2 (by decide)).1
    ⟨true, 23, 20, 21, 22, (), 1, ⟨0, 0, 0⟩, ⟨1, 0, 0⟩⟩ rfl).1

/-- Truncation toward zero of a rational: within one of the value, from
below for a non-negative value and from above for a non-positive one. -/
lemma truncRat_bounds (q : ℚ) :
    (0 ≤ q → (truncRat q : ℚ) ≤ q ∧ q < truncRat q + 1) ∧
    (q ≤ 0 → (truncRat q : ℚ) - 1 < q ∧ q ≤ truncRat q) := by
  constructor
  · intro h
    have hnum : 0 ≤ q.num := Rat.num_nonneg.mpr h
    have ht : truncRat q = ⌊q⌋ := by
      unfold truncRat
      rw [Int.tdiv_eq_ediv hnum (Int.ofNat_nonneg _), Rat.floor_def]
    rw [ht]
    exact ⟨Int.floor_le q, Int.lt_floor_add_one q⟩
  · intro h
    have hnum : 0 ≤ (-q).num := Rat.num_nonneg.mpr (neg_nonneg.mpr h)
    have ht : truncRat q = -⌊-q⌋ := by
      unfold truncRat
      have h1 : q.num = -(-q).num := by simp
      have h2 : q.den = (-q).den := by simp
      rw [h1, h2, Int.neg_tdiv, Int.tdiv_eq_ediv hnum (Int.ofNat_nonneg _), Rat.floor_def]
    rw [ht]
    have h1 := Int.floor_le (-q)
    have h2 := Int.lt_floor_add_one (-q)
    push_cast
    constructor <;> linarith

/-- Clearing the low bit of a 32-bit word. -/
lemma land_mask (n : Nat) (h : n < 4294967296) : Nat.land n 0xFFFFFFFE = n - n % 2 := by
  apply Nat.eq_of_testBit_eq
  intro i
  show (n &&& 0xFFFFFFFE).testBit i = (n - n % 2).testBit i
  rw [Nat.testBit_land]
  cases i with
  | zero =>
    simp only [Nat.testBit_zero]
    have h1 : (n - n % 2) % 2 = 0 := by omega
    simp [h1]
  | succ i =>
    rw [Nat.testBit_succ, Nat.testBit_succ, Nat.testBit_succ]
    have h1 : (n - n % 2) / 2 = n / 2 := by omega
    have h2 : (0xFFFFFFFE : Nat) / 2 = 2 ^ 31 - 1 := by norm_num
    rw [h1, h2, Nat.testBit_two_pow_sub_one]
    by_cases hi : i < 31
    · simp [hi]
    · have hlt : n / 2 < 2 ^ i := by
        have : 2 ^ 31 ≤ 2 ^ i := Nat.pow_le_pow_right (by norm_num) (by omega)
        omega
      rw [Nat.testBit_lt_two_pow hlt]
      simp

/-- On a value in the `int` range the mask clears the low bit: the result
is the even number at or just below the value. -/
lemma andMask_eq (v : Int) (hmin : INT_MIN ≤ v) (hmax : v ≤ INT_MAX) :
    andMask v = v - v % 2 := by
  unfold INT_MIN at hmin
  unfold INT_MAX at hmax
  unfold andMask
  have hn : (v % 4294967296).toNat < 4294967296 := by omega
  simp only
  rw [land_mask _ hn]
  split_ifs with hb <;> omega

/-- One coordinate of two points with the same voxel key. -/
lemma coordinate_bound (larger : Bool) (x y : ℚ)
    (hx : INT_MIN ≤ truncRat (x * 100) ∧ truncRat (x * 100) ≤ INT_MAX)
    (hy : INT_MIN ≤ truncRat (y * 100) ∧ truncRat (y * 100) ≤ INT_MAX)
    (hkey : (if larger then andMask (truncRat (x * 100)) else truncRat (x * 100))
      = (if larger then andMask (truncRat (y * 100)) else truncRat (y * 100))) :
    |x - y| < (if larger then 3 / 100 else 2 / 100) ∧
    ((0 ≤ x ∧ 0 ≤ y) ∨ (x ≤ 0 ∧ y ≤ 0) → |x - y| < (if larger then 2 / 100 else 1 / 100)) := by
  have bx := truncRat_bounds (x * 100)
  have bY := truncRat_bounds (y * 100)
  have hxs : 0 ≤ x * 100 ↔ 0 ≤ x := by constructor <;> intro h <;> linarith
  have hxs' : x * 100 ≤ 0 ↔ x ≤ 0 := by constructor <;> intro h <;> linarith
  have hys : 0 ≤ y * 100 ↔ 0 ≤ y := by constructor <;> intro h <;> linarith
  have hys' : y * 100 ≤ 0 ↔ y ≤ 0 := by constructor <;> intro h <;> linarith
  rw [hxs, hxs'] at bx
  rw [hys, hys'] at bY
  have wx : (truncRat (x * 100) : ℚ) - 1 < x * 100 ∧ x * 100 < truncRat (x * 100) + 1 := by
    rcases le_total 0 x with h | h
    · have := bx.1 h
      constructor <;> linarith
    · have := bx.2 h
      constructor <;> linarith
  have wy : (truncRat (y * 100) : ℚ) - 1 < y * 100 ∧ y * 100 < truncRat (y * 100) + 1 := by
    rcases le_total 0 y with h | h
    · have := bY.1 h
      constructor <;> linarith
    · have := bY.2 h
      constructor <;> linarith
  cases larger with
  | false =>
    simp only [Bool.false_eq_true, if_false] at hkey ⊢
    rw [hkey] at wx bx
    refine ⟨?_, ?_⟩
    · rw [abs_lt]
      constructor <;> linarith [wx.1, wx.2, wy.1, wy.2]
    · rintro (⟨h1, h2⟩ | ⟨h1, h2⟩)
      · have := bx.1 h1
        have := bY.1 h2
        rw [abs_lt]
        constructor <;> linarith
      · have := bx.2 h1
        have := bY.2 h2
        rw [abs_lt]
        constructor <;> linarith
  | true =>
    simp only [if_true] at hkey ⊢
    rw [andMask_eq _ hx.1 hx.2, andMask_eq _ hy.1 hy.2] at hkey
    have h1 : truncRat (x * 100) ≤ truncRat (y * 100) + 1 := by omega
    have h2 : truncRat (y * 100) ≤ truncRat (x * 100) + 1 := by omega
    have h1q : (truncRat (x * 100) : ℚ) ≤ truncRat (y * 100) + 1 := by exact_mod_cast h1
    have h2q : (truncRat (y * 100) : ℚ) ≤ truncRat (x * 100) + 1 := by exact_mod_cast h2
    refine ⟨?_, ?_⟩
    · rw [abs_lt]
      constructor <;> linarith [wx.1, wx.2, wy.1, wy.2]
    · rintro (⟨h3, h4⟩ | ⟨h3, h4⟩)
      · have := bx.1 h3
        have := bY.1 h4
        rw [abs_lt]
        constructor <;> linarith
      · have := bx.2 h3
        have := bY.2 h4
        rw [abs_lt]
        constructor <;> linarith

/-- C25 (counterexample): truncation is toward zero, so the cell of key 0
reaches from -0.01 to 0.01. The points with x = -0.009 and x = 0.009 have the
same key and are 0.018 apart; with larger voxelization the points with
x = -0.009 and x = 0.019 have the same key and are 0.028 apart. -/
theorem voxel_cell_at_zero_is_wider :
    mapPointOf truncRat false (⟨-9 / 1000, 0, 0⟩ : PointXYZ ℚ)
      = mapPointOf truncRat false (⟨9 / 1000, 0, 0⟩ : PointXYZ ℚ) ∧
    ¬ (|(-9 / 1000 : ℚ) - 9 / 1000| < 1 / 100) ∧
    mapPointOf truncRat true (⟨-9 / 1000, 0, 0⟩ : PointXYZ ℚ)
      = mapPointOf truncRat true (⟨19 / 1000, 0, 0⟩ : PointXYZ ℚ) ∧
    ¬ (|(-9 / 1000 : ℚ) - 19 / 1000| < 2 / 100) := by
  refine ⟨by decide!, ?_, by decide!, ?_⟩
  · rw [abs_lt]; norm_num
  · rw [abs_lt]; norm_num

/-- In exact arithmetic (the product with 100 not rounded): two points with
the same voxel key, their scaled coordinates fitting in a 32-bit `int`,
differ in every coordinate by less than 0.02 (by less than 0.03 with larger
voxelization); where the two coordinates do not have opposite signs they
differ by less than one cell size, 0.01 (0.02 with larger voxelization). -/
theorem same_voxel_key_distance (larger : Bool) (p q : PointXYZ ℚ)
    (hp : (INT_MIN ≤ truncRat (p.x * 100) ∧ truncRat (p.x * 100) ≤ INT_MAX) ∧
      (INT_MIN ≤ truncRat (p.y * 100) ∧ truncRat (p.y * 100) ≤ INT_MAX) ∧
      (INT_MIN ≤ truncRat (p.z * 100) ∧ truncRat (p.z * 100) ≤ INT_MAX))
    (hq : (INT_MIN ≤ truncRat (q.x * 100) ∧ truncRat (q.x * 100) ≤ INT_MAX) ∧
      (INT_MIN ≤ truncRat (q.y * 100) ∧ truncRat (q.y * 100) ≤ INT_MAX) ∧
      (INT_MIN ≤ truncRat (q.z * 100) ∧ truncRat (q.z * 100) ≤ INT_MAX))
    (hkey : mapPointOf truncRat larger p = mapPointOf truncRat larger q) :
    (|p.x - q.x| < (if larger then 3 / 100 else 2 / 100) ∧
      ((0 ≤ p.x ∧ 0 ≤ q.x) ∨ (p.x ≤ 0 ∧ q.x ≤ 0) →
        |p.x - q.x| < (if larger then 2 / 100 else 1 / 100))) ∧
    (|p.y - q.y| < (if larger then 3 / 100 else 2 / 100) ∧
      ((0 ≤ p.y ∧ 0 ≤ q.y) ∨ (p.y ≤ 0 ∧ q.y ≤ 0) →
        |p.y - q.y| < (if larger then 2 / 100 else 1 / 100))) ∧
    (|p.z - q.z| < (if larger then 3 / 100 else 2 / 100) ∧
      ((0 ≤ p.z ∧ 0 ≤ q.z) ∨ (p.z ≤ 0 ∧ q.z ≤ 0) →
        |p.z - q.z| < (if larger then 2 / 100 else 1 / 100))) := by
  have hk : (if larger then andMask (truncRat (p.x * 100)) else truncRat (p.x * 100))
        = (if larger then andMask (truncRat (q.x * 100)) else truncRat (q.x * 100)) ∧
      (if larger then andMask (truncRat (p.y * 100)) else truncRat (p.y * 100))
        = (if larger then andMask (truncRat (q.y * 100)) else truncRat (q.y * 100)) ∧
      (if larger then andMask (truncRat (p.z * 100)) else truncRat (p.z * 100))
        = (if larger then andMask (truncRat (q.z * 100)) else truncRat (q.z * 100)) := by
    cases larger <;>
      simpa [mapPointOf] using hkey
  exact ⟨coordinate_bound larger p.x q.x hp.1 hq.1 hk.1,
    coordinate_bound larger p.y q.y hp.2.1 hq.2.1 hk.2.1,
    coordinate_bound larger p.z q.z hp.2.2 hq.2.2 hk.2.2⟩

/-- Instance of `same_voxel_key_distance`: the points with x = -0.009 and
x = 0.009, less than 0.02 apart. -/
theorem same_voxel_key_distance_witness :
    |(-9 / 1000 : ℚ) - 9 / 1000| < 2 / 100 :=
  (same_voxel_key_distance false ⟨-9 / 1000, 0, 0⟩ ⟨9 / 1000, 0, 0⟩
    (by decide!) (by decide!) (by decide!)).1.1

section

variable {R : Type} [Mul R] [Div R] [NatCast R] [IntCast R]

/-- A frame of the bit-history filter is the scan of `getFiltered` over the
state that `newPoint` builds from the accepted points of the frame. -/
lemma prob_frame_eq {φ : Type} (isfinite : R → Bool) (toInt : R → Int)
    (fs : List (PointFilter φ R)) (s : ProbFilteredVideoSource) (cloud : List (PointXYZ R)) :
    (notifyNewFrame isfinite (ProbFilteredVideoSource.hooks toInt) fs s cloud).2.1
      = (ProbFilteredVideoSource.getFiltered (R := R)
          ((acceptedPoints (notifyNewFrame isfinite (ProbFilteredVideoSource.hooks toInt) fs s
            cloud).2.2.2).foldl (ProbFilteredVideoSource.newPoint toInt) s.newFrame) []).1 ∧
    (notifyNewFrame isfinite (ProbFilteredVideoSource.hooks toInt) fs s cloud).2.2.1
      = (ProbFilteredVideoSource.getFiltered (R := R)
          ((acceptedPoints (notifyNewFrame isfinite (ProbFilteredVideoSource.hooks toInt) fs s
            cloud).2.2.2).foldl (ProbFilteredVideoSource.newPoint toInt) s.newFrame) []).2 := by
  obtain ⟨hst, hfl⟩ := prob_state_before_getFiltered isfinite toInt
    (fs.map fun f => { f with state := f.prepareNext f.state }) s.newFrame cloud
  have hacc : acceptedPoints
      (notifyNewFrame isfinite (ProbFilteredVideoSource.hooks toInt) fs s cloud).2.2.2
      = acceptedPoints (pointLoop isfinite (ProbFilteredVideoSource.hooks toInt) cloud
          (fs.map fun f => { f with state := f.prepareNext f.state }) s.newFrame []).2.2.2 := rfl
  rw [hacc, ← hst]
  constructor
  · rfl
  · have h2 : (notifyNewFrame isfinite (ProbFilteredVideoSource.hooks toInt) fs s cloud).2.2.1
        = (ProbFilteredVideoSource.getFiltered (R := R)
            (pointLoop isfinite (ProbFilteredVideoSource.hooks toInt) cloud
              (fs.map fun f => { f with state := f.prepareNext f.state }) s.newFrame []).2.1
            (pointLoop isfinite (ProbFilteredVideoSource.hooks toInt) cloud
              (fs.map fun f => { f with state := f.prepareNext f.state })
              s.newFrame []).2.2.1).2 := rfl
    rw [h2, hfl]

/-- Points falling into other voxels leave the entry of `v` alone, do not
mark `v` as observed and keep the voxelization flag. -/
lemma foldl_newPoint_unobserved (toInt : R → Int) (v : MapPoint) (lv : Bool) :
    ∀ (pts : List (PointXYZ R)) (s : ProbFilteredVideoSource),
      s.larger_voxelization_ = lv →
      (∀ p ∈ pts, mapPointOf toInt lv p ≠ v) → v ∉ s.this_frame_ →
      mapFind v (pts.foldl (ProbFilteredVideoSource.newPoint toInt) s).all_points_
        = mapFind v s.all_points_ ∧
      v ∉ (pts.foldl (ProbFilteredVideoSource.newPoint toInt) s).this_frame_ ∧
      (pts.foldl (ProbFilteredVideoSource.newPoint toInt) s).larger_voxelization_ = lv := by
  intro pts
  induction pts with
  | nil => intro s hlv _ hv; exact ⟨rfl, hv, hlv⟩
  | cons p rest ih =>
    intro s hlv hpts hv
    have hp : mapPointOf toInt s.larger_voxelization_ p ≠ v := by
      rw [hlv]; exact hpts p (List.mem_cons_self _ _)
    have hfind : mapFind v (ProbFilteredVideoSource.newPoint toInt s p).all_points_
        = mapFind v s.all_points_ := by
      simp only [ProbFilteredVideoSource.newPoint]
      rw [mapFind_mapModify_ne _ _ _ _ hp, mapFind_mapIndex_ne _ _ _ _ hp]
    have hframe : v ∉ (ProbFilteredVideoSource.newPoint toInt s p).this_frame_ := by
      simp only [ProbFilteredVideoSource.newPoint]
      split_ifs
      · exact hv
      · rw [List.mem_append, List.mem_singleton]
        rintro (h | h)
        · exact hv h
        · exact hp h.symm
    obtain ⟨h1, h2, h3⟩ := ih (ProbFilteredVideoSource.newPoint toInt s p) hlv
      (fun q hq => hpts q (List.mem_cons_of_mem _ hq)) hframe
    simp only [List.foldl_cons]
    exact ⟨h1.trans hfind, h2, h3⟩

/-- The entries that the scan keeps are a sublist of the entries scanned, by
their keys. -/
lemma getFilteredLoop_keys_sublist (this_frame : List MapPoint) :
    ∀ (entries : List (MapPoint × Nat)) (min_pt max_pt : MapPoint),
      ((getFilteredLoop (R := R) this_frame entries min_pt max_pt).1.map Prod.fst).Sublist
        (entries.map Prod.fst) := by
  intro entries
  induction entries with
  | nil => intro _ _; exact List.Sublist.refl _
  | cons e rest ih =>
    intro min_pt max_pt
    obtain ⟨key, word⟩ := e
    rw [getFilteredLoop]
    simp only
    split_ifs <;> first | exact (ih _ _).cons _ | exact (ih _ _).cons₂ _

/-- The scan leaves an unobserved voxel either erased or with its word
shifted once. -/
lemma getFilteredLoop_unobserved (this_frame : List MapPoint) (v : MapPoint) (w : Nat)
    (hv : v ∉ this_frame) :
    ∀ (entries : List (MapPoint × Nat)) (min_pt max_pt : MapPoint),
      (entries.map Prod.fst).Nodup → mapFind v entries = some w →
      mapFind v (getFilteredLoop (R := R) this_frame entries min_pt max_pt).1 = none ∨
      mapFind v (getFilteredLoop (R := R) this_frame entries min_pt max_pt).1
        = some ((w <<< 1) % 4294967296) := by
  intro entries
  induction entries with
  | nil => intro _ _ _ h; simp [mapFind] at h
  | cons e rest ih =>
    intro min_pt max_pt hnd hfind
    obtain ⟨key, word⟩ := e
    simp only [List.map_cons, List.nodup_cons] at hnd
    rw [getFilteredLoop]
    simp only
    by_cases hk : key = v
    · subst hk
      simp only [mapFind, if_true, Option.some.injEq] at hfind
      subst hfind
      have hnone : mapFind key (getFilteredLoop (R := R) this_frame rest
          ⟨wrapInt (min_pt.x - 10), wrapInt (min_pt.y - 10), wrapInt (min_pt.z - 10)⟩
          ⟨wrapInt (max_pt.x + 10), wrapInt (max_pt.y + 10), wrapInt (max_pt.z + 10)⟩).1
          = none := by
        rw [mapFind_eq_none_iff]
        intro hmem
        exact hnd.1 ((getFilteredLoop_keys_sublist this_frame rest _ _).subset hmem)
      split_ifs <;> first | exact Or.inl hnone | (right; simp [mapFind, hv])
    · have hfr : mapFind v rest = some w := by
        simpa [mapFind, hk] using hfind
      split_ifs <;> first
        | exact ih _ _ hnd.2 hfr
        | (simp only [mapFind, hk, if_false]; exact ih _ _ hnd.2 hfr)

end

/-- Rebuilding the point of a voxel key is injective in exact arithmetic. -/
lemma voxelCentre_injective {R : Type} [LinearOrderedField R] (a b : MapPoint)
    (h : (voxelCentre a : PointXYZ R) = voxelCentre b) : a = b := by
  obtain ⟨ax, ay, az⟩ := a
  obtain ⟨bx, bY, bz⟩ := b
  simp only [voxelCentre, PointXYZ.mk.injEq, Nat.cast_ofNat] at h
  obtain ⟨h1, h2, h3⟩ := h
  have e : ∀ m n : Int, (m : R) / 100 = (n : R) / 100 → m = n := by
    intro m n hmn
    have h100 : (100 : R) ≠ 0 := by norm_num
    have := (div_left_inj' h100).mp hmn
    exact_mod_cast this
  rw [e ax bx h1, e ay bY h2, e az bz h3]

/-- Shifting `k` times within 32 bits is multiplication by `2 ^ k` modulo
`2 ^ 32`. -/
lemma shift_mod_pow (w n : Nat) :
    ((w <<< 1) % 4294967296) * 2 ^ n % 4294967296 = w * 2 ^ (n + 1) % 4294967296 := by
  rw [Nat.shiftLeft_eq, Nat.mul_mod, Nat.mod_mod, ← Nat.mul_mod]
  ring_nf

/-- The all-ones word shifted `k` times has `32 - k` set bits. -/
lemma popcount_ones_shifted (k : Nat) :
    popcount (4294967295 * 2 ^ k % 4294967296) = 32 - k := by
  by_cases hk : k < 32
  · interval_cases k <;> rfl
  · have h1 : 4294967295 * 2 ^ k % 4294967296 = 0 := by
      obtain ⟨j, rfl⟩ : ∃ j, k = 32 + j := ⟨k - 32, by omega⟩
      have h2 : 4294967295 * 2 ^ (32 + j) = 4294967296 * (4294967295 * 2 ^ j) := by
        rw [pow_add]; ring
      rw [h2]
      exact Nat.mul_mod_right _ _
    rw [h1]
    have : 32 - k = 0 := by omega
    rw [this]
    rfl

section

variable {R : Type} [LinearOrderedField R]

/-- One frame in which no accepted point falls into the voxel `v`, which is
in the dictionary with word `w`: the keys stay distinct, `v` is erased or
keeps the word shifted once, and `v` is emitted exactly when the shifted word
has at least ten set bits. -/
lemma prob_frame_unobserved {φ : Type} (isfinite : R → Bool) (toInt : R → Int) (v : MapPoint)
    (w : Nat) (fs : List (PointFilter φ R)) (s : ProbFilteredVideoSource)
    (cloud : List (PointXYZ R)) (hnd : (s.all_points_.map Prod.fst).Nodup)
    (hw : mapFind v s.all_points_ = some w)
    (hun : ∀ p ∈ acceptedPoints
        (notifyNewFrame isfinite (ProbFilteredVideoSource.hooks toInt) fs s cloud).2.2.2,
      mapPointOf toInt s.larger_voxelization_ p ≠ v) :
    ((notifyNewFrame isfinite (ProbFilteredVideoSource.hooks toInt) fs s
        cloud).2.1.all_points_.map Prod.fst).Nodup ∧
    (mapFind v (notifyNewFrame isfinite (ProbFilteredVideoSource.hooks toInt) fs s
        cloud).2.1.all_points_ = none ∨
      mapFind v (notifyNewFrame isfinite (ProbFilteredVideoSource.hooks toInt) fs s
        cloud).2.1.all_points_ = some ((w <<< 1) % 4294967296)) ∧
    (voxelCentre v ∈ (notifyNewFrame isfinite (ProbFilteredVideoSource.hooks toInt) fs s
        cloud).2.2.1 ↔ 10 ≤ popcount ((w <<< 1) % 4294967296)) := by
  obtain ⟨hstate, hout⟩ := prob_frame_eq isfinite toInt fs s cloud
  generalize acceptedPoints
    (notifyNewFrame isfinite (ProbFilteredVideoSource.hooks toInt) fs s cloud).2.2.2 = pts
    at hun hstate hout
  obtain ⟨hfind, hframe, -⟩ := foldl_newPoint_unobserved toInt v s.larger_voxelization_ pts
    s.newFrame rfl hun (by simp [ProbFilteredVideoSource.newFrame])
  have hnd1 := foldl_newPoint_keys_nodup toInt pts s.newFrame hnd
  have hw1 : mapFind v (pts.foldl (ProbFilteredVideoSource.newPoint toInt) s.newFrame).all_points_
      = some w := by rw [hfind]; exact hw
  generalize pts.foldl (ProbFilteredVideoSource.newPoint toInt) s.newFrame = scanned
    at hstate hout hframe hnd1 hw1
  rw [hstate, hout]
  refine ⟨?_, ?_, ?_⟩
  · exact (getFilteredLoop_keys_sublist (R := R) scanned.this_frame_ scanned.all_points_
      scanned.min_pt scanned.max_pt).nodup hnd1
  · exact getFilteredLoop_unobserved (R := R) scanned.this_frame_ v w hframe scanned.all_points_
      scanned.min_pt scanned.max_pt hnd1 hw1
  · show voxelCentre v ∈ [] ++ (getFilteredLoop (R := R) scanned.this_frame_ scanned.all_points_
      scanned.min_pt scanned.max_pt).2.2.2 ↔ _
    rw [List.nil_append, getFilteredLoop_pushed]
    have hmem := (mapFind_eq_some_iff v w scanned.all_points_ hnd1).mp hw1
    constructor
    · intro h
      rw [List.mem_map] at h
      obtain ⟨e, he, hev⟩ := h
      rw [List.mem_filter, List.mem_map] at he
      obtain ⟨⟨e0, he0, rfl⟩, hpop⟩ := he
      have hkey : e0.1 = v := voxelCentre_injective _ _ hev
      have he0w : e0 = (v, w) := by
        have : mapFind v scanned.all_points_ = some e0.2 := by
          rw [mapFind_eq_some_iff v e0.2 scanned.all_points_ hnd1, ← hkey]
          exact he0
        rw [hw1] at this
        simp only [Option.some.injEq] at this
        exact Prod.ext hkey this.symm
      subst he0w
      simpa [hframe] using hpop
    · intro hpop
      rw [List.mem_map]
      refine ⟨(v, (w <<< 1) % 4294967296), ?_, rfl⟩
      rw [List.mem_filter, List.mem_map]
      refine ⟨⟨(v, w), hmem, by simp [hframe]⟩, by simpa using hpop⟩

/-- A run of frames in none of which a point falls into `v`, which stays in
the dictionary while further frames follow. -/
lemma probFrames_unobserved {φ : Type} (isfinite : R → Bool) (toInt : R → Int) (v : MapPoint) :
    ∀ (clouds : List (List (PointXYZ R))) (fs : List (PointFilter φ R))
      (s : ProbFilteredVideoSource) (out : List (PointXYZ R)) (w : Nat),
      clouds ≠ [] → (s.all_points_.map Prod.fst).Nodup → mapFind v s.all_points_ = some w →
      unobservedAndKept isfinite toInt v clouds fs s →
      (mapFind v (probFrames isfinite toInt clouds fs s out).2.1.all_points_ = none ∨
        mapFind v (probFrames isfinite toInt clouds fs s out).2.1.all_points_
          = some (w * 2 ^ clouds.length % 4294967296)) ∧
      (voxelCentre v ∈ (probFrames isfinite toInt clouds fs s out).2.2 ↔
        10 ≤ popcount (w * 2 ^ clouds.length % 4294967296)) := by
  intro clouds
  induction clouds with
  | nil => intro fs s out w h; exact absurd rfl h
  | cons cloud rest ih =>
    intro fs s out w _ hnd hw hun
    obtain ⟨hun1, hkept, hrest⟩ := hun
    obtain ⟨hnd1, hword, hemit⟩ := prob_frame_unobserved isfinite toInt v w fs s cloud hnd hw hun1
    have hshift : (w <<< 1) % 4294967296 = w * 2 ^ 1 % 4294967296 := by
      rw [Nat.shiftLeft_eq]
    cases rest with
    | nil =>
      simp only [probFrames, List.length_singleton]
      rw [← hshift]
      exact ⟨hword, hemit⟩
    | cons c2 rest2 =>
      have hsome : mapFind v (notifyNewFrame isfinite (ProbFilteredVideoSource.hooks toInt) fs s
          cloud).2.1.all_points_ = some ((w <<< 1) % 4294967296) := by
        rcases hword with h | h
        · exact absurd h (hkept (by simp))
        · exact h
      have hrec := ih _ _ (notifyNewFrame isfinite (ProbFilteredVideoSource.hooks toInt) fs s
        cloud).2.2.1 _ (by simp) hnd1 hsome hrest
      rw [shift_mod_pow] at hrec
      exact hrec

/-- C24. Bit-history natural decay: a voxel `v` with word `w`, the keys of
the dictionary being distinct, that no accepted point falls into for `k ≥ 1`
consecutive frames and that stays in the dictionary while further frames
follow, has after those frames the word `(w * 2^k) mod 2^32`, unless the last
frame erased it, and is emitted in the `k`-th frame exactly when that word
has at least ten set bits. Starting from the all-ones word the population
count is `32 - k` (truncated at 0), so the voxel is emitted in the `k`-th
unobserved frame iff `k ≤ 22`. -/
theorem unobserved_voxel_word_decays {φ : Type} (isfinite : R → Bool) (toInt : R → Int)
    (v : MapPoint) (w : Nat) (clouds : List (List (PointXYZ R)))
    (point_filters_ : List (PointFilter φ R)) (s : ProbFilteredVideoSource)
    (hne : clouds ≠ []) (hkeys : (s.all_points_.map Prod.fst).Nodup)
    (hw : mapFind v s.all_points_ = some w)
    (hun : unobservedAndKept isfinite toInt v clouds point_filters_ s) :
    (mapFind v (probFrames isfinite toInt clouds point_filters_ s []).2.1.all_points_ = none ∨
      mapFind v (probFrames isfinite toInt clouds point_filters_ s []).2.1.all_points_
        = some (w * 2 ^ clouds.length % 2 ^ 32)) ∧
    (voxelCentre v ∈ (probFrames isfinite toInt clouds point_filters_ s []).2.2 ↔
      10 ≤ popcount (w * 2 ^ clouds.length % 2 ^ 32)) ∧
    (w = 2 ^ 32 - 1 →
      popcount (w * 2 ^ clouds.length % 2 ^ 32) = 32 - clouds.length ∧
      (voxelCentre v ∈ (probFrames isfinite toInt clouds point_filters_ s []).2.2 ↔
        clouds.length ≤ 22)) := by
  obtain ⟨hword, hemit⟩ := probFrames_unobserved isfinite toInt v clouds point_filters_ s [] w
    hne hkeys hw hun
  have h32 : (2 : Nat) ^ 32 = 4294967296 := by norm_num
  rw [h32]
  refine ⟨hword, hemit, ?_⟩
  intro hones
  have hones1 : w = 4294967295 := by rw [hones]
  subst hones1
  have hpop := popcount_ones_shifted clouds.length
  refine ⟨hpop, ?_⟩
  rw [hemit, hpop]
  omega

end

/-- C24, instance on rationals: the voxel `(5, 0, 0)` with the all-ones word,
three frames with one point in the voxel `(0, 0, 0)`; the word is shifted
three times and the voxel is emitted in the third frame. -/
theorem unobserved_voxel_word_decays_witness :
    (mapFind (⟨5, 0, 0⟩ : MapPoint)
        (probFrames (fun _ => true) truncRat (List.replicate 3 [(⟨0, 0, 0⟩ : PointXYZ ℚ)])
          noFilters ⟨[], [(⟨5, 0, 0⟩, 4294967295)], ⟨0, 0, 0⟩, ⟨0, 0, 0⟩, false⟩
          []).2.1.all_points_ = none ∨
      mapFind (⟨5, 0, 0⟩ : MapPoint)
        (probFrames (fun _ => true) truncRat (List.replicate 3 [(⟨0, 0, 0⟩ : PointXYZ ℚ)])
          noFilters ⟨[], [(⟨5, 0, 0⟩, 4294967295)], ⟨0, 0, 0⟩, ⟨0, 0, 0⟩, false⟩
          []).2.1.all_points_
        = some (4294967295 * 2 ^ (List.replicate 3 [(⟨0, 0, 0⟩ : PointXYZ ℚ)]).length
            % 2 ^ 32)) :=
  (unobserved_voxel_word_decays (fun _ => true) truncRat ⟨5, 0, 0⟩ 4294967295
    (List.replicate 3 [(⟨0, 0, 0⟩ : PointXYZ ℚ)]) noFilters
    ⟨[], [(⟨5, 0, 0⟩, 4294967295)], ⟨0, 0, 0⟩, ⟨0, 0, 0⟩, false⟩
    (by decide) (by decide) rfl (by decide!)).1

/-- Lookup after the values of a map have been replaced key by key. -/
lemma mapFind_map_values {K V : Type} [DecidableEq K] (g : K → V → V) (key : K) :
    ∀ m : List (K × V),
      mapFind key (m.map fun e => (e.1, g e.1 e.2)) = (mapFind key m).map (g key) := by
  intro m
  induction m with
  | nil => rfl
  | cons e rest ih =>
    obtain ⟨k, x⟩ := e
    by_cases hk : k = key
    · subst hk
      simp [mapFind]
    · simp [mapFind, hk, ih]

section

variable {R : Type} [Add R] [Mul R] [Div R] [NatCast R] [IntCast R] [LE R]
  [DecidableRel (fun a b : R => a ≤ b)]

/-- The `newPoint` hook of the PT1 source over a list of points. -/
lemma pt1_foldl_newPoint (toInt : R → Int) :
    ∀ (pts : List (PointXYZ R)) (s : Pt1FilteredVideoSource R) (filtered : List (PointXYZ R)),
      pts.foldl (fun st p => (Pt1FilteredVideoSource.hooks toInt).newPoint st.1 p st.2)
          (s, filtered)
        = (pts.foldl (Pt1FilteredVideoSource.newPoint toInt) s, filtered) := by
  intro pts
  induction pts with
  | nil => intro s filtered; rfl
  | cons p rest ih =>
    intro s filtered
    simp only [List.foldl_cons]
    exact ih _ _

/-- A frame of the PT1 filter is the scan of `getFiltered` over the state
that `newPoint` builds from the accepted points of the frame. -/
lemma pt1_frame_eq {φ : Type} (isfinite : R → Bool) (toInt : R → Int)
    (fs : List (PointFilter φ R)) (s : Pt1FilteredVideoSource R) (cloud : List (PointXYZ R)) :
    (notifyNewFrame isfinite (Pt1FilteredVideoSource.hooks toInt) fs s cloud).2.1
      = (Pt1FilteredVideoSource.getFiltered
          ((acceptedPoints (notifyNewFrame isfinite (Pt1FilteredVideoSource.hooks toInt) fs s
            cloud).2.2.2).foldl (Pt1FilteredVideoSource.newPoint toInt) s.newFrame) []).1 ∧
    (notifyNewFrame isfinite (Pt1FilteredVideoSource.hooks toInt) fs s cloud).2.2.1
      = (Pt1FilteredVideoSource.getFiltered
          ((acceptedPoints (notifyNewFrame isfinite (Pt1FilteredVideoSource.hooks toInt) fs s
            cloud).2.2.2).foldl (Pt1FilteredVideoSource.newPoint toInt) s.newFrame) []).2 := by
  have h := pointLoop_state_eq_foldl isfinite (Pt1FilteredVideoSource.hooks toInt) cloud
    (fs.map fun f => { f with state := f.prepareNext f.state }) s.newFrame []
  rw [pt1_foldl_newPoint] at h
  have hst := congrArg Prod.fst h
  have hfl := congrArg Prod.snd h
  simp only at hst hfl
  have hacc : acceptedPoints
      (notifyNewFrame isfinite (Pt1FilteredVideoSource.hooks toInt) fs s cloud).2.2.2
      = acceptedPoints (pointLoop isfinite (Pt1FilteredVideoSource.hooks toInt) cloud
          (fs.map fun f => { f with state := f.prepareNext f.state }) s.newFrame []).2.2.2 := rfl
  rw [hacc, ← hst]
  have h1 : (notifyNewFrame isfinite (Pt1FilteredVideoSource.hooks toInt) fs s cloud).2.1
      = (Pt1FilteredVideoSource.getFiltered
          (pointLoop isfinite (Pt1FilteredVideoSource.hooks toInt) cloud
            (fs.map fun f => { f with state := f.prepareNext f.state }) s.newFrame []).2.1
          (pointLoop isfinite (Pt1FilteredVideoSource.hooks toInt) cloud
            (fs.map fun f => { f with state := f.prepareNext f.state })
            s.newFrame []).2.2.1).1 := rfl
  have h2 : (notifyNewFrame isfinite (Pt1FilteredVideoSource.hooks toInt) fs s cloud).2.2.1
      = (Pt1FilteredVideoSource.getFiltered
          (pointLoop isfinite (Pt1FilteredVideoSource.hooks toInt) cloud
            (fs.map fun f => { f with state := f.prepareNext f.state }) s.newFrame []).2.1
          (pointLoop isfinite (Pt1FilteredVideoSource.hooks toInt) cloud
            (fs.map fun f => { f with state := f.prepareNext f.state })
            s.newFrame []).2.2.1).2 := rfl
  rw [h1, h2, hfl]
  exact ⟨rfl, rfl⟩

/-- A run of `newPoint` calls applies the observed-update to the scalar of
`v` once per point falling into `v` (starting from 0 for a new voxel), marks
`v` as hit when there is such a point, and keeps the keys distinct. -/
lemma pt1_foldl_newPoint_value (toInt : R → Int) (v : MapPoint) :
    ∀ (pts : List (PointXYZ R)) (s : Pt1FilteredVideoSource R),
      (s.all_points_.map Prod.fst).Nodup →
      mapFind v (pts.foldl (Pt1FilteredVideoSource.newPoint toInt) s).all_points_
        = (if (pts.filter (fun p => decide (pt1KeyOf toInt p = v))).length = 0 then
            mapFind v s.all_points_
          else some (pt1Observed^[(pts.filter (fun p => decide (pt1KeyOf toInt p = v))).length]
            ((mapFind v s.all_points_).getD ((0 : Nat) : R)))) ∧
      (v ∈ (pts.foldl (Pt1FilteredVideoSource.newPoint toInt) s).this_frame_ ↔
        v ∈ s.this_frame_ ∨ 0 < (pts.filter (fun p => decide (pt1KeyOf toInt p = v))).length) ∧
      ((pts.foldl (Pt1FilteredVideoSource.newPoint toInt) s).all_points_.map Prod.fst).Nodup := by
  intro pts
  induction pts with
  | nil => intro s hnd; simp [hnd]
  | cons p rest ih =>
    intro s hnd
    have hnd1 : ((Pt1FilteredVideoSource.newPoint toInt s p).all_points_.map Prod.fst).Nodup := by
      simp only [Pt1FilteredVideoSource.newPoint, mapModify_keys]
      exact mapIndex_keys_nodup _ _ _ hnd
    obtain ⟨h1, h2, h3⟩ := ih (Pt1FilteredVideoSource.newPoint toInt s p) hnd1
    simp only [List.foldl_cons]
    refine ⟨?_, ?_, h3⟩
    · rw [h1]
      by_cases hk : pt1KeyOf toInt p = v
      · have hfind : mapFind v (Pt1FilteredVideoSource.newPoint toInt s p).all_points_
            = some (pt1Observed ((mapFind v s.all_points_).getD ((0 : Nat) : R))) := by
          simp only [Pt1FilteredVideoSource.newPoint, hk, mapFind_mapModify_self,
            mapFind_mapIndex_self, Option.map_some']
        rw [hfind]
        simp only [List.filter_cons, hk, decide_True, if_true, List.length_cons,
          Nat.succ_ne_zero, if_false, Option.getD_some, Function.iterate_succ_apply]
        split_ifs with h0
        · rw [h0]; rfl
        · rfl
      · have hfind : mapFind v (Pt1FilteredVideoSource.newPoint toInt s p).all_points_
            = mapFind v s.all_points_ := by
          simp only [Pt1FilteredVideoSource.newPoint]
          rw [mapFind_mapModify_ne _ _ _ _ hk, mapFind_mapIndex_ne _ _ _ _ hk]
        rw [hfind]
        simp only [List.filter_cons, hk, decide_False, Bool.false_eq_true, if_false]
    · rw [h2]
      by_cases hk : pt1KeyOf toInt p = v
      · have hin : v ∈ (Pt1FilteredVideoSource.newPoint toInt s p).this_frame_ := by
          simp only [Pt1FilteredVideoSource.newPoint, hk]
          split_ifs with hm
          · exact hm
          · simp
        simp only [List.filter_cons, hk, decide_True, if_true, List.length_cons]
        constructor
        · intro _; right; omega
        · intro _; left; exact hin
      · have hin : v ∈ (Pt1FilteredVideoSource.newPoint toInt s p).this_frame_ ↔
            v ∈ s.this_frame_ := by
          simp only [Pt1FilteredVideoSource.newPoint]
          split_ifs with hm
          · rfl
          · rw [List.mem_append, List.mem_singleton]
            constructor
            · rintro (h | h)
              · exact h
              · exact absurd h.symm hk
            · intro h; exact Or.inl h
        rw [hin]
        simp only [List.filter_cons, hk, decide_False, Bool.false_eq_true, if_false]

/-- The scan of `getFiltered`: every entry not hit in the frame gets the
unobserved-update, and the points pushed are the rebuilt points of the
entries whose scalar is then at least 4, in scan order. -/
lemma pt1GetFilteredLoop_eq (this_frame : List MapPoint) :
    ∀ entries : List (MapPoint × R),
      (pt1GetFilteredLoop this_frame entries).1
        = entries.map (fun e => (e.1, if e.1 ∈ this_frame then e.2 else pt1Unobserved e.2)) ∧
      (pt1GetFilteredLoop this_frame entries).2
        = ((entries.map (fun e =>
              (e.1, if e.1 ∈ this_frame then e.2 else pt1Unobserved e.2))).filter
            (fun e => decide (((4 : Nat) : R) ≤ e.2))).map (fun e => voxelCentre e.1) := by
  intro entries
  induction entries with
  | nil => exact ⟨rfl, rfl⟩
  | cons e rest ih =>
    obtain ⟨key, second⟩ := e
    rw [pt1GetFilteredLoop]
    simp only [ih.1, ih.2, List.map_cons, List.filter_cons]
    refine ⟨trivial, ?_⟩
    split_ifs <;> simp_all [voxelCentre]

end

section

variable {R : Type} [LinearOrderedField R]

/-- The observed-update in exact arithmetic. -/
lemma pt1Observed_eq (x : R) : pt1Observed x = 9 / 10 * x + 1 := by
  unfold pt1Observed
  push_cast
  ring

/-- The unobserved-update in exact arithmetic. -/
lemma pt1Unobserved_eq (x : R) : pt1Unobserved x = 9 / 10 * x := by
  unfold pt1Unobserved
  push_cast
  ring

/-- The scalar after `n` observed-updates from 0. -/
lemma pt1Observed_iterate (n : Nat) :
    pt1Observed^[n] (0 : R) = 10 * (1 - (9 / 10) ^ n) := by
  induction n with
  | zero => simp
  | succ n ih =>
    rw [Function.iterate_succ_apply', ih, pt1Observed_eq, pow_succ]
    ring

/-- The scalar after `k` unobserved-updates. -/
lemma pt1Unobserved_iterate (x : R) (k : Nat) :
    pt1Unobserved^[k] x = x * (9 / 10) ^ k := by
  induction k with
  | zero => simp
  | succ k ih =>
    rw [Function.iterate_succ_apply', ih, pt1Unobserved_eq, pow_succ]
    ring

/-- The threshold 4 is reached by `10 * (1 - 0.9^n)` from `n = 5` on. -/
lemma pt1_threshold (n : Nat) : (4 : R) ≤ 10 * (1 - (9 / 10) ^ n) ↔ 5 ≤ n := by
  have h0 : (0 : R) ≤ 9 / 10 := by norm_num
  have h1 : (9 / 10 : R) ≤ 1 := by norm_num
  constructor
  · intro h
    by_contra hn
    have hle : n ≤ 4 := by omega
    have hp : (9 / 10 : R) ^ 4 ≤ (9 / 10) ^ n := pow_le_pow_of_le_one h0 h1 hle
    have h4 : (9 / 10 : R) ^ 4 = 6561 / 10000 := by norm_num
    rw [h4] at hp
    linarith
  · intro hn
    have hp : (9 / 10 : R) ^ n ≤ (9 / 10) ^ 5 := pow_le_pow_of_le_one h0 h1 hn
    have h5 : (9 / 10 : R) ^ 5 = 59049 / 100000 := by norm_num
    rw [h5] at hp
    linarith

/-- One frame of the PT1 filter, for a voxel `v`: the keys stay distinct;
with exactly one accepted point in `v` the scalar gets the observed-update
(from 0 for a new voxel); with none the scalar of a known voxel gets the
unobserved-update; `v` is emitted exactly when its scalar is then at least
4. -/
lemma pt1_frame {φ : Type} (isfinite : R → Bool) (toInt : R → Int) (v : MapPoint)
    (fs : List (PointFilter φ R)) (s : Pt1FilteredVideoSource R) (cloud : List (PointXYZ R))
    (hnd : (s.all_points_.map Prod.fst).Nodup) :
    ((notifyNewFrame isfinite (Pt1FilteredVideoSource.hooks toInt) fs s
        cloud).2.1.all_points_.map Prod.fst).Nodup ∧
    (((acceptedPoints (notifyNewFrame isfinite (Pt1FilteredVideoSource.hooks toInt) fs s
        cloud).2.2.2).filter (fun p => decide (pt1KeyOf toInt p = v))).length = 1 →
      mapFind v (notifyNewFrame isfinite (Pt1FilteredVideoSource.hooks toInt) fs s
        cloud).2.1.all_points_ = some (pt1Observed ((mapFind v s.all_points_).getD 0))) ∧
    (((acceptedPoints (notifyNewFrame isfinite (Pt1FilteredVideoSource.hooks toInt) fs s
        cloud).2.2.2).filter (fun p => decide (pt1KeyOf toInt p = v))).length = 0 →
      mapFind v (notifyNewFrame isfinite (Pt1FilteredVideoSource.hooks toInt) fs s
        cloud).2.1.all_points_ = (mapFind v s.all_points_).map pt1Unobserved) ∧
    (voxelCentre v ∈ (notifyNewFrame isfinite (Pt1FilteredVideoSource.hooks toInt) fs s
        cloud).2.2.1 ↔
      ∃ val, mapFind v (notifyNewFrame isfinite (Pt1FilteredVideoSource.hooks toInt) fs s
        cloud).2.1.all_points_ = some val ∧ 4 ≤ val) := by
  obtain ⟨hstate, hout⟩ := pt1_frame_eq isfinite toInt fs s cloud
  generalize acceptedPoints
    (notifyNewFrame isfinite (Pt1FilteredVideoSource.hooks toInt) fs s cloud).2.2.2 = pts
    at hstate hout
  obtain ⟨hval, hframe, hnd1⟩ := pt1_foldl_newPoint_value toInt v pts s.newFrame hnd
  have hnf : s.newFrame.all_points_ = s.all_points_ := rfl
  have hnf2 : s.newFrame.this_frame_ = [] := rfl
  rw [hnf] at hval
  rw [hnf2] at hframe
  generalize pts.foldl (Pt1FilteredVideoSource.newPoint toInt) s.newFrame = scanned
    at hstate hout hval hframe hnd1
  obtain ⟨hentries, hpushed⟩ := pt1GetFilteredLoop_eq scanned.this_frame_ scanned.all_points_
  have hdict : (notifyNewFrame isfinite (Pt1FilteredVideoSource.hooks toInt) fs s
      cloud).2.1.all_points_ = scanned.all_points_.map (fun e =>
        (e.1, if e.1 ∈ scanned.this_frame_ then e.2 else pt1Unobserved e.2)) := by
    rw [hstate, ← hentries]
    rfl
  have hemit : (notifyNewFrame isfinite (Pt1FilteredVideoSource.hooks toInt) fs s cloud).2.2.1
      = ((scanned.all_points_.map (fun e =>
            (e.1, if e.1 ∈ scanned.this_frame_ then e.2 else pt1Unobserved e.2))).filter
          (fun e => decide (((4 : Nat) : R) ≤ e.2))).map (fun e => voxelCentre e.1) := by
    rw [hout, ← hpushed]
    show [] ++ _ = _
    rw [List.nil_append]
  have hkeys2 : ((scanned.all_points_.map (fun e =>
      (e.1, if e.1 ∈ scanned.this_frame_ then e.2 else pt1Unobserved e.2))).map Prod.fst)
      = scanned.all_points_.map Prod.fst := by
    rw [List.map_map]
    rfl
  have hfind := mapFind_map_values
    (fun k x => if k ∈ scanned.this_frame_ then x else pt1Unobserved x) v scanned.all_points_
  simp only at hfind
  rw [hdict, hemit]
  refine ⟨by rw [hkeys2]; exact hnd1, ?_, ?_, ?_⟩
  · intro hc
    rw [hc] at hval hframe
    have hin : v ∈ scanned.this_frame_ := hframe.mpr (Or.inr (by omega))
    rw [hfind, hval]
    simp [hin]
  · intro hc
    rw [hc] at hval hframe
    have hin : v ∉ scanned.this_frame_ := by
      intro h
      rcases hframe.mp h with h1 | h1
      · simp at h1
      · omega
    rw [hfind, hval]
    simp [hin]
  · have hnd2 : ((scanned.all_points_.map (fun e =>
        (e.1, if e.1 ∈ scanned.this_frame_ then e.2 else pt1Unobserved e.2))).map
        Prod.fst).Nodup := by rw [hkeys2]; exact hnd1
    constructor
    · intro h
      rw [List.mem_map] at h
      obtain ⟨e, he, hev⟩ := h
      rw [List.mem_filter] at he
      obtain ⟨hemem, hge⟩ := he
      have hkey : e.1 = v := voxelCentre_injective _ _ hev
      refine ⟨e.2, ?_, by simpa using hge⟩
      rw [mapFind_eq_some_iff v e.2 _ hnd2, ← hkey]
      exact hemem
    · rintro ⟨val, hval1, hge⟩
      rw [List.mem_map]
      refine ⟨(v, val), ?_, rfl⟩
      rw [List.mem_filter]
      exact ⟨(mapFind_eq_some_iff v val _ hnd2).mp hval1, by simpa using hge⟩

end

section

variable {R : Type} [LinearOrderedField R]

/-- A run of frames with exactly one accepted point in `v` per frame, from a
state in which the scalar of `v` (0 for a new voxel) is `10 * (1 - 0.9^j)`. -/
lemma pt1Frames_observed {φ : Type} (isfinite : R → Bool) (toInt : R → Int) (v : MapPoint) :
    ∀ (clouds : List (List (PointXYZ R))) (fs : List (PointFilter φ R))
      (s : Pt1FilteredVideoSource R) (out : List (PointXYZ R)) (j : Nat),
      clouds ≠ [] → (s.all_points_.map Prod.fst).Nodup →
      (mapFind v s.all_points_).getD 0 = 10 * (1 - (9 / 10) ^ j) →
      pt1Hits isfinite toInt v clouds fs s = List.replicate clouds.length 1 →
      mapFind v (pt1Frames isfinite toInt clouds fs s out).2.1.all_points_
        = some (10 * (1 - (9 / 10) ^ (j + clouds.length))) ∧
      (voxelCentre v ∈ (pt1Frames isfinite toInt clouds fs s out).2.2 ↔
        (4 : R) ≤ 10 * (1 - (9 / 10) ^ (j + clouds.length))) := by
  intro clouds
  induction clouds with
  | nil => intro fs s out j h; exact absurd rfl h
  | cons cloud rest ih =>
    intro fs s out j _ hnd hval hhits
    simp only [pt1Hits, List.length_cons, List.replicate_succ, List.cons.injEq] at hhits
    obtain ⟨hone, hrest⟩ := hhits
    obtain ⟨hnd1, hobs, -, hemit⟩ := pt1_frame isfinite toInt v fs s cloud hnd
    have hfind := hobs hone
    rw [hval, pt1Observed_eq] at hfind
    have hnext : (9 / 10 : R) * (10 * (1 - (9 / 10) ^ j)) + 1 = 10 * (1 - (9 / 10) ^ (j + 1)) := by
      rw [pow_succ]; ring
    rw [hnext] at hfind
    cases rest with
    | nil =>
      simp only [pt1Frames, List.length_singleton]
      refine ⟨hfind, ?_⟩
      rw [hemit, hfind]
      simp
    | cons c2 rest2 =>
      have hrec := ih _ _ (notifyNewFrame isfinite (Pt1FilteredVideoSource.hooks toInt) fs s
        cloud).2.2.1 (j + 1) (by simp) hnd1 (by rw [hfind]; rfl) hrest
      have hlen : j + 1 + (c2 :: rest2).length = j + (cloud :: c2 :: rest2).length := by
        simp only [List.length_cons]; omega
      rw [hlen] at hrec
      exact hrec

/-- A run of frames with no accepted point in `v`, which has the scalar
`x`. -/
lemma pt1Frames_unobserved {φ : Type} (isfinite : R → Bool) (toInt : R → Int) (v : MapPoint) :
    ∀ (clouds : List (List (PointXYZ R))) (fs : List (PointFilter φ R))
      (s : Pt1FilteredVideoSource R) (out : List (PointXYZ R)) (x : R),
      clouds ≠ [] → (s.all_points_.map Prod.fst).Nodup →
      mapFind v s.all_points_ = some x →
      pt1Hits isfinite toInt v clouds fs s = List.replicate clouds.length 0 →
      mapFind v (pt1Frames isfinite toInt clouds fs s out).2.1.all_points_
        = some (x * (9 / 10) ^ clouds.length) ∧
      (voxelCentre v ∈ (pt1Frames isfinite toInt clouds fs s out).2.2 ↔
        (4 : R) ≤ x * (9 / 10) ^ clouds.length) := by
  intro clouds
  induction clouds with
  | nil => intro fs s out x h; exact absurd rfl h
  | cons cloud rest ih =>
    intro fs s out x _ hnd hval hhits
    simp only [pt1Hits, List.length_cons, List.replicate_succ, List.cons.injEq] at hhits
    obtain ⟨hzero, hrest⟩ := hhits
    obtain ⟨hnd1, -, hun, hemit⟩ := pt1_frame isfinite toInt v fs s cloud hnd
    have hfind := hun hzero
    rw [hval, Option.map_some', pt1Unobserved_eq] at hfind
    cases rest with
    | nil =>
      simp only [pt1Frames, List.length_singleton, pow_one]
      have hx : x * (9 / 10 : R) = 9 / 10 * x := by ring
      rw [hx]
      refine ⟨hfind, ?_⟩
      rw [hemit, hfind]
      simp
    | cons c2 rest2 =>
      have hrec := ih _ _ (notifyNewFrame isfinite (Pt1FilteredVideoSource.hooks toInt) fs s
        cloud).2.2.1 (9 / 10 * x) (by simp) hnd1 hfind hrest
      have hpow : 9 / 10 * x * (9 / 10 : R) ^ (c2 :: rest2).length
          = x * (9 / 10) ^ (cloud :: c2 :: rest2).length := by
        simp only [List.length_cons, pow_succ]; ring
      rw [hpow] at hrec
      exact hrec

/-- C22. PT1 filter convergence in exact arithmetic: for a voxel `v` new to
the dictionary (whose keys are distinct) into which exactly one accepted
point falls in each of `n ≥ 1` consecutive frames, the scalar after the `n`
frames is `10 * (1 - 0.9^n)`, and `v` is emitted in frame `n` exactly when
`n ≥ 5`. The scalar after `n` observed-updates is strictly increasing in `n`
and below the target 10. -/
theorem pt1_observed_voxel_converges {φ : Type} (isfinite : R → Bool) (toInt : R → Int)
    (v : MapPoint) (clouds : List (List (PointXYZ R))) (point_filters_ : List (PointFilter φ R))
    (s : Pt1FilteredVideoSource R) (hne : clouds ≠ [])
    (hkeys : (s.all_points_.map Prod.fst).Nodup) (hnew : mapFind v s.all_points_ = none)
    (hhits : pt1Hits isfinite toInt v clouds point_filters_ s
      = List.replicate clouds.length 1) :
    mapFind v (pt1Frames isfinite toInt clouds point_filters_ s []).2.1.all_points_
      = some (10 * (1 - (9 / 10) ^ clouds.length)) ∧
    (voxelCentre v ∈ (pt1Frames isfinite toInt clouds point_filters_ s []).2.2 ↔
      5 ≤ clouds.length) ∧
    (∀ n : Nat, pt1Observed^[n] (0 : R) = 10 * (1 - (9 / 10) ^ n) ∧
      pt1Observed^[n] (0 : R) < pt1Observed^[n + 1] 0 ∧ pt1Observed^[n] (0 : R) < 10) := by
  obtain ⟨hval, hemit⟩ := pt1Frames_observed isfinite toInt v clouds point_filters_ s [] 0 hne
    hkeys (by rw [hnew]; simp) hhits
  rw [Nat.zero_add] at hval hemit
  refine ⟨hval, ?_, ?_⟩
  · rw [hemit]
    exact pt1_threshold clouds.length
  · intro n
    have hpos : (0 : R) < (9 / 10) ^ n := by positivity
    refine ⟨pt1Observed_iterate n, ?_, ?_⟩
    · rw [pt1Observed_iterate, pt1Observed_iterate, pow_succ]
      linarith
    · rw [pt1Observed_iterate]
      linarith

/-- C23. PT1 filter decay in exact arithmetic: for a voxel `v` with scalar
`x` (the keys of the dictionary being distinct) into which no accepted point
falls for `k ≥ 1` consecutive frames, the scalar after those frames is
`x * 0.9^k`, and `v` is emitted in the `k`-th frame exactly when
`x * 0.9^k ≥ 4`. For `x ≥ 0` the scalar after `k` unobserved-updates is
never negative and does not increase with `k`. -/
theorem pt1_unobserved_voxel_decays {φ : Type} (isfinite : R → Bool) (toInt : R → Int)
    (v : MapPoint) (x : R) (clouds : List (List (PointXYZ R)))
    (point_filters_ : List (PointFilter φ R)) (s : Pt1FilteredVideoSource R)
    (hne : clouds ≠ []) (hkeys : (s.all_points_.map Prod.fst).Nodup)
    (hx : mapFind v s.all_points_ = some x)
    (hhits : pt1Hits isfinite toInt v clouds point_filters_ s
      = List.replicate clouds.length 0) :
    mapFind v (pt1Frames isfinite toInt clouds point_filters_ s []).2.1.all_points_
      = some (x * (9 / 10) ^ clouds.length) ∧
    (voxelCentre v ∈ (pt1Frames isfinite toInt clouds point_filters_ s []).2.2 ↔
      4 ≤ x * (9 / 10) ^ clouds.length) ∧
    (∀ k : Nat, pt1Unobserved^[k] x = x * (9 / 10) ^ k ∧
      (0 ≤ x → 0 ≤ pt1Unobserved^[k] x ∧ pt1Unobserved^[k + 1] x ≤ pt1Unobserved^[k] x)) := by
  obtain ⟨hval, hemit⟩ := pt1Frames_unobserved isfinite toInt v clouds point_filters_ s [] x
    hne hkeys hx hhits
  refine ⟨hval, hemit, ?_⟩
  intro k
  refine ⟨pt1Unobserved_iterate x k, ?_⟩
  intro h0
  have hpos : (0 : R) ≤ x * (9 / 10) ^ k := by positivity
  rw [pt1Unobserved_iterate, pt1Unobserved_iterate, pow_succ]
  exact ⟨hpos, by linarith⟩

end

/-- C22, instance on rationals: five frames, each with the single point
`(0.5, 0, 0)`, from an empty dictionary; the voxel `(50, 0, 0)` is emitted in
the fifth frame. -/
theorem pt1_observed_voxel_converges_witness :
    (voxelCentre ⟨50, 0, 0⟩ : PointXYZ ℚ) ∈
      (pt1Frames (fun _ => true) truncRat (List.replicate 5 [(⟨1 / 2, 0, 0⟩ : PointXYZ ℚ)])
        noFilters ⟨[], []⟩ []).2.2 :=
  (pt1_observed_voxel_converges (fun _ => true) truncRat ⟨50, 0, 0⟩
    (List.replicate 5 [(⟨1 / 2, 0, 0⟩ : PointXYZ ℚ)]) noFilters ⟨[], []⟩
    (by decide) (by decide) rfl (by decide!)).2.1.mpr (by decide)

/-- C23, instance on rationals: the voxel `(50, 0, 0)` with scalar 5 and two
frames with a point elsewhere; the scalar is `5 * 0.9^2 = 4.05`. -/
theorem pt1_unobserved_voxel_decays_witness :
    mapFind (⟨50, 0, 0⟩ : MapPoint)
      (pt1Frames (fun _ => true) truncRat (List.replicate 2 [(⟨0, 0, 0⟩ : PointXYZ ℚ)])
        noFilters ⟨[], [(⟨50, 0, 0⟩, 5)]⟩ []).2.1.all_points_
      = some (5 * (9 / 10) ^ (List.replicate 2 [(⟨0, 0, 0⟩ : PointXYZ ℚ)]).length) :=
  (pt1_unobserved_voxel_decays (fun _ => true) truncRat ⟨50, 0, 0⟩ 5
    (List.replicate 2 [(⟨0, 0, 0⟩ : PointXYZ ℚ)]) noFilters ⟨[], [(⟨50, 0, 0⟩, 5)]⟩
    (by decide) (by decide) rfl (by decide!)).1

/-- The rounding on examples: `0.1f`, a tie rounded to the even significand
in both directions, and a representable value. -/
theorem roundTo_examples :
    roundTo 24 (1 / 10) = 13421773 / 134217728 ∧
    roundTo 24 16777217 = 16777216 ∧
    roundTo 24 16777219 = 16777220 ∧
    roundTo 24 (-16777219) = -16777220 ∧
    roundTo 53 (1 / 10) = 3602879701896397 / 36028797018963968 ∧
    roundTo 53 741850 = 741850 ∧
    roundTo 24 (3 / 8) = 3 / 8 := by
  refine ⟨by decide!, by decide!, by decide!, by decide!, by decide!, by decide!, by decide!⟩

/-- The loop of `floorLog2` finds the leading binary digit. -/
lemma floorLog2Loop_spec : ∀ (fuel n : Nat), n ≤ fuel → 1 ≤ n →
    2 ^ floorLog2Loop fuel n ≤ n ∧ n < 2 ^ (floorLog2Loop fuel n + 1)
  | 0, n, h, h1 => by omega
  | fuel + 1, n, h, h1 => by
    unfold floorLog2Loop
    by_cases h2 : n < 2
    · rw [if_pos h2]
      have : n = 1 := by omega
      subst this
      norm_num
    · rw [if_neg h2]
      have ih := floorLog2Loop_spec fuel (n / 2) (by omega) (by omega)
      rw [pow_succ, pow_succ (n := floorLog2Loop fuel (n / 2) + 1)]
      constructor <;> omega

/-- The leading binary digit of a positive number. -/
lemma floorLog2_spec (n : Nat) (h : 1 ≤ n) :
    2 ^ floorLog2 n ≤ n ∧ n < 2 ^ (floorLog2 n + 1) :=
  floorLog2Loop_spec n n le_rfl h

/-- The power of two at `binaryExponent` is at most the magnitude. -/
lemma binaryExponent_le (q : ℚ) (hq : q ≠ 0) : (2 : ℚ) ^ binaryExponent q ≤ |q| := by
  have hn : 1 ≤ q.num.natAbs := Nat.one_le_iff_ne_zero.mpr (by simpa using hq)
  have hd : 1 ≤ q.den := q.den_pos
  obtain ⟨ha1, ha2⟩ := floorLog2_spec _ hn
  obtain ⟨hb1, hb2⟩ := floorLog2_spec _ hd
  have habs : |q| = (q.num.natAbs : ℚ) / (q.den : ℚ) := by
    conv_lhs => rw [← Rat.num_div_den q]
    rw [abs_div, Nat.abs_cast, Nat.cast_natAbs, Int.cast_abs]
  have hdpos : (0 : ℚ) < q.den := by exact_mod_cast hd
  rw [habs, le_div_iff₀ hdpos]
  unfold binaryExponent
  simp only
  split_ifs with ht
  · rw [zpow_sub₀ (by norm_num), zpow_natCast, zpow_natCast, div_mul_eq_mul_div,
      div_le_iff₀ (by positivity)]
    exact_mod_cast ht
  · rw [sub_sub, zpow_sub₀ (by norm_num), zpow_natCast]
    have h2 : ((floorLog2 q.den : Int) + 1) = ((floorLog2 q.den + 1 : Nat) : Int) := by push_cast; rfl
    rw [h2, zpow_natCast, div_mul_eq_mul_div, div_le_iff₀ (by positivity)]
    have : 2 ^ floorLog2 q.num.natAbs * q.den ≤ q.num.natAbs * 2 ^ (floorLog2 q.den + 1) :=
      Nat.mul_le_mul ha1 hb2.le
    exact_mod_cast this

/-- The arithmetic on examples: in `double`, `0.1 + 0.2` is
`0.30000000000000004`, not the `double` `0.3`; in `float`, `0.29f * 100` is
`29.0f` and the key component of `0.29f` is 29, where the exact product
`28.9999991...` would be truncated to 28. -/
theorem Fp.arithmetic_examples :
    Fp.ofRat 53 (1 / 10) + Fp.ofRat 53 (2 / 10)
      = (⟨some (1351079888211149 / 4503599627370496)⟩ : Binary64) ∧
    Fp.ofRat 53 (3 / 10) = (⟨some (5404319552844595 / 18014398509481984)⟩ : Binary64) ∧
    roundTo 24 (29 / 100) = 9730785 / 33554432 ∧
    (⟨some (9730785 / 33554432)⟩ : Binary32) * ((100 : Nat) : Binary32) = ⟨some 29⟩ ∧
    mapPointOf Fp.toInt false (floatPoint (9730785 / 33554432) 0 0) = ⟨29, 0, 0⟩ ∧
    mapPointOf truncRat false (⟨9730785 / 33554432, 0, 0⟩ : PointXYZ ℚ) = ⟨28, 0, 0⟩ := by
  refine ⟨by decide!, by decide!, by decide!, by decide!, by decide!, by decide!⟩

/-- The nearest natural number is within one half of the quotient. -/
lemma nearestEven_error (N D : Nat) (hD : 0 < D) :
    |((nearestEven N D : Nat) : ℚ) - (N : ℚ) / (D : ℚ)| ≤ 1 / 2 := by
  have hDq : (0 : ℚ) < D := by exact_mod_cast hD
  have hdm : (N : ℚ) = (D : ℚ) * ((N / D : Nat) : ℚ) + ((N % D : Nat) : ℚ) := by
    exact_mod_cast (Nat.div_add_mod N D).symm
  have hr : ((N % D : Nat) : ℚ) < D := by exact_mod_cast Nat.mod_lt N hD
  have hr0 : (0 : ℚ) ≤ ((N % D : Nat) : ℚ) := Nat.cast_nonneg _
  have hq : (N : ℚ) / D = ((N / D : Nat) : ℚ) + ((N % D : Nat) : ℚ) / D := by
    rw [hdm]; field_simp; ring
  rw [hq]
  unfold nearestEven
  simp only
  have key1 : 2 * (N % D) < D → ((N % D : Nat) : ℚ) / D < 1 / 2 := by
    intro h
    rw [div_lt_iff₀ hDq]
    have : (2 : ℚ) * ((N % D : Nat) : ℚ) < D := by exact_mod_cast h
    linarith
  have key2 : ¬ 2 * (N % D) < D → 1 / 2 ≤ ((N % D : Nat) : ℚ) / D := by
    intro h
    rw [le_div_iff₀ hDq]
    have : (D : ℚ) ≤ (2 : ℚ) * ((N % D : Nat) : ℚ) := by exact_mod_cast not_lt.mp h
    linarith
  have key3 : ((N % D : Nat) : ℚ) / D < 1 := by rw [div_lt_one hDq]; exact hr
  have key4 : ¬ D < 2 * (N % D) → ((N % D : Nat) : ℚ) / D ≤ 1 / 2 := by
    intro h
    rw [div_le_iff₀ hDq]
    have : (2 : ℚ) * ((N % D : Nat) : ℚ) ≤ D := by exact_mod_cast not_lt.mp h
    linarith
  have key0 : (0 : ℚ) ≤ ((N % D : Nat) : ℚ) / D := by positivity
  rw [abs_le]
  split_ifs with h1 h2 h3
  · have := key1 h1
    constructor <;> linarith
  · have := key2 h1
    push_cast
    constructor <;> linarith
  · have := key4 h2
    constructor <;> linarith
  · have := key2 h1
    push_cast
    constructor <;> linarith

/-- The rounding error is at most the magnitude divided by `2^p`: a relative
error of at most half a unit in the last place. -/
lemma roundTo_error (p : Nat) (q : ℚ) : |roundTo p q - q| ≤ |q| / 2 ^ p := by
  by_cases hq : q = 0
  · subst hq
    simp [roundTo]
  have hd : 0 < q.den := q.den_pos
  have hdq : (0 : ℚ) < q.den := by exact_mod_cast hd
  have habs : |q| = (q.num.natAbs : ℚ) / (q.den : ℚ) := by
    conv_lhs => rw [← Rat.num_div_den q]
    rw [abs_div, Nat.abs_cast, Nat.cast_natAbs, Int.cast_abs]
  have hmag : ∃ mag : ℚ, roundTo p q = (if q < 0 then -mag else mag) ∧
      |mag - abs q| ≤ (2 : ℚ) ^ (binaryExponent q - ((p : Int) - 1)) / 2 := by
    unfold roundTo
    rw [if_neg hq]
    refine ⟨_, rfl, ?_⟩
    by_cases hs : 0 ≤ binaryExponent q - ((p : Int) - 1)
    · rw [if_pos hs]
      obtain ⟨k, hk⟩ := Int.eq_ofNat_of_zero_le hs
      rw [hk, Int.toNat_ofNat, zpow_natCast]
      have hD : 0 < q.den * 2 ^ k := by positivity
      have h := nearestEven_error q.num.natAbs (q.den * 2 ^ k) hD
      have hk2 : (0 : ℚ) < 2 ^ k := by positivity
      have e : ((nearestEven q.num.natAbs (q.den * 2 ^ k) * 2 ^ k : Nat) : ℚ) - |q|
          = (((nearestEven q.num.natAbs (q.den * 2 ^ k) : Nat) : ℚ)
              - (q.num.natAbs : ℚ) / ((q.den * 2 ^ k : Nat) : ℚ)) * 2 ^ k := by
        rw [habs]
        push_cast
        field_simp
        ring
      rw [e, abs_mul, abs_of_pos hk2]
      calc _ ≤ 1 / 2 * (2 : ℚ) ^ k := by gcongr
        _ = 2 ^ k / 2 := by ring
    · rw [if_neg hs]
      obtain ⟨k, hk⟩ := Int.eq_ofNat_of_zero_le (show 0 ≤ -(binaryExponent q - ((p : Int) - 1)) by omega)
      have hs2 : binaryExponent q - ((p : Int) - 1) = -(k : Int) := by omega
      rw [hk, Int.toNat_ofNat, hs2, zpow_neg, zpow_natCast]
      have h := nearestEven_error (q.num.natAbs * 2 ^ k) q.den hd
      have hk2 : (0 : ℚ) < 2 ^ k := by positivity
      have e : ((nearestEven (q.num.natAbs * 2 ^ k) q.den : Nat) : ℚ) / ((2 ^ k : Nat) : ℚ) - |q|
          = (((nearestEven (q.num.natAbs * 2 ^ k) q.den : Nat) : ℚ)
              - ((q.num.natAbs * 2 ^ k : Nat) : ℚ) / (q.den : ℚ)) / 2 ^ k := by
        rw [habs]
        push_cast
        field_simp
        ring
      rw [e, abs_div, abs_of_pos hk2]
      calc _ ≤ 1 / 2 / (2 : ℚ) ^ k := by gcongr
        _ = (2 ^ k)⁻¹ / 2 := by field_simp; ring
  obtain ⟨mag, hr, hm⟩ := hmag
  have hexp := binaryExponent_le q hq
  have hbound : (2 : ℚ) ^ (binaryExponent q - ((p : Int) - 1)) / 2 ≤ |q| / 2 ^ p := by
    have : (2 : ℚ) ^ (binaryExponent q - ((p : Int) - 1)) / 2 = 2 ^ binaryExponent q / 2 ^ p := by
      rw [zpow_sub₀ (by norm_num), zpow_sub₀ (by norm_num), zpow_natCast, zpow_one]
      field_simp
      ring
    rw [this]
    gcongr
  have hfin : |roundTo p q - q| = |mag - abs q| := by
    rw [hr]
    by_cases hneg : q < 0
    · rw [if_pos hneg, abs_of_neg hneg, ← abs_neg]
      congr 1
      ring
    · rw [if_neg hneg, abs_of_nonneg (not_lt.mp hneg)]
  rw [hfin]
  exact hm.trans hbound

/-- Rounding keeps the sign. -/
lemma roundTo_sign (p : Nat) (q : ℚ) :
    (0 ≤ q → 0 ≤ roundTo p q) ∧ (q ≤ 0 → roundTo p q ≤ 0) := by
  by_cases hq : q = 0
  · subst hq
    simp [roundTo]
  have hmag : ∃ mag : ℚ, roundTo p q = (if q < 0 then -mag else mag) ∧ 0 ≤ mag := by
    unfold roundTo
    rw [if_neg hq]
    refine ⟨_, rfl, ?_⟩
    split_ifs
    · exact Nat.cast_nonneg _
    · positivity
  obtain ⟨mag, hr, hm⟩ := hmag
  rw [hr]
  constructor
  · intro h
    rw [if_neg (not_lt.mpr h)]
    exact hm
  · intro h
    have : q < 0 := lt_of_le_of_ne h hq
    rw [if_pos this]
    linarith

/-- The exponent brackets the magnitude: `2^e ≤ |q| < 2^(e+1)`. -/
lemma binaryExponent_spec (q : ℚ) (hq : q ≠ 0) :
    (2 : ℚ) ^ binaryExponent q ≤ |q| ∧ |q| < (2 : ℚ) ^ (binaryExponent q + 1) := by
  refine ⟨binaryExponent_le q hq, ?_⟩
  have hn : 1 ≤ q.num.natAbs := Nat.one_le_iff_ne_zero.mpr (by simpa using hq)
  have hd : 1 ≤ q.den := q.den_pos
  obtain ⟨ha1, ha2⟩ := floorLog2_spec _ hn
  obtain ⟨hb1, hb2⟩ := floorLog2_spec _ hd
  have habs : |q| = (q.num.natAbs : ℚ) / (q.den : ℚ) := by
    conv_lhs => rw [← Rat.num_div_den q]
    rw [abs_div, Nat.abs_cast, Nat.cast_natAbs, Int.cast_abs]
  have hdpos : (0 : ℚ) < q.den := by exact_mod_cast hd
  rw [habs, div_lt_iff₀ hdpos]
  unfold binaryExponent
  simp only
  split_ifs with ht
  · have h2 : ((floorLog2 q.num.natAbs : Int) - (floorLog2 q.den : Int) + 1)
        = ((floorLog2 q.num.natAbs + 1 : Nat) : Int) - (floorLog2 q.den : Int) := by
      push_cast; ring
    rw [h2, zpow_sub₀ (by norm_num), zpow_natCast, zpow_natCast, div_mul_eq_mul_div,
      lt_div_iff₀ (by positivity)]
    have : q.num.natAbs * 2 ^ floorLog2 q.den < 2 ^ (floorLog2 q.num.natAbs + 1) * q.den :=
      Nat.mul_lt_mul_of_lt_of_le ha2 hb1 (by positivity)
    exact_mod_cast this
  · have h2 : ((floorLog2 q.num.natAbs : Int) - (floorLog2 q.den : Int) - 1 + 1)
        = (floorLog2 q.num.natAbs : Int) - (floorLog2 q.den : Int) := by ring
    rw [h2, zpow_sub₀ (by norm_num), zpow_natCast, zpow_natCast, div_mul_eq_mul_div,
      lt_div_iff₀ (by positivity)]
    have := not_le.mp ht
    exact_mod_cast this

/-- The rounding gives a nearest number with `p` significant digits: with `e`
the exponent of `q`, the result is an integer multiple of `2^(e-(p-1))`, the
unit in the last place, and lies within half a unit of `q`. -/
lemma roundTo_nearest (p : Nat) (q : ℚ) (hq : q ≠ 0) :
    (∃ m : Int, roundTo p q = m * (2 : ℚ) ^ (binaryExponent q - ((p : Int) - 1))) ∧
    |roundTo p q - q| ≤ (2 : ℚ) ^ (binaryExponent q - ((p : Int) - 1)) / 2 := by
  have hd : 0 < q.den := q.den_pos
  have hdq : (0 : ℚ) < q.den := by exact_mod_cast hd
  have habs : |q| = (q.num.natAbs : ℚ) / (q.den : ℚ) := by
    conv_lhs => rw [← Rat.num_div_den q]
    rw [abs_div, Nat.abs_cast, Nat.cast_natAbs, Int.cast_abs]
  have hmag : ∃ m : Nat, roundTo p q
        = (if q < 0 then -((m : ℚ) * (2 : ℚ) ^ (binaryExponent q - ((p : Int) - 1)))
          else (m : ℚ) * (2 : ℚ) ^ (binaryExponent q - ((p : Int) - 1))) ∧
      |(m : ℚ) * (2 : ℚ) ^ (binaryExponent q - ((p : Int) - 1)) - abs q|
        ≤ (2 : ℚ) ^ (binaryExponent q - ((p : Int) - 1)) / 2 := by
    unfold roundTo
    rw [if_neg hq]
    by_cases hs : 0 ≤ binaryExponent q - ((p : Int) - 1)
    · obtain ⟨k, hk⟩ := Int.eq_ofNat_of_zero_le hs
      refine ⟨nearestEven q.num.natAbs (q.den * 2 ^ k), ?_, ?_⟩
      · simp only [if_pos hs]
        rw [hk, Int.toNat_ofNat, zpow_natCast]
        push_cast
        rfl
      · rw [hk, zpow_natCast]
        have hD : 0 < q.den * 2 ^ k := by positivity
        have h := nearestEven_error q.num.natAbs (q.den * 2 ^ k) hD
        have hk2 : (0 : ℚ) < 2 ^ k := by positivity
        have e : ((nearestEven q.num.natAbs (q.den * 2 ^ k) : Nat) : ℚ) * 2 ^ k - |q|
            = (((nearestEven q.num.natAbs (q.den * 2 ^ k) : Nat) : ℚ)
                - (q.num.natAbs : ℚ) / ((q.den * 2 ^ k : Nat) : ℚ)) * 2 ^ k := by
          rw [habs]
          push_cast
          field_simp
          ring
        rw [e, abs_mul, abs_of_pos hk2]
        calc _ ≤ 1 / 2 * (2 : ℚ) ^ k := by gcongr
          _ = 2 ^ k / 2 := by ring
    · obtain ⟨k, hk⟩ := Int.eq_ofNat_of_zero_le
        (show 0 ≤ -(binaryExponent q - ((p : Int) - 1)) by omega)
      have hs2 : binaryExponent q - ((p : Int) - 1) = -(k : Int) := by omega
      refine ⟨nearestEven (q.num.natAbs * 2 ^ k) q.den, ?_, ?_⟩
      · simp only [if_neg hs]
        rw [hk, Int.toNat_ofNat, hs2, zpow_neg, zpow_natCast]
        push_cast
        rfl
      · rw [hs2, zpow_neg, zpow_natCast]
        have h := nearestEven_error (q.num.natAbs * 2 ^ k) q.den hd
        have hk2 : (0 : ℚ) < 2 ^ k := by positivity
        have e : ((nearestEven (q.num.natAbs * 2 ^ k) q.den : Nat) : ℚ) * ((2 : ℚ) ^ k)⁻¹ - |q|
            = (((nearestEven (q.num.natAbs * 2 ^ k) q.den : Nat) : ℚ)
                - ((q.num.natAbs * 2 ^ k : Nat) : ℚ) / (q.den : ℚ)) / 2 ^ k := by
          rw [habs]
          push_cast
          field_simp
          ring
        rw [e, abs_div, abs_of_pos hk2]
        calc _ ≤ 1 / 2 / (2 : ℚ) ^ k := by gcongr
          _ = (2 ^ k)⁻¹ / 2 := by field_simp; ring
  obtain ⟨m, hr, hm⟩ := hmag
  by_cases hneg : q < 0
  · rw [if_pos hneg] at hr
    refine ⟨⟨-(m : Int), by rw [hr]; push_cast; ring⟩, ?_⟩
    rw [hr]
    rw [abs_of_neg hneg] at hm
    have e : -((m : ℚ) * (2 : ℚ) ^ (binaryExponent q - ((p : Int) - 1))) - q
        = -((m : ℚ) * (2 : ℚ) ^ (binaryExponent q - ((p : Int) - 1)) - -q) := by ring
    rw [e, abs_neg]
    exact hm
  · rw [if_neg hneg] at hr
    refine ⟨⟨(m : Int), by rw [hr]; push_cast; ring⟩, ?_⟩
    rw [hr]
    rwa [abs_of_nonneg (not_lt.mp hneg)] at hm

/-- The rounded value has at most `p` significant digits: it is `m` units in
the last place with `|m| ≤ 2^p`. -/
lemma roundTo_significand (p : Nat) (q : ℚ) (hq : q ≠ 0) :
    ∃ m : Int, roundTo p q = m * (2 : ℚ) ^ (binaryExponent q - ((p : Int) - 1)) ∧
      |m| ≤ 2 ^ p := by
  obtain ⟨⟨m, hm⟩, herr⟩ := roundTo_nearest p q hq
  obtain ⟨-, hup⟩ := binaryExponent_spec q hq
  refine ⟨m, hm, ?_⟩
  have hs : (0 : ℚ) < (2 : ℚ) ^ (binaryExponent q - ((p : Int) - 1)) := by positivity
  have hsplit : (2 : ℚ) ^ (binaryExponent q + 1)
      = (2 : ℚ) ^ (binaryExponent q - ((p : Int) - 1)) * 2 ^ p := by
    rw [← zpow_natCast, ← zpow_add₀ (by norm_num)]
    congr 1
    ring
  have h1 : |roundTo p q| ≤ |q| + (2 : ℚ) ^ (binaryExponent q - ((p : Int) - 1)) / 2 := by
    have := abs_add (roundTo p q - q) q
    rw [sub_add_cancel] at this
    linarith
  rw [hm, abs_mul, abs_of_pos hs] at h1
  rw [hsplit] at hup
  have h2 : |(m : ℚ)| * (2 : ℚ) ^ (binaryExponent q - ((p : Int) - 1))
      < (2 ^ p + 1 / 2) * (2 : ℚ) ^ (binaryExponent q - ((p : Int) - 1)) := by
    calc _ ≤ |q| + (2 : ℚ) ^ (binaryExponent q - ((p : Int) - 1)) / 2 := h1
      _ < (2 : ℚ) ^ (binaryExponent q - ((p : Int) - 1)) * 2 ^ p
          + (2 : ℚ) ^ (binaryExponent q - ((p : Int) - 1)) / 2 := by linarith
      _ = _ := by ring
  have h3 : |(m : ℚ)| < 2 ^ p + 1 / 2 := lt_of_mul_lt_mul_right h2 hs.le
  have h4 : ((|m| : Int) : ℚ) < ((2 ^ p + 1 : Int) : ℚ) := by
    push_cast
    linarith
  have h5 : |m| < 2 ^ p + 1 := by exact_mod_cast h4
  omega

/-- An operation with NaN gives NaN, and a comparison with NaN is false. -/
lemma Fp.nan_rules {p : Nat} (a : Fp p) :
    Fp.nan p * a = Fp.nan p ∧ Fp.nan p / a = Fp.nan p ∧
    ¬ (Fp.nan p < a) ∧ ¬ (a < Fp.nan p) := by
  refine ⟨rfl, rfl, ?_, ?_⟩
  · show ¬ (Fp.ltb (Fp.nan p) a = true)
    simp [Fp.ltb, Fp.nan]
  · show ¬ (Fp.ltb a (Fp.nan p) = true)
    cases h : a.val <;> simp [Fp.ltb, Fp.nan, h]

/-- The `float` scalar product of the normal of `tiltedPlane` with itself,
every product and sum rounded: the `float` next above 1. -/
lemma tiltedPlane_scalar_product (d1 d2 : ℚ) :
    ((tiltedPlane d1).values0 * (tiltedPlane d2).values0)
      + ((tiltedPlane d1).values1 * (tiltedPlane d2).values1)
      + ((tiltedPlane d1).values2 * (tiltedPlane d2).values2)
      = (⟨some (8388609 / 8388608)⟩ : Binary32) := by
  show ((⟨some (7672717 / 134217728)⟩ : Binary32) * ⟨some (7672717 / 134217728)⟩)
      + ((⟨some (7672717 / 8388608)⟩ : Binary32) * ⟨some (7672717 / 8388608)⟩)
      + ((⟨some (13427255 / 33554432)⟩ : Binary32) * ⟨some (13427255 / 33554432)⟩)
      = (⟨some (8388609 / 8388608)⟩ : Binary32)
  decide!

/-- The angle that `getAngle` computes between two planes with the normal of
`tiltedPlane` is NaN: the scalar product is above 1, outside the domain of
`acos`. -/
lemma getAngle_tiltedPlane (inDomain : ℚ → ℚ) (M_PI : Binary32) (d1 d2 : ℚ)
    (ms : List (ModelCoefficients Binary32)) (i : Nat) (h : ms[i]? = some (tiltedPlane d1)) :
    getAngle (Fp.acosWith inDomain) M_PI ms (tiltedPlane d2) i = .ok (Fp.nan 24) := by
  unfold getAngle
  rw [h]
  simp only [tiltedPlane_scalar_product]
  have hacos : Fp.acosWith inDomain (⟨some (8388609 / 8388608)⟩ : Binary32) = Fp.nan 24 := by
    have : (1 : ℚ) < 8388609 / 8388608 := by norm_num
    simp [Fp.acosWith, this, Fp.nan]
  rw [hacos, (Fp.nan_rules _).1, (Fp.nan_rules _).2.1]

/-- A plane with the normal of `tiltedPlane` is never merged into a group
whose representative has that same normal: it becomes a new group. -/
lemma classify_tiltedPlane_new_group {P : Type} (inDomain : ℚ → ℚ) (M_PI : Binary32)
    (s : SurfaceSegmenter Binary32 P) (cloud : List P) (d : ℚ)
    (hlen : s.vec_surface.length = s.m_coefficients.length)
    (hs : ∀ m ∈ s.m_coefficients, ∃ d1, m = tiltedPlane d1) :
    classify (Fp.acosWith inDomain) M_PI s cloud (tiltedPlane d)
      = .ok { s with
          vec_surface := s.vec_surface ++ [cloud]
          m_coefficients := s.m_coefficients ++ [tiltedPlane d] } := by
  refine (classify_rule (Fp.acosWith inDomain) M_PI s cloud (tiltedPlane d) hlen).2 ?_
  intro j θ hj
  have hjlt : j < s.m_coefficients.length := by
    by_contra hge
    have hnone : s.m_coefficients[j]? = none := List.getElem?_eq_none (by omega)
    simp [getAngle, hnone] at hj
  obtain ⟨d1, hd1⟩ := hs _ (List.getElem_mem hjlt)
  have hget : s.m_coefficients[j]? = some (tiltedPlane d1) := by
    rw [List.getElem?_eq_getElem hjlt, hd1]
  rw [getAngle_tiltedPlane inDomain M_PI d1 d s.m_coefficients j hget] at hj
  simp only [Except.ok.injEq] at hj
  subst hj
  intro h
  rcases h with h | h
  · exact (Fp.nan_rules _).2.2.1 h
  · exact (Fp.nan_rules _).2.2.2 h

/-- C15 (the code departs from the specification): two planes with the same
unit normal, the unit vector along `(1, 16, 7)` in `float`, are 0 degrees
apart and so within tolerance. Classified one after the other from an empty
group list they give two surface groups, not one: the `float` scalar product
of the normal with itself is `1 + 2^-23`, above 1, so `acos` returns NaN,
the angle that `getAngle` returns is NaN, and both tests `angle < 3` and
`angle > 177` fail. The normal is `(1, 16, 7)` normalised in `float`
arithmetic: each component divided by `4585647 / 262144`, the `float`
nearest to `sqrt(306)`; its exact squared length is within `2^-24` of 1. -/
theorem classify_same_normal_gives_two_groups {P : Type} (inDomain : ℚ → ℚ) (M_PI : Binary32)
    (cloud1 cloud2 : List P) (d1 d2 : ℚ) :
    (roundTo 24 (4585647 / 262144) = 4585647 / 262144 ∧
      ((4585647 / 262144 - 1 / 2 ^ 20 : ℚ) ^ 2 < 306 ∧
        (306 : ℚ) < (4585647 / 262144 + 1 / 2 ^ 20) ^ 2) ∧
      (tiltedPlane d1).values0 = ((1 : Nat) : Binary32) / ⟨some (4585647 / 262144)⟩ ∧
      (tiltedPlane d1).values1 = ((16 : Nat) : Binary32) / ⟨some (4585647 / 262144)⟩ ∧
      (tiltedPlane d1).values2 = ((7 : Nat) : Binary32) / ⟨some (4585647 / 262144)⟩ ∧
      |(7672717 / 134217728 : ℚ) ^ 2 + (7672717 / 8388608) ^ 2 + (13427255 / 33554432) ^ 2 - 1|
        < 1 / 2 ^ 24) ∧
    ((tiltedPlane d1).values0 * (tiltedPlane d2).values0)
      + ((tiltedPlane d1).values1 * (tiltedPlane d2).values1)
      + ((tiltedPlane d1).values2 * (tiltedPlane d2).values2)
      = (⟨some (1 + 1 / 2 ^ 23)⟩ : Binary32) ∧
    getAngle (Fp.acosWith inDomain) M_PI [tiltedPlane d1] (tiltedPlane d2) 0
      = .ok (Fp.nan 24) ∧
    classifyAll (Fp.acosWith inDomain) M_PI
        [(cloud1, tiltedPlane d1), (cloud2, tiltedPlane d2)] ⟨[], [], [], [], []⟩
      = .ok ⟨[], [], [cloud1, cloud2], [], [tiltedPlane d1, tiltedPlane d2]⟩ := by
  have hn : (⟨some (7672717 / 134217728)⟩ : Binary32)
        = ((1 : Nat) : Binary32) / ⟨some (4585647 / 262144)⟩ ∧
      (⟨some (7672717 / 8388608)⟩ : Binary32)
        = ((16 : Nat) : Binary32) / ⟨some (4585647 / 262144)⟩ ∧
      (⟨some (13427255 / 33554432)⟩ : Binary32)
        = ((7 : Nat) : Binary32) / ⟨some (4585647 / 262144)⟩ := by decide!
  refine ⟨⟨by decide!, by norm_num, hn.1, hn.2.1, hn.2.2, by rw [abs_lt]; norm_num⟩, ?_, ?_, ?_⟩
  · rw [tiltedPlane_scalar_product]
    norm_num
  · exact getAngle_tiltedPlane inDomain M_PI d1 d2 _ 0 rfl
  · have h1 : classify (Fp.acosWith inDomain) M_PI
        (⟨[], [], [], [], []⟩ : SurfaceSegmenter Binary32 P) cloud1 (tiltedPlane d1)
        = .ok ⟨[], [], [cloud1], [], [tiltedPlane d1]⟩ := rfl
    have h2 := classify_tiltedPlane_new_group inDomain M_PI
      (⟨[], [], [cloud1], [], [tiltedPlane d1]⟩ : SurfaceSegmenter Binary32 P) cloud2 d2 rfl
      (by intro m hm; exact ⟨d1, by simpa using hm⟩)
    simp only [classifyAll, h1, h2]
    rfl

/-- C29 (the code departs from the specification): a run of `findSurfaces`
in which the estimator finds two parallel planes, both with the unit vector
along `(1, 16, 7)` in `float` as normal. The run ends with two surface groups
whose representatives have the same normal: the angle between them is 0, not
between 3 and 177 degrees. The second plane is not merged because the
`float` scalar product of the normal with itself is above 1 and `acos`
returns NaN. -/
theorem findSurfaces_stores_same_normal_twice (inDomain : ℚ → ℚ) (M_PI : Binary32)
    (s : SurfaceSegmenter Binary32 Nat) :
    findSurfaces (Fp.acosWith inDomain) M_PI parallelPlanes 6 () [10, 20, 30, 40, 50] s
      = .ok ((), [40],
          ⟨[10, 30, 20, 50], [], [[10, 30], [20, 50]], [], [tiltedPlane 0, tiltedPlane (-1)]⟩) ∧
    (tiltedPlane 0).values0 = (tiltedPlane (-1)).values0 ∧
    (tiltedPlane 0).values1 = (tiltedPlane (-1)).values1 ∧
    (tiltedPlane 0).values2 = (tiltedPlane (-1)).values2 ∧
    InnerProductGeometry.angle
        ((WithLp.equiv 2 (Fin 3 → ℝ)).symm
          ![7672717 / 134217728, 7672717 / 8388608, 13427255 / 33554432] :
          EuclideanSpace ℝ (Fin 3))
        ((WithLp.equiv 2 (Fin 3 → ℝ)).symm
          ![7672717 / 134217728, 7672717 / 8388608, 13427255 / 33554432]) = 0 := by
  refine ⟨?_, rfl, rfl, rfl, ?_⟩
  · have h1 : classify (Fp.acosWith inDomain) M_PI
        (⟨[10, 30], [], [], [], []⟩ : SurfaceSegmenter Binary32 Nat) [10, 30] (tiltedPlane 0)
        = .ok ⟨[10, 30], [], [[10, 30]], [], [tiltedPlane 0]⟩ := rfl
    have h2 := classify_tiltedPlane_new_group inDomain M_PI
      (⟨[10, 30, 20, 50], [], [[10, 30]], [], [tiltedPlane 0]⟩ : SurfaceSegmenter Binary32 Nat)
      [20, 50] (-1) rfl (by intro m hm; exact ⟨0, by simpa using hm⟩)
    have e1 : extractIndices [10, 20, 30, 40, 50] [0, 2] false = [10, 30] := by decide
    have e2 : extractIndices [10, 20, 30, 40, 50] [0, 2] true = [20, 40, 50] := by decide
    have e3 : extractIndices [20, 40, 50] [0, 2] false = [20, 50] := by decide
    have e4 : extractIndices [20, 40, 50] [0, 2] true = [40] := by decide
    simp [findSurfaces, findSurfacesLoop, parallelPlanes, e1, e2, e3, e4, h1, h2]
  · apply InnerProductGeometry.angle_self
    intro h
    have h0 := congrFun h 0
    simp at h0

section

variable {R Cov : Type} [Add R] [Sub R] [Mul R] [Div R] [Neg R] [NatCast R] [LT R]
  [DecidableRel (fun a b : R => a < b)]

/-- What the inversion routine returns, in the arithmetic of the code: the
determinant is the cofactor expansion along column 0, and the outcome is
decided by comparing its absolute value with the threshold. -/
lemma computeInverseAndDetWithCheck_code (thr : R) (m : Matrix3 R) :
    (computeInverseAndDetWithCheck thr m).2.1
      = (m 1 1 * m 2 2 - m 1 2 * m 2 1) * m 0 0 + (m 2 1 * m 0 2 - m 2 2 * m 0 1) * m 1 0
        + (m 0 1 * m 1 2 - m 0 2 * m 1 1) * m 2 0 ∧
    (thr < (if (computeInverseAndDetWithCheck thr m).2.1 < ((0 : Nat) : R)
          then -(computeInverseAndDetWithCheck thr m).2.1
          else (computeInverseAndDetWithCheck thr m).2.1) →
      computeInverseAndDetWithCheck thr m
        = (some (compute_inverse_size3_helper m
            (((1 : Nat) : R) / (computeInverseAndDetWithCheck thr m).2.1)),
          (computeInverseAndDetWithCheck thr m).2.1, true)) ∧
    (¬ thr < (if (computeInverseAndDetWithCheck thr m).2.1 < ((0 : Nat) : R)
          then -(computeInverseAndDetWithCheck thr m).2.1
          else (computeInverseAndDetWithCheck thr m).2.1) →
      computeInverseAndDetWithCheck thr m
        = (none, (computeInverseAndDetWithCheck thr m).2.1, false)) := by
  have hdet : (computeInverseAndDetWithCheck thr m).2.1
      = cofactor_3x3 m 0 0 * m 0 0 + cofactor_3x3 m 1 0 * m 1 0 + cofactor_3x3 m 2 0 * m 2 0 := by
    unfold computeInverseAndDetWithCheck
    simp only
    split_ifs <;> rfl
  refine ⟨hdet, ?_, ?_⟩
  · intro h
    rw [hdet] at h ⊢
    unfold computeInverseAndDetWithCheck
    simp only [decide_eq_true_eq]
    rw [if_pos h]
  · intro h
    rw [hdet] at h ⊢
    unfold computeInverseAndDetWithCheck
    simp only [decide_eq_true_eq]
    rw [if_neg h]

/-- Effect of `setObsCovar` in the arithmetic of the code, by the outcome of
the determinant check. -/
lemma setObsCovar_code (log sqrt : R → R) (thr : R) (s : GMM.State R Cov) (cov : Matrix3 R) :
    (thr < (if (computeInverseAndDetWithCheck thr cov).2.1 < ((0 : Nat) : R)
          then -(computeInverseAndDetWithCheck thr cov).2.1
          else (computeInverseAndDetWithCheck thr cov).2.1) →
      GMM.State.setObsCovar log sqrt thr s cov =
        { s with
          obsCovar := cov
          validObsCovar := true
          obsCovarInv := compute_inverse_size3_helper cov
            (((1 : Nat) : R) / (computeInverseAndDetWithCheck thr cov).2.1)
          logpdfConstantSummand :=
            -(log (((15749760995 : Nat) : R) / ((1000000000 : Nat) : R)
              * sqrt (computeInverseAndDetWithCheck thr cov).2.1)) }) ∧
    (¬ thr < (if (computeInverseAndDetWithCheck thr cov).2.1 < ((0 : Nat) : R)
          then -(computeInverseAndDetWithCheck thr cov).2.1
          else (computeInverseAndDetWithCheck thr cov).2.1) →
      GMM.State.setObsCovar log sqrt thr s cov
        = { s with obsCovar := cov, validObsCovar := false }) := by
  obtain ⟨-, h1, h2⟩ := computeInverseAndDetWithCheck_code thr cov
  refine ⟨fun h => ?_, fun h => ?_⟩
  · unfold GMM.State.setObsCovar
    generalize hd : (computeInverseAndDetWithCheck thr cov).2.1 = det at h1 h ⊢
    rw [h1 h]
  · unfold GMM.State.setObsCovar
    rw [h2 h]

/-- In every arithmetic: `setObsCovar(S)` sets `validObsCovar` to true exactly
when the determinant as the code computes it, the cofactor expansion along
column 0 evaluated in the arithmetic of the code, exceeds the threshold of
the check in absolute value. `S` is stored in every case. When the flag is
set, the cached `obsCovarInv` is the matrix of cofactors, transposed, times
the reciprocal of that determinant, and the cached constant is
`-log(15.749760995 * sqrt(det))`; when it is not set, nothing else changes.
Nothing but the computed determinant is tested. -/
theorem setObsCovar_valid_iff_computed_determinant (log sqrt : R → R) (thr : R)
    (s : GMM.State R Cov) (S : Matrix3 R) :
    (computeInverseAndDetWithCheck thr S).2.1
      = (S 1 1 * S 2 2 - S 1 2 * S 2 1) * S 0 0 + (S 2 1 * S 0 2 - S 2 2 * S 0 1) * S 1 0
        + (S 0 1 * S 1 2 - S 0 2 * S 1 1) * S 2 0 ∧
    ((GMM.State.setObsCovar log sqrt thr s S).validObsCovar = true ↔
      thr < (if (computeInverseAndDetWithCheck thr S).2.1 < ((0 : Nat) : R)
        then -(computeInverseAndDetWithCheck thr S).2.1
        else (computeInverseAndDetWithCheck thr S).2.1)) ∧
    (GMM.State.setObsCovar log sqrt thr s S).obsCovar = S ∧
    ((GMM.State.setObsCovar log sqrt thr s S).validObsCovar = true →
      (GMM.State.setObsCovar log sqrt thr s S).obsCovarInv
        = (fun r c => cofactor_3x3 S c r
            * (((1 : Nat) : R) / (computeInverseAndDetWithCheck thr S).2.1)) ∧
      (GMM.State.setObsCovar log sqrt thr s S).logpdfConstantSummand
        = -(log (((15749760995 : Nat) : R) / ((1000000000 : Nat) : R)
            * sqrt (computeInverseAndDetWithCheck thr S).2.1))) ∧
    ((GMM.State.setObsCovar log sqrt thr s S).validObsCovar = false →
      GMM.State.setObsCovar log sqrt thr s S = { s with obsCovar := S, validObsCovar := false }) := by
  obtain ⟨hdet, -, -⟩ := computeInverseAndDetWithCheck_code thr S
  obtain ⟨h1, h2⟩ := setObsCovar_code log sqrt thr s S
  refine ⟨hdet, ?_⟩
  by_cases h : thr < (if (computeInverseAndDetWithCheck thr S).2.1 < ((0 : Nat) : R)
        then -(computeInverseAndDetWithCheck thr S).2.1
        else (computeInverseAndDetWithCheck thr S).2.1)
  · rw [h1 h]
    refine ⟨⟨fun _ => h, fun _ => rfl⟩, rfl, fun _ => ⟨rfl, rfl⟩, fun hf => ?_⟩
    exact absurd hf (by simp)
  · rw [h2 h]
    refine ⟨⟨fun ht => ?_, fun hh => absurd hh h⟩, rfl, fun ht => ?_, fun _ => rfl⟩
    · exact absurd ht (by simp)
    · exact absurd ht (by simp)

end

/-- The matrix `rankTwoCovariance` is positive semi-definite: its quadratic
form is a sum of two squares. -/
lemma rankTwoCovariance_posSemidef (x : Fin 3 → Int) :
    0 ≤ Matrix.dotProduct x (rankTwoCovariance.mulVec x) := by
  have h : Matrix.dotProduct x (rankTwoCovariance.mulVec x)
      = (Matrix.dotProduct rankTwoU x) ^ 2 + (Matrix.dotProduct rankTwoV x) ^ 2 := by
    simp only [Matrix.dotProduct, Matrix.mulVec, rankTwoCovariance, Fin.sum_univ_three]
    ring
  rw [h]
  positivity

/-- C14 (the code departs from the specification): the matrix
`u uᵀ + v vᵀ` with `u = (859, -725, -473)` and `v = (-63, 273, 547)` is
symmetric, positive semi-definite and has determinant 0, and its entries are
exact in `float` and `double`. The cofactor expansion evaluated in `double`
gives the determinant `8.0` (in either order of the final sum), above the
threshold `1e-12`: `setObsCovar` sets `validObsCovar` to true and overwrites
the cached inverse and constant. With the zero matrix the determinant is
computed as 0 and `setObsCovar` stores the matrix and sets the flag to
false. -/
theorem setObsCovar_singular_marked_valid {Cov : Type} (log sqrt : Binary64 → Binary64)
    (s : GMM.State Binary64 Cov) :
    rankTwoCovariance
      = !![741850, -639974, -440768; -639974, 600154, 492256; -440768, 492256, 522938] ∧
    rankTwoCovariance.IsSymm ∧
    (∀ x : Fin 3 → Int, 0 ≤ Matrix.dotProduct x (rankTwoCovariance.mulVec x)) ∧
    rankTwoCovariance.det = 0 ∧
    (∀ i j, roundTo 24 (rankTwoCovariance i j : ℚ) = (rankTwoCovariance i j : ℚ) ∧
      rankTwoCovariance64 i j = ⟨some (rankTwoCovariance i j : ℚ)⟩) ∧
    (computeInverseAndDetWithCheck dummy_precision rankTwoCovariance64).2.1 = ⟨some 8⟩ ∧
    cofactor_3x3 rankTwoCovariance64 0 0 * rankTwoCovariance64 0 0
      + (cofactor_3x3 rankTwoCovariance64 1 0 * rankTwoCovariance64 1 0
        + cofactor_3x3 rankTwoCovariance64 2 0 * rankTwoCovariance64 2 0) = ⟨some 8⟩ ∧
    (GMM.State.setObsCovar log sqrt dummy_precision s rankTwoCovariance64).validObsCovar
      = true ∧
    (GMM.State.setObsCovar log sqrt dummy_precision s rankTwoCovariance64).obsCovarInv
      = compute_inverse_size3_helper rankTwoCovariance64 ⟨some (1 / 8)⟩ ∧
    (GMM.State.setObsCovar log sqrt dummy_precision s rankTwoCovariance64).logpdfConstantSummand
      = -(log (((15749760995 : Nat) : Binary64) / ((1000000000 : Nat) : Binary64)
          * sqrt ⟨some 8⟩)) ∧
    GMM.State.setObsCovar log sqrt dummy_precision s (fun _ _ => ((0 : Nat) : Binary64))
      = { s with obsCovar := fun _ _ => ((0 : Nat) : Binary64), validObsCovar := false } := by
  have hdet : (computeInverseAndDetWithCheck dummy_precision rankTwoCovariance64).2.1
      = ⟨some 8⟩ := by decide!
  have hinv : ((1 : Nat) : Binary64) / (⟨some 8⟩ : Binary64) = ⟨some (1 / 8)⟩ := by decide!
  have hlt : dummy_precision
      < (if (computeInverseAndDetWithCheck dummy_precision rankTwoCovariance64).2.1
            < ((0 : Nat) : Binary64)
          then -(computeInverseAndDetWithCheck dummy_precision rankTwoCovariance64).2.1
          else (computeInverseAndDetWithCheck dummy_precision rankTwoCovariance64).2.1) := by
    decide!
  have hzero : ¬ dummy_precision
      < (if (computeInverseAndDetWithCheck dummy_precision
              (fun _ _ => ((0 : Nat) : Binary64))).2.1 < ((0 : Nat) : Binary64)
          then -(computeInverseAndDetWithCheck dummy_precision
              (fun _ _ => ((0 : Nat) : Binary64))).2.1
          else (computeInverseAndDetWithCheck dummy_precision
              (fun _ _ => ((0 : Nat) : Binary64))).2.1) := by
    decide!
  have hset := (setObsCovar_code log sqrt dummy_precision s rankTwoCovariance64).1 hlt
  rw [hdet, hinv] at hset
  refine ⟨by decide!, ?_, rankTwoCovariance_posSemidef, by decide!, ?_, hdet, by decide!,
    ?_, ?_, ?_, ?_⟩
  · ext i j
    simp only [Matrix.transpose_apply, rankTwoCovariance]
    ring
  · intro i j
    fin_cases i <;> fin_cases j <;> decide!
  · rw [hset]
  · rw [hset]
  · rw [hset]
  · exact (setObsCovar_code log sqrt dummy_precision s _).2 hzero

/-- The `float` product `x * 100` of the key computation: the exact product
rounded to `float`. -/
lemma float_times_hundred (x : ℚ) :
    (⟨some x⟩ : Binary32) * ((100 : Nat) : Binary32) = ⟨some (roundTo 24 (x * 100))⟩ := by
  have h100 : roundTo 24 ((100 : Nat) : ℚ) = 100 := by decide!
  show Fp.lift2 (fun x y => x * y) (⟨some x⟩ : Binary32) (Fp.ofRat 24 ((100 : Nat) : ℚ)) = _
  simp only [Fp.lift2, Fp.ofRat, h100]

/-- One coordinate of two points with the same voxel key, the product with
100 being rounded to `float` before the truncation. -/
lemma float_coordinate_bound (larger : Bool) (x y : ℚ)
    (hx : INT_MIN ≤ Fp.toInt ((⟨some x⟩ : Binary32) * ((100 : Nat) : Binary32)) ∧
      Fp.toInt ((⟨some x⟩ : Binary32) * ((100 : Nat) : Binary32)) ≤ INT_MAX)
    (hy : INT_MIN ≤ Fp.toInt ((⟨some y⟩ : Binary32) * ((100 : Nat) : Binary32)) ∧
      Fp.toInt ((⟨some y⟩ : Binary32) * ((100 : Nat) : Binary32)) ≤ INT_MAX)
    (hkey : (if larger then andMask (Fp.toInt ((⟨some x⟩ : Binary32) * ((100 : Nat) : Binary32)))
        else Fp.toInt ((⟨some x⟩ : Binary32) * ((100 : Nat) : Binary32)))
      = (if larger then andMask (Fp.toInt ((⟨some y⟩ : Binary32) * ((100 : Nat) : Binary32)))
        else Fp.toInt ((⟨some y⟩ : Binary32) * ((100 : Nat) : Binary32)))) :
    |x - y| < (if larger then 3 / 100 else 2 / 100) + (|x| + |y|) / 2 ^ 24 ∧
    ((0 ≤ x ∧ 0 ≤ y) ∨ (x ≤ 0 ∧ y ≤ 0) →
      |x - y| < (if larger then 2 / 100 else 1 / 100) + (|x| + |y|) / 2 ^ 24) := by
  rw [float_times_hundred] at hx hy hkey
  rw [float_times_hundred] at hkey
  have tx : Fp.toInt (⟨some (roundTo 24 (x * 100))⟩ : Binary32)
      = truncRat (roundTo 24 (x * 100) / 100 * 100) := by
    rw [div_mul_cancel₀ _ (by norm_num : (100 : ℚ) ≠ 0)]; rfl
  have ty : Fp.toInt (⟨some (roundTo 24 (y * 100))⟩ : Binary32)
      = truncRat (roundTo 24 (y * 100) / 100 * 100) := by
    rw [div_mul_cancel₀ _ (by norm_num : (100 : ℚ) ≠ 0)]; rfl
  rw [tx] at hx hkey
  rw [ty] at hy hkey
  have hb := coordinate_bound larger (roundTo 24 (x * 100) / 100) (roundTo 24 (y * 100) / 100)
    hx hy hkey
  have ex := roundTo_error 24 (x * 100)
  have ey := roundTo_error 24 (y * 100)
  have ex1 : |roundTo 24 (x * 100) / 100 - x| ≤ |x| / 2 ^ 24 := by
    have h1 : roundTo 24 (x * 100) / 100 - x = (roundTo 24 (x * 100) - x * 100) / 100 := by ring
    rw [h1, abs_div, abs_of_pos (by norm_num : (0 : ℚ) < 100), div_le_iff₀ (by norm_num)]
    rw [abs_mul, abs_of_pos (by norm_num : (0 : ℚ) < 100)] at ex
    calc |roundTo 24 (x * 100) - x * 100| ≤ |x| * 100 / 2 ^ 24 := ex
      _ = |x| / 2 ^ 24 * 100 := by ring
  have ey1 : |roundTo 24 (y * 100) / 100 - y| ≤ |y| / 2 ^ 24 := by
    have h1 : roundTo 24 (y * 100) / 100 - y = (roundTo 24 (y * 100) - y * 100) / 100 := by ring
    rw [h1, abs_div, abs_of_pos (by norm_num : (0 : ℚ) < 100), div_le_iff₀ (by norm_num)]
    rw [abs_mul, abs_of_pos (by norm_num : (0 : ℚ) < 100)] at ey
    calc |roundTo 24 (y * 100) - y * 100| ≤ |y| * 100 / 2 ^ 24 := ey
      _ = |y| / 2 ^ 24 * 100 := by ring
  have htri : |x - y| ≤ |roundTo 24 (x * 100) / 100 - roundTo 24 (y * 100) / 100|
      + (|x| + |y|) / 2 ^ 24 := by
    have h1 : x - y = -(roundTo 24 (x * 100) / 100 - x)
        + (roundTo 24 (x * 100) / 100 - roundTo 24 (y * 100) / 100)
        + (roundTo 24 (y * 100) / 100 - y) := by ring
    have h2 := abs_add_three (-(roundTo 24 (x * 100) / 100 - x))
      (roundTo 24 (x * 100) / 100 - roundTo 24 (y * 100) / 100)
      (roundTo 24 (y * 100) / 100 - y)
    rw [← h1, abs_neg] at h2
    have h3 : (|x| + |y|) / 2 ^ 24 = |x| / 2 ^ 24 + |y| / 2 ^ 24 := by ring
    linarith
  refine ⟨by linarith [hb.1], ?_⟩
  intro hsign
  have hs : (0 ≤ roundTo 24 (x * 100) / 100 ∧ 0 ≤ roundTo 24 (y * 100) / 100) ∨
      (roundTo 24 (x * 100) / 100 ≤ 0 ∧ roundTo 24 (y * 100) / 100 ≤ 0) := by
    rcases hsign with ⟨h1, h2⟩ | ⟨h1, h2⟩
    · left
      exact ⟨div_nonneg ((roundTo_sign 24 _).1 (by positivity)) (by norm_num),
        div_nonneg ((roundTo_sign 24 _).1 (by positivity)) (by norm_num)⟩
    · right
      exact ⟨div_nonpos_of_nonpos_of_nonneg ((roundTo_sign 24 _).2 (by nlinarith)) (by norm_num),
        div_nonpos_of_nonpos_of_nonneg ((roundTo_sign 24 _).2 (by nlinarith)) (by norm_num)⟩
  linarith [hb.2 hs]

/-- C25 (amended): two points with finite `float` coordinates and the same
voxel key, the scaled coordinates fitting in a 32-bit `int`, differ in every
coordinate by less than 0.02 (0.03 with larger voxelization) plus the
rounding error of the two `float` products with 100, which is at most
`(|x1| + |x2|) / 2^24`; where the two coordinates do not have opposite signs
the bound is one cell size, 0.01 (0.02 with larger voxelization), plus that
rounding error. -/
theorem same_voxel_key_float_distance (larger : Bool) (p q : PointXYZ ℚ)
    (hp : (INT_MIN ≤ Fp.toInt ((floatPoint p.x p.y p.z).x * ((100 : Nat) : Binary32)) ∧
        Fp.toInt ((floatPoint p.x p.y p.z).x * ((100 : Nat) : Binary32)) ≤ INT_MAX) ∧
      (INT_MIN ≤ Fp.toInt ((floatPoint p.x p.y p.z).y * ((100 : Nat) : Binary32)) ∧
        Fp.toInt ((floatPoint p.x p.y p.z).y * ((100 : Nat) : Binary32)) ≤ INT_MAX) ∧
      (INT_MIN ≤ Fp.toInt ((floatPoint p.x p.y p.z).z * ((100 : Nat) : Binary32)) ∧
        Fp.toInt ((floatPoint p.x p.y p.z).z * ((100 : Nat) : Binary32)) ≤ INT_MAX))
    (hq : (INT_MIN ≤ Fp.toInt ((floatPoint q.x q.y q.z).x * ((100 : Nat) : Binary32)) ∧
        Fp.toInt ((floatPoint q.x q.y q.z).x * ((100 : Nat) : Binary32)) ≤ INT_MAX) ∧
      (INT_MIN ≤ Fp.toInt ((floatPoint q.x q.y q.z).y * ((100 : Nat) : Binary32)) ∧
        Fp.toInt ((floatPoint q.x q.y q.z).y * ((100 : Nat) : Binary32)) ≤ INT_MAX) ∧
      (INT_MIN ≤ Fp.toInt ((floatPoint q.x q.y q.z).z * ((100 : Nat) : Binary32)) ∧
        Fp.toInt ((floatPoint q.x q.y q.z).z * ((100 : Nat) : Binary32)) ≤ INT_MAX))
    (hkey : mapPointOf Fp.toInt larger (floatPoint p.x p.y p.z)
      = mapPointOf Fp.toInt larger (floatPoint q.x q.y q.z)) :
    (|p.x - q.x| < (if larger then 3 / 100 else 2 / 100) + (|p.x| + |q.x|) / 2 ^ 24 ∧
      ((0 ≤ p.x ∧ 0 ≤ q.x) ∨ (p.x ≤ 0 ∧ q.x ≤ 0) →
        |p.x - q.x| < (if larger then 2 / 100 else 1 / 100) + (|p.x| + |q.x|) / 2 ^ 24)) ∧
    (|p.y - q.y| < (if larger then 3 / 100 else 2 / 100) + (|p.y| + |q.y|) / 2 ^ 24 ∧
      ((0 ≤ p.y ∧ 0 ≤ q.y) ∨ (p.y ≤ 0 ∧ q.y ≤ 0) →
        |p.y - q.y| < (if larger then 2 / 100 else 1 / 100) + (|p.y| + |q.y|) / 2 ^ 24)) ∧
    (|p.z - q.z| < (if larger then 3 / 100 else 2 / 100) + (|p.z| + |q.z|) / 2 ^ 24 ∧
      ((0 ≤ p.z ∧ 0 ≤ q.z) ∨ (p.z ≤ 0 ∧ q.z ≤ 0) →
        |p.z - q.z| < (if larger then 2 / 100 else 1 / 100) + (|p.z| + |q.z|) / 2 ^ 24)) := by
  have hk : (if larger then andMask (Fp.toInt ((⟨some p.x⟩ : Binary32) * ((100 : Nat) : Binary32)))
          else Fp.toInt ((⟨some p.x⟩ : Binary32) * ((100 : Nat) : Binary32)))
        = (if larger then andMask (Fp.toInt ((⟨some q.x⟩ : Binary32) * ((100 : Nat) : Binary32)))
          else Fp.toInt ((⟨some q.x⟩ : Binary32) * ((100 : Nat) : Binary32))) ∧
      (if larger then andMask (Fp.toInt ((⟨some p.y⟩ : Binary32) * ((100 : Nat) : Binary32)))
          else Fp.toInt ((⟨some p.y⟩ : Binary32) * ((100 : Nat) : Binary32)))
        = (if larger then andMask (Fp.toInt ((⟨some q.y⟩ : Binary32) * ((100 : Nat) : Binary32)))
          else Fp.toInt ((⟨some q.y⟩ : Binary32) * ((100 : Nat) : Binary32))) ∧
      (if larger then andMask (Fp.toInt ((⟨some p.z⟩ : Binary32) * ((100 : Nat) : Binary32)))
          else Fp.toInt ((⟨some p.z⟩ : Binary32) * ((100 : Nat) : Binary32)))
        = (if larger then andMask (Fp.toInt ((⟨some q.z⟩ : Binary32) * ((100 : Nat) : Binary32)))
          else Fp.toInt ((⟨some q.z⟩ : Binary32) * ((100 : Nat) : Binary32))) := by
    cases larger <;>
      simpa [mapPointOf, floatPoint] using hkey
  exact ⟨float_coordinate_bound larger p.x q.x hp.1 hq.1 hk.1,
    float_coordinate_bound larger p.y q.y hp.2.1 hq.2.1 hk.2.1,
    float_coordinate_bound larger p.z q.z hp.2.2 hq.2.2 hk.2.2⟩

/-- C25 (amended), instance: the `float` values 335544.34375 and 335544.375
are consecutive; their products with 100 round to the same `float`,
33554436, so the two points share a key although they are 0.03125 apart,
more than a cell size and within the bound. -/
theorem same_voxel_key_float_distance_witness :
    roundTo 24 (33554434375 / 100000) = 33554434375 / 100000 ∧
    roundTo 24 (335544375 / 1000) = 335544375 / 1000 ∧
    mapPointOf Fp.toInt false (floatPoint (33554434375 / 100000) 0 0) = ⟨33554436, 0, 0⟩ ∧
    mapPointOf Fp.toInt false (floatPoint (335544375 / 1000) 0 0) = ⟨33554436, 0, 0⟩ ∧
    ¬ (|(33554434375 / 100000 : ℚ) - 335544375 / 1000| < 1 / 100) ∧
    |(33554434375 / 100000 : ℚ) - 335544375 / 1000|
      < 1 / 100 + (|(33554434375 / 100000 : ℚ)| + |(335544375 / 1000 : ℚ)|) / 2 ^ 24 :=
  ⟨by decide!, by decide!, by decide!, by decide!, by rw [abs_lt]; norm_num,
    (same_voxel_key_float_distance false ⟨33554434375 / 100000, 0, 0⟩ ⟨335544375 / 1000, 0, 0⟩
      (by decide!) (by decide!) (by decide!)).1.2 (Or.inl ⟨by norm_num, by norm_num⟩)⟩

/-- Error of a rounded product of two approximate factors: if `ah` and `bh`
carry the accumulated relative errors of `k` and `l` roundings (against the
magnitudes `A` and `B`), the rounded product carries that of `k + l + 1`. -/
lemma roundTo_mul_error (p k l : Nat) (ah a A bh b B : ℚ)
    (ha : |ah - a| ≤ ((1 + 1 / 2 ^ p) ^ k - 1) * A) (hA : |a| ≤ A)
    (hb : |bh - b| ≤ ((1 + 1 / 2 ^ p) ^ l - 1) * B) (hB : |b| ≤ B) :
    |roundTo p (ah * bh) - a * b| ≤ ((1 + 1 / 2 ^ p) ^ (k + l + 1) - 1) * (A * B) ∧
    |a * b| ≤ A * B := by
  have hu : (0 : ℚ) ≤ 1 / 2 ^ p := by positivity
  have hα : (1 : ℚ) ≤ (1 + 1 / 2 ^ p) ^ k := one_le_pow₀ (by linarith)
  have hβ : (1 : ℚ) ≤ (1 + 1 / 2 ^ p) ^ l := one_le_pow₀ (by linarith)
  have hA0 : 0 ≤ A := (abs_nonneg a).trans hA
  have hB0 : 0 ≤ B := (abs_nonneg b).trans hB
  generalize hαe : (1 + 1 / 2 ^ p : ℚ) ^ k = α at ha hα
  generalize hβe : (1 + 1 / 2 ^ p : ℚ) ^ l = β at hb hβ
  have hpow : (1 + 1 / 2 ^ p : ℚ) ^ (k + l + 1) = α * β * (1 + 1 / 2 ^ p) := by
    rw [pow_succ, pow_add, hαe, hβe]
  have hah : |ah| ≤ α * A := by
    have h1 : |ah| ≤ |ah - a| + |a| := by
      have := abs_add (ah - a) a
      rwa [sub_add_cancel] at this
    linarith
  have hbh : |bh| ≤ β * B := by
    have h1 : |bh| ≤ |bh - b| + |b| := by
      have := abs_add (bh - b) b
      rwa [sub_add_cancel] at this
    linarith
  have hprod : |ah * bh| ≤ α * A * (β * B) := by
    rw [abs_mul]
    exact mul_le_mul hah hbh (abs_nonneg _) (by positivity)
  have h1 : |ah * bh - a * b| ≤ α * A * ((β - 1) * B) + (α - 1) * A * B := by
    have e : ah * bh - a * b = ah * (bh - b) + (ah - a) * b := by ring
    rw [e]
    refine (abs_add _ _).trans (add_le_add ?_ ?_)
    · rw [abs_mul]
      exact mul_le_mul hah hb (abs_nonneg _) (by positivity)
    · rw [abs_mul]
      exact mul_le_mul ha hB (abs_nonneg _) (by nlinarith)
  have h2 : |roundTo p (ah * bh) - ah * bh| ≤ α * A * (β * B) * (1 / 2 ^ p) := by
    have := roundTo_error p (ah * bh)
    calc |roundTo p (ah * bh) - ah * bh| ≤ |ah * bh| / 2 ^ p := this
      _ = |ah * bh| * (1 / 2 ^ p) := by ring
      _ ≤ α * A * (β * B) * (1 / 2 ^ p) := mul_le_mul_of_nonneg_right hprod hu
  refine ⟨?_, ?_⟩
  · have e : roundTo p (ah * bh) - a * b
        = (roundTo p (ah * bh) - ah * bh) + (ah * bh - a * b) := by ring
    rw [e, hpow]
    refine (abs_add _ _).trans ?_
    have : α * A * (β * B) * (1 / 2 ^ p) + (α * A * ((β - 1) * B) + (α - 1) * A * B)
        = (α * β * (1 + 1 / 2 ^ p) - 1) * (A * B) := by ring
    linarith
  · rw [abs_mul]
    exact mul_le_mul hA hB (abs_nonneg _) hA0

/-- Error of a rounded sum or difference of two approximate terms that carry
the accumulated relative errors of `k` roundings each: the result carries
that of `k + 1`. -/
lemma roundTo_add_error (p k : Nat) (ah a A bh b B : ℚ)
    (ha : |ah - a| ≤ ((1 + 1 / 2 ^ p) ^ k - 1) * A) (hA : |a| ≤ A)
    (hb : |bh - b| ≤ ((1 + 1 / 2 ^ p) ^ k - 1) * B) (hB : |b| ≤ B) :
    (|roundTo p (ah + bh) - (a + b)| ≤ ((1 + 1 / 2 ^ p) ^ (k + 1) - 1) * (A + B) ∧
      |a + b| ≤ A + B) ∧
    (|roundTo p (ah - bh) - (a - b)| ≤ ((1 + 1 / 2 ^ p) ^ (k + 1) - 1) * (A + B) ∧
      |a - b| ≤ A + B) := by
  have hu : (0 : ℚ) ≤ 1 / 2 ^ p := by positivity
  have hα : (1 : ℚ) ≤ (1 + 1 / 2 ^ p) ^ k := one_le_pow₀ (by linarith)
  have hA0 : 0 ≤ A := (abs_nonneg a).trans hA
  have hB0 : 0 ≤ B := (abs_nonneg b).trans hB
  have hpow : (1 + 1 / 2 ^ p : ℚ) ^ (k + 1) = (1 + 1 / 2 ^ p) ^ k * (1 + 1 / 2 ^ p) := pow_succ _ _
  generalize (1 + 1 / 2 ^ p : ℚ) ^ k = α at ha hb hα hpow
  have hah : |ah| ≤ α * A := by
    have h1 : |ah| ≤ |ah - a| + |a| := by
      have := abs_add (ah - a) a
      rwa [sub_add_cancel] at this
    linarith
  have hbh : |bh| ≤ α * B := by
    have h1 : |bh| ≤ |bh - b| + |b| := by
      have := abs_add (bh - b) b
      rwa [sub_add_cancel] at this
    linarith
  have key : ∀ (sh s : ℚ), |sh| ≤ α * (A + B) → |sh - s| ≤ (α - 1) * (A + B) →
      |roundTo p sh - s| ≤ ((1 + 1 / 2 ^ p) ^ (k + 1) - 1) * (A + B) := by
    intro sh s h1 h2
    have h3 : |roundTo p sh - sh| ≤ α * (A + B) * (1 / 2 ^ p) := by
      have := roundTo_error p sh
      calc |roundTo p sh - sh| ≤ |sh| / 2 ^ p := this
        _ = |sh| * (1 / 2 ^ p) := by ring
        _ ≤ α * (A + B) * (1 / 2 ^ p) := mul_le_mul_of_nonneg_right h1 hu
    have e : roundTo p sh - s = (roundTo p sh - sh) + (sh - s) := by ring
    rw [e, hpow]
    refine (abs_add _ _).trans ?_
    have : α * (A + B) * (1 / 2 ^ p) + (α - 1) * (A + B)
        = (α * (1 + 1 / 2 ^ p) - 1) * (A + B) := by ring
    linarith
  refine ⟨⟨key _ _ ?_ ?_, ?_⟩, ⟨key _ _ ?_ ?_, ?_⟩⟩
  · have := abs_add ah bh
    linarith
  · have e : ah + bh - (a + b) = (ah - a) + (bh - b) := by ring
    rw [e]
    have := abs_add (ah - a) (bh - b)
    linarith
  · have := abs_add a b
    linarith
  · have := abs_sub ah bh
    linarith
  · have e : ah - bh - (a - b) = (ah - a) - (bh - b) := by ring
    rw [e]
    have := abs_sub (ah - a) (bh - b)
    linarith
  · have := abs_sub a b
    linarith

/-- Error of one term of the cofactor expansion, a rounded 2x2 minor times an
entry: three roundings deep. -/
lemma roundTo_term_error (p : Nat) (x y z w m : ℚ) :
    |roundTo p (roundTo p (roundTo p (x * y) - roundTo p (z * w)) * m) - (x * y - z * w) * m|
      ≤ ((1 + 1 / 2 ^ p) ^ 3 - 1) * ((|x| * |y| + |z| * |w|) * |m|) ∧
    |(x * y - z * w) * m| ≤ (|x| * |y| + |z| * |w|) * |m| := by
  have exact : ∀ v : ℚ, |v - v| ≤ ((1 + 1 / 2 ^ p) ^ 0 - 1) * |v| := by
    intro v
    simp
  have h1 := roundTo_mul_error p 0 0 x x |x| y y |y| (exact x) le_rfl (exact y) le_rfl
  have h2 := roundTo_mul_error p 0 0 z z |z| w w |w| (exact z) le_rfl (exact w) le_rfl
  have h3 := (roundTo_add_error p 1 _ _ _ _ _ _ h1.1 h1.2 h2.1 h2.2).2
  exact roundTo_mul_error p 2 0 _ _ _ m m |m| h3.1 h3.2 (exact m) le_rfl

/-- Error of the cofactor expansion of a 3x3 determinant along column 0,
every operation rounded: at most five roundings deep, against the sum of the
absolute values of the six products of the expansion. -/
lemma roundTo_expansion_error (p : Nat) (S : Matrix3 ℚ) :
    |roundTo p (roundTo p (
          roundTo p (roundTo p (roundTo p (S 1 1 * S 2 2) - roundTo p (S 1 2 * S 2 1)) * S 0 0)
          + roundTo p (roundTo p (roundTo p (S 2 1 * S 0 2) - roundTo p (S 2 2 * S 0 1)) * S 1 0))
        + roundTo p (roundTo p (roundTo p (S 0 1 * S 1 2) - roundTo p (S 0 2 * S 1 1)) * S 2 0))
      - S.det|
      ≤ ((1 + 1 / 2 ^ p) ^ 5 - 1)
        * ((|S 1 1| * |S 2 2| + |S 1 2| * |S 2 1|) * |S 0 0|
          + (|S 2 1| * |S 0 2| + |S 2 2| * |S 0 1|) * |S 1 0|
          + (|S 0 1| * |S 1 2| + |S 0 2| * |S 1 1|) * |S 2 0|) := by
  have t0 := roundTo_term_error p (S 1 1) (S 2 2) (S 1 2) (S 2 1) (S 0 0)
  have t1 := roundTo_term_error p (S 2 1) (S 0 2) (S 2 2) (S 0 1) (S 1 0)
  have t2 := roundTo_term_error p (S 0 1) (S 1 2) (S 0 2) (S 1 1) (S 2 0)
  have s1 := (roundTo_add_error p 3 _ _ _ _ _ _ t0.1 t0.2 t1.1 t1.2).1
  have hu : (0 : ℚ) ≤ 1 / 2 ^ p := by positivity
  have hmono : ((1 + 1 / 2 ^ p : ℚ) ^ 3 - 1) ≤ ((1 + 1 / 2 ^ p) ^ (3 + 1) - 1) := by
    have h1 : (1 : ℚ) ≤ (1 + 1 / 2 ^ p) ^ 3 := one_le_pow₀ (by linarith)
    rw [pow_succ]
    nlinarith
  have hX2 : 0 ≤ (|S 0 1| * |S 1 2| + |S 0 2| * |S 1 1|) * |S 2 0| := by positivity
  have t2' : |roundTo p (roundTo p (roundTo p (S 0 1 * S 1 2) - roundTo p (S 0 2 * S 1 1)) * S 2 0)
        - (S 0 1 * S 1 2 - S 0 2 * S 1 1) * S 2 0|
      ≤ ((1 + 1 / 2 ^ p) ^ (3 + 1) - 1) * ((|S 0 1| * |S 1 2| + |S 0 2| * |S 1 1|) * |S 2 0|) :=
    t2.1.trans (mul_le_mul_of_nonneg_right hmono hX2)
  have s2 := (roundTo_add_error p (3 + 1) _ _ _ _ _ _ s1.1 s1.2 t2' t2.2).1.1
  have hdet : S.det = (S 1 1 * S 2 2 - S 1 2 * S 2 1) * S 0 0
      + (S 2 1 * S 0 2 - S 2 2 * S 0 1) * S 1 0 + (S 0 1 * S 1 2 - S 0 2 * S 1 1) * S 2 0 := by
    rw [Matrix.det_fin_three]
    ring
  rw [hdet]
  exact s2


/-- Comparison, negation and the constant 0 on finite values. -/
lemma Fp.finite_rules {p : Nat} (a b : ℚ) :
    (((⟨some a⟩ : Fp p) < ⟨some b⟩) ↔ a < b) ∧
    -(⟨some a⟩ : Fp p) = ⟨some (-a)⟩ ∧
    ((0 : Nat) : Fp p) = ⟨some 0⟩ := by
  refine ⟨?_, rfl, ?_⟩
  · show Fp.ltb (⟨some a⟩ : Fp p) ⟨some b⟩ = true ↔ a < b
    simp [Fp.ltb]
  · show Fp.ofRat p ((0 : Nat) : ℚ) = ⟨some 0⟩
    simp [Fp.ofRat, roundTo]

/-- A positive semi-definite real matrix with non-zero determinant is
positive definite. -/
lemma posDef_of_posSemidef_of_det_ne_zero (M : Matrix3 ℝ) (hdet : M.det ≠ 0)
    (hpsd : M.PosSemidef) : M.PosDef := by
  refine ⟨hpsd.1, fun x hx => ?_⟩
  have hnonneg := hpsd.2 x
  rcases hnonneg.lt_or_eq with hpos | hzero
  · exact hpos
  · exfalso
    have hmv : M.mulVec x = 0 := (hpsd.dotProduct_mulVec_zero_iff x).mp hzero.symm
    exact hx (Matrix.eq_zero_of_mulVec_eq_zero hdet hmv)

/-- The determinant that the inversion routine computes in `double` on a
matrix of finite values: a finite value within `6 * 2^-53` times the sum of
the absolute values of the six products of the expansion from the exact
determinant. -/
lemma computed_determinant_error (thr : Binary64) (S : Matrix3 ℚ) :
    ∃ d : ℚ, (computeInverseAndDetWithCheck thr (doubleMatrix S)).2.1 = ⟨some d⟩ ∧
      |d - S.det| ≤ 6 / 2 ^ 53
        * ((|S 1 1| * |S 2 2| + |S 1 2| * |S 2 1|) * |S 0 0|
          + (|S 2 1| * |S 0 2| + |S 2 2| * |S 0 1|) * |S 1 0|
          + (|S 0 1| * |S 1 2| + |S 0 2| * |S 1 1|) * |S 2 0|) := by
  refine ⟨roundTo 53 (roundTo 53 (
          roundTo 53 (roundTo 53 (roundTo 53 (S 1 1 * S 2 2) - roundTo 53 (S 1 2 * S 2 1)) * S 0 0)
          + roundTo 53 (roundTo 53 (roundTo 53 (S 2 1 * S 0 2) - roundTo 53 (S 2 2 * S 0 1)) * S 1 0))
        + roundTo 53 (roundTo 53 (roundTo 53 (S 0 1 * S 1 2) - roundTo 53 (S 0 2 * S 1 1)) * S 2 0)),
    ?_, ?_⟩
  · rw [(computeInverseAndDetWithCheck_code thr (doubleMatrix S)).1]
    show _ = (⟨some (roundTo 53 (roundTo 53 (
          roundTo 53 (roundTo 53 (roundTo 53 (S 1 1 * S 2 2) - roundTo 53 (S 1 2 * S 2 1)) * S 0 0)
          + roundTo 53 (roundTo 53 (roundTo 53 (S 2 1 * S 0 2) - roundTo 53 (S 2 2 * S 0 1)) * S 1 0))
        + roundTo 53 (roundTo 53 (roundTo 53 (S 0 1 * S 1 2) - roundTo 53 (S 0 2 * S 1 1)) * S 2 0)))⟩
        : Binary64)
    rfl
  · have h := roundTo_expansion_error 53 S
    have hP : 0 ≤ (|S 1 1| * |S 2 2| + |S 1 2| * |S 2 1|) * |S 0 0|
          + (|S 2 1| * |S 0 2| + |S 2 2| * |S 0 1|) * |S 1 0|
          + (|S 0 1| * |S 1 2| + |S 0 2| * |S 1 1|) * |S 2 0| := by positivity
    have hc : ((1 + 1 / 2 ^ 53 : ℚ) ^ 5 - 1) ≤ 6 / 2 ^ 53 := by norm_num
    exact h.trans (mul_le_mul_of_nonneg_right hc hP)

/-- C13 (amended): if `setObsCovar(S)` sets `validObsCovar` to true then the
determinant `d` that the code computes, the cofactor expansion along column 0
evaluated in `double`, is a number that exceeds the threshold in absolute
value. It differs from the exact determinant of `S` by at most `6 * 2^-53`
times the sum of the absolute values of the six products of the expansion;
when that error bound is at most the threshold, `S` is invertible, and
positive definite if it is symmetric positive semi-definite. The cached
`obsCovarInv` is the transposed cofactor matrix times `1 / d` and the cached
constant is `-log(15.749760995 * sqrt(d))`. Symmetry and definiteness are
not tested. -/
theorem setObsCovar_valid_means_determinant_large {Cov : Type}
    (log sqrt : Binary64 → Binary64) (t : ℚ) (s : GMM.State Binary64 Cov) (S : Matrix3 ℚ)
    (hvalid : (GMM.State.setObsCovar log sqrt ⟨some t⟩ s (doubleMatrix S)).validObsCovar
      = true) :
    ∃ d : ℚ,
      (computeInverseAndDetWithCheck (⟨some t⟩ : Binary64) (doubleMatrix S)).2.1 = ⟨some d⟩ ∧
      t < |d| ∧
      |d - S.det| ≤ 6 / 2 ^ 53
        * ((|S 1 1| * |S 2 2| + |S 1 2| * |S 2 1|) * |S 0 0|
          + (|S 2 1| * |S 0 2| + |S 2 2| * |S 0 1|) * |S 1 0|
          + (|S 0 1| * |S 1 2| + |S 0 2| * |S 1 1|) * |S 2 0|) ∧
      (6 / 2 ^ 53
        * ((|S 1 1| * |S 2 2| + |S 1 2| * |S 2 1|) * |S 0 0|
          + (|S 2 1| * |S 0 2| + |S 2 2| * |S 0 1|) * |S 1 0|
          + (|S 0 1| * |S 1 2| + |S 0 2| * |S 1 1|) * |S 2 0|) ≤ t →
        S.det ≠ 0 ∧
        ((S.map (fun q => (q : ℝ))).PosSemidef → (S.map (fun q => (q : ℝ))).PosDef)) ∧
      (GMM.State.setObsCovar log sqrt ⟨some t⟩ s (doubleMatrix S)).obsCovarInv
        = compute_inverse_size3_helper (doubleMatrix S) (((1 : Nat) : Binary64) / ⟨some d⟩) ∧
      (GMM.State.setObsCovar log sqrt ⟨some t⟩ s (doubleMatrix S)).logpdfConstantSummand
        = -(log (((15749760995 : Nat) : Binary64) / ((1000000000 : Nat) : Binary64)
            * sqrt ⟨some d⟩)) := by
  obtain ⟨d, hd, herr⟩ := computed_determinant_error ⟨some t⟩ S
  obtain ⟨h1, h2⟩ := setObsCovar_code log sqrt (⟨some t⟩ : Binary64) s (doubleMatrix S)
  have hlt : (⟨some t⟩ : Binary64)
      < (if (computeInverseAndDetWithCheck (⟨some t⟩ : Binary64) (doubleMatrix S)).2.1
            < ((0 : Nat) : Binary64)
          then -(computeInverseAndDetWithCheck (⟨some t⟩ : Binary64) (doubleMatrix S)).2.1
          else (computeInverseAndDetWithCheck (⟨some t⟩ : Binary64) (doubleMatrix S)).2.1) := by
    by_contra h
    rw [h2 h] at hvalid
    simp at hvalid
  have hset := h1 hlt
  simp only [hd] at hlt hset
  have htd : t < |d| := by
    have hzero : ((0 : Nat) : Binary64) = ⟨some 0⟩ := (Fp.finite_rules 0 0).2.2
    have hneg64 : -(⟨some d⟩ : Binary64) = ⟨some (-d)⟩ := rfl
    have hcmp : ((⟨some d⟩ : Binary64) < ⟨some 0⟩) ↔ d < 0 := (Fp.finite_rules d 0).1
    simp only [hzero, hneg64, hcmp] at hlt
    by_cases hneg : d < 0
    · rw [if_pos hneg, (Fp.finite_rules t (-d)).1] at hlt
      rwa [abs_of_neg hneg]
    · rw [if_neg hneg, (Fp.finite_rules t d).1] at hlt
      rwa [abs_of_nonneg (not_lt.mp hneg)]
  refine ⟨d, hd, htd, herr, ?_, ?_, ?_⟩
  · intro hsmall
    have hdet : S.det ≠ 0 := by
      intro h0
      rw [h0, sub_zero] at herr
      linarith
    refine ⟨hdet, ?_⟩
    have hreal : (S.map (fun q => (q : ℝ))).det ≠ 0 := by
      have e : (S.map (fun q => (q : ℝ))).det = ((S.det : ℚ) : ℝ) := by
        rw [Matrix.det_fin_three, Matrix.det_fin_three]
        simp only [Matrix.map_apply]
        push_cast
        ring
      rw [e]
      exact_mod_cast hdet
    exact posDef_of_posSemidef_of_det_ne_zero _ hreal
  · rw [hset]
  · rw [hset]

/-- C13 (amended), instance: the covariance with rows `(1/4, 1/8, 0)`,
`(1/8, 1/2, 0)`, `(0, 0, 1/16)` with the default threshold `1e-12`, on a
state that was not valid before. -/
theorem setObsCovar_valid_means_determinant_large_witness :
    (GMM.State.setObsCovar (fun x => x) (fun x => x) ⟨some (roundTo 53 (1 / 10 ^ 12))⟩ freshState64
      (doubleMatrix !![1 / 4, 1 / 8, 0; 1 / 8, 1 / 2, 0; 0, 0, 1 / 16])).validObsCovar = true ∧
    (computeInverseAndDetWithCheck (⟨some (roundTo 53 (1 / 10 ^ 12))⟩ : Binary64)
      (doubleMatrix !![1 / 4, 1 / 8, 0; 1 / 8, 1 / 2, 0; 0, 0, 1 / 16])).2.1
      = ⟨some (7 / 1024)⟩ ∧
    Matrix.det (!![1 / 4, 1 / 8, 0; 1 / 8, 1 / 2, 0; 0, 0, 1 / 16] : Matrix3 ℚ) ≠ 0 := by
  obtain ⟨d, -, -, -, h, -, -⟩ :=
    setObsCovar_valid_means_determinant_large (fun x => x) (fun x => x)
      (roundTo 53 (1 / 10 ^ 12)) freshState64
      !![1 / 4, 1 / 8, 0; 1 / 8, 1 / 2, 0; 0, 0, 1 / 16] (by decide!)
  exact ⟨by decide!, by decide!, (h (by decide!)).1⟩

end lepp
